import Mathlib

/-!
# lcec_conf: the EtherCAT configuration compiler of linuxcnc-ethercat

Shallow embedding of `src/lcec_conf.c`.

Conventions of the embedding

* C strings are Lean strings (expat never hands out a string containing NUL);
  one `Char` stands for one C `char`.
* Pointers into the output buffer (`currSlave`, `currPdo`, ...) are indices into
  the list of records of the buffer; `none` is the NULL pointer.  A handler
  returns `none` exactly when the C code would dereference a NULL (or wrongly
  typed) back-reference.
* `XML_StopParser(inst->parser, 0)` sets the flag `stopped` of the state.
* Machine integers are `Int`/`Nat` with explicit reduction modulo `2^w`.
* Constants, record layouts and helpers that live in headers or files of the
  repository that are not part of the sources at hand (`lcec_conf.h`,
  `lcec_conf_priv.h`, `lcec.h`, `lcec_conf_util.c`, `lcec_conf_icmds.c`) are
  fields of the environment `Env`, or are modelled from the specification and
  marked so.
-/

namespace Lcec

/-! ## C library -/

/-- Attribute list handed to a start handler: name/value pairs in document order. -/
abbrev Attrs := List (String × String)

/-- Conversion to a signed 32-bit `int` (two's complement wrap). -/
def toInt32 (x : Int) : Int := (x + 2147483648) % 4294967296 - 2147483648

/-- Conversion to a signed 16-bit integer. -/
def toInt16 (x : Int) : Int := (x + 32768) % 65536 - 32768

/-- Conversion to an unsigned integer of `w` bits. -/
def toUInt (w : Nat) (x : Int) : Nat := (x % (2 ^ w : Nat)).toNat

/-- The C `isspace` in the "C" locale. -/
def isspace (c : Char) : Bool :=
  c = ' ' || c = '\t' || c = '\n' || c = '\x0b' || c = '\x0c' || c = '\r'

/-- Value of a character as a digit (bases up to 36), as `strtol` reads it. -/
def digitOf (c : Char) : Option Nat :=
  if '0' ≤ c ∧ c ≤ '9' then some (c.toNat - 48)
  else if 'a' ≤ c ∧ c ≤ 'z' then some (c.toNat - 87)
  else if 'A' ≤ c ∧ c ≤ 'Z' then some (c.toNat - 55)
  else none

/-- Consume the longest run of digits valid in `base`; returns the accumulated
value, the number of digits consumed and the unread rest. -/
def scanDigits (base : Nat) : Nat → Nat → List Char → Nat × Nat × List Char
  | acc, n, [] => (acc, n, [])
  | acc, n, c :: cs =>
    match digitOf c with
    | some d => if d < base then scanDigits base (acc * base + d) (n + 1) cs else (acc, n, c :: cs)
    | none => (acc, n, c :: cs)

/-- Is `c` a hexadecimal digit. -/
def isHexDigit (c : Char) : Bool :=
  match digitOf c with
  | some d => decide (d < 16)
  | none => false

/-- The optional sign of a number: whether it is negative, and the rest. -/
def scanSign : List Char → Bool × List Char
  | '-' :: r => (true, r)
  | '+' :: r => (false, r)
  | r => (false, r)

/-- The base a number is read in and the text its digits start at: with base 0
or 16 a marker `0x`/`0X` in front of a hexadecimal digit is skipped; base 0
means octal after a leading `0` and decimal otherwise. -/
def scanBase (base : Nat) (s : List Char) : Nat × List Char :=
  match s with
  | '0' :: x :: h :: r =>
    if (base = 0 ∨ base = 16) ∧ (x = 'x' ∨ x = 'X') ∧ isHexDigit h = true then (16, h :: r)
    else if base = 0 then (8, s) else (base, s)
  | '0' :: _ => if base = 0 then (8, s) else (base, s)
  | _ => if base = 0 then (10, s) else (base, s)

/-- Common front end of `strtol`/`strtoul`/`scanf("%d")`: skips white space,
reads the sign and the optional `0x`/`0` base marker, then the digits.  Returns
`(negative, magnitude, rest)`, or `none` when no digit was read. -/
def scanNumber (base : Nat) (s : List Char) : Option (Bool × Nat × List Char) :=
  let sg := scanSign (s.dropWhile isspace)
  let bs := scanBase base sg.2
  let r := scanDigits bs.1 0 0 bs.2
  if r.2.1 = 0 then none else some (sg.1, r.1, r.2.2)

/-- Saturation of a signed magnitude at the limits of a `long` of `longBits` bits. -/
def satLong (longBits : Nat) (neg : Bool) (v : Nat) : Int :=
  let lim : Int := 2 ^ (longBits - 1)
  if neg then (if (v : Int) > lim then -lim else -(v : Int))
  else (if (v : Int) ≥ lim then lim - 1 else (v : Int))

/-- The C `strtol` for a `long` of `longBits` bits: value (saturated at
`LONG_MIN`/`LONG_MAX`) and the unread rest (`endptr`); without digits the value
is `0` and nothing is read. -/
def strtol (longBits : Nat) (s : String) (base : Nat) : Int × List Char :=
  match scanNumber base s.data with
  | none => (0, s.data)
  | some (neg, v, rest) => (satLong longBits neg v, rest)

/-- The C `strtoul` for an `unsigned long` of `longBits` bits: a magnitude that
does not fit saturates at `ULONG_MAX`, a negative number is negated modulo
`2^longBits`. -/
def strtoul (longBits : Nat) (s : String) (base : Nat) : Nat × List Char :=
  match scanNumber base s.data with
  | none => (0, s.data)
  | some (neg, v, rest) =>
    if v ≥ 2 ^ longBits then (2 ^ longBits - 1, rest)
    else if neg then ((2 ^ longBits - v) % 2 ^ longBits, rest)
    else (v, rest)

/-- The conversion `%d` of `sscanf`: an `int` and the unread rest, or `none`
when the input does not start with a decimal number. -/
def scanfInt (longBits : Nat) (s : List Char) : Option (Int × List Char) :=
  match scanNumber 10 s with
  | none => none
  | some (neg, v, rest) => some (toInt32 (satLong longBits neg v), rest)

/-- The C `atoi` as glibc implements it: `(int) strtol(nptr, NULL, 10)`. -/
def atoi (longBits : Nat) (s : String) : Int := toInt32 (strtol longBits s 10).1

/-- The C `atol`. -/
def atol (longBits : Nat) (s : String) : Int := (strtol longBits s 10).1

/-- The C `atoll` (`long long` has 64 bits). -/
def atoll (s : String) : Int := (strtol 64 s 10).1

/-- The C `strcasecmp(a, b) == 0` in the "C" locale. -/
def strcaseeq (a b : String) : Bool := a.data.map Char.toLower = b.data.map Char.toLower

/-- The effect of `strncpy(dst, val, n)` as later string functions read `dst`:
the first `n` characters of `val`. -/
def strncpy (val : String) (n : Nat) : String := String.mk (val.data.take n)

/-- The C `toupper` in the "C" locale. -/
def toupper (c : Char) : Char := c.toUpper

/-! ## Record model (`lcec_conf.h`) -/

/-- Kind tag of a record and context of the XML state machine (`LCEC_CONF_TYPE_T`). -/
inductive LCEC_CONF_TYPE_T where
  | lcecConfTypeNone
  | lcecConfTypeMasters
  | lcecConfTypeMaster
  | lcecConfTypeSlave
  | lcecConfTypeDcConf
  | lcecConfTypeWatchdog
  | lcecConfTypeSyncManager
  | lcecConfTypePdo
  | lcecConfTypePdoEntry
  | lcecConfTypeSdoConfig
  | lcecConfTypeSdoDataRaw
  | lcecConfTypeIdnConfig
  | lcecConfTypeIdnDataRaw
  | lcecConfTypeInitCmds
  | lcecConfTypeComplexEntry
  | lcecConfTypeModParam
  deriving DecidableEq, Repr

open LCEC_CONF_TYPE_T

/-- Modelled from the spec: the numbering of the enumeration `LCEC_CONF_TYPE_T`
(declared in `lcec_conf.h`): pairwise distinct, non-negative, `lcecConfTypeNone`
is the zero value a cleared parser state starts in. -/
def LCEC_CONF_TYPE_T.toInt : LCEC_CONF_TYPE_T → Int
  | lcecConfTypeNone => 0
  | lcecConfTypeMasters => 1
  | lcecConfTypeMaster => 2
  | lcecConfTypeSlave => 3
  | lcecConfTypeDcConf => 4
  | lcecConfTypeWatchdog => 5
  | lcecConfTypeSyncManager => 6
  | lcecConfTypePdo => 7
  | lcecConfTypePdoEntry => 8
  | lcecConfTypeSdoConfig => 9
  | lcecConfTypeSdoDataRaw => 10
  | lcecConfTypeIdnConfig => 11
  | lcecConfTypeIdnDataRaw => 12
  | lcecConfTypeInitCmds => 13
  | lcecConfTypeComplexEntry => 14
  | lcecConfTypeModParam => 15

/-- HAL pin types (`hal_type_t` of LinuxCNC's `hal.h`); `HAL_TYPE_ZERO` is the
value of a zero-initialised field, which is none of the named types. -/
inductive hal_type_t where
  | HAL_TYPE_ZERO
  | HAL_BIT
  | HAL_FLOAT
  | HAL_S32
  | HAL_U32
  deriving DecidableEq, Repr

open hal_type_t

/-- Sub-type of a PDO entry (`LCEC_PDOENT_TYPE_T`); the first enumerator is the
value of a zero-initialised field. -/
inductive LCEC_PDOENT_TYPE_T where
  | lcecPdoEntTypeSimple
  | lcecPdoEntTypeFloatSigned
  | lcecPdoEntTypeFloatUnsigned
  | lcecPdoEntTypeComplex
  | lcecPdoEntTypeFloatIeee
  | lcecPdoEntTypeFloatDoubleIeee
  deriving DecidableEq, Repr

open LCEC_PDOENT_TYPE_T

/-- Direction of a sync manager (`ec_direction_t` of the EtherCAT master's `ecrt.h`). -/
inductive ec_direction_t where
  | EC_DIR_INVALID
  | EC_DIR_OUTPUT
  | EC_DIR_INPUT
  deriving DecidableEq, Repr

open ec_direction_t

/-- Number of sync managers per slave (`ecrt.h`). -/
def EC_MAX_SYNC_MANAGERS : Int := 16

/-- Application-layer state PREOP (`ecrt.h`). -/
def EC_AL_STATE_PREOP : Nat := 2

/-- Application-layer state SAFEOP (`ecrt.h`). -/
def EC_AL_STATE_SAFEOP : Nat := 4

/-- Master record. -/
structure LCEC_CONF_MASTER_T where
  index : Int := 0
  appTimePeriod : Nat := 0
  refClockSyncCycles : Int := 0
  name : String := ""
  deriving DecidableEq, Repr

/-- Slave record. -/
structure LCEC_CONF_SLAVE_T where
  index : Int := 0
  typename : String := ""
  vid : Nat := 0
  pid : Nat := 0
  configPdos : Int := 0
  syncManagerCount : Nat := 0
  pdoCount : Nat := 0
  pdoEntryCount : Nat := 0
  pdoMappingCount : Nat := 0
  sdoConfigLength : Nat := 0
  idnConfigLength : Nat := 0
  modParamCount : Nat := 0
  name : String := ""
  deriving DecidableEq, Repr

/-- Distributed-clock record. -/
structure LCEC_CONF_DC_T where
  assignActivate : Nat := 0
  sync0Cycle : Nat := 0
  sync0Shift : Int := 0
  sync1Cycle : Nat := 0
  sync1Shift : Int := 0
  deriving DecidableEq, Repr

/-- Watchdog record. -/
structure LCEC_CONF_WATCHDOG_T where
  divider : Nat := 0
  intervals : Nat := 0
  deriving DecidableEq, Repr

/-- SDO configuration record (its data bytes follow as a raw block). -/
structure LCEC_CONF_SDOCONF_T where
  index : Nat := 0
  subindex : Int := 0
  length : Nat := 0
  deriving DecidableEq, Repr

/-- IDN configuration record (its data bytes follow as a raw block). -/
structure LCEC_CONF_IDNCONF_T where
  drive : Nat := 0
  idn : Nat := 0
  state : Nat := 0
  length : Nat := 0
  deriving DecidableEq, Repr

/-- Sync manager record. -/
structure LCEC_CONF_SYNCMANAGER_T where
  index : Nat := 0
  dir : ec_direction_t := EC_DIR_INVALID
  pdoCount : Nat := 0
  deriving DecidableEq, Repr

/-- PDO record. -/
structure LCEC_CONF_PDO_T where
  index : Nat := 0
  pdoEntryCount : Nat := 0
  deriving DecidableEq, Repr

/-- PDO entry record.  The floating point fields `floatScale` and `floatOffset`
hold the text `atof` is applied to (`none`: the field keeps its initial value,
`1.0` for the scale and `0.0` for the offset). -/
structure LCEC_CONF_PDOENTRY_T where
  index : Nat := 0
  subindex : Nat := 0
  bitLength : Nat := 0
  subType : LCEC_PDOENT_TYPE_T := lcecPdoEntTypeSimple
  halType : hal_type_t := HAL_TYPE_ZERO
  floatScale : Option String := none
  floatOffset : Option String := none
  halPin : String := ""
  deriving DecidableEq, Repr

/-- Complex (sub-)entry record; float fields as in `LCEC_CONF_PDOENTRY_T`. -/
structure LCEC_CONF_COMPLEXENTRY_T where
  bitOffset : Nat := 0
  bitLength : Nat := 0
  subType : LCEC_PDOENT_TYPE_T := lcecPdoEntTypeSimple
  halType : hal_type_t := HAL_TYPE_ZERO
  floatScale : Option String := none
  floatOffset : Option String := none
  halPin : String := ""
  deriving DecidableEq, Repr

/-- Value of a module parameter (`LCEC_CONF_MODPARAM_VAL_T`, a union); `flt`
holds the text `strtod` is applied to. -/
inductive LCEC_CONF_MODPARAM_VAL_T where
  | zero
  | bit (b : Nat)
  | u32 (n : Nat)
  | s32 (i : Int)
  | flt (text : String)
  | str (s : String)
  deriving DecidableEq, Repr

/-- Module parameter record. -/
structure LCEC_CONF_MODPARAM_T where
  id : Int := 0
  value : LCEC_CONF_MODPARAM_VAL_T := LCEC_CONF_MODPARAM_VAL_T.zero
  deriving DecidableEq, Repr

/-- One item of the output buffer: a record (the constructor is its kind tag
`confType`), a block of raw data bytes, or the terminator. -/
inductive ConfRec where
  | master (m : LCEC_CONF_MASTER_T)
  | slave (s : LCEC_CONF_SLAVE_T)
  | dcConf (d : LCEC_CONF_DC_T)
  | watchdog (w : LCEC_CONF_WATCHDOG_T)
  | sdoConf (c : LCEC_CONF_SDOCONF_T)
  | idnConf (c : LCEC_CONF_IDNCONF_T)
  | dataRaw (bytes : List Nat)
  | syncManager (m : LCEC_CONF_SYNCMANAGER_T)
  | pdo (p : LCEC_CONF_PDO_T)
  | pdoEntry (e : LCEC_CONF_PDOENTRY_T)
  | complexEntry (e : LCEC_CONF_COMPLEXENTRY_T)
  | modParam (m : LCEC_CONF_MODPARAM_T)
  | null
  deriving DecidableEq, Repr

/-! ## Slave types and module parameter tables (`lcec.h`) -/

/-- Declared type of a module parameter (`lcec_modparam_type_t`); `OTHER` stands
for any value the `switch` of `parseModParamAttrs` has no case for. -/
inductive lcec_modparam_type_t where
  | MODPARAM_TYPE_BIT
  | MODPARAM_TYPE_U32
  | MODPARAM_TYPE_S32
  | MODPARAM_TYPE_FLOAT
  | MODPARAM_TYPE_STRING
  | MODPARAM_TYPE_OTHER
  deriving DecidableEq, Repr

open lcec_modparam_type_t

/-- One row of a module parameter table (`lcec_modparam_desc_t`); the table of a
slave type is the list of its rows before the terminating row with a NULL name. -/
structure lcec_modparam_desc_t where
  name : String
  id : Int
  type : lcec_modparam_type_t
  deriving DecidableEq, Repr

/-- One entry of the list of slave types (`lcec_typelist_t`), as far as the
compiler reads it: the name (may be NULL) and the module parameter table (may be
NULL). -/
structure lcec_typelist_t where
  name : Option String
  modparams : Option (List lcec_modparam_desc_t)
  deriving DecidableEq, Repr

/-- One record written by the init command reader: an SDO or IDN configuration
together with its data bytes. -/
inductive IcmdRec where
  | sdo (c : LCEC_CONF_SDOCONF_T) (data : List Nat)
  | idn (c : LCEC_CONF_IDNCONF_T) (data : List Nat)
  deriving DecidableEq, Repr

/-- The buffer items an init command record occupies. -/
def IcmdRec.toRecs : IcmdRec → List ConfRec
  | .sdo c d => [ConfRec.sdoConf c, ConfRec.dataRaw d]
  | .idn c d => [ConfRec.idnConf c, ConfRec.dataRaw d]

/-- Result of `parseIcmds`: the return code (non-zero: failure), the records it
appended to the output buffer, the number of bytes they take, and the amounts
added to the slave's `sdoConfigLength` and `idnConfigLength`. -/
structure IcmdsResult where
  ret : Int
  recs : List IcmdRec
  bytes : Nat
  sdoLength : Nat
  idnLength : Nat

/-- What the compiler takes from the rest of the repository and from its
platform.

* `LCEC_CONF_STR_MAXLEN`, `LCEC_CONF_GENERIC_MAX_BITLEN`,
  `LCEC_CONF_GENERIC_MAX_SUBPINS`, `LCEC_CONF_SDO_COMPLETE_SUBIDX`,
  `LCEC_CONF_SHMEM_MAGIC`: constants of `lcec_conf.h`;
* `sizeof`: the size in bytes of the record of each kind;
* `longBits`: the width of the C type `long`;
* `lcec_findslavetype`: lookup in the list of slave types (`lcec.h`);
* `parseIcmds`: the init command reader (`lcec_conf_icmds.c`), by file name;
* `strtodRest`: the text `strtod` leaves unread (`*endptr`). -/
structure Env where
  LCEC_CONF_STR_MAXLEN : Nat
  LCEC_CONF_GENERIC_MAX_BITLEN : Int
  LCEC_CONF_GENERIC_MAX_SUBPINS : Int
  LCEC_CONF_SDO_COMPLETE_SUBIDX : Int
  LCEC_CONF_SHMEM_MAGIC : Nat
  sizeof : LCEC_CONF_TYPE_T → Nat
  longBits : Nat
  lcec_findslavetype : String → Option lcec_typelist_t
  parseIcmds : String → IcmdsResult
  strtodRest : String → String

/-! ## Parser state -/

/-- The compiler's state: `LCEC_CONF_XML_STATE_T` together with the two HAL pins
`master_count` and `slave_count` and the memory the allocator can still hand out.

* `xmlState` is `inst->state`, the current context of the state machine;
* `stopped` records a call of `XML_StopParser`;
* `outputBuf` is the list of items of the output buffer, `outputLen` its length
  in bytes;
* `freeMem` is the number of bytes that can still be reserved. -/
structure State where
  xmlState : Int := 0
  stopped : Bool := false
  currMaster : Option Nat := none
  currSlaveType : Option lcec_typelist_t := none
  currSlave : Option Nat := none
  currSyncManager : Option Nat := none
  currPdo : Option Nat := none
  currSdoConf : Option Nat := none
  currIdnConf : Option Nat := none
  currPdoEntry : Option Nat := none
  currComplexBitOffset : Nat := 0
  outputBuf : List ConfRec := []
  outputLen : Nat := 0
  freeMem : Nat := 0
  master_count : Nat := 0
  slave_count : Nat := 0

/-- The call `XML_StopParser(inst->parser, 0)`. -/
def State.stop (st : State) : State := { st with stopped := true }

/-- Modelled from the spec: `addOutputBuffer` of `lcec_conf_util.c`, "appends
`byteCount` zero-initialized bytes and returns a reference" or fails.  The
reservation of `len` bytes succeeds when the allocator still has `len` bytes;
`r` is the item the reserved region holds.  `none` is the NULL result. -/
def addOutputBuffer (st : State) (len : Nat) (r : ConfRec) : Option State :=
  if len ≤ st.freeMem then
    some { st with outputBuf := st.outputBuf ++ [r], outputLen := st.outputLen + len,
                   freeMem := st.freeMem - len }
  else none

/-- The record `state->currMaster` points to. -/
def State.master (st : State) : Option LCEC_CONF_MASTER_T :=
  match st.currMaster with
  | none => none
  | some i =>
    match st.outputBuf[i]? with
    | some (ConfRec.master m) => some m
    | _ => none

/-- The record `state->currSlave` points to. -/
def State.slave (st : State) : Option LCEC_CONF_SLAVE_T :=
  match st.currSlave with
  | none => none
  | some i =>
    match st.outputBuf[i]? with
    | some (ConfRec.slave s) => some s
    | _ => none

/-- The record `state->currSyncManager` points to. -/
def State.syncManager (st : State) : Option LCEC_CONF_SYNCMANAGER_T :=
  match st.currSyncManager with
  | none => none
  | some i =>
    match st.outputBuf[i]? with
    | some (ConfRec.syncManager m) => some m
    | _ => none

/-- The record `state->currPdo` points to. -/
def State.pdo (st : State) : Option LCEC_CONF_PDO_T :=
  match st.currPdo with
  | none => none
  | some i =>
    match st.outputBuf[i]? with
    | some (ConfRec.pdo p) => some p
    | _ => none

/-- The record `state->currPdoEntry` points to. -/
def State.pdoEntry (st : State) : Option LCEC_CONF_PDOENTRY_T :=
  match st.currPdoEntry with
  | none => none
  | some i =>
    match st.outputBuf[i]? with
    | some (ConfRec.pdoEntry e) => some e
    | _ => none

/-- The record `state->currSdoConf` points to. -/
def State.sdoConf (st : State) : Option LCEC_CONF_SDOCONF_T :=
  match st.currSdoConf with
  | none => none
  | some i =>
    match st.outputBuf[i]? with
    | some (ConfRec.sdoConf c) => some c
    | _ => none

/-- The record `state->currIdnConf` points to. -/
def State.idnConf (st : State) : Option LCEC_CONF_IDNCONF_T :=
  match st.currIdnConf with
  | none => none
  | some i =>
    match st.outputBuf[i]? with
    | some (ConfRec.idnConf c) => some c
    | _ => none

/-- An assignment through `state->currSlave`: replaces the slave record by `f`
of it; `none` when `currSlave` does not point to a slave record. -/
def State.updSlave (st : State) (f : LCEC_CONF_SLAVE_T → LCEC_CONF_SLAVE_T) : Option State :=
  match st.currSlave, st.slave with
  | some i, some s => some { st with outputBuf := st.outputBuf.set i (ConfRec.slave (f s)) }
  | _, _ => none

/-- An assignment through `state->currSyncManager`. -/
def State.updSyncManager (st : State)
    (f : LCEC_CONF_SYNCMANAGER_T → LCEC_CONF_SYNCMANAGER_T) : Option State :=
  match st.currSyncManager, st.syncManager with
  | some i, some m => some { st with outputBuf := st.outputBuf.set i (ConfRec.syncManager (f m)) }
  | _, _ => none

/-- An assignment through `state->currPdo`. -/
def State.updPdo (st : State) (f : LCEC_CONF_PDO_T → LCEC_CONF_PDO_T) : Option State :=
  match st.currPdo, st.pdo with
  | some i, some p => some { st with outputBuf := st.outputBuf.set i (ConfRec.pdo (f p)) }
  | _, _ => none

/-- An assignment through `state->currSdoConf`. -/
def State.updSdoConf (st : State) (f : LCEC_CONF_SDOCONF_T → LCEC_CONF_SDOCONF_T) : Option State :=
  match st.currSdoConf, st.sdoConf with
  | some i, some c => some { st with outputBuf := st.outputBuf.set i (ConfRec.sdoConf (f c)) }
  | _, _ => none

/-- An assignment through `state->currIdnConf`. -/
def State.updIdnConf (st : State) (f : LCEC_CONF_IDNCONF_T → LCEC_CONF_IDNCONF_T) : Option State :=
  match st.currIdnConf, st.idnConf with
  | some i, some c => some { st with outputBuf := st.outputBuf.set i (ConfRec.idnConf (f c)) }
  | _, _ => none

/-- Increment of an `unsigned int` counter. -/
def incU32 (n : Nat) : Nat := (n + 1) % 4294967296

/-- Addition to a `size_t` length (`size_t` is as wide as `long`). -/
def addSize (longBits : Nat) (n k : Nat) : Nat := (n + k) % 2 ^ longBits

/-- The store `*p = r` through the pointer `p` with index `i`. -/
def State.writeRec (st : State) (i : Nat) (r : ConfRec) : State :=
  { st with outputBuf := st.outputBuf.set i r }

/-- Outcome of one pass of an attribute loop over the record `p` under
construction: the loop goes on, or the handler stopped the parser and returned,
or it dereferenced a NULL back-reference. -/
inductive Step (P : Type) where
  | cont (p : P)
  | abort (p : P)
  | fault

/-- The loop `while (*attr) { name = *(attr++); val = *(attr++); ... }`, `body`
being one pass of it. -/
def attrLoop {P : Type} (body : P → String → String → Step P) : P → Attrs → Step P
  | p, [] => Step.cont p
  | p, (name, val) :: rest =>
    match body p name val with
    | Step.cont q => attrLoop body q rest
    | Step.abort q => Step.abort q
    | Step.fault => Step.fault

/-! ## Attribute handlers (`lcec_conf.c`) -/

/-- One pass of the attribute loop of `parseMasterAttrs`. -/
def masterBody (env : Env) (p : LCEC_CONF_MASTER_T) (name val : String) : Step LCEC_CONF_MASTER_T :=
  if name = "idx" then
    Step.cont { p with index := atoi env.longBits val }
  else if name = "name" then
    Step.cont { p with name := strncpy val (env.LCEC_CONF_STR_MAXLEN - 1) }
  else if name = "appTimePeriod" then
    Step.cont { p with appTimePeriod := toUInt 32 (atol env.longBits val) }
  else if name = "refClockSyncCycles" then
    Step.cont { p with refClockSyncCycles := toInt32 (atoll val) }
  else Step.abort p

/-- The call `snprintf(name, LCEC_CONF_STR_MAXLEN, "%d", index)`. -/
def defaultName (env : Env) (index : Int) : String :=
  strncpy (toString index) (env.LCEC_CONF_STR_MAXLEN - 1)

/-- The handler `parseMasterAttrs`. -/
def parseMasterAttrs (env : Env) (st : State) (attr : Attrs) : Option State :=
  match addOutputBuffer st (env.sizeof lcecConfTypeMaster) (ConfRec.master {}) with
  | none => some st.stop
  | some st1 =>
    let i := st.outputBuf.length
    match attrLoop (masterBody env) {} attr with
    | Step.fault => none
    | Step.abort p => some (st1.writeRec i (ConfRec.master p)).stop
    | Step.cont p =>
      let q := if p.name = "" then { p with name := defaultName env p.index } else p
      let st2 := st1.writeRec i (ConfRec.master q)
      some { st2 with master_count := incU32 st2.master_count, currMaster := some i }

/-- One pass of the first loop of `parseSlaveAttrs` ("pre parse slave type"); the
loop variables are `valid` and `slaveType`. -/
def slavePreBody (env : Env) (p : Bool × Option lcec_typelist_t) (name val : String) :
    Step (Bool × Option lcec_typelist_t) :=
  if name = "type" then
    match env.lcec_findslavetype val with
    | none => Step.abort (p.1, none)
    | some t =>
      if t.name = none then Step.abort (p.1, some t)
      else Step.cont (true, some t)
  else Step.cont p

/-- One pass of the second loop of `parseSlaveAttrs`. -/
def slaveBody (env : Env) (p : LCEC_CONF_SLAVE_T) (name val : String) : Step LCEC_CONF_SLAVE_T :=
  if name = "type" then
    Step.cont { p with typename := strncpy val env.LCEC_CONF_STR_MAXLEN }
  else if name = "idx" then
    Step.cont { p with index := atoi env.longBits val }
  else if name = "name" then
    Step.cont { p with name := strncpy val (env.LCEC_CONF_STR_MAXLEN - 1) }
  else if p.typename = "generic" then
    if name = "vid" then
      Step.cont { p with vid := toUInt 32 (strtol env.longBits val 16).1 }
    else if name = "pid" then
      Step.cont { p with pid := toUInt 32 (strtol env.longBits val 16).1 }
    else if name = "configPdos" then
      Step.cont { p with configPdos := if strcaseeq val "true" then 1 else 0 }
    else Step.abort p
  else Step.abort p

/-- The handler `parseSlaveAttrs`. -/
def parseSlaveAttrs (env : Env) (st : State) (attr : Attrs) : Option State :=
  match addOutputBuffer st (env.sizeof lcecConfTypeSlave) (ConfRec.slave {}) with
  | none => some st.stop
  | some st1 =>
    let i := st.outputBuf.length
    match attrLoop (slavePreBody env) (false, none) attr with
    | Step.fault => none
    | Step.abort _ => some st1.stop
    | Step.cont (valid, slaveType) =>
      match attrLoop (slaveBody env) {} attr with
      | Step.fault => none
      | Step.abort p => some (st1.writeRec i (ConfRec.slave p)).stop
      | Step.cont p =>
        let q := if p.name = "" then { p with name := defaultName env p.index } else p
        let st2 := st1.writeRec i (ConfRec.slave q)
        if valid = false then some st2.stop
        else
          some { st2 with slave_count := incU32 st2.slave_count,
                          currSlaveType := slaveType, currSlave := some i }

/-- The function `parseSyncCycle`; `none` when `currMaster` is dereferenced
while NULL.  The product of the `int` and the `uint32_t` period is formed
in unsigned 32-bit arithmetic and returned as `int`. -/
def parseSyncCycle (env : Env) (st : State) (nptr : String) : Option Int :=
  match nptr.data with
  | '*' :: rest =>
    match st.master with
    | none => none
    | some m =>
      some (toInt32 ((toUInt 32 (atoi env.longBits (String.mk rest)) * m.appTimePeriod) % 4294967296))
  | _ => some (atoi env.longBits nptr)

/-- One pass of the attribute loop of `parseDcConfAttrs`. -/
def dcConfBody (env : Env) (st : State) (p : LCEC_CONF_DC_T) (name val : String) :
    Step LCEC_CONF_DC_T :=
  if name = "assignActivate" then
    Step.cont { p with assignActivate := toUInt 16 (strtol env.longBits val 16).1 }
  else if name = "sync0Cycle" then
    match parseSyncCycle env st val with
    | none => Step.fault
    | some c => Step.cont { p with sync0Cycle := toUInt 32 c }
  else if name = "sync0Shift" then
    Step.cont { p with sync0Shift := atoi env.longBits val }
  else if name = "sync1Cycle" then
    match parseSyncCycle env st val with
    | none => Step.fault
    | some c => Step.cont { p with sync1Cycle := toUInt 32 c }
  else if name = "sync1Shift" then
    Step.cont { p with sync1Shift := atoi env.longBits val }
  else Step.abort p

/-- The handler `parseDcConfAttrs`. -/
def parseDcConfAttrs (env : Env) (st : State) (attr : Attrs) : Option State :=
  match addOutputBuffer st (env.sizeof lcecConfTypeDcConf) (ConfRec.dcConf {}) with
  | none => some st.stop
  | some st1 =>
    let i := st.outputBuf.length
    match attrLoop (dcConfBody env st) {} attr with
    | Step.fault => none
    | Step.abort p => some (st1.writeRec i (ConfRec.dcConf p)).stop
    | Step.cont p => some (st1.writeRec i (ConfRec.dcConf p))

/-- One pass of the attribute loop of `parseWatchdogAttrs`. -/
def watchdogBody (env : Env) (p : LCEC_CONF_WATCHDOG_T) (name val : String) :
    Step LCEC_CONF_WATCHDOG_T :=
  if name = "divider" then
    Step.cont { p with divider := toUInt 16 (atoi env.longBits val) }
  else if name = "intervals" then
    Step.cont { p with intervals := toUInt 16 (atoi env.longBits val) }
  else Step.abort p

/-- The handler `parseWatchdogAttrs`. -/
def parseWatchdogAttrs (env : Env) (st : State) (attr : Attrs) : Option State :=
  match addOutputBuffer st (env.sizeof lcecConfTypeWatchdog) (ConfRec.watchdog {}) with
  | none => some st.stop
  | some st1 =>
    let i := st.outputBuf.length
    match attrLoop (watchdogBody env) {} attr with
    | Step.fault => none
    | Step.abort p => some (st1.writeRec i (ConfRec.watchdog p)).stop
    | Step.cont p => some (st1.writeRec i (ConfRec.watchdog p))

/-- One pass of the attribute loop of `parseSdoConfigAttrs`; `tmp` is an `int`.
The sub-index field holds the constant `LCEC_CONF_SDO_COMPLETE_SUBIDX` as it is. -/
def sdoConfigBody (env : Env) (p : LCEC_CONF_SDOCONF_T) (name val : String) :
    Step LCEC_CONF_SDOCONF_T :=
  if name = "idx" then
    let tmp := toInt32 (strtol env.longBits val 16).1
    if tmp < 0 ∨ tmp ≥ 0xffff then Step.abort p
    else Step.cont { p with index := tmp.toNat }
  else if name = "subIdx" then
    if strcaseeq val "complete" then
      Step.cont { p with subindex := env.LCEC_CONF_SDO_COMPLETE_SUBIDX }
    else
      let tmp := toInt32 (strtol env.longBits val 16).1
      if tmp < 0 ∨ tmp ≥ 0xff then Step.abort p
      else Step.cont { p with subindex := tmp }
  else Step.abort p

/-- The handler `parseSdoConfigAttrs`. -/
def parseSdoConfigAttrs (env : Env) (st : State) (attr : Attrs) : Option State :=
  match addOutputBuffer st (env.sizeof lcecConfTypeSdoConfig) (ConfRec.sdoConf {}) with
  | none => some st.stop
  | some st1 =>
    let i := st.outputBuf.length
    match attrLoop (sdoConfigBody env) { index := 0xffff, subindex := 0xff } attr with
    | Step.fault => none
    | Step.abort p => some (st1.writeRec i (ConfRec.sdoConf p)).stop
    | Step.cont p =>
      let st2 := st1.writeRec i (ConfRec.sdoConf p)
      if p.index = 0xffff then some st2.stop
      else if p.subindex = 0xff then some st2.stop
      else
        let st3 := { st2 with currSdoConf := some i }
        st3.updSlave (fun sl =>
          { sl with sdoConfigLength :=
                      addSize env.longBits sl.sdoConfigLength (env.sizeof lcecConfTypeSdoConfig) })

/-- The call `sscanf(val, "%c-%d-%d", &pfx, &set, &block)`: the number of
conversions done and the values converted (`pfx` receives the first character as
it stands in `val`). -/
def sscanfIdn (longBits : Nat) (val : List Char) : Nat × Char × Int × Int :=
  match val with
  | [] => (0, ' ', 0, 0)
  | c :: r1 =>
    match r1 with
    | '-' :: r2 =>
      match scanfInt longBits r2 with
      | none => (1, c, 0, 0)
      | some (set, r3) =>
        match r3 with
        | '-' :: r4 =>
          match scanfInt longBits r4 with
          | none => (2, c, set, 0)
          | some (block, _) => (3, c, set, block)
        | _ => (2, c, set, 0)
    | _ => (1, c, 0, 0)

/-- The `idn` branch of `parseIdnConfigAttrs` up to the test `tmp == 0xffff`:
`none` when the handler stops the parser inside the branch, else the value of
`tmp`. -/
def idnValue (longBits : Nat) (val : String) : Option Int :=
  match val.data with
  | [] => none
  | c :: _ =>
    let pfx := toupper c
    if pfx = 'S' ∨ pfx = 'P' then
      let (n, pfx2, set, block) := sscanfIdn longBits val.data
      if n = 3 then
        if set < 0 ∨ set ≥ 8 then none
        else if block < 0 ∨ block ≥ 4096 then none
        else
          let tmp : Nat := (set.toNat <<< 12) ||| block.toNat
          some (if pfx2 = 'P' then ((tmp ||| (15 <<< 1) : Nat) : Int) else (tmp : Int))
      else some 0xffff
    else if '0' ≤ pfx ∧ pfx ≤ '9' then some (atoi longBits val)
    else some 0xffff

/-- One pass of the attribute loop of `parseIdnConfigAttrs`.  The third branch
tests the name `drive` a second time, as the source does. -/
def idnConfigBody (env : Env) (p : LCEC_CONF_IDNCONF_T) (name val : String) :
    Step LCEC_CONF_IDNCONF_T :=
  if name = "drive" then
    let tmp := atoi env.longBits val
    if tmp < 0 ∨ tmp > 7 then Step.abort p
    else Step.cont { p with drive := tmp.toNat }
  else if name = "idn" then
    match idnValue env.longBits val with
    | none => Step.abort p
    | some tmp =>
      if tmp = 0xffff then Step.abort p
      else Step.cont { p with idn := toUInt 16 tmp }
  else if name = "drive" then
    if val = "PREOP" then Step.cont { p with state := EC_AL_STATE_PREOP }
    else if val = "SAFEOP" then Step.cont { p with state := EC_AL_STATE_SAFEOP }
    else Step.abort p
  else Step.abort p

/-- The handler `parseIdnConfigAttrs`. -/
def parseIdnConfigAttrs (env : Env) (st : State) (attr : Attrs) : Option State :=
  match addOutputBuffer st (env.sizeof lcecConfTypeIdnConfig) (ConfRec.idnConf {}) with
  | none => some st.stop
  | some st1 =>
    let i := st.outputBuf.length
    match attrLoop (idnConfigBody env) { drive := 0, idn := 0xffff, state := 0 } attr with
    | Step.fault => none
    | Step.abort p => some (st1.writeRec i (ConfRec.idnConf p)).stop
    | Step.cont p =>
      let st2 := st1.writeRec i (ConfRec.idnConf p)
      if p.idn = 0xffff then some st2.stop
      else if p.state = 0 then some st2.stop
      else
        let st3 := { st2 with currIdnConf := some i }
        st3.updSlave (fun sl =>
          { sl with idnConfigLength :=
                      addSize env.longBits sl.idnConfigLength (env.sizeof lcecConfTypeIdnConfig) })

/-- Bytes of a string of hexadecimal digit pairs, `none` when a character is no
hexadecimal digit or a byte is incomplete. -/
def hexBytes : List Char → Option (List Nat)
  | [] => some []
  | [_] => none
  | a :: b :: r =>
    match digitOf a, digitOf b, hexBytes r with
    | some x, some y, some bs => if x < 16 ∧ y < 16 then some ((x * 16 + y) :: bs) else none
    | _, _, _ => none

/-- Modelled from the spec: `parseHex(s, -1, buf)` of `lcec_conf_util.c`, "a
byte sequence decoded from a hex-digit string (must parse to a non-negative,
even-length hex payload)", "hex-digit strings with no separators, even length".
Returns the number of bytes (`-1` on a malformed string) and the bytes. -/
def parseHex (s : String) : Int × List Nat :=
  match hexBytes s.data with
  | none => (-1, [])
  | some bs => ((bs.length : Int), bs)

/-- One pass of the attribute loop of `parseDataRawAttrs`; the loop works on the
parser state itself.  A failed reservation of the data block is skipped
silently, as in the source. -/
def dataRawBody (env : Env) (st : State) (name val : String) : Step State :=
  if name = "data" then
    let len := (parseHex val).1
    if len < 0 then Step.abort st
    else if len > 0 then
      match addOutputBuffer st len.toNat (ConfRec.dataRaw (parseHex val).2) with
      | none => Step.cont st
      | some st1 =>
        if st1.xmlState = lcecConfTypeSdoConfig.toInt then
          match st1.updSdoConf (fun c => { c with length := addSize env.longBits c.length len.toNat }) with
          | none => Step.fault
          | some st2 =>
            match st2.updSlave (fun sl =>
              { sl with sdoConfigLength := addSize env.longBits sl.sdoConfigLength len.toNat }) with
            | none => Step.fault
            | some st3 => Step.cont st3
        else if st1.xmlState = lcecConfTypeIdnConfig.toInt then
          match st1.updIdnConf (fun c => { c with length := addSize env.longBits c.length len.toNat }) with
          | none => Step.fault
          | some st2 =>
            match st2.updSlave (fun sl =>
              { sl with idnConfigLength := addSize env.longBits sl.idnConfigLength len.toNat }) with
            | none => Step.fault
            | some st3 => Step.cont st3
        else Step.cont st1
    else Step.cont st
  else Step.abort st

/-- The handler `parseDataRawAttrs`. -/
def parseDataRawAttrs (env : Env) (st : State) (attr : Attrs) : Option State :=
  match attrLoop (dataRawBody env) st attr with
  | Step.fault => none
  | Step.abort st1 => some st1.stop
  | Step.cont st1 => some st1

/-- One pass of the attribute loop of `parseInitCmdsAttrs`; the loop variable is
`filename`. -/
def initCmdsBody (p : Option String) (name val : String) : Step (Option String) :=
  if name = "filename" then Step.cont (some val)
  else Step.abort p

/-- The call `parseIcmds(state->currSlave, &state->outputBuf, filename)`: the
records of the init command file are appended and their lengths added to the
current slave. -/
def callParseIcmds (env : Env) (st : State) (filename : String) : Option (Int × State) :=
  let r := env.parseIcmds filename
  let st1 := { st with outputBuf := st.outputBuf ++ r.recs.flatMap IcmdRec.toRecs,
                       outputLen := st.outputLen + r.bytes,
                       freeMem := st.freeMem - r.bytes }
  match st1.updSlave (fun sl =>
      { sl with sdoConfigLength := addSize env.longBits sl.sdoConfigLength r.sdoLength,
                idnConfigLength := addSize env.longBits sl.idnConfigLength r.idnLength }) with
  | none => none
  | some st2 => some (r.ret, st2)

/-- The handler `parseInitCmdsAttrs`. -/
def parseInitCmdsAttrs (env : Env) (st : State) (attr : Attrs) : Option State :=
  match attrLoop initCmdsBody none attr with
  | Step.fault => none
  | Step.abort _ => some st.stop
  | Step.cont filename =>
    match filename with
    | none => some st.stop
    | some f =>
      if f = "" then some st.stop
      else
        match callParseIcmds env st f with
        | none => none
        | some (ret, st1) => if ret ≠ 0 then some st1.stop else some st1

/-- One pass of the attribute loop of `parseSyncManagerAttrs`. -/
def syncManagerBody (env : Env) (p : LCEC_CONF_SYNCMANAGER_T) (name val : String) :
    Step LCEC_CONF_SYNCMANAGER_T :=
  if name = "idx" then
    let tmp := atoi env.longBits val
    if tmp < 0 ∨ tmp ≥ EC_MAX_SYNC_MANAGERS then Step.abort p
    else Step.cont { p with index := tmp.toNat }
  else if name = "dir" then
    if strcaseeq val "in" then Step.cont { p with dir := EC_DIR_INPUT }
    else if strcaseeq val "out" then Step.cont { p with dir := EC_DIR_OUTPUT }
    else Step.abort p
  else Step.abort p

/-- The handler `parseSyncManagerAttrs`. -/
def parseSyncManagerAttrs (env : Env) (st : State) (attr : Attrs) : Option State :=
  match st.slave with
  | none => none
  | some sl =>
    if sl.typename ≠ "generic" then some st.stop
    else
      match addOutputBuffer st (env.sizeof lcecConfTypeSyncManager) (ConfRec.syncManager {}) with
      | none => some st.stop
      | some st1 =>
        let i := st.outputBuf.length
        match attrLoop (syncManagerBody env) { index := 0xff, dir := EC_DIR_INVALID } attr with
        | Step.fault => none
        | Step.abort p => some (st1.writeRec i (ConfRec.syncManager p)).stop
        | Step.cont p =>
          let st2 := st1.writeRec i (ConfRec.syncManager p)
          if p.index = 0xff then some st2.stop
          else if p.dir = EC_DIR_INVALID then some st2.stop
          else
            match st2.updSlave (fun s => { s with syncManagerCount := incU32 s.syncManagerCount }) with
            | none => none
            | some st3 => some { st3 with currSyncManager := some i }

/-- One pass of the attribute loop of `parsePdoAttrs`. -/
def pdoBody (env : Env) (p : LCEC_CONF_PDO_T) (name val : String) : Step LCEC_CONF_PDO_T :=
  if name = "idx" then
    let tmp := toInt32 (strtol env.longBits val 16).1
    if tmp < 0 ∨ tmp ≥ 0xffff then Step.abort p
    else Step.cont { p with index := tmp.toNat }
  else Step.abort p

/-- The handler `parsePdoAttrs`. -/
def parsePdoAttrs (env : Env) (st : State) (attr : Attrs) : Option State :=
  match addOutputBuffer st (env.sizeof lcecConfTypePdo) (ConfRec.pdo {}) with
  | none => some st.stop
  | some st1 =>
    let i := st.outputBuf.length
    match attrLoop (pdoBody env) { index := 0xffff } attr with
    | Step.fault => none
    | Step.abort p => some (st1.writeRec i (ConfRec.pdo p)).stop
    | Step.cont p =>
      let st2 := st1.writeRec i (ConfRec.pdo p)
      if p.index = 0xffff then some st2.stop
      else
        match st2.updSlave (fun s => { s with pdoCount := incU32 s.pdoCount }) with
        | none => none
        | some st3 =>
          match st3.updSyncManager (fun m => { m with pdoCount := incU32 m.pdoCount }) with
          | none => none
          | some st4 => some { st4 with currPdo := some i }

/-- The `halType` branch of the attribute loop of `parsePdoEntryAttrs`: the
record after the branch, `none` when the value is none of the eight names (the
handler then stops the parser).  The value `bit` leaves `subType` as it is. -/
def pdoEntryHalType (p : LCEC_CONF_PDOENTRY_T) (val : String) : Option LCEC_CONF_PDOENTRY_T :=
  if strcaseeq val "bit" then
    some { p with halType := HAL_BIT }
  else if strcaseeq val "s32" then
    some { p with subType := lcecPdoEntTypeSimple, halType := HAL_S32 }
  else if strcaseeq val "u32" then
    some { p with subType := lcecPdoEntTypeSimple, halType := HAL_U32 }
  else if strcaseeq val "float" then
    some { p with subType := lcecPdoEntTypeFloatSigned, halType := HAL_FLOAT }
  else if strcaseeq val "float-unsigned" then
    some { p with subType := lcecPdoEntTypeFloatUnsigned, halType := HAL_FLOAT }
  else if strcaseeq val "complex" then
    some { p with subType := lcecPdoEntTypeComplex }
  else if strcaseeq val "float-ieee" then
    some { p with subType := lcecPdoEntTypeFloatIeee, halType := HAL_FLOAT }
  else if strcaseeq val "float-double-ieee" then
    some { p with subType := lcecPdoEntTypeFloatDoubleIeee, halType := HAL_FLOAT }
  else none

/-- One pass of the attribute loop of `parsePdoEntryAttrs`; the second component
of the loop state is the local `floatReq`.  The bit length field is a
`uint8_t`. -/
def pdoEntryBody (env : Env) (p : LCEC_CONF_PDOENTRY_T × Bool) (name val : String) :
    Step (LCEC_CONF_PDOENTRY_T × Bool) :=
  if name = "idx" then
    let tmp := toInt32 (strtol env.longBits val 16).1
    if tmp < 0 ∨ tmp ≥ 0xffff then Step.abort p
    else Step.cont ({ p.1 with index := tmp.toNat }, p.2)
  else if name = "subIdx" then
    let tmp := toInt32 (strtol env.longBits val 16).1
    if tmp < 0 ∨ tmp ≥ 0xff then Step.abort p
    else Step.cont ({ p.1 with subindex := tmp.toNat }, p.2)
  else if name = "bitLen" then
    let tmp := atoi env.longBits val
    if tmp ≤ 0 ∨ tmp > env.LCEC_CONF_GENERIC_MAX_BITLEN then Step.abort p
    else Step.cont ({ p.1 with bitLength := toUInt 8 tmp }, p.2)
  else if name = "halType" then
    match pdoEntryHalType p.1 val with
    | none => Step.abort p
    | some q => Step.cont (q, p.2)
  else if name = "scale" then
    Step.cont ({ p.1 with floatScale := some val }, true)
  else if name = "offset" then
    Step.cont ({ p.1 with floatOffset := some val }, true)
  else if name = "halPin" then
    Step.cont ({ p.1 with halPin := strncpy val (env.LCEC_CONF_STR_MAXLEN - 1) }, p.2)
  else Step.abort p

/-- The handler `parsePdoEntryAttrs`.  After the test "pin name must not be
given for complex subtype" the source stops the parser but does not return;
the handler goes on with the next test and the counters. -/
def parsePdoEntryAttrs (env : Env) (st : State) (attr : Attrs) : Option State :=
  match addOutputBuffer st (env.sizeof lcecConfTypePdoEntry) (ConfRec.pdoEntry {}) with
  | none => some st.stop
  | some st1 =>
    let i := st.outputBuf.length
    match attrLoop (pdoEntryBody env) ({ index := 0xffff, subindex := 0xff }, false) attr with
    | Step.fault => none
    | Step.abort p => some (st1.writeRec i (ConfRec.pdoEntry p.1)).stop
    | Step.cont (p, floatReq) =>
      let st2 := st1.writeRec i (ConfRec.pdoEntry p)
      if p.index = 0xffff then some st2.stop
      else if p.subindex = 0xff then some st2.stop
      else if p.bitLength = 0 then some st2.stop
      else
        let st3 := if p.subType = lcecPdoEntTypeComplex ∧ p.halPin ≠ "" then st2.stop else st2
        if floatReq = true ∧ p.halType ≠ HAL_FLOAT then some st3.stop
        else
          match st3.updSlave (fun s => { s with pdoEntryCount := incU32 s.pdoEntryCount }) with
          | none => none
          | some st4 =>
            match (if p.halPin ≠ "" then
                    st4.updSlave (fun s => { s with pdoMappingCount := incU32 s.pdoMappingCount })
                  else some st4) with
            | none => none
            | some st5 =>
              match st5.updPdo (fun q => { q with pdoEntryCount := incU32 q.pdoEntryCount }) with
              | none => none
              | some st6 => some { st6 with currPdoEntry := some i, currComplexBitOffset := 0 }

/-- The `halType` branch of the attribute loop of `parseComplexEntryAttrs`: the
record after the branch, `none` when the value is none of the seven names (the
handler then stops the parser). -/
def complexEntryHalType (p : LCEC_CONF_COMPLEXENTRY_T) (val : String) :
    Option LCEC_CONF_COMPLEXENTRY_T :=
  if strcaseeq val "bit" then
    some { p with subType := lcecPdoEntTypeSimple, halType := HAL_BIT }
  else if strcaseeq val "s32" then
    some { p with subType := lcecPdoEntTypeSimple, halType := HAL_S32 }
  else if strcaseeq val "u32" then
    some { p with subType := lcecPdoEntTypeSimple, halType := HAL_U32 }
  else if strcaseeq val "float" then
    some { p with subType := lcecPdoEntTypeFloatSigned, halType := HAL_FLOAT }
  else if strcaseeq val "float-unsigned" then
    some { p with subType := lcecPdoEntTypeFloatUnsigned, halType := HAL_FLOAT }
  else if strcaseeq val "float-ieee" then
    some { p with subType := lcecPdoEntTypeFloatIeee, halType := HAL_FLOAT }
  else if strcaseeq val "float-double-ieee" then
    some { p with subType := lcecPdoEntTypeFloatDoubleIeee, halType := HAL_FLOAT }
  else none

/-- One pass of the attribute loop of `parseComplexEntryAttrs`; the second
component of the loop state is the local `floatReq`.  The sum
`currComplexBitOffset + tmp` is formed in `int`. -/
def complexEntryBody (env : Env) (st : State) (p : LCEC_CONF_COMPLEXENTRY_T × Bool)
    (name val : String) : Step (LCEC_CONF_COMPLEXENTRY_T × Bool) :=
  if name = "bitLen" then
    let tmp := atoi env.longBits val
    if tmp ≤ 0 ∨ tmp > env.LCEC_CONF_GENERIC_MAX_SUBPINS then Step.abort p
    else
      match st.pdoEntry with
      | none => Step.fault
      | some parent =>
        if (st.currComplexBitOffset : Int) + tmp > (parent.bitLength : Int) then Step.abort p
        else Step.cont ({ p.1 with bitLength := toUInt 8 tmp }, p.2)
  else if name = "halType" then
    match complexEntryHalType p.1 val with
    | none => Step.abort p
    | some q => Step.cont (q, p.2)
  else if name = "scale" then
    Step.cont ({ p.1 with floatScale := some val }, true)
  else if name = "offset" then
    Step.cont ({ p.1 with floatOffset := some val }, true)
  else if name = "halPin" then
    Step.cont ({ p.1 with halPin := strncpy val (env.LCEC_CONF_STR_MAXLEN - 1) }, p.2)
  else Step.abort p

/-- The handler `parseComplexEntryAttrs`; `currComplexBitOffset` is a `uint8_t`. -/
def parseComplexEntryAttrs (env : Env) (st : State) (attr : Attrs) : Option State :=
  match addOutputBuffer st (env.sizeof lcecConfTypeComplexEntry) (ConfRec.complexEntry {}) with
  | none => some st.stop
  | some st1 =>
    let i := st.outputBuf.length
    match attrLoop (complexEntryBody env st) ({ bitOffset := st.currComplexBitOffset }, false) attr with
    | Step.fault => none
    | Step.abort p => some (st1.writeRec i (ConfRec.complexEntry p.1)).stop
    | Step.cont (p, floatReq) =>
      let st2 := st1.writeRec i (ConfRec.complexEntry p)
      if p.bitLength = 0 then some st2.stop
      else if floatReq = true ∧ p.halType ≠ HAL_FLOAT then some st2.stop
      else
        match (if p.halPin ≠ "" then
                st2.updSlave (fun s => { s with pdoMappingCount := incU32 s.pdoMappingCount })
              else some st2) with
        | none => none
        | some st3 =>
          some { st3 with currComplexBitOffset := (st3.currComplexBitOffset + p.bitLength) % 256 }

/-- One pass of the attribute loop of `parseModParamAttrs`; the loop variables
are `pname` and `pval`. -/
def modParamBody (p : Option String × Option String) (name val : String) :
    Step (Option String × Option String) :=
  if name = "name" then Step.cont (some val, p.2)
  else if name = "value" then Step.cont (p.1, some val)
  else Step.abort p

/-- The `switch (modparams->type)` of `parseModParamAttrs`: the value stored, and
whether the handler stops the parser. -/
def modParamValue (env : Env) (type : lcec_modparam_type_t) (pval : String) :
    LCEC_CONF_MODPARAM_VAL_T × Bool :=
  match type with
  | MODPARAM_TYPE_BIT =>
    if "1" = pval ∨ strcaseeq "TRUE" pval = true then (LCEC_CONF_MODPARAM_VAL_T.bit 1, false)
    else if "0" = pval ∨ strcaseeq "FALSE" pval = true then (LCEC_CONF_MODPARAM_VAL_T.bit 0, false)
    else (LCEC_CONF_MODPARAM_VAL_T.zero, true)
  | MODPARAM_TYPE_U32 =>
    let r := strtoul env.longBits pval 0
    (LCEC_CONF_MODPARAM_VAL_T.u32 (r.1 % 4294967296), decide (r.2 ≠ []))
  | MODPARAM_TYPE_S32 =>
    let r := strtol env.longBits pval 0
    (LCEC_CONF_MODPARAM_VAL_T.s32 (toInt32 r.1), decide (r.2 ≠ []))
  | MODPARAM_TYPE_FLOAT =>
    (LCEC_CONF_MODPARAM_VAL_T.flt pval, decide (env.strtodRest pval ≠ ""))
  | MODPARAM_TYPE_STRING =>
    (LCEC_CONF_MODPARAM_VAL_T.str (strncpy pval (env.LCEC_CONF_STR_MAXLEN - 1)), false)
  | MODPARAM_TYPE_OTHER => (LCEC_CONF_MODPARAM_VAL_T.u32 0, false)

/-- The handler `parseModParamAttrs`. -/
def parseModParamAttrs (env : Env) (st : State) (attr : Attrs) : Option State :=
  match st.currSlaveType with
  | none => none
  | some slaveType =>
    match slaveType.modparams with
    | none => some st.stop
    | some table =>
      match addOutputBuffer st (env.sizeof lcecConfTypeModParam) (ConfRec.modParam {}) with
      | none => some st.stop
      | some st1 =>
        let i := st.outputBuf.length
        match attrLoop modParamBody (none, none) attr with
        | Step.fault => none
        | Step.abort _ => some st1.stop
        | Step.cont (pname, pval) =>
          match pname, pval with
          | some n, some v =>
            if n = "" then some st1.stop
            else if v = "" then some st1.stop
            else
              match table.find? (fun d => decide (n = d.name)) with
              | none => some st1.stop
              | some d =>
                let r := modParamValue env d.type v
                let st2 := st1.writeRec i (ConfRec.modParam { id := d.id, value := r.1 })
                if r.2 = true then some st2.stop
                else st2.updSlave (fun s => { s with modParamCount := incU32 s.modParamCount })
          | _, _ => some st1.stop

/-! ## The XML state machine -/

/-- One row of the transition table (`LCEC_CONF_XML_HANLDER_T`): element name,
context before, context after, start handler (the end handlers of `xml_states`
are all NULL). -/
structure LCEC_CONF_XML_HANLDER_T where
  el : String
  state_from : Int
  state_to : Int
  start_handler : Option (Env → State → Attrs → Option State)

/-- The transition table `xml_states`, row by row, the last row included. -/
def xml_states : List LCEC_CONF_XML_HANLDER_T :=
  [ ⟨"masters", lcecConfTypeNone.toInt, lcecConfTypeMasters.toInt, none⟩,
    ⟨"master", lcecConfTypeMasters.toInt, lcecConfTypeMaster.toInt, some parseMasterAttrs⟩,
    ⟨"slave", lcecConfTypeMaster.toInt, lcecConfTypeSlave.toInt, some parseSlaveAttrs⟩,
    ⟨"dcConf", lcecConfTypeSlave.toInt, lcecConfTypeDcConf.toInt, some parseDcConfAttrs⟩,
    ⟨"watchdog", lcecConfTypeSlave.toInt, lcecConfTypeWatchdog.toInt, some parseWatchdogAttrs⟩,
    ⟨"sdoConfig", lcecConfTypeSlave.toInt, lcecConfTypeSdoConfig.toInt, some parseSdoConfigAttrs⟩,
    ⟨"sdoDataRaw", lcecConfTypeSdoConfig.toInt, lcecConfTypeSdoDataRaw.toInt, some parseDataRawAttrs⟩,
    ⟨"idnConfig", lcecConfTypeSlave.toInt, lcecConfTypeIdnConfig.toInt, some parseIdnConfigAttrs⟩,
    ⟨"idnDataRaw", lcecConfTypeIdnConfig.toInt, lcecConfTypeIdnDataRaw.toInt, some parseDataRawAttrs⟩,
    ⟨"initCmds", lcecConfTypeSlave.toInt, lcecConfTypeInitCmds.toInt, some parseInitCmdsAttrs⟩,
    ⟨"syncManager", lcecConfTypeSlave.toInt, lcecConfTypeSyncManager.toInt, some parseSyncManagerAttrs⟩,
    ⟨"pdo", lcecConfTypeSyncManager.toInt, lcecConfTypePdo.toInt, some parsePdoAttrs⟩,
    ⟨"pdoEntry", lcecConfTypePdo.toInt, lcecConfTypePdoEntry.toInt, some parsePdoEntryAttrs⟩,
    ⟨"complexEntry", lcecConfTypePdoEntry.toInt, lcecConfTypeComplexEntry.toInt,
      some parseComplexEntryAttrs⟩,
    ⟨"modParam", lcecConfTypeSlave.toInt, lcecConfTypeModParam.toInt, some parseModParamAttrs⟩,
    ⟨"NULL", -1, -1, none⟩ ]

/-- Modelled from the spec: the lookup of `lcec_conf_util.c`, "each open-element
event looks up the table by current context and element name": the first row
of `rows` whose `state_from` is the context and whose name is the element. -/
def lookupStart (rows : List LCEC_CONF_XML_HANLDER_T) (state : Int) (el : String) :
    Option LCEC_CONF_XML_HANLDER_T :=
  rows.find? (fun r => decide (state = r.state_from) && decide (el = r.el))

/-- Modelled from the spec: the lookup a close-element event does, by the
context entered (`state_to`) and the element name. -/
def lookupEnd (rows : List LCEC_CONF_XML_HANLDER_T) (state : Int) (el : String) :
    Option LCEC_CONF_XML_HANLDER_T :=
  rows.find? (fun r => decide (state = r.state_to) && decide (el = r.el))

/-- Modelled from the spec: the open-element callback of `lcec_conf_util.c`.
"An unmatched entry is a structural error that aborts the parse.  On match, the
state machine pushes the new context, invokes the attribute handler".  The
handler runs while `inst->state` is still the context of the parent
(`parseDataRawAttrs` switches on it), then the context becomes `state_to`. -/
def xml_start_handler (env : Env) (st : State) (el : String) (attr : Attrs) : Option State :=
  match lookupStart xml_states st.xmlState el with
  | none => some st.stop
  | some row =>
    match row.start_handler with
    | none => some { st with xmlState := row.state_to }
    | some h =>
      match h env st attr with
      | none => none
      | some st1 => some { st1 with xmlState := row.state_to }

/-- Modelled from the spec: the close-element callback of `lcec_conf_util.c`,
"close-element events pop the context". -/
def xml_end_handler (st : State) (el : String) : State :=
  match lookupEnd xml_states st.xmlState el with
  | none => st.stop
  | some row => { st with xmlState := row.state_from }

/-- An element of the input document: name, attributes in document order,
child elements in document order. -/
inductive XmlElem where
  | node (name : String) (attr : Attrs) (children : List XmlElem)

/-- An event the XML reader delivers to the callbacks. -/
inductive XmlEvent where
  | startElement (el : String) (attr : Attrs)
  | endElement (el : String)

mutual
/-- The events of an element: its start, the events of its children, its end. -/
def XmlElem.events : XmlElem → List XmlEvent
  | XmlElem.node name attr children =>
    XmlEvent.startElement name attr :: (eventsOfList children ++ [XmlEvent.endElement name])
/-- The events of a list of sibling elements. -/
def eventsOfList : List XmlElem → List XmlEvent
  | [] => []
  | c :: cs => c.events ++ eventsOfList cs
end

/-- The callback an event is delivered to. -/
def dispatch (env : Env) (st : State) : XmlEvent → Option State
  | XmlEvent.startElement el attr => xml_start_handler env st el attr
  | XmlEvent.endElement el => some (xml_end_handler st el)

/-- The reader `XML_Parse` on a well-formed document: the events are delivered
in order until a callback has stopped the parser. -/
def XML_Parse (env : Env) : State → List XmlEvent → Option State
  | st, [] => some st
  | st, ev :: rest =>
    if st.stopped = true then some st
    else
      match dispatch env st ev with
      | none => none
      | some st1 => XML_Parse env st1 rest

/-- The state `main` starts the parse in: cleared by `memset`, empty output
buffer, both HAL counters `0`; `mem` is the memory available for the output
buffer. -/
def initState (mem : Nat) : State := { freeMem := mem }

/-- Header of the shared memory block (`LCEC_CONF_HEADER_T`). -/
structure LCEC_CONF_HEADER_T where
  magic : Nat
  length : Nat
  deriving DecidableEq, Repr

/-- The part of `main` from "create xml parser" to "copy data and free buffer"
on the document `doc`: `none` is a NULL dereference, `some none` the exit
through `fail4` (parse error or failed reservation), `some (some (h, recs))` the
header and the record stream copied to the shared memory. -/
def compile (env : Env) (mem : Nat) (doc : XmlElem) :
    Option (Option (LCEC_CONF_HEADER_T × List ConfRec)) :=
  match XML_Parse env (initState mem) doc.events with
  | none => none
  | some st =>
    if st.stopped = true then some none
    else
      match addOutputBuffer st (env.sizeof lcecConfTypeNone) ConfRec.null with
      | none => some none
      | some st1 =>
        some (some ({ magic := env.LCEC_CONF_SHMEM_MAGIC, length := st1.outputLen }, st1.outputBuf))

/-! ## A sample environment and sample inputs -/

/-- A sample environment: constants as a build of the repository may define
them, a `long` of 64 bits, three slave types, no init command files. -/
def sampleEnv : Env where
  LCEC_CONF_STR_MAXLEN := 48
  LCEC_CONF_GENERIC_MAX_BITLEN := 255
  LCEC_CONF_GENERIC_MAX_SUBPINS := 32
  LCEC_CONF_SDO_COMPLETE_SUBIDX := -1
  LCEC_CONF_SHMEM_MAGIC := 0xACDCACDC
  sizeof := fun t =>
    match t with
    | lcecConfTypeNone => 4
    | lcecConfTypeMaster => 64
    | lcecConfTypeSlave => 160
    | lcecConfTypePdoEntry => 88
    | lcecConfTypeComplexEntry => 88
    | _ => 16
  longBits := 64
  lcec_findslavetype := fun n =>
    if n = "generic" then some { name := some "generic", modparams := none }
    else if n = "EL2202" then some { name := some "EL2202", modparams := none }
    else if n = "AX5200" then
      some { name := some "AX5200",
             modparams := some [{ name := "enableFB2", id := 1, type := MODPARAM_TYPE_BIT }] }
    else none
  parseIcmds := fun _ => { ret := 1, recs := [], bytes := 0, sdoLength := 0, idnLength := 0 }
  strtodRest := fun _ => ""

/-- The handler `parseComplexEntryAttrs` run on the `complexEntry` children of
one `pdoEntry`, in document order. -/
def runComplexEntries (env : Env) : State → List Attrs → Option State
  | st, [] => some st
  | st, a :: rest =>
    match parseComplexEntryAttrs env st a with
    | none => none
    | some st1 => runComplexEntries env st1 rest

/-- A parser state inside a `pdo` of a generic slave: master, slave, sync manager
and pdo records are in the buffer and current. -/
def sampleStatePdo : State :=
  { xmlState := lcecConfTypePdo.toInt
    currMaster := some 0
    currSlaveType := some { name := some "generic", modparams := none }
    currSlave := some 1
    currSyncManager := some 2
    currPdo := some 3
    outputBuf := [ConfRec.master { name := "0" },
                  ConfRec.slave { typename := "generic", name := "0", syncManagerCount := 1, pdoCount := 1 },
                  ConfRec.syncManager { index := 2, dir := EC_DIR_OUTPUT, pdoCount := 1 },
                  ConfRec.pdo { index := 0x1600 }]
    outputLen := 256
    freeMem := 4096
    master_count := 1
    slave_count := 1 }

def samplePdoEntryAttrs : Attrs :=
  [("idx", "7000"), ("subIdx", "1"), ("bitLen", "16"), ("halType", "complex")]

def sampleComplexChildren : List Attrs :=
  [[("bitLen", "4"), ("halType", "bit"), ("halPin", "a")],
   [("bitLen", "12"), ("halType", "u32"), ("halPin", "b")]]

def sampleStatePdoEntry : State :=
  (parsePdoEntryAttrs sampleEnv sampleStatePdo samplePdoEntryAttrs).getD {}

def sampleStateComplex : State :=
  (runComplexEntries sampleEnv sampleStatePdoEntry sampleComplexChildren).getD {}

/-- Value of a string of decimal digits. -/
def decimalValue (ds : List Char) : Nat :=
  ds.foldl (fun acc c => acc * 10 + (c.toNat - 48)) 0

/-- The state after `<master idx="0" appTimePeriod="1000000000">` (a period of
one second) at the start of a parse. -/
def sampleStateSlowMaster : State :=
  (parseMasterAttrs sampleEnv { xmlState := lcecConfTypeMasters.toInt, freeMem := 4096 }
    [("idx", "0"), ("appTimePeriod", "1000000000")]).getD {}

/-- Result of two runs of a loop that agree up to the relation `R`. -/
def StepRel {P : Type} (R : P → P → Prop) : Step P → Step P → Prop
  | Step.cont q, Step.cont q' => R q q'
  | Step.abort _, Step.abort _ => True
  | Step.fault, Step.fault => True
  | _, _ => False


/-- The value names a float-family kind: `float`, `float-unsigned`, `float-ieee`
or `float-double-ieee`, ignoring case. -/
def floatFamily (v : String) : Prop :=
  strcaseeq v "float" = true ∨ strcaseeq v "float-unsigned" = true ∨
    strcaseeq v "float-ieee" = true ∨ strcaseeq v "float-double-ieee" = true

/-- An attribute that is neither `scale` nor `offset`. -/
def notFloatAttr (a : String × String) : Bool := decide (a.1 ≠ "scale" ∧ a.1 ≠ "offset")

/-- Two PDO entry records under construction that differ at most in the float
fields and in the local `floatReq`. -/
def PdoEntryAgree (a b : LCEC_CONF_PDOENTRY_T × Bool) : Prop :=
  a.1.index = b.1.index ∧ a.1.subindex = b.1.subindex ∧ a.1.bitLength = b.1.bitLength ∧
    a.1.subType = b.1.subType ∧ a.1.halType = b.1.halType ∧ a.1.halPin = b.1.halPin

/-- Two complex entry records under construction that differ at most in the
float fields and in the local `floatReq`. -/
def ComplexEntryAgree (a b : LCEC_CONF_COMPLEXENTRY_T × Bool) : Prop :=
  a.1.bitOffset = b.1.bitOffset ∧ a.1.bitLength = b.1.bitLength ∧
    a.1.subType = b.1.subType ∧ a.1.halType = b.1.halType ∧ a.1.halPin = b.1.halPin

/-- The attributes of `<pdoEntry idx="6000" subIdx="1" bitLen="16" scale="2.5"
halType="float"/>`, the scale in front of the kind. -/
def sampleFloatAttrs : Attrs :=
  [("idx", "6000"), ("subIdx", "1"), ("bitLen", "16"), ("scale", "2.5"), ("halType", "float")]

/-- The attributes of `<pdoEntry idx="7000" subIdx="1" bitLen="16" halType="complex"
halPin="out"/>`: a composite entry that names a pin. -/
def sampleComplexPinAttrs : Attrs :=
  [("idx", "7000"), ("subIdx", "1"), ("bitLen", "16"), ("halType", "complex"), ("halPin", "out")]

/-- A parser state inside a generic slave: master and slave records are in the
buffer and current. -/
def sampleStateSlave : State :=
  { xmlState := lcecConfTypeSlave.toInt
    currMaster := some 0
    currSlaveType := some { name := some "generic", modparams := none }
    currSlave := some 1
    outputBuf := [ConfRec.master { name := "0" },
                  ConfRec.slave { typename := "generic", name := "0" }]
    outputLen := 224
    freeMem := 4096
    master_count := 1
    slave_count := 1 }

/-- Modelled from the spec: the constant `LCEC_CONF_SDO_COMPLETE_SUBIDX` of
`lcec_conf.h`, "a sentinel meaning 'complete object' rather than a sub-index
number", "distinct from any literal 0–254 sub-index": as the record holds it,
the constant is no value of a byte (neither a literal sub-index nor the marker
`0xff` of a missing one). -/
def Env.sdoCompleteIsSentinel (env : Env) : Prop :=
  env.LCEC_CONF_SDO_COMPLETE_SUBIDX < 0 ∨ 255 < env.LCEC_CONF_SDO_COMPLETE_SUBIDX

/-- A parser state inside a slave of the device type `EL2202`. -/
def sampleStateDeviceSlave : State :=
  { xmlState := lcecConfTypeSlave.toInt
    currMaster := some 0
    currSlaveType := some { name := some "EL2202", modparams := none }
    currSlave := some 1
    outputBuf := [ConfRec.master { name := "0" },
                  ConfRec.slave { typename := "EL2202", name := "0" }]
    outputLen := 224
    freeMem := 4096
    master_count := 1
    slave_count := 1 }

/-- The legal nesting of the specification, "masters → master → slave → {dcConf,
watchdog, sdoConfig → sdoDataRaw, idnConfig → idnDataRaw, initCmds, syncManager
→ pdo → pdoEntry → complexEntry, modParam}", as triples of the context of the
parent, the element name and the context the element opens. -/
def legalNesting : List (LCEC_CONF_TYPE_T × String × LCEC_CONF_TYPE_T) :=
  [ (lcecConfTypeNone, "masters", lcecConfTypeMasters),
    (lcecConfTypeMasters, "master", lcecConfTypeMaster),
    (lcecConfTypeMaster, "slave", lcecConfTypeSlave),
    (lcecConfTypeSlave, "dcConf", lcecConfTypeDcConf),
    (lcecConfTypeSlave, "watchdog", lcecConfTypeWatchdog),
    (lcecConfTypeSlave, "sdoConfig", lcecConfTypeSdoConfig),
    (lcecConfTypeSlave, "idnConfig", lcecConfTypeIdnConfig),
    (lcecConfTypeSlave, "initCmds", lcecConfTypeInitCmds),
    (lcecConfTypeSlave, "syncManager", lcecConfTypeSyncManager),
    (lcecConfTypeSlave, "modParam", lcecConfTypeModParam),
    (lcecConfTypeSdoConfig, "sdoDataRaw", lcecConfTypeSdoDataRaw),
    (lcecConfTypeIdnConfig, "idnDataRaw", lcecConfTypeIdnDataRaw),
    (lcecConfTypeSyncManager, "pdo", lcecConfTypePdo),
    (lcecConfTypePdo, "pdoEntry", lcecConfTypePdoEntry),
    (lcecConfTypePdoEntry, "complexEntry", lcecConfTypeComplexEntry) ]

/-- The contexts the state machine can be in: the root context, and every
context a row of the table leads to from such a context, by an open-element
event (`state_from` to `state_to`) or a close-element event (back). -/
inductive Reachable : Int → Prop where
  | root : Reachable lcecConfTypeNone.toInt
  | start (s : Int) (r : LCEC_CONF_XML_HANLDER_T) :
      Reachable s → r ∈ xml_states → r.state_from = s → Reachable r.state_to
  | stop (s : Int) (r : LCEC_CONF_XML_HANLDER_T) :
      Reachable s → r ∈ xml_states → r.state_to = s → Reachable r.state_from

/-- The identifying fields of a slave record (index, type name, name); `none`
for every other item of the buffer. -/
def slaveKey : ConfRec → Option (Int × String × String)
  | ConfRec.slave s => some (s.index, s.typename, s.name)
  | _ => none

/-- The identifying fields of the slave records of a buffer, in buffer order. -/
def slaveKeys (buf : List ConfRec) : List (Int × String × String) := buf.filterMap slaveKey

/-- The value of the attribute `name` of an attribute list (of its last
occurrence, should the list repeat the name). -/
def attrValue (name : String) : Attrs → Option String
  | [] => none
  | (n, v) :: rest =>
    match attrValue name rest with
    | some w => some w
    | none => if n = name then some v else none

/-- The identifying fields the specification gives a `slave` element with the
attributes `attr`: the index is the `idx` text read as a decimal number (0 when
absent), the type name is the `type` text, the name is the `name` text or, when
that is absent or empty, the index rendered as text; texts cut to the size of
the record's fields. -/
def slaveKeyOf (env : Env) (attr : Attrs) : Int × String × String :=
  let idx : Int :=
    match attrValue "idx" attr with
    | some v => atoi env.longBits v
    | none => 0
  let typename : String :=
    match attrValue "type" attr with
    | some v => strncpy v env.LCEC_CONF_STR_MAXLEN
    | none => ""
  let name : String :=
    match attrValue "name" attr with
    | some v => strncpy v (env.LCEC_CONF_STR_MAXLEN - 1)
    | none => ""
  (idx, typename, if name = "" then defaultName env idx else name)

/-- The attribute lists of the `slave` start events of an event sequence, in
order. -/
def slaveStarts : List XmlEvent → List Attrs
  | [] => []
  | XmlEvent.startElement el attr :: rest =>
    if el = "slave" then attr :: slaveStarts rest else slaveStarts rest
  | XmlEvent.endElement _ :: rest => slaveStarts rest

mutual
/-- The attribute lists of the `slave` elements of a document, in document
order. -/
def XmlElem.slaves : XmlElem → List Attrs
  | XmlElem.node name attr children =>
    if name = "slave" then attr :: slavesOfList children else slavesOfList children
/-- The attribute lists of the `slave` elements below a list of siblings. -/
def slavesOfList : List XmlElem → List Attrs
  | [] => []
  | c :: cs => c.slaves ++ slavesOfList cs
end

/-- A document with two slaves, the first a generic slave with a sync manager,
a composite pdoEntry and an SDO configuration. -/
def sampleDoc : XmlElem :=
  XmlElem.node "masters" []
    [XmlElem.node "master" [("idx", "0"), ("appTimePeriod", "1000000")]
      [XmlElem.node "slave" [("idx", "0"), ("type", "generic"), ("vid", "2"), ("name", "S0")]
        [XmlElem.node "syncManager" [("idx", "2"), ("dir", "out")]
          [XmlElem.node "pdo" [("idx", "1600")]
            [XmlElem.node "pdoEntry"
              [("idx", "7000"), ("subIdx", "01"), ("bitLen", "16"), ("halType", "complex")]
              [XmlElem.node "complexEntry" [("bitLen", "4"), ("halType", "bit"), ("halPin", "a")] [],
               XmlElem.node "complexEntry" [("bitLen", "12"), ("halType", "u32"), ("halPin", "b")] []]]],
         XmlElem.node "sdoConfig" [("idx", "8000"), ("subIdx", "complete")]
          [XmlElem.node "sdoDataRaw" [("data", "0a0B")] []],
         XmlElem.node "dcConf" [("assignActivate", "300"), ("sync0Cycle", "*2")] []],
       XmlElem.node "slave" [("idx", "1"), ("type", "EL2202")] []]]

/-- The state after a successful reservation of `len` bytes that hold the item
`r`. -/
def State.alloc (st : State) (len : Nat) (r : ConfRec) : State :=
  { st with outputBuf := st.outputBuf ++ [r], outputLen := st.outputLen + len,
            freeMem := st.freeMem - len }

/-- The change `f` applied to a slave record; other items stay. -/
def ConfRec.mapSlave (f : LCEC_CONF_SLAVE_T → LCEC_CONF_SLAVE_T) : ConfRec → ConfRec
  | ConfRec.slave s => ConfRec.slave (f s)
  | r => r

/-- The change `f` applied to a sync manager record; other items stay. -/
def ConfRec.mapSyncManager (f : LCEC_CONF_SYNCMANAGER_T → LCEC_CONF_SYNCMANAGER_T) :
    ConfRec → ConfRec
  | ConfRec.syncManager s => ConfRec.syncManager (f s)
  | r => r

/-- The change `f` applied to a PDO record; other items stay. -/
def ConfRec.mapPdo (f : LCEC_CONF_PDO_T → LCEC_CONF_PDO_T) : ConfRec → ConfRec
  | ConfRec.pdo s => ConfRec.pdo (f s)
  | r => r

/-- The change `f` applied to an SDO configuration record; other items stay. -/
def ConfRec.mapSdoConf (f : LCEC_CONF_SDOCONF_T → LCEC_CONF_SDOCONF_T) : ConfRec → ConfRec
  | ConfRec.sdoConf s => ConfRec.sdoConf (f s)
  | r => r

/-- The change `f` applied to an IDN configuration record; other items stay. -/
def ConfRec.mapIdnConf (f : LCEC_CONF_IDNCONF_T → LCEC_CONF_IDNCONF_T) : ConfRec → ConfRec
  | ConfRec.idnConf s => ConfRec.idnConf (f s)
  | r => r

/-- The buffer after the item a back-reference points to was changed by `g`. -/
def modAt (i : Option Nat) (g : ConfRec → ConfRec) (buf : List ConfRec) : List ConfRec :=
  match i with
  | none => buf
  | some i =>
    match buf[i]? with
    | some r => buf.set i (g r)
    | none => buf
/-- The addition `sl->sdoConfigLength += n`. -/
def addSdoConfigLength (env : Env) (n : Nat) (sl : LCEC_CONF_SLAVE_T) : LCEC_CONF_SLAVE_T :=
  { sl with sdoConfigLength := addSize env.longBits sl.sdoConfigLength n }

/-- The addition `sl->idnConfigLength += n`. -/
def addIdnConfigLength (env : Env) (n : Nat) (sl : LCEC_CONF_SLAVE_T) : LCEC_CONF_SLAVE_T :=
  { sl with idnConfigLength := addSize env.longBits sl.idnConfigLength n }

/-- The addition `c->length += n` of an SDO configuration record. -/
def addSdoLength (env : Env) (n : Nat) (c : LCEC_CONF_SDOCONF_T) : LCEC_CONF_SDOCONF_T :=
  { c with length := addSize env.longBits c.length n }

/-- The addition `c->length += n` of an IDN configuration record. -/
def addIdnLength (env : Env) (n : Nat) (c : LCEC_CONF_IDNCONF_T) : LCEC_CONF_IDNCONF_T :=
  { c with length := addSize env.longBits c.length n }

/-- The state after `parseDataRawAttrs` has stored the data block `bytes`: the
block is appended, and in the context of an SDO (IDN) configuration its length
is added to the length of the current configuration record and to the
`sdoConfigLength` (`idnConfigLength`) of the current slave. -/
def dataBlock (env : Env) (st : State) (bytes : List Nat) : State :=
  let st1 := st.alloc bytes.length (ConfRec.dataRaw bytes)
  if st.xmlState = lcecConfTypeSdoConfig.toInt then
    { st1 with
      outputBuf :=
        modAt st.currSlave (ConfRec.mapSlave (addSdoConfigLength env bytes.length))
          (modAt st.currSdoConf (ConfRec.mapSdoConf (addSdoLength env bytes.length))
            st1.outputBuf) }
  else if st.xmlState = lcecConfTypeIdnConfig.toInt then
    { st1 with
      outputBuf :=
        modAt st.currSlave (ConfRec.mapSlave (addIdnConfigLength env bytes.length))
          (modAt st.currIdnConf (ConfRec.mapIdnConf (addIdnLength env bytes.length))
            st1.outputBuf) }
  else st1
/-- The increment `(state->currSlave->syncManagerCount)++`. -/
def incSyncManagerCount (sl : LCEC_CONF_SLAVE_T) : LCEC_CONF_SLAVE_T :=
  { sl with syncManagerCount := incU32 sl.syncManagerCount }

/-- The increment `(state->currSlave->pdoCount)++`. -/
def incPdoCount (sl : LCEC_CONF_SLAVE_T) : LCEC_CONF_SLAVE_T :=
  { sl with pdoCount := incU32 sl.pdoCount }

/-- The increment `(state->currSlave->pdoEntryCount)++`. -/
def incPdoEntryCount (sl : LCEC_CONF_SLAVE_T) : LCEC_CONF_SLAVE_T :=
  { sl with pdoEntryCount := incU32 sl.pdoEntryCount }

/-- The increment `(state->currSlave->pdoMappingCount)++`. -/
def incPdoMappingCount (sl : LCEC_CONF_SLAVE_T) : LCEC_CONF_SLAVE_T :=
  { sl with pdoMappingCount := incU32 sl.pdoMappingCount }

/-- The increment `(state->currSlave->modParamCount)++`. -/
def incModParamCount (sl : LCEC_CONF_SLAVE_T) : LCEC_CONF_SLAVE_T :=
  { sl with modParamCount := incU32 sl.modParamCount }

/-- The increment `(state->currSyncManager->pdoCount)++`. -/
def incSmPdoCount (m : LCEC_CONF_SYNCMANAGER_T) : LCEC_CONF_SYNCMANAGER_T :=
  { m with pdoCount := incU32 m.pdoCount }

/-- The increment `(state->currPdo->pdoEntryCount)++`. -/
def incPdoPdoEntryCount (p : LCEC_CONF_PDO_T) : LCEC_CONF_PDO_T :=
  { p with pdoEntryCount := incU32 p.pdoEntryCount }

/-- The increments of the slave counters an accepted `pdoEntry` with the pin
name `halPin` makes. -/
def pdoEntrySlaveCounts (halPin : String) (sl : LCEC_CONF_SLAVE_T) : LCEC_CONF_SLAVE_T :=
  if halPin ≠ "" then incPdoMappingCount (incPdoEntryCount sl) else incPdoEntryCount sl

/-- The weight `w` gives the element an open-element event opens; a
close-element event weighs nothing. -/
def startWeight (w : String → Attrs → Nat) : XmlEvent → Nat
  | XmlEvent.startElement el attr => w el attr
  | XmlEvent.endElement _ => 0

/-- The sum of the weights of the elements an event sequence opens. -/
def sumStarts (w : String → Attrs → Nat) (evs : List XmlEvent) : Nat :=
  (evs.map (startWeight w)).sum

mutual
/-- The sum of the weights `w name attr` of the elements of a document: of the
element itself and of all elements below it. -/
def XmlElem.weight (w : String → Attrs → Nat) : XmlElem → Nat
  | XmlElem.node name attr children => w name attr + weightOfList w children
/-- The sum of the weights of the elements of a list of siblings and below. -/
def weightOfList (w : String → Attrs → Nat) : List XmlElem → Nat
  | [] => 0
  | c :: cs => c.weight w + weightOfList w cs
end

/-- Weight 1 for the elements named `name`, weight 0 for the others. -/
def isElem (name : String) (n : String) (_ : Attrs) : Nat := if n = name then 1 else 0

/-- The number of elements named `name` of a document (the element itself
counted). -/
def XmlElem.count (name : String) (e : XmlElem) : Nat := e.weight (isElem name)
/-- The handler `f` has accepted the attributes `attr` in the state `st`, and
`st1` is the state it left, taken to the context `ctx`. -/
def Ran (f : Env → State → Attrs → Option State) (env : Env) (st : State) (attr : Attrs)
    (ctx : LCEC_CONF_TYPE_T) (st1 : State) : Prop :=
  ∃ st0, f env st attr = some st0 ∧ st0.stopped = false ∧
    st1 = { st0 with xmlState := ctx.toInt }

/-- The back-reference `i` points to an item of the buffer that satisfies `P`. -/
def HasRec (P : ConfRec → Prop) (i : Option Nat) (buf : List ConfRec) : Prop :=
  ∃ k r, i = some k ∧ buf[k]? = some r ∧ P r

/-- The item is a slave record. -/
def ConfRec.IsSlave (r : ConfRec) : Prop := ∃ s, r = ConfRec.slave s

/-- The item is an SDO configuration record. -/
def ConfRec.IsSdoConf (r : ConfRec) : Prop := ∃ s, r = ConfRec.sdoConf s

/-- The item is an IDN configuration record. -/
def ConfRec.IsIdnConf (r : ConfRec) : Prop := ∃ s, r = ConfRec.idnConf s

/-- The back-references `parseDataRawAttrs` goes through are set: in the context
of an SDO configuration `currSdoConf` and `currSlave` point to records of their
kinds, in the context of an IDN configuration `currIdnConf` and `currSlave` do. -/
def DataRawReady (st : State) : Prop :=
  (st.xmlState = lcecConfTypeSdoConfig.toInt →
    st.sdoConf.isSome = true ∧ st.slave.isSome = true) ∧
  (st.xmlState = lcecConfTypeIdnConfig.toInt →
    st.idnConf.isSome = true ∧ st.slave.isSome = true)

/-- The state after the element `<master idx="7"/>` in an empty state. -/
def sampleMasterResult : State :=
  (parseMasterAttrs sampleEnv (initState 1000) [("idx", "7")]).getD (initState 0)
/-- A state inside an `sdoConfig` element of a generic slave: the buffer holds a
master, the slave and the SDO configuration record. -/
def sampleStateSdo : State :=
  { xmlState := lcecConfTypeSdoConfig.toInt
    currMaster := some 0
    currSlaveType := some { name := some "generic", modparams := none }
    currSlave := some 1
    currSdoConf := some 2
    outputBuf := [ConfRec.master { name := "0" },
                  ConfRec.slave { typename := "generic", name := "0", sdoConfigLength := 16 },
                  ConfRec.sdoConf { index := 0x8000, subindex := 1 }]
    outputLen := 240
    freeMem := 4096
    master_count := 1
    slave_count := 1 }
/-- The number of bytes an item of the output buffer takes: the size of its
record type, or the number of bytes of a raw data block. -/
def recSize (env : Env) : ConfRec → Nat
  | ConfRec.master _ => env.sizeof lcecConfTypeMaster
  | ConfRec.slave _ => env.sizeof lcecConfTypeSlave
  | ConfRec.dcConf _ => env.sizeof lcecConfTypeDcConf
  | ConfRec.watchdog _ => env.sizeof lcecConfTypeWatchdog
  | ConfRec.sdoConf _ => env.sizeof lcecConfTypeSdoConfig
  | ConfRec.idnConf _ => env.sizeof lcecConfTypeIdnConfig
  | ConfRec.dataRaw bytes => bytes.length
  | ConfRec.syncManager _ => env.sizeof lcecConfTypeSyncManager
  | ConfRec.pdo _ => env.sizeof lcecConfTypePdo
  | ConfRec.pdoEntry _ => env.sizeof lcecConfTypePdoEntry
  | ConfRec.complexEntry _ => env.sizeof lcecConfTypeComplexEntry
  | ConfRec.modParam _ => env.sizeof lcecConfTypeModParam
  | ConfRec.null => env.sizeof lcecConfTypeNone

/-- The sum of the sizes of the items of a buffer. -/
def bufSize (env : Env) (buf : List ConfRec) : Nat := (buf.map (recSize env)).sum

/-- The init command reader reports as `bytes` the bytes its records take. -/
def Env.IcmdsSized (env : Env) : Prop :=
  ∀ f : String, (env.parseIcmds f).bytes
    = bufSize env ((env.parseIcmds f).recs.flatMap IcmdRec.toRecs)

/-- Size and terminator mark of an item: what a change of a record through a
back-reference leaves. -/
def recShape (env : Env) (r : ConfRec) : Nat × Bool := (recSize env r, decide (r = ConfRec.null))

/-- The list with `f` applied to its last element. -/
def modLast {α : Type} (f : α → α) : List α → List α
  | [] => []
  | [a] => [f a]
  | a :: b :: t => a :: modLast f (b :: t)

/-- The item is a slave record. -/
def ConfRec.isSlave : ConfRec → Bool
  | ConfRec.slave _ => true
  | _ => false

/-- The item is a sync manager record. -/
def ConfRec.isSyncManager : ConfRec → Bool
  | ConfRec.syncManager _ => true
  | _ => false

/-- The item is a PDO record. -/
def ConfRec.isPdo : ConfRec → Bool
  | ConfRec.pdo _ => true
  | _ => false
/-- The element has a non-empty `halPin` attribute. -/
def hasPin (attr : Attrs) : Bool :=
  match attrValue "halPin" attr with
  | some v => decide (v ≠ "")
  | none => false

/-- Weight 1 for the `pdoEntry` and `complexEntry` elements with a non-empty
`halPin`, weight 0 for all other elements. -/
def pinWeight (n : String) (attr : Attrs) : Nat :=
  if (n = "pdoEntry" ∨ n = "complexEntry") ∧ hasPin attr = true then 1 else 0

/-- Book-keeping of one counter over the open-element events: an element named
`K` starts a new entry at 0, every other element adds its weight `w` to the last
entry. -/
def segStep (K : String) (w : String → Attrs → Nat) (L : List Nat) : XmlEvent → List Nat
  | XmlEvent.startElement el attr =>
    if el = K then L ++ [0] else modLast (fun n => n + w el attr) L
  | XmlEvent.endElement _ => L

mutual
/-- The elements named `K` of a document, in document order. -/
def XmlElem.nodes (K : String) : XmlElem → List XmlElem
  | XmlElem.node name attr children =>
    if name = K then XmlElem.node name attr children :: nodesOfList K children
    else nodesOfList K children
/-- The elements named `K` below a list of siblings, in document order. -/
def nodesOfList (K : String) : List XmlElem → List XmlElem
  | [] => []
  | c :: cs => c.nodes K ++ nodesOfList K cs
end

mutual
/-- The element is legally nested in the context `c`: the table has a row for
the context and the name of the element, and the children are legally nested in
the context the row leads to. -/
def Legal (c : Int) : XmlElem → Bool
  | XmlElem.node name _ children =>
    match lookupStart xml_states c name with
    | none => false
    | some row => LegalList row.state_to children
/-- All elements of a list of siblings are legally nested in the context `c`. -/
def LegalList (c : Int) : List XmlElem → Bool
  | [] => true
  | e :: es => Legal c e && LegalList c es
end

/-- The child elements of an element. -/
def XmlElem.children : XmlElem → List XmlElem
  | XmlElem.node _ _ children => children

/-- The name of an element. -/
def XmlElem.name : XmlElem → String
  | XmlElem.node name _ _ => name

/-- A sample module parameter table of four rows; the name `count` stands in
two of them. -/
def sampleModTable : List lcec_modparam_desc_t :=
  [{ name := "enableFB2", id := 1, type := MODPARAM_TYPE_BIT },
   { name := "count", id := 2, type := MODPARAM_TYPE_U32 },
   { name := "shift", id := 3, type := MODPARAM_TYPE_S32 },
   { name := "count", id := 9, type := MODPARAM_TYPE_S32 }]

/-- A sample device type with the table `sampleModTable`. -/
def sampleModType : lcec_typelist_t := { name := some "AX5200", modparams := some sampleModTable }

/-- A parser state inside a slave of the device type `sampleModType`. -/
def sampleStateModSlave : State :=
  { xmlState := lcecConfTypeSlave.toInt
    currMaster := some 0
    currSlaveType := some sampleModType
    currSlave := some 1
    outputBuf := [ConfRec.master { name := "0" },
                  ConfRec.slave { typename := "AX5200", name := "0" }]
    outputLen := 224
    freeMem := 4096
    master_count := 1
    slave_count := 1 }

/-- The slave record an item of the buffer is; `none` for every other item. -/
def ConfRec.slave? : ConfRec → Option LCEC_CONF_SLAVE_T
  | ConfRec.slave s => some s
  | _ => none

/-- The slave records of a buffer, in the order of the buffer. -/
def slaveRecs (buf : List ConfRec) : List LCEC_CONF_SLAVE_T := buf.filterMap ConfRec.slave?

/-- The state has no current IDN configuration and stands in neither of the two
contexts of an IDN configuration. -/
def NoIdn (st : State) : Prop :=
  st.currIdnConf = none ∧ st.xmlState ≠ lcecConfTypeIdnConfig.toInt ∧
    st.xmlState ≠ lcecConfTypeIdnDataRaw.toInt

/-- A parser state inside a `pdoEntry` of the kind `u32` (not composite) of 16
bits. -/
def sampleStatePdoEntrySimple : State :=
  (parsePdoEntryAttrs sampleEnv sampleStatePdo
    [("idx", "7000"), ("subIdx", "1"), ("bitLen", "16"), ("halType", "u32")]).getD {}

/-- A sample document whose `pdoEntry` of the kind `u32` has a `complexEntry`
child. -/
def sampleSimpleParentDoc : XmlElem :=
  XmlElem.node "masters" []
    [XmlElem.node "master" [("idx", "0"), ("appTimePeriod", "1000000")]
      [XmlElem.node "slave" [("idx", "0"), ("type", "generic")]
        [XmlElem.node "syncManager" [("idx", "2"), ("dir", "out")]
          [XmlElem.node "pdo" [("idx", "1600")]
            [XmlElem.node "pdoEntry"
              [("idx", "7000"), ("subIdx", "01"), ("bitLen", "16"), ("halType", "u32"),
               ("halPin", "word")]
              [XmlElem.node "complexEntry"
                [("bitLen", "4"), ("halType", "bit"), ("halPin", "a")] []]]]]]]

/-- The item is a master record. -/
def ConfRec.isMaster : ConfRec → Bool
  | ConfRec.master _ => true
  | _ => false

/-- The item is a PDO entry record. -/
def ConfRec.isPdoEntry : ConfRec → Bool
  | ConfRec.pdoEntry _ => true
  | _ => false

/-- The item is an SDO configuration record. -/
def ConfRec.isSdoConf : ConfRec → Bool
  | ConfRec.sdoConf _ => true
  | _ => false

/-- The change `g` of an item keeps the kind of the item. -/
def KeepsKind (g : ConfRec → ConfRec) : Prop :=
  ∀ r, (g r).isMaster = r.isMaster ∧ (g r).isSlave = r.isSlave ∧
    (g r).isSyncManager = r.isSyncManager ∧ (g r).isPdo = r.isPdo ∧
    (g r).isPdoEntry = r.isPdoEntry ∧ (g r).isSdoConf = r.isSdoConf

/-- Both back-references are set, and `ref` points behind the record `parent`
points to. -/
def Below (parent ref : Option Nat) : Prop :=
  ∃ l i, parent = some l ∧ ref = some i ∧ l < i

/-- The attributes of a `pdoEntry` with the index 0, the sub-index 0 and the
largest bit length. -/
def sampleZeroEntryAttrs : Attrs :=
  [("idx", "0"), ("subIdx", "0"), ("bitLen", "255"), ("halType", "u32")]

/-- The record the attribute loop of `parsePdoEntryAttrs` leaves for
`sampleZeroEntryAttrs`. -/
def sampleZeroEntry : LCEC_CONF_PDOENTRY_T :=
  { index := 0, subindex := 0, bitLength := 255, subType := lcecPdoEntTypeSimple,
    halType := HAL_U32 }

/-- The attributes of a `pdoEntry` of the kind `bit` with a `scale`. -/
def sampleBitScaleAttrs : Attrs :=
  [("idx", "6000"), ("subIdx", "1"), ("bitLen", "16"), ("scale", "2.5"), ("halType", "bit")]

/-- The attributes of a `complexEntry` of the kind `float` with a `scale`. -/
def sampleComplexFloatAttrs : Attrs :=
  [("bitLen", "4"), ("scale", "2.5"), ("halType", "float")]

/-- The attributes of a `complexEntry` of the kind `bit` with a `scale`. -/
def sampleComplexBitScaleAttrs : Attrs :=
  [("bitLen", "4"), ("halType", "bit"), ("scale", "2.5")]


/-- The state after the element `<slave idx="3" type="EL2202"/>` under the
master of `sampleStateSlowMaster`. -/
def sampleSlaveResult : State :=
  (parseSlaveAttrs sampleEnv sampleStateSlowMaster [("idx", "3"), ("type", "EL2202")]).getD
    (initState 0)

/-! ## Theorems -/

/-! ### General lemmas -/

theorem attrLoop_cont_inv {P : Type} (body : P → String → String → Step P) (I : P → Prop)
    (hstep : ∀ p n v q, I p → body p n v = Step.cont q → I q) :
    ∀ (attrs : Attrs) (p q : P), I p → attrLoop body p attrs = Step.cont q → I q := by
  intro attrs
  induction attrs with
  | nil =>
    intro p q hp h
    simp only [attrLoop, Step.cont.injEq] at h
    subst h
    exact hp
  | cons a rest ih =>
    intro p q hp h
    obtain ⟨n, v⟩ := a
    simp only [attrLoop] at h
    cases hb : body p n v with
    | cont p1 =>
      rw [hb] at h
      exact ih p1 q (hstep p n v p1 hp hb) h
    | abort p1 => rw [hb] at h; cases h
    | fault => rw [hb] at h; cases h

theorem addOutputBuffer_some {st st1 : State} {len : Nat} {r : ConfRec}
    (h : addOutputBuffer st len r = some st1) :
    len ≤ st.freeMem ∧
    st1 = { st with outputBuf := st.outputBuf ++ [r], outputLen := st.outputLen + len,
                    freeMem := st.freeMem - len } := by
  unfold addOutputBuffer at h
  split at h
  · rename_i hle
    exact ⟨hle, (Option.some.inj h).symm⟩
  · cases h

theorem updSlave_some {st st1 : State} {f : LCEC_CONF_SLAVE_T → LCEC_CONF_SLAVE_T}
    (h : st.updSlave f = some st1) :
    ∃ i s, st.currSlave = some i ∧ st.outputBuf[i]? = some (ConfRec.slave s) ∧
      st1 = { st with outputBuf := st.outputBuf.set i (ConfRec.slave (f s)) } := by
  unfold State.updSlave at h
  split at h
  · rename_i i s hi hs
    refine ⟨i, s, hi, ?_, (Option.some.inj h).symm⟩
    unfold State.slave at hs
    rw [hi] at hs
    simp only at hs
    split at hs
    · rename_i s1 hget
      cases hs
      exact hget
    · cases hs
  · cases h

theorem toUInt8_of_range {x : Int} (h0 : 0 ≤ x) (h1 : x < 256) : toUInt 8 x = x.toNat := by
  unfold toUInt
  norm_num
  omega

theorem complexEntryHalType_frame {p q : LCEC_CONF_COMPLEXENTRY_T} {v : String}
    (h : complexEntryHalType p v = some q) :
    q.bitOffset = p.bitOffset ∧ q.bitLength = p.bitLength ∧ q.halPin = p.halPin ∧
      q.floatScale = p.floatScale ∧ q.floatOffset = p.floatOffset := by
  unfold complexEntryHalType at h
  split_ifs at h
  all_goals first
    | (cases h; exact ⟨rfl, rfl, rfl, rfl, rfl⟩)
    | cases h

theorem pdoEntryHalType_frame {p q : LCEC_CONF_PDOENTRY_T} {v : String}
    (h : pdoEntryHalType p v = some q) :
    q.index = p.index ∧ q.subindex = p.subindex ∧ q.bitLength = p.bitLength ∧
      q.halPin = p.halPin ∧ q.floatScale = p.floatScale ∧ q.floatOffset = p.floatOffset := by
  unfold pdoEntryHalType at h
  split_ifs at h
  all_goals first
    | (cases h; exact ⟨rfl, rfl, rfl, rfl, rfl, rfl⟩)
    | cases h

theorem complexEntryBody_inv (env : Env) (st : State) (parent : LCEC_CONF_PDOENTRY_T)
    (hpar : st.pdoEntry = some parent) (hlt : parent.bitLength < 256)
    (p q : LCEC_CONF_COMPLEXENTRY_T × Bool) (n v : String)
    (hp : p.1.bitOffset = st.currComplexBitOffset ∧
      (p.1.bitLength = 0 ∨
        (1 ≤ p.1.bitLength ∧ st.currComplexBitOffset + p.1.bitLength ≤ parent.bitLength)))
    (h : complexEntryBody env st p n v = Step.cont q) :
    q.1.bitOffset = st.currComplexBitOffset ∧
      (q.1.bitLength = 0 ∨
        (1 ≤ q.1.bitLength ∧ st.currComplexBitOffset + q.1.bitLength ≤ parent.bitLength)) := by
  unfold complexEntryBody at h
  rw [hpar] at h
  dsimp only at h
  split_ifs at h with h1 h2 h3
  all_goals first
    | (cases h; exact hp)
    | skip
  · cases h
    refine ⟨hp.1, Or.inr ?_⟩
    simp only
    push_neg at h2 h3
    rw [toUInt8_of_range (by omega) (by omega)]
    omega
  · split at h
    · cases h
    · rename_i q1 hq
      cases h
      obtain ⟨f1, f2, _⟩ := complexEntryHalType_frame hq
      simp only
      rw [f1, f2]
      exact hp

theorem State.stop_stopped (st : State) : st.stop.stopped = true := rfl

theorem updSlave_stopped {st st1 : State} {f : LCEC_CONF_SLAVE_T → LCEC_CONF_SLAVE_T}
    (h : st.updSlave f = some st1) : st1.stopped = st.stopped := by
  obtain ⟨i, s, _, _, rfl⟩ := updSlave_some h
  rfl

theorem set_length_append {α : Type} (l : List α) (a b : α) :
    (l ++ [a]).set l.length b = l ++ [b] := by
  rw [List.set_append_right _ _ (Nat.le_refl _)]
  simp

theorem getElem?_snoc_ne {α : Type} {l : List α} {b x : α} {i : Nat}
    (h : (l ++ [b])[i]? = some x) (hne : x ≠ b) : i < l.length ∧ l[i]? = some x := by
  by_cases hi : i < l.length
  · rw [List.getElem?_append_left hi] at h
    exact ⟨hi, h⟩
  · exfalso
    rw [List.getElem?_append_right (Nat.le_of_not_lt hi)] at h
    cases hk : i - l.length with
    | zero => rw [hk] at h; simp at h; exact hne h.symm
    | succ k => rw [hk] at h; simp at h

theorem parseComplexEntryAttrs_accept (env : Env) (st st1 : State) (a : Attrs)
    (parent : LCEC_CONF_PDOENTRY_T)
    (hpar : st.pdoEntry = some parent) (hlt : parent.bitLength < 256)
    (h : parseComplexEntryAttrs env st a = some st1) (hs : st1.stopped = false) :
    ∃ e : LCEC_CONF_COMPLEXENTRY_T, e.bitOffset = st.currComplexBitOffset ∧ 1 ≤ e.bitLength ∧
      st.currComplexBitOffset + e.bitLength ≤ parent.bitLength ∧
      st1.currComplexBitOffset = st.currComplexBitOffset + e.bitLength ∧
      st1.currPdoEntry = st.currPdoEntry ∧ st.stopped = false ∧
      (st1.outputBuf = st.outputBuf ++ [ConfRec.complexEntry e] ∨
        ∃ i s s', st.outputBuf[i]? = some (ConfRec.slave s) ∧
          st1.outputBuf = (st.outputBuf.set i (ConfRec.slave s')) ++ [ConfRec.complexEntry e]) := by
  unfold parseComplexEntryAttrs at h
  split at h
  · cases h; simp [State.stop] at hs
  · rename_i st2 halloc
    obtain ⟨_, rfl⟩ := addOutputBuffer_some halloc
    simp only at h
    split at h
    · cases h
    · cases h; simp [State.stop] at hs
    · rename_i e fr hloop
      have hinv := attrLoop_cont_inv (complexEntryBody env st)
        (fun p => p.1.bitOffset = st.currComplexBitOffset ∧
          (p.1.bitLength = 0 ∨
            (1 ≤ p.1.bitLength ∧ st.currComplexBitOffset + p.1.bitLength ≤ parent.bitLength)))
        (fun p n v q hp hb => complexEntryBody_inv env st parent hpar hlt p q n v hp hb)
        a _ _ ⟨rfl, Or.inl rfl⟩ hloop
      simp only at hinv
      split_ifs at h with h1 h2 h3
      · cases h; simp [State.stop] at hs
      · cases h; simp [State.stop] at hs
      · -- halPin given
        split at h
        · cases h
        · rename_i st3 hupd
          obtain ⟨i, s, hi, hget, rfl⟩ := updSlave_some hupd
          cases h
          simp only [State.writeRec, set_length_append] at hget hs ⊢
          rcases hinv.2 with h0 | ⟨hge, hle⟩
          · exact absurd h0 h1
          obtain ⟨hlt2, hget2⟩ := getElem?_snoc_ne hget (by simp)
          refine ⟨e, hinv.1, hge, hle, ?_, trivial, hs,
            Or.inr ⟨i, s, _, hget2, List.set_append_left _ _ hlt2⟩⟩
          have : st.currComplexBitOffset + e.bitLength < 256 := by omega
          exact Nat.mod_eq_of_lt this
      · split at h
        · cases h
        · rename_i st3 hupd
          cases hupd
          cases h
          simp only [State.writeRec, set_length_append] at hs ⊢
          rcases hinv.2 with h0 | ⟨hge, hle⟩
          · exact absurd h0 h1
          refine ⟨e, hinv.1, hge, hle, ?_, trivial, hs, Or.inl rfl⟩
          have : st.currComplexBitOffset + e.bitLength < 256 := by omega
          exact Nat.mod_eq_of_lt this

theorem pdoEntry_of_getElem {st : State} {i : Nat} {p : LCEC_CONF_PDOENTRY_T}
    (hi : st.currPdoEntry = some i) (hg : st.outputBuf[i]? = some (ConfRec.pdoEntry p)) :
    st.pdoEntry = some p := by
  unfold State.pdoEntry
  rw [hi]
  simp only
  rw [hg]

theorem pdoEntry_some {st : State} {p : LCEC_CONF_PDOENTRY_T} (h : st.pdoEntry = some p) :
    ∃ i, st.currPdoEntry = some i ∧ st.outputBuf[i]? = some (ConfRec.pdoEntry p) := by
  unfold State.pdoEntry at h
  split at h
  · cases h
  · rename_i i hi
    split at h
    · rename_i q hq
      cases h
      exact ⟨i, hi, hq⟩
    · cases h

theorem offsets_snoc (bound off : Nat) (es : List LCEC_CONF_COMPLEXENTRY_T)
    (hes : ∀ k (hk : k < es.length),
        es[k].bitOffset = off + ((es.take k).map (fun e => e.bitLength)).sum ∧
        1 ≤ es[k].bitLength ∧ es[k].bitOffset + es[k].bitLength ≤ bound)
    (e : LCEC_CONF_COMPLEXENTRY_T)
    (he1 : e.bitOffset = off + (es.map (fun e => e.bitLength)).sum) (he2 : 1 ≤ e.bitLength)
    (he3 : e.bitOffset + e.bitLength ≤ bound) :
    ∀ k (hk : k < (es ++ [e]).length),
      (es ++ [e])[k].bitOffset = off + (((es ++ [e]).take k).map (fun e => e.bitLength)).sum ∧
      1 ≤ (es ++ [e])[k].bitLength ∧
      (es ++ [e])[k].bitOffset + (es ++ [e])[k].bitLength ≤ bound := by
  intro k hk
  by_cases hlt : k < es.length
  · have h1 := hes k hlt
    rw [List.getElem_append_left hlt, List.take_append_of_le_length (Nat.le_of_lt hlt)]
    exact h1
  · have hk2 : k = es.length := by
      simp only [List.length_append, List.length_singleton] at hk
      omega
    subst hk2
    have hget : (es ++ [e])[es.length] = e := by simp
    rw [hget, List.take_append_of_le_length (Nat.le_refl _), List.take_length]
    exact ⟨he1, he2, he3⟩

theorem parseComplexEntryAttrs_stopped (env : Env) (st st1 : State) (a : Attrs)
    (h : parseComplexEntryAttrs env st a = some st1) (hs : st.stopped = true) :
    st1.stopped = true := by
  unfold parseComplexEntryAttrs at h
  split at h
  · cases h; rfl
  · rename_i st2 halloc
    obtain ⟨_, rfl⟩ := addOutputBuffer_some halloc
    simp only at h
    split at h
    · cases h
    · cases h; rfl
    · split_ifs at h
      · cases h; rfl
      · cases h; rfl
      · split at h
        · cases h
        · rename_i st3 hupd
          cases h
          have := updSlave_stopped hupd
          simp only [State.writeRec] at this ⊢
          rw [this, hs]
      · split at h
        · cases h
        · rename_i st3 hupd
          cases hupd
          cases h
          simpa [State.writeRec] using hs

theorem runComplexEntries_stopped (env : Env) :
    ∀ (children : List Attrs) (st st' : State),
      runComplexEntries env st children = some st' → st.stopped = true → st'.stopped = true := by
  intro children
  induction children with
  | nil =>
    intro st st' h hs
    simp only [runComplexEntries, Option.some.injEq] at h
    subst h
    exact hs
  | cons a rest ih =>
    intro st st' h hs
    simp only [runComplexEntries] at h
    split at h
    · cases h
    · rename_i st1 hstep
      exact ih st1 st' h (parseComplexEntryAttrs_stopped env st st1 a hstep hs)

theorem runComplexEntries_spec (env : Env) (parent : LCEC_CONF_PDOENTRY_T)
    (hlt : parent.bitLength < 256) (n0 : Nat) :
    ∀ (children : List Attrs) (st st' : State) (es0 : List LCEC_CONF_COMPLEXENTRY_T),
      st.pdoEntry = some parent →
      n0 ≤ st.outputBuf.length →
      st.outputBuf.drop n0 = es0.map ConfRec.complexEntry →
      st.currComplexBitOffset = (es0.map (fun e => e.bitLength)).sum →
      (∀ k (hk : k < es0.length),
        es0[k].bitOffset = 0 + ((es0.take k).map (fun e => e.bitLength)).sum ∧
        1 ≤ es0[k].bitLength ∧ es0[k].bitOffset + es0[k].bitLength ≤ parent.bitLength) →
      runComplexEntries env st children = some st' → st'.stopped = false →
      ∃ es : List LCEC_CONF_COMPLEXENTRY_T,
        st'.outputBuf.drop n0 = es.map ConfRec.complexEntry ∧
        es.length = es0.length + children.length ∧
        st'.currComplexBitOffset = (es.map (fun e => e.bitLength)).sum ∧
        (∀ k (hk : k < es.length),
          es[k].bitOffset = 0 + ((es.take k).map (fun e => e.bitLength)).sum ∧
          1 ≤ es[k].bitLength ∧ es[k].bitOffset + es[k].bitLength ≤ parent.bitLength) := by
  intro children
  induction children with
  | nil =>
    intro st st' es0 _ _ hdrop hoff hes hrun _
    simp only [runComplexEntries, Option.some.injEq] at hrun
    subst hrun
    exact ⟨es0, hdrop, by simp, hoff, hes⟩
  | cons a rest ih =>
    intro st st' es0 hpar hn0 hdrop hoff hes hrun hstop
    simp only [runComplexEntries] at hrun
    split at hrun
    · cases hrun
    · rename_i st1 hstep
      have hs1 : st1.stopped = false := by
        cases hb : st1.stopped with
        | false => rfl
        | true =>
          have := runComplexEntries_stopped env rest st1 st' hrun hb
          rw [this] at hstop
          cases hstop
      obtain ⟨e, he1, he2, he3, hoff1, hcur, _, hbuf⟩ :=
        parseComplexEntryAttrs_accept env st st1 a parent hpar hlt hstep hs1
      obtain ⟨ip, hip, hgp⟩ := pdoEntry_some hpar
      have hipl : ip < st.outputBuf.length := by
        rcases List.getElem?_eq_some.mp hgp with ⟨hh, _⟩
        exact hh
      have key : st1.pdoEntry = some parent ∧ n0 ≤ st1.outputBuf.length ∧
          st1.outputBuf.drop n0 = (es0 ++ [e]).map ConfRec.complexEntry := by
        rcases hbuf with hb | ⟨i, s, s', hgi, hb⟩
        · refine ⟨?_, ?_, ?_⟩
          · apply pdoEntry_of_getElem (i := ip) (by rw [hcur, hip])
            rw [hb, List.getElem?_append_left hipl]
            exact hgp
          · rw [hb]; simp; omega
          · rw [hb, List.drop_append_of_le_length hn0, hdrop]
            simp
        · have hil : i < st.outputBuf.length := by
            rcases List.getElem?_eq_some.mp hgi with ⟨hh, _⟩
            exact hh
          have hin0 : i < n0 := by
            by_contra hcon
            have hge : n0 ≤ i := Nat.le_of_not_lt hcon
            have h1 : (st.outputBuf.drop n0)[i - n0]? = some (ConfRec.slave s) := by
              rw [List.getElem?_drop]
              have : n0 + (i - n0) = i := by omega
              rw [this]
              exact hgi
            rw [hdrop] at h1
            simp only [List.getElem?_map, Option.map_eq_some'] at h1
            obtain ⟨x, _, hx⟩ := h1
            cases hx
          refine ⟨?_, ?_, ?_⟩
          · apply pdoEntry_of_getElem (i := ip) (by rw [hcur, hip])
            rw [hb, List.getElem?_append_left (by simpa using hipl)]
            have hne : i ≠ ip := by
              intro heq
              subst heq
              rw [hgi] at hgp
              cases hgp
            rw [List.getElem?_set_ne hne]
            exact hgp
          · rw [hb]; simp; omega
          · rw [hb, List.drop_append_of_le_length (by simpa using hn0),
              List.drop_set_of_lt _ _ hin0, hdrop]
            simp
      obtain ⟨hpar1, hn1, hdrop1⟩ := key
      have hsum : st1.currComplexBitOffset = ((es0 ++ [e]).map (fun e => e.bitLength)).sum := by
        rw [hoff1, hoff]
        simp
      have hes1 := offsets_snoc parent.bitLength 0 es0 hes e (by rw [he1, hoff]; simp) he2
        (by rw [he1]; exact he3)
      obtain ⟨es, h1, h2, h3⟩ := ih st1 st' (es0 ++ [e]) hpar1 hn1 hdrop1 hsum hes1 hrun hstop
      refine ⟨es, h1, ?_, h3⟩
      rw [h2]
      simp
      omega

theorem updPdo_some {st st1 : State} {f : LCEC_CONF_PDO_T → LCEC_CONF_PDO_T}
    (h : st.updPdo f = some st1) :
    ∃ i s, st.currPdo = some i ∧ st.outputBuf[i]? = some (ConfRec.pdo s) ∧
      st1 = { st with outputBuf := st.outputBuf.set i (ConfRec.pdo (f s)) } := by
  unfold State.updPdo at h
  split at h
  · rename_i i s hi hs
    refine ⟨i, s, hi, ?_, (Option.some.inj h).symm⟩
    unfold State.pdo at hs
    rw [hi] at hs
    simp only at hs
    split at hs
    · rename_i s1 hget
      cases hs
      exact hget
    · cases hs
  · cases h

theorem toUInt8_lt (x : Int) : toUInt 8 x < 256 := by
  unfold toUInt
  norm_num
  omega

theorem pdoEntryBody_inv (env : Env) (p q : LCEC_CONF_PDOENTRY_T × Bool) (n v : String)
    (hp : p.1.bitLength < 256) (h : pdoEntryBody env p n v = Step.cont q) :
    q.1.bitLength < 256 := by
  unfold pdoEntryBody at h
  dsimp only at h
  split_ifs at h
  all_goals first
    | (cases h; exact hp)
    | (cases h; exact toUInt8_lt _)
    | skip
  split at h
  · cases h
  · rename_i q1 hq
    cases h
    obtain ⟨_, _, f3, _⟩ := pdoEntryHalType_frame hq
    simp only
    rw [f3]
    exact hp

theorem getElem?_set_other {α : Type} {l : List α} {i j : Nat} {a b x : α}
    (hi : l[i]? = some a) (hj : l[j]? = some x) (hne : x ≠ a) : (l.set i b)[j]? = some x := by
  have : i ≠ j := by
    intro heq
    subst heq
    rw [hi] at hj
    exact hne (Option.some.inj hj).symm
  rw [List.getElem?_set_ne this]
  exact hj

theorem updSlave_keeps {st st1 : State} {f : LCEC_CONF_SLAVE_T → LCEC_CONF_SLAVE_T}
    (h : st.updSlave f = some st1) :
    st1.outputBuf.length = st.outputBuf.length ∧
    ∀ (j : Nat) (r : ConfRec), (∀ s, r ≠ ConfRec.slave s) → st.outputBuf[j]? = some r → st1.outputBuf[j]? = some r := by
  obtain ⟨i, s, _, hget, rfl⟩ := updSlave_some h
  refine ⟨by simp, ?_⟩
  intro j r hr hj
  exact getElem?_set_other hget hj (hr s)

theorem updPdo_keeps {st st1 : State} {f : LCEC_CONF_PDO_T → LCEC_CONF_PDO_T}
    (h : st.updPdo f = some st1) :
    st1.outputBuf.length = st.outputBuf.length ∧
    ∀ (j : Nat) (r : ConfRec), (∀ s, r ≠ ConfRec.pdo s) → st.outputBuf[j]? = some r → st1.outputBuf[j]? = some r := by
  obtain ⟨i, s, _, hget, rfl⟩ := updPdo_some h
  refine ⟨by simp, ?_⟩
  intro j r hr hj
  exact getElem?_set_other hget hj (hr s)

theorem parsePdoEntryAttrs_accept (env : Env) (st st0 : State) (a : Attrs)
    (h : parsePdoEntryAttrs env st a = some st0) (hs : st0.stopped = false) :
    ∃ parent : LCEC_CONF_PDOENTRY_T, st0.pdoEntry = some parent ∧ parent.bitLength < 256 ∧
      st0.currComplexBitOffset = 0 ∧ st0.outputBuf.length = st.outputBuf.length + 1 := by
  unfold parsePdoEntryAttrs at h
  split at h
  · cases h; simp [State.stop] at hs
  · rename_i st2 halloc
    obtain ⟨_, rfl⟩ := addOutputBuffer_some halloc
    simp only at h
    split at h
    · cases h
    · cases h; simp [State.stop] at hs
    · rename_i e fr hloop
      have hinv := attrLoop_cont_inv (pdoEntryBody env) (fun p => p.1.bitLength < 256)
        (fun p n v q hp hb => pdoEntryBody_inv env p q n v hp hb) a _ _ (by simp) hloop
      simp only at hinv
      split_ifs at h with h1 h2 h3 h4 h5
      any_goals (cases h; simp [State.stop] at hs)
      all_goals
        split at h
        · cases h
        · rename_i st4 hupd4
          obtain ⟨hl4, hk4⟩ := updSlave_keeps hupd4
          split at h
          · cases h
          · rename_i st5 hupd5
            have h5 : st5.outputBuf.length = st4.outputBuf.length ∧
                ∀ (j : Nat) (r : ConfRec), (∀ s, r ≠ ConfRec.slave s) → st4.outputBuf[j]? = some r →
                  st5.outputBuf[j]? = some r := by
              first
                | exact updSlave_keeps hupd5
                | (cases hupd5; exact ⟨rfl, fun j r _ hj => hj⟩)
            obtain ⟨hl5, hk5⟩ := h5
            split at h
            · cases h
            · rename_i st6 hupd6
              obtain ⟨hl6, hk6⟩ := updPdo_keeps hupd6
              cases h
              refine ⟨e, ?_, hinv, rfl, ?_⟩
              · apply pdoEntry_of_getElem (i := st.outputBuf.length) rfl
                apply hk6 _ _ (by simp)
                apply hk5 _ _ (by simp)
                apply hk4 _ _ (by simp)
                simp [State.writeRec, State.stop, set_length_append]
              · simp only
                rw [hl6, hl5, hl4]
                simp [State.writeRec, State.stop]

theorem sum_take_le (l : List Nat) : ∀ (i j : Nat), i ≤ j → (l.take i).sum ≤ (l.take j).sum := by
  induction l with
  | nil => intro i j _; simp
  | cons a t ih =>
    intro i j hij
    cases i with
    | zero => simp
    | succ i =>
      cases j with
      | zero => omega
      | succ j =>
        simp only [List.take_succ_cons, List.sum_cons]
        have := ih i j (by omega)
        omega

theorem sum_take_succ (l : List Nat) : ∀ (i : Nat) (h : i < l.length),
    (l.take (i + 1)).sum = (l.take i).sum + l[i] := by
  induction l with
  | nil => intro i h; simp at h
  | cons a t ih =>
    intro i h
    cases i with
    | zero => simp
    | succ i =>
      simp only [List.take_succ_cons, List.sum_cons, List.getElem_cons_succ]
      have := ih i (by simpa using h)
      omega

/-- C1: for every pdoEntry that `parsePdoEntryAttrs` accepts and every sequence
of complexEntry children that `parseComplexEntryAttrs` accepts under it, the
items appended to the buffer are the complex entries `es`, one per child; the
first bit offset is 0, each bit offset is the sum of the bit lengths of the
earlier siblings, every bit length is at least 1, offset plus bit length of
every entry is at most the bit length of the parent, earlier entries end before
later ones start; the parent's bit length is at most 255 and the 8-bit running
offset ends as the full sum of the bit lengths (it has not wrapped). -/
theorem complexEntry_bit_offsets (env : Env) (st st0 st' : State) (peAttr : Attrs)
    (children : List Attrs)
    (hpe : parsePdoEntryAttrs env st peAttr = some st0)
    (hrun : runComplexEntries env st0 children = some st') (hacc : st'.stopped = false) :
    ∃ (parent : LCEC_CONF_PDOENTRY_T) (es : List LCEC_CONF_COMPLEXENTRY_T),
      st0.pdoEntry = some parent ∧ parent.bitLength ≤ 255 ∧
      st'.outputBuf.drop st0.outputBuf.length = es.map ConfRec.complexEntry ∧
      es.length = children.length ∧
      (∀ e, es.head? = some e → e.bitOffset = 0) ∧
      (∀ k (hk : k < es.length),
        es[k].bitOffset = ((es.take k).map (fun e => e.bitLength)).sum ∧
        1 ≤ es[k].bitLength ∧ es[k].bitOffset + es[k].bitLength ≤ parent.bitLength) ∧
      es.Pairwise (fun a b => a.bitOffset + a.bitLength ≤ b.bitOffset) ∧
      st'.currComplexBitOffset = (es.map (fun e => e.bitLength)).sum ∧
      (es.map (fun e => e.bitLength)).sum ≤ parent.bitLength := by
  have hacc0 : st0.stopped = false := by
    cases hb : st0.stopped with
    | false => rfl
    | true =>
      have := runComplexEntries_stopped env children st0 st' hrun hb
      rw [this] at hacc
      cases hacc
  obtain ⟨parent, hpar, hlt, hoff0, _⟩ := parsePdoEntryAttrs_accept env st st0 peAttr hpe hacc0
  obtain ⟨es, hdrop, hlen, hfin, hes⟩ :=
    runComplexEntries_spec env parent hlt st0.outputBuf.length children st0 st' []
      hpar (Nat.le_refl _) (by simp) (by simpa using hoff0) (by intro k hk; simp at hk) hrun hacc
  have hes2 : ∀ k (hk : k < es.length),
      es[k].bitOffset = ((es.take k).map (fun e => e.bitLength)).sum ∧
      1 ≤ es[k].bitLength ∧ es[k].bitOffset + es[k].bitLength ≤ parent.bitLength := by
    intro k hk
    have := hes k hk
    simpa using this
  have hmono : ∀ (i j : Nat) (hi : i < es.length) (hj : j < es.length), i < j →
      es[i].bitOffset + es[i].bitLength ≤ es[j].bitOffset := by
    intro i j hi hj hij
    rw [(hes2 i hi).1, (hes2 j hj).1, List.map_take, List.map_take]
    have h1 := sum_take_succ (es.map (fun e => e.bitLength)) i (by simpa using hi)
    have h2 := sum_take_le (es.map (fun e => e.bitLength)) (i + 1) j (by omega)
    simp only [List.getElem_map] at h1
    omega
  refine ⟨parent, es, hpar, by omega, hdrop, by simpa using hlen, ?_, hes2, ?_, hfin, ?_⟩
  · intro e he
    cases es with
    | nil => simp at he
    | cons x t =>
      simp only [List.head?_cons, Option.some.injEq] at he
      subst he
      have := (hes2 0 (by simp)).1
      simpa using this
  · rw [List.pairwise_iff_getElem]
    intro i j hi hj hij
    exact hmono i j hi hj hij
  · cases hn : es.length with
    | zero =>
      have : es = [] := List.length_eq_zero.mp hn
      subst this
      simp
    | succ m =>
      have hm : m < es.length := by omega
      have h1 := hes2 m hm
      have h2 := sum_take_succ (es.map (fun e => e.bitLength)) m (by simpa using hm)
      have h3 : (es.map (fun e => e.bitLength)).take (m + 1) = es.map (fun e => e.bitLength) := by
        apply List.take_of_length_le
        simp
        omega
      rw [h3] at h2
      rw [List.map_take] at h1
      simp only [List.getElem_map] at h2
      omega

theorem complexEntry_bit_offsets_witness :
    parsePdoEntryAttrs sampleEnv sampleStatePdo samplePdoEntryAttrs = some sampleStatePdoEntry ∧
    runComplexEntries sampleEnv sampleStatePdoEntry sampleComplexChildren = some sampleStateComplex ∧
    sampleStateComplex.stopped = false ∧
    ∃ (parent : LCEC_CONF_PDOENTRY_T) (es : List LCEC_CONF_COMPLEXENTRY_T),
      sampleStatePdoEntry.pdoEntry = some parent ∧ parent.bitLength ≤ 255 ∧
      sampleStateComplex.outputBuf.drop sampleStatePdoEntry.outputBuf.length =
        es.map ConfRec.complexEntry ∧
      es.length = sampleComplexChildren.length ∧
      (∀ e, es.head? = some e → e.bitOffset = 0) ∧
      (∀ k (hk : k < es.length),
        es[k].bitOffset = ((es.take k).map (fun e => e.bitLength)).sum ∧
        1 ≤ es[k].bitLength ∧ es[k].bitOffset + es[k].bitLength ≤ parent.bitLength) ∧
      es.Pairwise (fun a b => a.bitOffset + a.bitLength ≤ b.bitOffset) ∧
      sampleStateComplex.currComplexBitOffset = (es.map (fun e => e.bitLength)).sum ∧
      (es.map (fun e => e.bitLength)).sum ≤ parent.bitLength :=
  ⟨rfl, rfl, rfl,
    complexEntry_bit_offsets sampleEnv sampleStatePdo sampleStatePdoEntry sampleStateComplex
      samplePdoEntryAttrs sampleComplexChildren rfl rfl rfl⟩

theorem attrLoop_abort_of_mem {P : Type} (body : P → String → String → Step P)
    (hnf : ∀ p n v, body p n v ≠ Step.fault) (n v : String)
    (hab : ∀ p, ∃ q, body p n v = Step.abort q) :
    ∀ (attrs : Attrs) (p : P), (n, v) ∈ attrs → ∃ q, attrLoop body p attrs = Step.abort q := by
  intro attrs
  induction attrs with
  | nil => intro p hm; simp at hm
  | cons a rest ih =>
    intro p hm
    obtain ⟨n1, v1⟩ := a
    simp only [attrLoop]
    cases hb : body p n1 v1 with
    | fault => exact absurd hb (hnf p n1 v1)
    | abort q => exact ⟨q, rfl⟩
    | cont q =>
      simp only
      rcases List.mem_cons.mp hm with heq | hrest
      · cases heq
        obtain ⟨q2, hq2⟩ := hab p
        rw [hq2] at hb
        cases hb
      · exact ih q hrest

theorem complexEntryBody_no_fault (env : Env) (st : State) (parent : LCEC_CONF_PDOENTRY_T)
    (hpar : st.pdoEntry = some parent) (p : LCEC_CONF_COMPLEXENTRY_T × Bool) (n v : String) :
    complexEntryBody env st p n v ≠ Step.fault := by
  unfold complexEntryBody
  rw [hpar]
  dsimp only
  split_ifs
  all_goals first
    | (intro h; cases h)
    | skip
  split
  all_goals (intro h; cases h)

theorem slave_of_snoc (st st1 : State) (r : ConfRec) (hc : st1.currSlave = st.currSlave)
    (hb : st1.outputBuf = st.outputBuf ++ [r]) (hr : ∀ s, r ≠ ConfRec.slave s) :
    st1.slave = st.slave := by
  unfold State.slave
  rw [hc, hb]
  cases st.currSlave with
  | none => rfl
  | some i =>
    simp only
    by_cases hi : i < st.outputBuf.length
    · rw [List.getElem?_append_left hi]
    · have hle := Nat.le_of_not_lt hi
      rw [List.getElem?_append_right hle, List.getElem?_eq_none hle]
      cases hk : i - st.outputBuf.length with
      | zero =>
        simp only [List.getElem?_cons_zero]
        split
        · rename_i s hs
          exact absurd (Option.some.inj hs) (hr s)
        · rfl
      | succ k => simp

/-- In every parse state whose current pdoEntry is `parent`, for every
complexEntry attribute list that holds a `bitLen` attribute whose value `b`
satisfies `currComplexBitOffset + b > parent.bitLength`, the handler
`parseComplexEntryAttrs` returns with the parser stopped, and
`currComplexBitOffset` and the current slave record (so its `pdoMappingCount`)
are as before. -/
theorem complexEntry_overflow_aborts (env : Env) (st : State) (attr : Attrs)
    (parent : LCEC_CONF_PDOENTRY_T) (v : String)
    (hpar : st.pdoEntry = some parent) (hmem : ("bitLen", v) ∈ attr)
    (hgt : (st.currComplexBitOffset : Int) + atoi env.longBits v > (parent.bitLength : Int)) :
    ∃ st1, parseComplexEntryAttrs env st attr = some st1 ∧ st1.stopped = true ∧
      st1.currComplexBitOffset = st.currComplexBitOffset ∧ st1.slave = st.slave := by
  unfold parseComplexEntryAttrs
  split
  · exact ⟨st.stop, rfl, rfl, rfl, rfl⟩
  · rename_i st2 halloc
    obtain ⟨_, rfl⟩ := addOutputBuffer_some halloc
    dsimp only
    have hab : ∀ p, ∃ q, complexEntryBody env st p "bitLen" v = Step.abort q := by
      intro p
      unfold complexEntryBody
      rw [hpar]
      dsimp only
      rw [if_pos rfl]
      split_ifs
      · exact ⟨p, rfl⟩
      · exact ⟨p, rfl⟩
    obtain ⟨q, hq⟩ := attrLoop_abort_of_mem (complexEntryBody env st)
      (complexEntryBody_no_fault env st parent hpar) "bitLen" v hab attr
      ({ bitOffset := st.currComplexBitOffset }, false) hmem
    rw [hq]
    refine ⟨_, rfl, rfl, rfl, ?_⟩
    exact slave_of_snoc st _ (ConfRec.complexEntry q.1) rfl
      (by simp [State.stop, State.writeRec, set_length_append]) (by intro s h; cases h)

theorem complexEntry_overflow_aborts_witness :
    sampleStatePdoEntry.pdoEntry =
      some { index := 0x7000, subindex := 1, bitLength := 16, subType := lcecPdoEntTypeComplex } ∧
    ("bitLen", "17") ∈ [("halType", "bit"), ("bitLen", "17")] ∧
    (sampleStatePdoEntry.currComplexBitOffset : Int) + atoi sampleEnv.longBits "17" > ((16 : Nat) : Int) ∧
    ∃ st1, parseComplexEntryAttrs sampleEnv sampleStatePdoEntry [("halType", "bit"), ("bitLen", "17")]
        = some st1 ∧ st1.stopped = true ∧
      st1.currComplexBitOffset = sampleStatePdoEntry.currComplexBitOffset ∧
      st1.slave = sampleStatePdoEntry.slave :=
  ⟨by rfl, by decide, by decide,
    complexEntry_overflow_aborts sampleEnv sampleStatePdoEntry [("halType", "bit"), ("bitLen", "17")]
      { index := 0x7000, subindex := 1, bitLength := 16, subType := lcecPdoEntTypeComplex } "17"
      (by rfl) (by decide) (by decide)⟩

theorem digitOf_decimal {c : Char} (h : '0' ≤ c ∧ c ≤ '9') :
    digitOf c = some (c.toNat - 48) ∧ c.toNat - 48 < 10 := by
  unfold digitOf
  rw [if_pos h]
  refine ⟨rfl, ?_⟩
  have h2 : c.val ≤ ('9' : Char).val := h.2
  have h3 : c.toNat = c.val.toNat := rfl
  have h4 : ('9' : Char).val.toNat = 57 := by decide
  have h5 : c.val.toNat ≤ ('9' : Char).val.toNat := h2
  omega

theorem scanDigits_decimal : ∀ (ds : List Char) (acc n : Nat),
    (∀ c ∈ ds, '0' ≤ c ∧ c ≤ '9') →
    scanDigits 10 acc n ds =
      (ds.foldl (fun a c => a * 10 + (c.toNat - 48)) acc, n + ds.length, []) := by
  intro ds
  induction ds with
  | nil => intro acc n _; simp [scanDigits]
  | cons c cs ih =>
    intro acc n h
    have hc := digitOf_decimal (h c (List.mem_cons_self _ _))
    simp only [scanDigits, hc.1, if_pos hc.2, List.foldl_cons, List.length_cons]
    rw [ih _ _ (fun x hx => h x (List.mem_cons_of_mem _ hx))]
    simp only [Prod.mk.injEq, and_true, true_and]
    omega

theorem decimal_not_special {c : Char} (h : '0' ≤ c ∧ c ≤ '9') :
    isspace c = false ∧ c ≠ '-' ∧ c ≠ '+' ∧ c ≠ '*' := by
  have k : ∀ d : Char, ¬ ('0' ≤ d) → c ≠ d := by
    intro d hd heq
    subst heq
    exact hd h.1
  refine ⟨?_, k _ (by decide), k _ (by decide), k _ (by decide)⟩
  unfold isspace
  simp [k ' ' (by decide), k '\t' (by decide), k '\n' (by decide), k '\x0b' (by decide),
    k '\x0c' (by decide), k '\r' (by decide)]

theorem scanBase_ten (s : List Char) : scanBase 10 s = (10, s) := by
  unfold scanBase
  split <;> simp

theorem scanNumber_decimal (ds : List Char) (hne : ds ≠ [])
    (hd : ∀ c ∈ ds, '0' ≤ c ∧ c ≤ '9') :
    scanNumber 10 ds = some (false, decimalValue ds, []) := by
  cases ds with
  | nil => exact absurd rfl hne
  | cons c cs =>
    obtain ⟨hsp, hm, hp, _⟩ := decimal_not_special (hd c (List.mem_cons_self _ _))
    have hscan := scanDigits_decimal (c :: cs) 0 0 hd
    have hsign : scanSign (c :: cs) = (false, c :: cs) := by
      unfold scanSign
      split
      · rename_i r h1
        cases h1
        exact absurd rfl hm
      · rename_i r h1
        cases h1
        exact absurd rfl hp
      · rfl
    unfold scanNumber
    simp only [List.dropWhile, hsp, hsign, scanBase_ten, hscan]
    simp [decimalValue]

theorem toInt32_of_range {x : Int} (h0 : 0 ≤ x) (h1 : x < 2147483648) : toInt32 x = x := by
  unfold toInt32
  omega

theorem two_pow_ge {n : Nat} (h : 32 ≤ n) : (2147483648 : Int) ≤ 2 ^ (n - 1) := by
  have h1 : (2 : Int) ^ 31 ≤ 2 ^ (n - 1) := by
    apply pow_le_pow_right₀ (by norm_num)
    omega
  calc (2147483648 : Int) = 2 ^ 31 := by norm_num
    _ ≤ 2 ^ (n - 1) := h1

theorem atoi_decimal (longBits : Nat) (hbits : 32 ≤ longBits) (ds : List Char) (hne : ds ≠ [])
    (hd : ∀ c ∈ ds, '0' ≤ c ∧ c ≤ '9') (hN : decimalValue ds < 2147483648) :
    atoi longBits (String.mk ds) = (decimalValue ds : Int) := by
  unfold atoi strtol
  simp only [scanNumber_decimal ds hne hd]
  unfold satLong
  have := two_pow_ge hbits
  have hcast : ((decimalValue ds : Nat) : Int) < 2147483648 := by exact_mod_cast hN
  simp only [Bool.false_eq_true, if_false]
  rw [if_neg (by omega)]
  exact toInt32_of_range (by omega) hcast

theorem parseSyncCycle_star (env : Env) (st : State) (rest : List Char) :
    parseSyncCycle env st (String.mk ('*' :: rest)) =
      st.master.map (fun m =>
        toInt32 (((toUInt 32 (atoi env.longBits (String.mk rest)) * m.appTimePeriod) % 4294967296 : Nat) : Int)) := by
  unfold parseSyncCycle
  simp only
  cases st.master <;> simp

theorem parseSyncCycle_plain (env : Env) (st : State) (text : String)
    (h : text.data.head? ≠ some '*') :
    parseSyncCycle env st text = some (atoi env.longBits text) := by
  unfold parseSyncCycle
  split
  · rename_i rest heq
    rw [heq] at h
    simp at h
  · rfl

/-- C3 (amended): `parseSyncCycle` decides the form by the first character
only.  For a text `*` followed by decimal digits that denote `N < 2^31`, under a
current master with period `P`, the result is `N * P` reduced to a 32-bit `int`,
which is `N * P` itself whenever `N * P < 2^31`.  For a text of decimal digits
that denote `N < 2^31` the result is `N` in every state.  For a text that does
not start with `*` the result is the same in every two states (it does not
depend on the master). -/
theorem parseSyncCycle_forms (env : Env) (hbits : 32 ≤ env.longBits) (ds : List Char)
    (hne : ds ≠ []) (hd : ∀ c ∈ ds, '0' ≤ c ∧ c ≤ '9') (hN : decimalValue ds < 2147483648) :
    (∀ (st : State) (m : LCEC_CONF_MASTER_T), st.master = some m →
      parseSyncCycle env st (String.mk ('*' :: ds)) =
        some (toInt32 (((decimalValue ds * m.appTimePeriod) % 4294967296 : Nat) : Int)) ∧
      (decimalValue ds * m.appTimePeriod < 2147483648 →
        parseSyncCycle env st (String.mk ('*' :: ds)) =
          some ((decimalValue ds * m.appTimePeriod : Nat) : Int))) ∧
    (∀ st : State, parseSyncCycle env st (String.mk ds) = some (decimalValue ds : Int)) ∧
    (∀ (st st' : State) (text : String), text.data.head? ≠ some '*' →
      parseSyncCycle env st text = parseSyncCycle env st' text) := by
  have hatoi := atoi_decimal env.longBits hbits ds hne hd hN
  have hu : toUInt 32 (decimalValue ds : Int) = decimalValue ds := by
    unfold toUInt
    norm_num
    omega
  refine ⟨?_, ?_, ?_⟩
  · intro st m hm
    have h1 : parseSyncCycle env st (String.mk ('*' :: ds)) =
        some (toInt32 (((decimalValue ds * m.appTimePeriod) % 4294967296 : Nat) : Int)) := by
      rw [parseSyncCycle_star, hm, hatoi, hu]
      rfl
    refine ⟨h1, ?_⟩
    intro hlt
    rw [h1, Nat.mod_eq_of_lt (by omega)]
    have h2 := toInt32_of_range (x := ((decimalValue ds * m.appTimePeriod : Nat) : Int))
      (Int.natCast_nonneg _) (by exact_mod_cast hlt)
    rw [h2]
  · intro st
    have hhead : (String.mk ds).data.head? ≠ some '*' := by
      cases ds with
      | nil => exact absurd rfl hne
      | cons c cs =>
        have := (decimal_not_special (hd c (List.mem_cons_self _ _))).2.2.2
        simpa using this
    rw [parseSyncCycle_plain env st _ hhead, hatoi]
  · intro st st' text h
    rw [parseSyncCycle_plain env st text h, parseSyncCycle_plain env st' text h]

theorem parseSyncCycle_forms_witness :
    32 ≤ sampleEnv.longBits ∧ ['4'] ≠ [] ∧ (∀ c ∈ ['4'], '0' ≤ c ∧ c ≤ '9') ∧
    decimalValue ['4'] < 2147483648 ∧
    ((∀ (st : State) (m : LCEC_CONF_MASTER_T), st.master = some m →
      parseSyncCycle sampleEnv st (String.mk ('*' :: ['4'])) =
        some (toInt32 (((decimalValue ['4'] * m.appTimePeriod) % 4294967296 : Nat) : Int)) ∧
      (decimalValue ['4'] * m.appTimePeriod < 2147483648 →
        parseSyncCycle sampleEnv st (String.mk ('*' :: ['4'])) =
          some ((decimalValue ['4'] * m.appTimePeriod : Nat) : Int))) ∧
    (∀ st : State, parseSyncCycle sampleEnv st (String.mk ['4']) = some (decimalValue ['4'] : Int)) ∧
    (∀ (st st' : State) (text : String), text.data.head? ≠ some '*' →
      parseSyncCycle sampleEnv st text = parseSyncCycle sampleEnv st' text)) :=
  ⟨by decide, by decide, by decide, by decide,
    parseSyncCycle_forms sampleEnv (by decide) ['4'] (by decide) (by decide) (by decide)⟩

/-- C3, counterexample: under a master with period `P = 1000000000` the text
`*5` does not give `5 * P`; the product is reduced to 32 bits. -/
theorem parseSyncCycle_overflow :
    sampleStateSlowMaster.master.map (fun m => m.appTimePeriod) = some 1000000000 ∧
    parseSyncCycle sampleEnv sampleStateSlowMaster "*5" = some 705032704 ∧
    parseSyncCycle sampleEnv sampleStateSlowMaster "*5" ≠ some (5 * 1000000000) := by
  refine ⟨by rfl, by rfl, ?_⟩
  intro h
  have h2 : parseSyncCycle sampleEnv sampleStateSlowMaster "*5" = some 705032704 := by rfl
  rw [h2] at h
  exact absurd h (by decide)

theorem slave_some {st : State} {s : LCEC_CONF_SLAVE_T} (h : st.slave = some s) :
    ∃ i, st.currSlave = some i ∧ st.outputBuf[i]? = some (ConfRec.slave s) := by
  unfold State.slave at h
  split at h
  · cases h
  · rename_i i hi
    split at h
    · rename_i q hq
      cases h
      exact ⟨i, hi, hq⟩
    · cases h

theorem slave_of_getElem {st : State} {i : Nat} {s : LCEC_CONF_SLAVE_T}
    (hi : st.currSlave = some i) (hg : st.outputBuf[i]? = some (ConfRec.slave s)) :
    st.slave = some s := by
  unfold State.slave
  rw [hi]
  simp only
  rw [hg]

theorem pdo_some {st : State} {s : LCEC_CONF_PDO_T} (h : st.pdo = some s) :
    ∃ i, st.currPdo = some i ∧ st.outputBuf[i]? = some (ConfRec.pdo s) := by
  unfold State.pdo at h
  split at h
  · cases h
  · rename_i i hi
    split at h
    · rename_i q hq
      cases h
      exact ⟨i, hi, hq⟩
    · cases h

theorem pdo_of_getElem {st : State} {i : Nat} {s : LCEC_CONF_PDO_T}
    (hi : st.currPdo = some i) (hg : st.outputBuf[i]? = some (ConfRec.pdo s)) :
    st.pdo = some s := by
  unfold State.pdo
  rw [hi]
  simp only
  rw [hg]

theorem updSlave_of_slave {st : State} {s : LCEC_CONF_SLAVE_T}
    (f : LCEC_CONF_SLAVE_T → LCEC_CONF_SLAVE_T) (h : st.slave = some s) :
    ∃ i, st.currSlave = some i ∧ st.outputBuf[i]? = some (ConfRec.slave s) ∧
      st.updSlave f = some { st with outputBuf := st.outputBuf.set i (ConfRec.slave (f s)) } := by
  obtain ⟨i, hi, hg⟩ := slave_some h
  refine ⟨i, hi, hg, ?_⟩
  unfold State.updSlave
  rw [hi, h]

theorem updPdo_of_pdo {st : State} {s : LCEC_CONF_PDO_T}
    (f : LCEC_CONF_PDO_T → LCEC_CONF_PDO_T) (h : st.pdo = some s) :
    ∃ i, st.currPdo = some i ∧ st.outputBuf[i]? = some (ConfRec.pdo s) ∧
      st.updPdo f = some { st with outputBuf := st.outputBuf.set i (ConfRec.pdo (f s)) } := by
  obtain ⟨i, hi, hg⟩ := pdo_some h
  refine ⟨i, hi, hg, ?_⟩
  unfold State.updPdo
  rw [hi, h]

theorem updSlave_slave {st st1 : State} {f : LCEC_CONF_SLAVE_T → LCEC_CONF_SLAVE_T}
    (h : st.updSlave f = some st1) : ∃ s, st.slave = some s ∧ st1.slave = some (f s) := by
  obtain ⟨i, s, hi, hg, rfl⟩ := updSlave_some h
  have hlt : i < st.outputBuf.length := (List.getElem?_eq_some.mp hg).1
  exact ⟨s, slave_of_getElem hi hg,
    slave_of_getElem (i := i) (by exact hi) (by simp [List.getElem?_set_self hlt])⟩

theorem updSlave_pdo {st st1 : State} {f : LCEC_CONF_SLAVE_T → LCEC_CONF_SLAVE_T}
    (h : st.updSlave f = some st1) : st1.pdo = st.pdo := by
  obtain ⟨i, s, hi, hg, rfl⟩ := updSlave_some h
  have hlt : i < st.outputBuf.length := (List.getElem?_eq_some.mp hg).1
  unfold State.pdo
  dsimp only
  cases st.currPdo with
  | none => rfl
  | some j =>
    dsimp only
    by_cases hji : i = j
    · subst hji
      rw [List.getElem?_set_self hlt, hg]
    · rw [List.getElem?_set_ne hji]

theorem updPdo_stopped {st st1 : State} {f : LCEC_CONF_PDO_T → LCEC_CONF_PDO_T}
    (h : st.updPdo f = some st1) : st1.stopped = st.stopped := by
  obtain ⟨i, s, _, _, rfl⟩ := updPdo_some h
  rfl

theorem updPdo_pdo {st st1 : State} {f : LCEC_CONF_PDO_T → LCEC_CONF_PDO_T}
    (h : st.updPdo f = some st1) : ∃ p, st.pdo = some p := by
  obtain ⟨i, s, hi, hg, rfl⟩ := updPdo_some h
  exact ⟨s, pdo_of_getElem hi hg⟩

/-- The part of `parsePdoEntryAttrs` behind the tests: the counters and the
back-references. -/
theorem pdoEntry_counters_some (st3 : State) (i : Nat) (halPin : String) :
    (∃ st1,
      (match st3.updSlave (fun s => { s with pdoEntryCount := incU32 s.pdoEntryCount }) with
        | none => none
        | some st4 =>
          match (if halPin ≠ "" then
                  st4.updSlave (fun s => { s with pdoMappingCount := incU32 s.pdoMappingCount })
                else some st4) with
          | none => none
          | some st5 =>
            match st5.updPdo (fun q => { q with pdoEntryCount := incU32 q.pdoEntryCount }) with
            | none => none
            | some st6 => some { st6 with currPdoEntry := some i, currComplexBitOffset := 0 })
        = some st1 ∧ st1.stopped = false) ↔
      (st3.stopped = false ∧ st3.slave.isSome = true ∧ st3.pdo.isSome = true) := by
  constructor
  · rintro ⟨st1, h, hs⟩
    split at h
    · cases h
    · rename_i st4 h4
      split at h
      · cases h
      · rename_i st5 h5
        split at h
        · cases h
        · rename_i st6 h6
          cases h
          obtain ⟨s, hs3, _⟩ := updSlave_slave h4
          obtain ⟨p5, hp5⟩ := updPdo_pdo h6
          have hst5 : st5.stopped = st4.stopped ∧ st5.pdo = st4.pdo := by
            split_ifs at h5
            · exact ⟨updSlave_stopped h5, updSlave_pdo h5⟩
            · cases h5
              exact ⟨rfl, rfl⟩
          have e1 := updPdo_stopped h6
          have e2 := updSlave_stopped h4
          have e3 := updSlave_pdo h4
          simp only at hs
          refine ⟨?_, ?_, ?_⟩
          · rw [← e2, ← hst5.1, ← e1]; exact hs
          · rw [hs3]; rfl
          · rw [← e3, ← hst5.2, hp5]; rfl
  · rintro ⟨hs, hsl, hpd⟩
    obtain ⟨s, hs3⟩ := Option.isSome_iff_exists.mp hsl
    obtain ⟨p, hp3⟩ := Option.isSome_iff_exists.mp hpd
    obtain ⟨st4, h4⟩ : ∃ st4, st3.updSlave
        (fun s => { s with pdoEntryCount := incU32 s.pdoEntryCount }) = some st4 := by
      obtain ⟨i4, _, _, h4⟩ := updSlave_of_slave
        (fun s => { s with pdoEntryCount := incU32 s.pdoEntryCount }) hs3
      exact ⟨_, h4⟩
    rw [h4]
    dsimp only
    obtain ⟨s4, _, hs4⟩ := updSlave_slave h4
    have h4p := updSlave_pdo h4
    have h4t := updSlave_stopped h4
    have h5 : ∃ st5, (if halPin ≠ "" then
          st4.updSlave (fun s => { s with pdoMappingCount := incU32 s.pdoMappingCount })
        else some st4) = some st5 ∧ st5.stopped = st4.stopped ∧ st5.pdo = st4.pdo := by
      split_ifs
      · obtain ⟨i5, _, _, h5⟩ := updSlave_of_slave
          (fun s => { s with pdoMappingCount := incU32 s.pdoMappingCount }) hs4
        exact ⟨_, h5, updSlave_stopped h5, updSlave_pdo h5⟩
      · exact ⟨st4, rfl, rfl, rfl⟩
    obtain ⟨st5, h5, h5t, h5p⟩ := h5
    rw [h5]
    dsimp only
    have hp5 : st5.pdo = some p := by rw [h5p, h4p, hp3]
    obtain ⟨st6, h6⟩ : ∃ st6, st5.updPdo
        (fun q => { q with pdoEntryCount := incU32 q.pdoEntryCount }) = some st6 := by
      obtain ⟨i6, _, _, h6⟩ := updPdo_of_pdo
        (fun q => { q with pdoEntryCount := incU32 q.pdoEntryCount }) hp5
      exact ⟨_, h6⟩
    rw [h6]
    refine ⟨_, rfl, ?_⟩
    dsimp only
    rw [updPdo_stopped h6, h5t, h4t, hs]

theorem pdo_of_snoc (st st1 : State) (r : ConfRec) (hc : st1.currPdo = st.currPdo)
    (hb : st1.outputBuf = st.outputBuf ++ [r]) (hr : ∀ s, r ≠ ConfRec.pdo s) :
    st1.pdo = st.pdo := by
  unfold State.pdo
  rw [hc, hb]
  cases st.currPdo with
  | none => rfl
  | some i =>
    simp only
    by_cases hi : i < st.outputBuf.length
    · rw [List.getElem?_append_left hi]
    · have hle := Nat.le_of_not_lt hi
      rw [List.getElem?_append_right hle, List.getElem?_eq_none hle]
      cases hk : i - st.outputBuf.length with
      | zero =>
        simp only [List.getElem?_cons_zero]
        split
        · rename_i s hs
          exact absurd (Option.some.inj hs) (hr s)
        · rfl
      | succ k => simp

theorem stop_not_accept (X : State) (R : Prop) (hR : ¬R) :
    (∃ st1, some X.stop = some st1 ∧ st1.stopped = false) ↔ R := by
  constructor
  · rintro ⟨st1, h, hs⟩
    cases h
    cases hs
  · intro h
    exact absurd h hR

/-- When `parsePdoEntryAttrs` accepts: the parser was not stopped, the
reservation succeeds, the current slave and pdo exist, the attribute loop runs
to its end, and the record passes the five tests behind the loop. -/
theorem parsePdoEntryAttrs_accept_iff (env : Env) (st : State) (attr : Attrs) :
    (∃ st1, parsePdoEntryAttrs env st attr = some st1 ∧ st1.stopped = false) ↔
      (st.stopped = false ∧ env.sizeof lcecConfTypePdoEntry ≤ st.freeMem ∧
        st.slave.isSome = true ∧ st.pdo.isSome = true ∧
        ∃ p fr, attrLoop (pdoEntryBody env) ({ index := 0xffff, subindex := 0xff }, false) attr
            = Step.cont (p, fr) ∧
          p.index ≠ 0xffff ∧ p.subindex ≠ 0xff ∧ p.bitLength ≠ 0 ∧
          ¬(p.subType = lcecPdoEntTypeComplex ∧ p.halPin ≠ "") ∧
          ¬(fr = true ∧ p.halType ≠ HAL_FLOAT)) := by
  unfold parsePdoEntryAttrs
  by_cases hmem : env.sizeof lcecConfTypePdoEntry ≤ st.freeMem
  · have halloc : addOutputBuffer st (env.sizeof lcecConfTypePdoEntry) (ConfRec.pdoEntry {}) =
        some { st with outputBuf := st.outputBuf ++ [ConfRec.pdoEntry {}],
                       outputLen := st.outputLen + env.sizeof lcecConfTypePdoEntry,
                       freeMem := st.freeMem - env.sizeof lcecConfTypePdoEntry } := by
      unfold addOutputBuffer
      rw [if_pos hmem]
    rw [halloc]
    dsimp only
    cases hloop : attrLoop (pdoEntryBody env) ({ index := 0xffff, subindex := 0xff }, false) attr with
    | fault =>
      dsimp only
      constructor
      · rintro ⟨st1, h, _⟩
        cases h
      · rintro ⟨_, _, _, _, p, fr, hl, _⟩
        cases hl
    | abort q =>
      dsimp only
      apply stop_not_accept
      rintro ⟨_, _, _, _, p, fr, hl, _⟩
      cases hl
    | cont q =>
      obtain ⟨p, fr⟩ := q
      dsimp only
      by_cases h1 : p.index = 0xffff
      · rw [if_pos h1]
        apply stop_not_accept
        rintro ⟨_, _, _, _, p', fr', hl, c1, _⟩
        cases hl
        exact c1 h1
      by_cases h2 : p.subindex = 0xff
      · rw [if_neg h1, if_pos h2]
        apply stop_not_accept
        rintro ⟨_, _, _, _, p', fr', hl, _, c2, _⟩
        cases hl
        exact c2 h2
      by_cases h3 : p.bitLength = 0
      · rw [if_neg h1, if_neg h2, if_pos h3]
        apply stop_not_accept
        rintro ⟨_, _, _, _, p', fr', hl, _, _, c3, _⟩
        cases hl
        exact c3 h3
      by_cases h5 : fr = true ∧ p.halType ≠ HAL_FLOAT
      · rw [if_neg h1, if_neg h2, if_neg h3, if_pos h5]
        apply stop_not_accept
        rintro ⟨_, _, _, _, p', fr', hl, _, _, _, _, c5⟩
        cases hl
        exact c5 h5
      rw [if_neg h1, if_neg h2, if_neg h3, if_neg h5, pdoEntry_counters_some]
      have hbuf : ∀ (b : Bool), (({ st with
            outputBuf := st.outputBuf ++ [ConfRec.pdoEntry {}],
            outputLen := st.outputLen + env.sizeof lcecConfTypePdoEntry,
            freeMem := st.freeMem - env.sizeof lcecConfTypePdoEntry } : State).writeRec
              st.outputBuf.length (ConfRec.pdoEntry p)).outputBuf
            = st.outputBuf ++ [ConfRec.pdoEntry p] := by
        intro _
        simp [State.writeRec, set_length_append]
      by_cases h4 : p.subType = lcecPdoEntTypeComplex ∧ p.halPin ≠ ""
      · rw [if_pos h4]
        constructor
        · rintro ⟨a, _⟩
          cases a
        · rintro ⟨_, _, _, _, p', fr', hl, _, _, _, c4, _⟩
          cases hl
          exact absurd h4 c4
      · rw [if_neg h4]
        have hsl := slave_of_snoc st (({ st with
            outputBuf := st.outputBuf ++ [ConfRec.pdoEntry {}],
            outputLen := st.outputLen + env.sizeof lcecConfTypePdoEntry,
            freeMem := st.freeMem - env.sizeof lcecConfTypePdoEntry } : State).writeRec
              st.outputBuf.length (ConfRec.pdoEntry p)) (ConfRec.pdoEntry p) rfl (hbuf true)
            (by intro s h; cases h)
        have hpd := pdo_of_snoc st (({ st with
            outputBuf := st.outputBuf ++ [ConfRec.pdoEntry {}],
            outputLen := st.outputLen + env.sizeof lcecConfTypePdoEntry,
            freeMem := st.freeMem - env.sizeof lcecConfTypePdoEntry } : State).writeRec
              st.outputBuf.length (ConfRec.pdoEntry p)) (ConfRec.pdoEntry p) rfl (hbuf true)
            (by intro s h; cases h)
        rw [hsl, hpd]
        constructor
        · rintro ⟨a, b, c⟩
          exact ⟨a, hmem, b, c, p, fr, rfl, h1, h2, h3, h4, h5⟩
        · rintro ⟨a, _, b, c, _⟩
          exact ⟨a, b, c⟩
  · have halloc : addOutputBuffer st (env.sizeof lcecConfTypePdoEntry) (ConfRec.pdoEntry {}) = none := by
      unfold addOutputBuffer
      rw [if_neg hmem]
    rw [halloc]
    dsimp only
    apply stop_not_accept
    rintro ⟨_, c, _⟩
    exact hmem c

theorem attrLoop_cons_cont {P : Type} {body : P → String → String → Step P} {p q : P}
    {n v : String} {rest : Attrs} (h : attrLoop body p ((n, v) :: rest) = Step.cont q) :
    ∃ p1, body p n v = Step.cont p1 ∧ attrLoop body p1 rest = Step.cont q := by
  simp only [attrLoop] at h
  cases hb : body p n v with
  | cont p1 => rw [hb] at h; exact ⟨p1, rfl, h⟩
  | abort p1 => rw [hb] at h; cases h
  | fault => rw [hb] at h; cases h

/-- A field that only the attribute `name` writes keeps its value over a loop
without that attribute. -/
theorem attrLoop_frame {P α : Type} (body : P → String → String → Step P) (F : P → α)
    (name : String)
    (hother : ∀ p n v q, n ≠ name → body p n v = Step.cont q → F q = F p) :
    ∀ (attrs : Attrs) (p q : P), (∀ a ∈ attrs, a.1 ≠ name) →
      attrLoop body p attrs = Step.cont q → F q = F p := by
  intro attrs
  induction attrs with
  | nil =>
    intro p q _ h
    simp only [attrLoop, Step.cont.injEq] at h
    rw [h]
  | cons a rest ih =>
    intro p q hn h
    obtain ⟨n, v⟩ := a
    obtain ⟨p1, hb, hr⟩ := attrLoop_cons_cont h
    rw [ih p1 q (fun a ha => hn a (List.mem_cons_of_mem _ ha)) hr]
    exact hother p n v p1 (hn (n, v) (List.mem_cons_self _ _)) hb

/-- With pairwise distinct attribute names, a field that only the attribute
`name` writes has at the end of the loop the value the pass for that attribute
gave it, and that pass started from the initial value of the field. -/
theorem attrLoop_nodup_field {P α : Type} (body : P → String → String → Step P) (F : P → α)
    (name val : String)
    (hother : ∀ p n v q, n ≠ name → body p n v = Step.cont q → F q = F p) :
    ∀ (attrs : Attrs) (p q : P), (attrs.map Prod.fst).Nodup → (name, val) ∈ attrs →
      attrLoop body p attrs = Step.cont q →
      ∃ p1 q1, F p1 = F p ∧ body p1 name val = Step.cont q1 ∧ F q = F q1 := by
  intro attrs
  induction attrs with
  | nil => intro p q _ hm; simp at hm
  | cons a rest ih =>
    intro p q hnd hm h
    obtain ⟨n, v⟩ := a
    obtain ⟨p1, hb, hr⟩ := attrLoop_cons_cont h
    simp only [List.map_cons, List.nodup_cons] at hnd
    rcases List.mem_cons.mp hm with heq | hrest
    · cases heq
      refine ⟨p, p1, rfl, hb, ?_⟩
      apply attrLoop_frame body F name hother rest p1 q _ hr
      intro a ha heq
      apply hnd.1
      rw [← heq]
      exact List.mem_map_of_mem _ ha
    · have hne : n ≠ name := by
        intro heq
        apply hnd.1
        rw [heq]
        exact List.mem_map_of_mem Prod.fst hrest
      obtain ⟨p2, q2, h1, h2, h3⟩ := ih p1 q hnd.2 hrest hr
      exact ⟨p2, q2, h1.trans (hother p n v p1 hne hb), h2, h3⟩

/-- A property that the pass for one attribute of the list establishes and
every pass keeps holds at the end of the loop. -/
theorem attrLoop_established {P : Type} (body : P → String → String → Step P) (I : P → Prop)
    (name val : String) (hset : ∀ p q, body p name val = Step.cont q → I q)
    (hpres : ∀ p n v q, I p → body p n v = Step.cont q → I q) :
    ∀ (attrs : Attrs) (p q : P), (name, val) ∈ attrs →
      attrLoop body p attrs = Step.cont q → I q := by
  intro attrs
  induction attrs with
  | nil => intro p q hm; simp at hm
  | cons a rest ih =>
    intro p q hm h
    obtain ⟨n, v⟩ := a
    obtain ⟨p1, hb, hr⟩ := attrLoop_cons_cont h
    rcases List.mem_cons.mp hm with heq | hrest
    · cases heq
      exact attrLoop_cont_inv body I hpres rest p1 q (hset p p1 hb) hr
    · exact ih p1 q hrest hr

/-- Attributes whose pass always goes on and keeps the relation `R` to the other
run can be left out of the list without changing how the loop ends. -/
theorem attrLoop_filter {P : Type} (body : P → String → String → Step P) (keep : String → Bool)
    (R : P → P → Prop)
    (hdrop : ∀ p p' n v, R p p' → keep n = false → ∃ q, body p n v = Step.cont q ∧ R q p')
    (hkeep : ∀ p p' n v, R p p' → keep n = true → StepRel R (body p n v) (body p' n v)) :
    ∀ (attrs : Attrs) (p p' : P), R p p' →
      StepRel R (attrLoop body p attrs) (attrLoop body p' (attrs.filter (fun a => keep a.1))) := by
  intro attrs
  induction attrs with
  | nil => intro p p' h; simpa [attrLoop, StepRel] using h
  | cons a rest ih =>
    intro p p' h
    obtain ⟨n, v⟩ := a
    cases hk : keep n with
    | false =>
      obtain ⟨q, hq, hR⟩ := hdrop p p' n v h hk
      simp only [List.filter, hk, attrLoop, hq]
      exact ih q p' hR
    | true =>
      have := hkeep p p' n v h hk
      simp only [List.filter, hk, attrLoop]
      cases hb : body p n v with
      | cont q =>
        cases hb' : body p' n v with
        | cont q' =>
          rw [hb, hb'] at this
          exact ih q q' this
        | abort q' => rw [hb, hb'] at this; exact this.elim
        | fault => rw [hb, hb'] at this; exact this.elim
      | abort q =>
        cases hb' : body p' n v with
        | cont q' => rw [hb, hb'] at this; exact this.elim
        | abort q' => trivial
        | fault => rw [hb, hb'] at this; exact this.elim
      | fault =>
        cases hb' : body p' n v with
        | cont q' => rw [hb, hb'] at this; exact this.elim
        | abort q' => rw [hb, hb'] at this; exact this.elim
        | fault => trivial

theorem strcaseeq_excl {v a b : String} (ha : strcaseeq v a = true) (hb : strcaseeq v b = true) :
    a.data.map Char.toLower = b.data.map Char.toLower := by
  unfold strcaseeq at ha hb
  simp only [decide_eq_true_eq] at ha hb
  rw [← ha, ← hb]

theorem pdoEntryHalType_float {p q : LCEC_CONF_PDOENTRY_T} {v : String}
    (h : pdoEntryHalType p v = some q) (hp : p.halType ≠ HAL_FLOAT) :
    q.halType = HAL_FLOAT ↔ floatFamily v := by
  unfold pdoEntryHalType at h
  unfold floatFamily
  split_ifs at h with c1 c2 c3 c4 c5 c6 c7 c8
  · cases h
    constructor
    · intro hh; cases hh
    · rintro (d | d | d | d) <;> exact absurd (strcaseeq_excl c1 d) (by decide)
  · cases h
    constructor
    · intro hh; cases hh
    · rintro (d | d | d | d) <;> exact absurd (strcaseeq_excl c2 d) (by decide)
  · cases h
    constructor
    · intro hh; cases hh
    · rintro (d | d | d | d) <;> exact absurd (strcaseeq_excl c3 d) (by decide)
  · cases h
    exact ⟨fun _ => Or.inl c4, fun _ => rfl⟩
  · cases h
    exact ⟨fun _ => Or.inr (Or.inl c5), fun _ => rfl⟩
  · cases h
    constructor
    · intro hh; exact absurd hh hp
    · rintro (d | d | d | d) <;> exact absurd (strcaseeq_excl c6 d) (by decide)
  · cases h
    exact ⟨fun _ => Or.inr (Or.inr (Or.inl c7)), fun _ => rfl⟩
  · cases h
    exact ⟨fun _ => Or.inr (Or.inr (Or.inr c8)), fun _ => rfl⟩

/-- The `halType` branch acts on the record in a way that depends on the value
only. -/
theorem pdoEntryHalType_uniform (v : String) :
    ∃ g : Option (LCEC_CONF_PDOENTRY_T → LCEC_CONF_PDOENTRY_T),
      (∀ p, pdoEntryHalType p v = g.map (fun f => f p)) ∧
      ∀ f, g = some f → ∀ p p' : LCEC_CONF_PDOENTRY_T,
        (p.subType = p'.subType → (f p).subType = (f p').subType) ∧
        (p.halType = p'.halType → (f p).halType = (f p').halType) := by
  by_cases c1 : strcaseeq v "bit" = true
  · refine ⟨some (fun p => { p with halType := HAL_BIT }), fun p => by simp [pdoEntryHalType, c1], ?_⟩
    intro f hf p p'
    cases hf
    exact ⟨fun h => h, fun _ => rfl⟩
  by_cases c2 : strcaseeq v "s32" = true
  · refine ⟨some (fun p => { p with subType := lcecPdoEntTypeSimple, halType := HAL_S32 }),
      fun p => by simp [pdoEntryHalType, c1, c2], ?_⟩
    intro f hf p p'
    cases hf
    exact ⟨fun _ => rfl, fun _ => rfl⟩
  by_cases c3 : strcaseeq v "u32" = true
  · refine ⟨some (fun p => { p with subType := lcecPdoEntTypeSimple, halType := HAL_U32 }),
      fun p => by simp [pdoEntryHalType, c1, c2, c3], ?_⟩
    intro f hf p p'
    cases hf
    exact ⟨fun _ => rfl, fun _ => rfl⟩
  by_cases c4 : strcaseeq v "float" = true
  · refine ⟨some (fun p => { p with subType := lcecPdoEntTypeFloatSigned, halType := HAL_FLOAT }),
      fun p => by simp [pdoEntryHalType, c1, c2, c3, c4], ?_⟩
    intro f hf p p'
    cases hf
    exact ⟨fun _ => rfl, fun _ => rfl⟩
  by_cases c5 : strcaseeq v "float-unsigned" = true
  · refine ⟨some (fun p => { p with subType := lcecPdoEntTypeFloatUnsigned, halType := HAL_FLOAT }),
      fun p => by simp [pdoEntryHalType, c1, c2, c3, c4, c5], ?_⟩
    intro f hf p p'
    cases hf
    exact ⟨fun _ => rfl, fun _ => rfl⟩
  by_cases c6 : strcaseeq v "complex" = true
  · refine ⟨some (fun p => { p with subType := lcecPdoEntTypeComplex }),
      fun p => by simp [pdoEntryHalType, c1, c2, c3, c4, c5, c6], ?_⟩
    intro f hf p p'
    cases hf
    exact ⟨fun _ => rfl, fun h => h⟩
  by_cases c7 : strcaseeq v "float-ieee" = true
  · refine ⟨some (fun p => { p with subType := lcecPdoEntTypeFloatIeee, halType := HAL_FLOAT }),
      fun p => by simp [pdoEntryHalType, c1, c2, c3, c4, c5, c6, c7], ?_⟩
    intro f hf p p'
    cases hf
    exact ⟨fun _ => rfl, fun _ => rfl⟩
  by_cases c8 : strcaseeq v "float-double-ieee" = true
  · refine ⟨some (fun p => { p with subType := lcecPdoEntTypeFloatDoubleIeee, halType := HAL_FLOAT }),
      fun p => by simp [pdoEntryHalType, c1, c2, c3, c4, c5, c6, c7, c8], ?_⟩
    intro f hf p p'
    cases hf
    exact ⟨fun _ => rfl, fun _ => rfl⟩
  · refine ⟨none, fun p => by simp [pdoEntryHalType, c1, c2, c3, c4, c5, c6, c7, c8], ?_⟩
    intro f hf
    cases hf

theorem pdoEntryHalType_agree (p p' : LCEC_CONF_PDOENTRY_T) (fr fr' : Bool) (v : String)
    (hR : PdoEntryAgree (p, fr) (p', fr')) :
    (pdoEntryHalType p v = none ∧ pdoEntryHalType p' v = none) ∨
    ∃ q q', pdoEntryHalType p v = some q ∧ pdoEntryHalType p' v = some q' ∧
      PdoEntryAgree (q, fr) (q', fr') := by
  obtain ⟨r1, r2, r3, r4, r5, r6⟩ := hR
  simp only at r1 r2 r3 r4 r5 r6
  obtain ⟨g, hg, hcong⟩ := pdoEntryHalType_uniform v
  cases g with
  | none =>
    left
    exact ⟨by rw [hg]; rfl, by rw [hg]; rfl⟩
  | some f =>
    right
    have h1 : pdoEntryHalType p v = some (f p) := by rw [hg]; rfl
    have h2 : pdoEntryHalType p' v = some (f p') := by rw [hg]; rfl
    obtain ⟨a1, a2, a3, a4, _, _⟩ := pdoEntryHalType_frame h1
    obtain ⟨b1, b2, b3, b4, _, _⟩ := pdoEntryHalType_frame h2
    have hc := hcong f rfl p p'
    refine ⟨f p, f p', h1, h2, ?_, ?_, ?_, hc.1 r4, hc.2 r5, ?_⟩
    · show (f p).index = (f p').index
      rw [a1, b1, r1]
    · show (f p).subindex = (f p').subindex
      rw [a2, b2, r2]
    · show (f p).bitLength = (f p').bitLength
      rw [a3, b3, r3]
    · show (f p).halPin = (f p').halPin
      rw [a4, b4, r6]

theorem pdoEntryBody_keep (env : Env) (p p' : LCEC_CONF_PDOENTRY_T × Bool) (n v : String)
    (hR : PdoEntryAgree p p') (hk : notFloatAttr (n, v) = true) :
    StepRel PdoEntryAgree (pdoEntryBody env p n v) (pdoEntryBody env p' n v) := by
  unfold notFloatAttr at hk
  simp only [decide_eq_true_eq] at hk
  obtain ⟨r1, r2, r3, r4, r5, r6⟩ := hR
  unfold pdoEntryBody
  dsimp only
  split_ifs
  all_goals first
    | exact trivial
    | exact ⟨rfl, r2, r3, r4, r5, r6⟩
    | exact ⟨r1, rfl, r3, r4, r5, r6⟩
    | exact ⟨r1, r2, rfl, r4, r5, r6⟩
    | exact ⟨r1, r2, r3, r4, r5, rfl⟩
    | exact absurd (by assumption) hk.1
    | exact absurd (by assumption) hk.2
    | skip
  rcases pdoEntryHalType_agree p.1 p'.1 p.2 p'.2 v ⟨r1, r2, r3, r4, r5, r6⟩ with
    ⟨h1, h2⟩ | ⟨q, q', h1, h2, h3⟩
  · rw [h1, h2]
    exact trivial
  · rw [h1, h2]
    exact h3

theorem pdoEntryBody_drop (env : Env) (p p' : LCEC_CONF_PDOENTRY_T × Bool) (n v : String)
    (hR : PdoEntryAgree p p') (hk : notFloatAttr (n, v) = false) :
    ∃ q, pdoEntryBody env p n v = Step.cont q ∧ PdoEntryAgree q p' := by
  unfold notFloatAttr at hk
  simp only [decide_eq_false_iff_not, not_and_or, not_not] at hk
  rcases hk with hk | hk
  · subst hk
    exact ⟨({ p.1 with floatScale := some v }, true), by simp [pdoEntryBody], hR⟩
  · subst hk
    exact ⟨({ p.1 with floatOffset := some v }, true), by simp [pdoEntryBody], hR⟩

theorem nodup_fst_unique {attrs : Attrs} (hnd : (attrs.map Prod.fst).Nodup) {n v v' : String}
    (h1 : (n, v) ∈ attrs) (h2 : (n, v') ∈ attrs) : v = v' := by
  induction attrs with
  | nil => simp at h1
  | cons a rest ih =>
    simp only [List.map_cons, List.nodup_cons] at hnd
    rcases List.mem_cons.mp h1 with e1 | m1
    · rcases List.mem_cons.mp h2 with e2 | m2
      · rw [← e1] at e2
        exact (Prod.mk.inj e2).2.symm
      · exfalso
        apply hnd.1
        rw [← e1]
        exact List.mem_map_of_mem Prod.fst (a := (n, v')) m2
    · rcases List.mem_cons.mp h2 with e2 | m2
      · exfalso
        apply hnd.1
        rw [← e2]
        exact List.mem_map_of_mem Prod.fst (a := (n, v)) m1
      · exact ih hnd.2 m1 m2

theorem pdoEntryBody_floatReq_set (env : Env) (p q : LCEC_CONF_PDOENTRY_T × Bool) (n v : String)
    (hn : n = "scale" ∨ n = "offset") (h : pdoEntryBody env p n v = Step.cont q) : q.2 = true := by
  rcases hn with hn | hn
  · subst hn
    simp [pdoEntryBody] at h
    rw [← h]
  · subst hn
    simp [pdoEntryBody] at h
    rw [← h]

theorem pdoEntryBody_floatReq_keep (env : Env) (p q : LCEC_CONF_PDOENTRY_T × Bool) (n v : String)
    (hp : p.2 = true) (h : pdoEntryBody env p n v = Step.cont q) : q.2 = true := by
  unfold pdoEntryBody at h
  dsimp only at h
  split_ifs at h
  all_goals first
    | (cases h; exact hp)
    | (cases h; rfl)
    | skip
  split at h
  · cases h
  · cases h
    exact hp

theorem pdoEntryBody_halType_other (env : Env) (p : LCEC_CONF_PDOENTRY_T × Bool) (n v : String)
    (q : LCEC_CONF_PDOENTRY_T × Bool) (hn : n ≠ "halType")
    (h : pdoEntryBody env p n v = Step.cont q) : q.1.halType = p.1.halType := by
  unfold pdoEntryBody at h
  dsimp only at h
  split_ifs at h
  all_goals first
    | (cases h; rfl)
    | skip

theorem pdoEntryBody_halType_at (env : Env) (p q : LCEC_CONF_PDOENTRY_T × Bool) (v : String)
    (h : pdoEntryBody env p "halType" v = Step.cont q) :
    pdoEntryHalType p.1 v = some q.1 := by
  simp only [pdoEntryBody, String.reduceEq, if_false, if_true] at h
  split at h
  · cases h
  · rename_i q1 hq
    cases h
    exact hq

theorem pdoEntry_final_halType (env : Env) (attr : Attrs) (hnd : (attr.map Prod.fst).Nodup)
    (p0 q : LCEC_CONF_PDOENTRY_T × Bool) (hp0 : p0.1.halType = HAL_TYPE_ZERO)
    (h : attrLoop (pdoEntryBody env) p0 attr = Step.cont q) :
    q.1.halType = HAL_FLOAT ↔ ∃ v, ("halType", v) ∈ attr ∧ floatFamily v := by
  by_cases hex : ∃ v, ("halType", v) ∈ attr
  · obtain ⟨v, hv⟩ := hex
    obtain ⟨p1, q1, e1, hb, e2⟩ := attrLoop_nodup_field (pdoEntryBody env)
      (fun x => x.1.halType) "halType" v (pdoEntryBody_halType_other env) attr p0 q hnd hv h
    have hq1 := pdoEntryHalType_float (pdoEntryBody_halType_at env p1 q1 v hb)
      (by rw [e1, hp0]; intro hh; cases hh)
    rw [e2, hq1]
    constructor
    · intro hf
      exact ⟨v, hv, hf⟩
    · rintro ⟨v', hv', hf⟩
      rw [nodup_fst_unique hnd hv hv']
      exact hf
  · have hfr := attrLoop_frame (pdoEntryBody env) (fun x => x.1.halType) "halType"
      (pdoEntryBody_halType_other env) attr p0 q
      (by
        intro a ha heq
        apply hex
        exact ⟨a.2, by rw [← heq]; exact ha⟩) h
    simp only at hfr
    constructor
    · intro hf
      rw [hfr, hp0] at hf
      cases hf
    · rintro ⟨v, hv, _⟩
      exact absurd ⟨v, hv⟩ hex

theorem addOutputBuffer_of_le {st : State} {len : Nat} (r : ConfRec) (h : len ≤ st.freeMem) :
    addOutputBuffer st len r =
      some { st with outputBuf := st.outputBuf ++ [r], outputLen := st.outputLen + len,
                     freeMem := st.freeMem - len } := by
  unfold addOutputBuffer
  rw [if_pos h]

theorem parsePdoEntryAttrs_floatReq_stop (env : Env) (st : State) (attr : Attrs)
    (p : LCEC_CONF_PDOENTRY_T) (hmem : env.sizeof lcecConfTypePdoEntry ≤ st.freeMem)
    (hl : attrLoop (pdoEntryBody env) ({ index := 0xffff, subindex := 0xff }, false) attr
      = Step.cont (p, true))
    (hne : p.halType ≠ HAL_FLOAT) :
    ∃ st1, parsePdoEntryAttrs env st attr = some st1 ∧ st1.stopped = true := by
  unfold parsePdoEntryAttrs
  rw [addOutputBuffer_of_le _ hmem]
  dsimp only
  rw [hl]
  dsimp only
  by_cases h1 : p.index = 0xffff
  · rw [if_pos h1]
    exact ⟨_, rfl, rfl⟩
  by_cases h2 : p.subindex = 0xff
  · rw [if_neg h1, if_pos h2]
    exact ⟨_, rfl, rfl⟩
  by_cases h3 : p.bitLength = 0
  · rw [if_neg h1, if_neg h2, if_pos h3]
    exact ⟨_, rfl, rfl⟩
  rw [if_neg h1, if_neg h2, if_neg h3, if_pos ⟨rfl, hne⟩]
  exact ⟨_, rfl, rfl⟩

theorem pdoEntry_float_iff (env : Env) (st : State) (attr : Attrs)
    (hnd : (attr.map Prod.fst).Nodup)
    (hfl : ∃ a ∈ attr, a.1 = "scale" ∨ a.1 = "offset")
    (hvalid : ∃ st', parsePdoEntryAttrs env st (attr.filter notFloatAttr) = some st' ∧
      st'.stopped = false) :
    ((∃ v, ("halType", v) ∈ attr ∧ floatFamily v) →
      ∃ st1, parsePdoEntryAttrs env st attr = some st1 ∧ st1.stopped = false) ∧
    (¬(∃ v, ("halType", v) ∈ attr ∧ floatFamily v) →
      ∃ st1, parsePdoEntryAttrs env st attr = some st1 ∧ st1.stopped = true) := by
  rw [parsePdoEntryAttrs_accept_iff] at hvalid
  rw [parsePdoEntryAttrs_accept_iff]
  obtain ⟨k1, k2, k3, k4, p', fr', hl', c1, c2, c3, c4, _⟩ := hvalid
  have hsim := attrLoop_filter (pdoEntryBody env) (fun n => notFloatAttr (n, ""))
    PdoEntryAgree
    (fun p p' n v hR hk => pdoEntryBody_drop env p p' n v hR hk)
    (fun p p' n v hR hk => pdoEntryBody_keep env p p' n v hR hk)
    attr ({ index := 0xffff, subindex := 0xff }, false) ({ index := 0xffff, subindex := 0xff }, false)
    ⟨rfl, rfl, rfl, rfl, rfl, rfl⟩
  have hfe : (fun a : String × String => notFloatAttr (a.1, "")) = notFloatAttr := by
    funext a
    rfl
  rw [hfe, hl'] at hsim
  cases hl : attrLoop (pdoEntryBody env) ({ index := 0xffff, subindex := 0xff }, false) attr with
  | fault => rw [hl] at hsim; exact hsim.elim
  | abort q => rw [hl] at hsim; exact hsim.elim
  | cont q =>
    rw [hl] at hsim
    obtain ⟨p, fr⟩ := q
    obtain ⟨r1, r2, r3, r4, r5, r6⟩ := hsim
    simp only at r1 r2 r3 r4 r5 r6
    obtain ⟨a, ha, han⟩ := hfl
    have hfr : fr = true :=
      attrLoop_established (pdoEntryBody env) (fun x => x.2 = true) a.1 a.2
        (fun p q hb => pdoEntryBody_floatReq_set env p q a.1 a.2 han hb)
        (fun p n v q hp hb => pdoEntryBody_floatReq_keep env p q n v hp hb)
        attr _ _ ha hl
    have hht := pdoEntry_final_halType env attr hnd _ _ rfl hl
    simp only at hht
    rw [← hht]
    constructor
    · intro hf
      refine ⟨k1, k2, k3, k4, p, fr, rfl, ?_, ?_, ?_, ?_, ?_⟩
      · rw [r1]; exact c1
      · rw [r2]; exact c2
      · rw [r3]; exact c3
      · rw [r4, r6]; exact c4
      · rintro ⟨_, hne⟩
        exact hne hf
    · intro hne
      subst hfr
      exact parsePdoEntryAttrs_floatReq_stop env st attr p k2 hl hne

/-- When `parseComplexEntryAttrs` accepts: the parser was not stopped, the
reservation succeeds, the attribute loop runs to its end, the record passes the
two tests behind the loop, and the current slave exists when a pin is named. -/
theorem parseComplexEntryAttrs_accept_iff (env : Env) (st : State) (attr : Attrs) :
    (∃ st1, parseComplexEntryAttrs env st attr = some st1 ∧ st1.stopped = false) ↔
      (st.stopped = false ∧ env.sizeof lcecConfTypeComplexEntry ≤ st.freeMem ∧
        ∃ p fr, attrLoop (complexEntryBody env st) ({ bitOffset := st.currComplexBitOffset }, false)
            attr = Step.cont (p, fr) ∧
          p.bitLength ≠ 0 ∧ ¬(fr = true ∧ p.halType ≠ HAL_FLOAT) ∧
          (p.halPin ≠ "" → st.slave.isSome = true)) := by
  unfold parseComplexEntryAttrs
  by_cases hmem : env.sizeof lcecConfTypeComplexEntry ≤ st.freeMem
  · have halloc : addOutputBuffer st (env.sizeof lcecConfTypeComplexEntry) (ConfRec.complexEntry {}) =
        some { st with outputBuf := st.outputBuf ++ [ConfRec.complexEntry {}],
                       outputLen := st.outputLen + env.sizeof lcecConfTypeComplexEntry,
                       freeMem := st.freeMem - env.sizeof lcecConfTypeComplexEntry } := by
      unfold addOutputBuffer
      rw [if_pos hmem]
    rw [halloc]
    dsimp only
    cases hloop : attrLoop (complexEntryBody env st) ({ bitOffset := st.currComplexBitOffset }, false)
        attr with
    | fault =>
      dsimp only
      constructor
      · rintro ⟨st1, h, _⟩
        cases h
      · rintro ⟨_, _, p, fr, hl, _⟩
        cases hl
    | abort q =>
      dsimp only
      apply stop_not_accept
      rintro ⟨_, _, p, fr, hl, _⟩
      cases hl
    | cont q =>
      obtain ⟨p, fr⟩ := q
      dsimp only
      by_cases h3 : p.bitLength = 0
      · rw [if_pos h3]
        apply stop_not_accept
        rintro ⟨_, _, p', fr', hl, c3, _⟩
        cases hl
        exact c3 h3
      by_cases h5 : fr = true ∧ p.halType ≠ HAL_FLOAT
      · rw [if_neg h3, if_pos h5]
        apply stop_not_accept
        rintro ⟨_, _, p', fr', hl, _, c5, _⟩
        cases hl
        exact c5 h5
      rw [if_neg h3, if_neg h5]
      have hbuf : (({ st with
            outputBuf := st.outputBuf ++ [ConfRec.complexEntry {}],
            outputLen := st.outputLen + env.sizeof lcecConfTypeComplexEntry,
            freeMem := st.freeMem - env.sizeof lcecConfTypeComplexEntry } : State).writeRec
              st.outputBuf.length (ConfRec.complexEntry p)).outputBuf
            = st.outputBuf ++ [ConfRec.complexEntry p] := by
        simp [State.writeRec, set_length_append]
      have hsl := slave_of_snoc st (({ st with
          outputBuf := st.outputBuf ++ [ConfRec.complexEntry {}],
          outputLen := st.outputLen + env.sizeof lcecConfTypeComplexEntry,
          freeMem := st.freeMem - env.sizeof lcecConfTypeComplexEntry } : State).writeRec
            st.outputBuf.length (ConfRec.complexEntry p)) (ConfRec.complexEntry p) rfl hbuf
          (by intro s h; cases h)
      by_cases h6 : p.halPin ≠ ""
      · rw [if_pos h6]
        constructor
        · rintro ⟨st1, h, hs⟩
          split at h
          · cases h
          · rename_i st3 hupd
            cases h
            obtain ⟨s, hs3, _⟩ := updSlave_slave hupd
            have ht := updSlave_stopped hupd
            rw [hsl] at hs3
            refine ⟨?_, hmem, p, fr, rfl, h3, h5, fun _ => by rw [hs3]; rfl⟩
            simp only at hs
            rw [ht] at hs
            exact hs
        · rintro ⟨a, _, p', fr', hl, _, _, c6⟩
          cases hl
          obtain ⟨s, hs3⟩ := Option.isSome_iff_exists.mp (c6 h6)
          rw [← hsl] at hs3
          obtain ⟨i4, _, _, h4⟩ := updSlave_of_slave
            (fun s => { s with pdoMappingCount := incU32 s.pdoMappingCount }) hs3
          rw [h4]
          exact ⟨_, rfl, a⟩
      · rw [if_neg h6]
        constructor
        · rintro ⟨st1, h, hs⟩
          cases h
          exact ⟨hs, hmem, p, fr, rfl, h3, h5, fun h => absurd h h6⟩
        · rintro ⟨a, _, _⟩
          exact ⟨_, rfl, a⟩
  · have halloc : addOutputBuffer st (env.sizeof lcecConfTypeComplexEntry) (ConfRec.complexEntry {})
        = none := by
      unfold addOutputBuffer
      rw [if_neg hmem]
    rw [halloc]
    dsimp only
    apply stop_not_accept
    rintro ⟨_, c, _⟩
    exact hmem c

theorem complexEntryHalType_float {p q : LCEC_CONF_COMPLEXENTRY_T} {v : String}
    (h : complexEntryHalType p v = some q) : q.halType = HAL_FLOAT ↔ floatFamily v := by
  unfold complexEntryHalType at h
  unfold floatFamily
  split_ifs at h with c1 c2 c3 c4 c5 c7 c8
  · cases h
    constructor
    · intro hh; cases hh
    · rintro (d | d | d | d) <;> exact absurd (strcaseeq_excl c1 d) (by decide)
  · cases h
    constructor
    · intro hh; cases hh
    · rintro (d | d | d | d) <;> exact absurd (strcaseeq_excl c2 d) (by decide)
  · cases h
    constructor
    · intro hh; cases hh
    · rintro (d | d | d | d) <;> exact absurd (strcaseeq_excl c3 d) (by decide)
  · cases h
    exact ⟨fun _ => Or.inl c4, fun _ => rfl⟩
  · cases h
    exact ⟨fun _ => Or.inr (Or.inl c5), fun _ => rfl⟩
  · cases h
    exact ⟨fun _ => Or.inr (Or.inr (Or.inl c7)), fun _ => rfl⟩
  · cases h
    exact ⟨fun _ => Or.inr (Or.inr (Or.inr c8)), fun _ => rfl⟩

/-- The `halType` branch of the complex entry loop replaces `subType` and
`halType` by values that depend on the attribute value only. -/
theorem complexEntryHalType_uniform (v : String) :
    (∀ p, complexEntryHalType p v = none) ∨
    ∃ (t : LCEC_PDOENT_TYPE_T) (h : hal_type_t),
      ∀ p, complexEntryHalType p v = some { p with subType := t, halType := h } := by
  by_cases c1 : strcaseeq v "bit" = true
  · exact Or.inr ⟨lcecPdoEntTypeSimple, HAL_BIT, fun p => by simp [complexEntryHalType, c1]⟩
  by_cases c2 : strcaseeq v "s32" = true
  · exact Or.inr ⟨lcecPdoEntTypeSimple, HAL_S32, fun p => by simp [complexEntryHalType, c1, c2]⟩
  by_cases c3 : strcaseeq v "u32" = true
  · exact Or.inr ⟨lcecPdoEntTypeSimple, HAL_U32, fun p => by simp [complexEntryHalType, c1, c2, c3]⟩
  by_cases c4 : strcaseeq v "float" = true
  · exact Or.inr ⟨lcecPdoEntTypeFloatSigned, HAL_FLOAT, fun p => by simp [complexEntryHalType, c1, c2, c3, c4]⟩
  by_cases c5 : strcaseeq v "float-unsigned" = true
  · exact Or.inr ⟨lcecPdoEntTypeFloatUnsigned, HAL_FLOAT, fun p => by simp [complexEntryHalType, c1, c2, c3, c4, c5]⟩
  by_cases c7 : strcaseeq v "float-ieee" = true
  · exact Or.inr ⟨lcecPdoEntTypeFloatIeee, HAL_FLOAT, fun p => by simp [complexEntryHalType, c1, c2, c3, c4, c5, c7]⟩
  by_cases c8 : strcaseeq v "float-double-ieee" = true
  · exact Or.inr ⟨lcecPdoEntTypeFloatDoubleIeee, HAL_FLOAT, fun p => by simp [complexEntryHalType, c1, c2, c3, c4, c5, c7, c8]⟩
  · exact Or.inl (fun p => by simp [complexEntryHalType, c1, c2, c3, c4, c5, c7, c8])

theorem complexEntryBody_keep (env : Env) (st : State) (p p' : LCEC_CONF_COMPLEXENTRY_T × Bool)
    (n v : String) (hR : ComplexEntryAgree p p') (hk : notFloatAttr (n, v) = true) :
    StepRel ComplexEntryAgree (complexEntryBody env st p n v) (complexEntryBody env st p' n v) := by
  unfold notFloatAttr at hk
  simp only [decide_eq_true_eq] at hk
  obtain ⟨r1, r2, r3, r4, r5⟩ := hR
  unfold complexEntryBody
  dsimp only
  split_ifs
  all_goals first
    | exact trivial
    | exact ⟨r1, r2, r3, r4, rfl⟩
    | exact absurd (by assumption) hk.1
    | exact absurd (by assumption) hk.2
    | skip
  · cases st.pdoEntry with
    | none => exact trivial
    | some parent =>
      dsimp only
      split_ifs
      · exact trivial
      · exact ⟨r1, rfl, r3, r4, r5⟩
  · rcases complexEntryHalType_uniform v with h | ⟨t, h, hh⟩
    · rw [h, h]
      exact trivial
    · rw [hh, hh]
      exact ⟨r1, r2, rfl, rfl, r5⟩

theorem complexEntryBody_drop (env : Env) (st : State) (p p' : LCEC_CONF_COMPLEXENTRY_T × Bool)
    (n v : String) (hR : ComplexEntryAgree p p') (hk : notFloatAttr (n, v) = false) :
    ∃ q, complexEntryBody env st p n v = Step.cont q ∧ ComplexEntryAgree q p' := by
  unfold notFloatAttr at hk
  simp only [decide_eq_false_iff_not, not_and_or, not_not] at hk
  rcases hk with hk | hk
  · subst hk
    exact ⟨({ p.1 with floatScale := some v }, true), by simp [complexEntryBody], hR⟩
  · subst hk
    exact ⟨({ p.1 with floatOffset := some v }, true), by simp [complexEntryBody], hR⟩

theorem complexEntryBody_floatReq_set (env : Env) (st : State)
    (p q : LCEC_CONF_COMPLEXENTRY_T × Bool) (n v : String)
    (hn : n = "scale" ∨ n = "offset") (h : complexEntryBody env st p n v = Step.cont q) :
    q.2 = true := by
  rcases hn with hn | hn
  · subst hn
    simp [complexEntryBody] at h
    rw [← h]
  · subst hn
    simp [complexEntryBody] at h
    rw [← h]

theorem complexEntryBody_floatReq_keep (env : Env) (st : State)
    (p q : LCEC_CONF_COMPLEXENTRY_T × Bool) (n v : String)
    (hp : p.2 = true) (h : complexEntryBody env st p n v = Step.cont q) : q.2 = true := by
  unfold complexEntryBody at h
  dsimp only at h
  split_ifs at h
  all_goals first
    | (cases h; exact hp)
    | (cases h; rfl)
    | skip
  · split at h
    · cases h
    · split_ifs at h
      cases h
      exact hp
  · split at h
    · cases h
    · cases h
      exact hp

theorem complexEntryBody_halType_other (env : Env) (st : State)
    (p : LCEC_CONF_COMPLEXENTRY_T × Bool) (n v : String)
    (q : LCEC_CONF_COMPLEXENTRY_T × Bool) (hn : n ≠ "halType")
    (h : complexEntryBody env st p n v = Step.cont q) : q.1.halType = p.1.halType := by
  unfold complexEntryBody at h
  dsimp only at h
  split_ifs at h
  all_goals first
    | (cases h; rfl)
    | skip
  split at h
  · cases h
  · split_ifs at h
    cases h
    rfl

theorem complexEntryBody_halType_at (env : Env) (st : State)
    (p q : LCEC_CONF_COMPLEXENTRY_T × Bool) (v : String)
    (h : complexEntryBody env st p "halType" v = Step.cont q) :
    complexEntryHalType p.1 v = some q.1 := by
  simp only [complexEntryBody, String.reduceEq, if_false, if_true] at h
  split at h
  · cases h
  · rename_i q1 hq
    cases h
    exact hq

theorem complexEntry_final_halType (env : Env) (st : State) (attr : Attrs)
    (hnd : (attr.map Prod.fst).Nodup)
    (p0 q : LCEC_CONF_COMPLEXENTRY_T × Bool) (hp0 : p0.1.halType = HAL_TYPE_ZERO)
    (h : attrLoop (complexEntryBody env st) p0 attr = Step.cont q) :
    q.1.halType = HAL_FLOAT ↔ ∃ v, ("halType", v) ∈ attr ∧ floatFamily v := by
  by_cases hex : ∃ v, ("halType", v) ∈ attr
  · obtain ⟨v, hv⟩ := hex
    obtain ⟨p1, q1, e1, hb, e2⟩ := attrLoop_nodup_field (complexEntryBody env st)
      (fun x => x.1.halType) "halType" v (complexEntryBody_halType_other env st) attr p0 q hnd hv h
    have hq1 := complexEntryHalType_float (complexEntryBody_halType_at env st p1 q1 v hb)
    rw [e2, hq1]
    constructor
    · intro hf
      exact ⟨v, hv, hf⟩
    · rintro ⟨v', hv', hf⟩
      rw [nodup_fst_unique hnd hv hv']
      exact hf
  · have hfr := attrLoop_frame (complexEntryBody env st) (fun x => x.1.halType) "halType"
      (complexEntryBody_halType_other env st) attr p0 q
      (by
        intro a ha heq
        apply hex
        exact ⟨a.2, by rw [← heq]; exact ha⟩) h
    simp only at hfr
    constructor
    · intro hf
      rw [hfr, hp0] at hf
      cases hf
    · rintro ⟨v, hv, _⟩
      exact absurd ⟨v, hv⟩ hex

theorem parseComplexEntryAttrs_floatReq_stop (env : Env) (st : State) (attr : Attrs)
    (p : LCEC_CONF_COMPLEXENTRY_T) (hmem : env.sizeof lcecConfTypeComplexEntry ≤ st.freeMem)
    (hl : attrLoop (complexEntryBody env st) ({ bitOffset := st.currComplexBitOffset }, false) attr
      = Step.cont (p, true))
    (hne : p.halType ≠ HAL_FLOAT) :
    ∃ st1, parseComplexEntryAttrs env st attr = some st1 ∧ st1.stopped = true := by
  unfold parseComplexEntryAttrs
  rw [addOutputBuffer_of_le _ hmem]
  dsimp only
  rw [hl]
  dsimp only
  by_cases h3 : p.bitLength = 0
  · rw [if_pos h3]
    exact ⟨_, rfl, rfl⟩
  rw [if_neg h3, if_pos ⟨rfl, hne⟩]
  exact ⟨_, rfl, rfl⟩

theorem complexEntry_float_iff (env : Env) (st : State) (attr : Attrs)
    (hnd : (attr.map Prod.fst).Nodup)
    (hfl : ∃ a ∈ attr, a.1 = "scale" ∨ a.1 = "offset")
    (hvalid : ∃ st', parseComplexEntryAttrs env st (attr.filter notFloatAttr) = some st' ∧
      st'.stopped = false) :
    ((∃ v, ("halType", v) ∈ attr ∧ floatFamily v) →
      ∃ st1, parseComplexEntryAttrs env st attr = some st1 ∧ st1.stopped = false) ∧
    (¬(∃ v, ("halType", v) ∈ attr ∧ floatFamily v) →
      ∃ st1, parseComplexEntryAttrs env st attr = some st1 ∧ st1.stopped = true) := by
  rw [parseComplexEntryAttrs_accept_iff] at hvalid
  rw [parseComplexEntryAttrs_accept_iff]
  obtain ⟨k1, k2, p', fr', hl', c3, _, c6⟩ := hvalid
  have hsim := attrLoop_filter (complexEntryBody env st) (fun n => notFloatAttr (n, ""))
    ComplexEntryAgree
    (fun p p' n v hR hk => complexEntryBody_drop env st p p' n v hR hk)
    (fun p p' n v hR hk => complexEntryBody_keep env st p p' n v hR hk)
    attr ({ bitOffset := st.currComplexBitOffset }, false)
    ({ bitOffset := st.currComplexBitOffset }, false) ⟨rfl, rfl, rfl, rfl, rfl⟩
  have hfe : (fun a : String × String => notFloatAttr (a.1, "")) = notFloatAttr := by
    funext a
    rfl
  rw [hfe, hl'] at hsim
  cases hl : attrLoop (complexEntryBody env st) ({ bitOffset := st.currComplexBitOffset }, false)
      attr with
  | fault => rw [hl] at hsim; exact hsim.elim
  | abort q => rw [hl] at hsim; exact hsim.elim
  | cont q =>
    rw [hl] at hsim
    obtain ⟨p, fr⟩ := q
    obtain ⟨r1, r2, r3, r4, r5⟩ := hsim
    simp only at r1 r2 r3 r4 r5
    obtain ⟨a, ha, han⟩ := hfl
    have hfr : fr = true :=
      attrLoop_established (complexEntryBody env st) (fun x => x.2 = true) a.1 a.2
        (fun p q hb => complexEntryBody_floatReq_set env st p q a.1 a.2 han hb)
        (fun p n v q hp hb => complexEntryBody_floatReq_keep env st p q n v hp hb)
        attr _ _ ha hl
    have hht := complexEntry_final_halType env st attr hnd _ _ rfl hl
    simp only at hht
    rw [← hht]
    constructor
    · intro hf
      refine ⟨k1, k2, p, fr, rfl, ?_, ?_, ?_⟩
      · rw [r2]; exact c3
      · rintro ⟨_, hne⟩
        exact hne hf
      · rw [r5]; exact c6
    · intro hne
      subst hfr
      exact parseComplexEntryAttrs_floatReq_stop env st attr p k2 hl hne

/-- For a pdoEntry attribute list and for a complexEntry attribute list with
pairwise distinct names that contains a `scale` or `offset` attribute and is
otherwise valid (the handler accepts the list without its `scale` and `offset`
attributes), the handler accepts the list if and only if its `halType`
attribute names a float-family kind (`float`, `float-unsigned`, `float-ieee`,
`float-double-ieee`, ignoring case); when it does not, the handler returns with
the parser stopped.  The order of the attributes plays no role. -/
theorem scale_offset_need_float_kind (env : Env) (st : State) (attr : Attrs)
    (hnd : (attr.map Prod.fst).Nodup)
    (hfl : ∃ a ∈ attr, a.1 = "scale" ∨ a.1 = "offset") :
    ((∃ st', parsePdoEntryAttrs env st (attr.filter notFloatAttr) = some st' ∧
        st'.stopped = false) →
      ((∃ st1, parsePdoEntryAttrs env st attr = some st1 ∧ st1.stopped = false) ↔
        ∃ v, ("halType", v) ∈ attr ∧ floatFamily v) ∧
      (¬(∃ v, ("halType", v) ∈ attr ∧ floatFamily v) →
        ∃ st1, parsePdoEntryAttrs env st attr = some st1 ∧ st1.stopped = true)) ∧
    ((∃ st', parseComplexEntryAttrs env st (attr.filter notFloatAttr) = some st' ∧
        st'.stopped = false) →
      ((∃ st1, parseComplexEntryAttrs env st attr = some st1 ∧ st1.stopped = false) ↔
        ∃ v, ("halType", v) ∈ attr ∧ floatFamily v) ∧
      (¬(∃ v, ("halType", v) ∈ attr ∧ floatFamily v) →
        ∃ st1, parseComplexEntryAttrs env st attr = some st1 ∧ st1.stopped = true)) := by
  constructor
  · intro hvalid
    obtain ⟨h1, h2⟩ := pdoEntry_float_iff env st attr hnd hfl hvalid
    refine ⟨⟨?_, h1⟩, h2⟩
    rintro ⟨st1, e1, s1⟩
    by_contra hne
    obtain ⟨st2, e2, s2⟩ := h2 hne
    rw [e1] at e2
    cases e2
    rw [s1] at s2
    cases s2
  · intro hvalid
    obtain ⟨h1, h2⟩ := complexEntry_float_iff env st attr hnd hfl hvalid
    refine ⟨⟨?_, h1⟩, h2⟩
    rintro ⟨st1, e1, s1⟩
    by_contra hne
    obtain ⟨st2, e2, s2⟩ := h2 hne
    rw [e1] at e2
    cases e2
    rw [s1] at s2
    cases s2

theorem scale_offset_need_float_kind_witness :
    (sampleFloatAttrs.map Prod.fst).Nodup ∧
    (∃ a ∈ sampleFloatAttrs, a.1 = "scale" ∨ a.1 = "offset") ∧
    (((∃ st', parsePdoEntryAttrs sampleEnv sampleStatePdo (sampleFloatAttrs.filter notFloatAttr)
          = some st' ∧ st'.stopped = false) →
      ((∃ st1, parsePdoEntryAttrs sampleEnv sampleStatePdo sampleFloatAttrs = some st1 ∧
          st1.stopped = false) ↔
        ∃ v, ("halType", v) ∈ sampleFloatAttrs ∧ floatFamily v) ∧
      (¬(∃ v, ("halType", v) ∈ sampleFloatAttrs ∧ floatFamily v) →
        ∃ st1, parsePdoEntryAttrs sampleEnv sampleStatePdo sampleFloatAttrs = some st1 ∧
          st1.stopped = true)) ∧
    ((∃ st', parseComplexEntryAttrs sampleEnv sampleStatePdo (sampleFloatAttrs.filter notFloatAttr)
          = some st' ∧ st'.stopped = false) →
      ((∃ st1, parseComplexEntryAttrs sampleEnv sampleStatePdo sampleFloatAttrs = some st1 ∧
          st1.stopped = false) ↔
        ∃ v, ("halType", v) ∈ sampleFloatAttrs ∧ floatFamily v) ∧
      (¬(∃ v, ("halType", v) ∈ sampleFloatAttrs ∧ floatFamily v) →
        ∃ st1, parseComplexEntryAttrs sampleEnv sampleStatePdo sampleFloatAttrs = some st1 ∧
          st1.stopped = true))) :=
  ⟨by decide, ⟨("scale", "2.5"), by decide, Or.inl rfl⟩,
    scale_offset_need_float_kind sampleEnv sampleStatePdo sampleFloatAttrs (by decide)
      ⟨("scale", "2.5"), by decide, Or.inl rfl⟩⟩

/-- The examples of the specification: `halType="float"` with `scale="2.5"` is
accepted and `halType="bit"` with `scale="2.5"` stops the parser, in either
order of the two attributes. -/
theorem scale_examples :
    (parsePdoEntryAttrs sampleEnv sampleStatePdo
      [("idx", "6000"), ("subIdx", "1"), ("bitLen", "16"), ("halType", "float"), ("scale", "2.5")]).map
        (fun s => s.stopped) = some false ∧
    (parsePdoEntryAttrs sampleEnv sampleStatePdo
      [("idx", "6000"), ("subIdx", "1"), ("bitLen", "16"), ("scale", "2.5"), ("halType", "float")]).map
        (fun s => s.stopped) = some false ∧
    (parsePdoEntryAttrs sampleEnv sampleStatePdo
      [("idx", "6000"), ("subIdx", "1"), ("bitLen", "16"), ("halType", "bit"), ("scale", "2.5")]).map
        (fun s => s.stopped) = some true ∧
    (parsePdoEntryAttrs sampleEnv sampleStatePdo
      [("idx", "6000"), ("subIdx", "1"), ("bitLen", "16"), ("scale", "2.5"), ("halType", "bit")]).map
        (fun s => s.stopped) = some true := by
  refine ⟨by rfl, by rfl, by rfl, by rfl⟩

theorem attrLoop_no_fault {P : Type} (body : P → String → String → Step P)
    (hnf : ∀ p n v, body p n v ≠ Step.fault) :
    ∀ (attrs : Attrs) (p : P), attrLoop body p attrs ≠ Step.fault := by
  intro attrs
  induction attrs with
  | nil => intro p h; simp [attrLoop] at h
  | cons a rest ih =>
    intro p h
    obtain ⟨n, v⟩ := a
    simp only [attrLoop] at h
    cases hb : body p n v with
    | cont q => rw [hb] at h; exact ih q h
    | abort q => rw [hb] at h; cases h
    | fault => exact hnf p n v hb

theorem pdoEntryBody_no_fault (env : Env) (p : LCEC_CONF_PDOENTRY_T × Bool) (n v : String) :
    pdoEntryBody env p n v ≠ Step.fault := by
  unfold pdoEntryBody
  dsimp only
  split_ifs
  all_goals first
    | (intro h; cases h)
    | skip
  split
  all_goals (intro h; cases h)

theorem pdoEntry_counters_total (st3 : State) (i : Nat) (halPin : String)
    (hsl : st3.slave.isSome = true) (hpd : st3.pdo.isSome = true) :
    ∃ st1,
      (match st3.updSlave (fun s => { s with pdoEntryCount := incU32 s.pdoEntryCount }) with
        | none => none
        | some st4 =>
          match (if halPin ≠ "" then
                  st4.updSlave (fun s => { s with pdoMappingCount := incU32 s.pdoMappingCount })
                else some st4) with
          | none => none
          | some st5 =>
            match st5.updPdo (fun q => { q with pdoEntryCount := incU32 q.pdoEntryCount }) with
            | none => none
            | some st6 => some { st6 with currPdoEntry := some i, currComplexBitOffset := 0 })
        = some st1 ∧ st1.stopped = st3.stopped := by
  obtain ⟨s, hs3⟩ := Option.isSome_iff_exists.mp hsl
  obtain ⟨p, hp3⟩ := Option.isSome_iff_exists.mp hpd
  obtain ⟨st4, h4⟩ : ∃ st4, st3.updSlave
      (fun s => { s with pdoEntryCount := incU32 s.pdoEntryCount }) = some st4 := by
    obtain ⟨i4, _, _, h4⟩ := updSlave_of_slave
      (fun s => { s with pdoEntryCount := incU32 s.pdoEntryCount }) hs3
    exact ⟨_, h4⟩
  rw [h4]
  dsimp only
  obtain ⟨s4, _, hs4⟩ := updSlave_slave h4
  have h4p := updSlave_pdo h4
  have h4t := updSlave_stopped h4
  have h5 : ∃ st5, (if halPin ≠ "" then
        st4.updSlave (fun s => { s with pdoMappingCount := incU32 s.pdoMappingCount })
      else some st4) = some st5 ∧ st5.stopped = st4.stopped ∧ st5.pdo = st4.pdo := by
    split_ifs
    · obtain ⟨i5, _, _, h5⟩ := updSlave_of_slave
        (fun s => { s with pdoMappingCount := incU32 s.pdoMappingCount }) hs4
      exact ⟨_, h5, updSlave_stopped h5, updSlave_pdo h5⟩
    · exact ⟨st4, rfl, rfl, rfl⟩
  obtain ⟨st5, h5, h5t, h5p⟩ := h5
  rw [h5]
  dsimp only
  have hp5 : st5.pdo = some p := by rw [h5p, h4p, hp3]
  obtain ⟨st6, h6⟩ : ∃ st6, st5.updPdo
      (fun q => { q with pdoEntryCount := incU32 q.pdoEntryCount }) = some st6 := by
    obtain ⟨i6, _, _, h6⟩ := updPdo_of_pdo
      (fun q => { q with pdoEntryCount := incU32 q.pdoEntryCount }) hp5
    exact ⟨_, h6⟩
  rw [h6]
  refine ⟨_, rfl, ?_⟩
  dsimp only
  rw [updPdo_stopped h6, h5t, h4t]

/-- In a state whose current slave and pdo exist, `parsePdoEntryAttrs` returns. -/
theorem parsePdoEntryAttrs_total (env : Env) (st : State) (attr : Attrs)
    (hsl : st.slave.isSome = true) (hpd : st.pdo.isSome = true) :
    ∃ st1, parsePdoEntryAttrs env st attr = some st1 := by
  unfold parsePdoEntryAttrs
  by_cases hmem : env.sizeof lcecConfTypePdoEntry ≤ st.freeMem
  · rw [addOutputBuffer_of_le _ hmem]
    dsimp only
    cases hloop : attrLoop (pdoEntryBody env) ({ index := 0xffff, subindex := 0xff }, false) attr with
    | fault => exact absurd hloop (attrLoop_no_fault _ (pdoEntryBody_no_fault env) _ _)
    | abort q => exact ⟨_, rfl⟩
    | cont q =>
      obtain ⟨p, fr⟩ := q
      dsimp only
      by_cases h1 : p.index = 0xffff
      · rw [if_pos h1]
        exact ⟨_, rfl⟩
      by_cases h2 : p.subindex = 0xff
      · rw [if_neg h1, if_pos h2]
        exact ⟨_, rfl⟩
      by_cases h3 : p.bitLength = 0
      · rw [if_neg h1, if_neg h2, if_pos h3]
        exact ⟨_, rfl⟩
      by_cases h5 : fr = true ∧ p.halType ≠ HAL_FLOAT
      · rw [if_neg h1, if_neg h2, if_neg h3, if_pos h5]
        exact ⟨_, rfl⟩
      rw [if_neg h1, if_neg h2, if_neg h3, if_neg h5]
      have hbuf : (({ st with
            outputBuf := st.outputBuf ++ [ConfRec.pdoEntry {}],
            outputLen := st.outputLen + env.sizeof lcecConfTypePdoEntry,
            freeMem := st.freeMem - env.sizeof lcecConfTypePdoEntry } : State).writeRec
              st.outputBuf.length (ConfRec.pdoEntry p)).outputBuf
            = st.outputBuf ++ [ConfRec.pdoEntry p] := by
        simp [State.writeRec, set_length_append]
      have hsl2 := slave_of_snoc st (({ st with
          outputBuf := st.outputBuf ++ [ConfRec.pdoEntry {}],
          outputLen := st.outputLen + env.sizeof lcecConfTypePdoEntry,
          freeMem := st.freeMem - env.sizeof lcecConfTypePdoEntry } : State).writeRec
            st.outputBuf.length (ConfRec.pdoEntry p)) (ConfRec.pdoEntry p) rfl hbuf
          (by intro s h; cases h)
      have hpd2 := pdo_of_snoc st (({ st with
          outputBuf := st.outputBuf ++ [ConfRec.pdoEntry {}],
          outputLen := st.outputLen + env.sizeof lcecConfTypePdoEntry,
          freeMem := st.freeMem - env.sizeof lcecConfTypePdoEntry } : State).writeRec
            st.outputBuf.length (ConfRec.pdoEntry p)) (ConfRec.pdoEntry p) rfl hbuf
          (by intro s h; cases h)
      have hgoal : ∀ st3 : State, st3.slave = st.slave → st3.pdo = st.pdo → ∃ st1,
          (match st3.updSlave (fun s => { s with pdoEntryCount := incU32 s.pdoEntryCount }) with
          | none => none
          | some st4 =>
            match (if p.halPin ≠ "" then
                    st4.updSlave (fun s => { s with pdoMappingCount := incU32 s.pdoMappingCount })
                  else some st4) with
            | none => none
            | some st5 =>
              match st5.updPdo (fun q => { q with pdoEntryCount := incU32 q.pdoEntryCount }) with
              | none => none
              | some st6 =>
                some { st6 with currPdoEntry := some st.outputBuf.length, currComplexBitOffset := 0 })
          = some st1 := by
        intro st3 e1 e2
        obtain ⟨st1, h, _⟩ := pdoEntry_counters_total st3 st.outputBuf.length p.halPin
          (by rw [e1]; exact hsl) (by rw [e2]; exact hpd)
        exact ⟨st1, h⟩
      by_cases h4 : p.subType = lcecPdoEntTypeComplex ∧ p.halPin ≠ ""
      · rw [if_pos h4]
        exact hgoal _ hsl2 hpd2
      · rw [if_neg h4]
        exact hgoal _ hsl2 hpd2
  · have halloc : addOutputBuffer st (env.sizeof lcecConfTypePdoEntry) (ConfRec.pdoEntry {}) = none := by
      unfold addOutputBuffer
      rw [if_neg hmem]
    rw [halloc]
    exact ⟨_, rfl⟩

theorem pdoEntryBody_subType_other (env : Env) (p : LCEC_CONF_PDOENTRY_T × Bool) (n v : String)
    (q : LCEC_CONF_PDOENTRY_T × Bool) (hn : n ≠ "halType")
    (h : pdoEntryBody env p n v = Step.cont q) : q.1.subType = p.1.subType := by
  unfold pdoEntryBody at h
  dsimp only at h
  split_ifs at h
  all_goals first
    | (cases h; rfl)
    | skip

theorem pdoEntryBody_halPin_other (env : Env) (p : LCEC_CONF_PDOENTRY_T × Bool) (n v : String)
    (q : LCEC_CONF_PDOENTRY_T × Bool) (hn : n ≠ "halPin")
    (h : pdoEntryBody env p n v = Step.cont q) : q.1.halPin = p.1.halPin := by
  unfold pdoEntryBody at h
  dsimp only at h
  split_ifs at h
  all_goals first
    | (cases h; rfl)
    | skip
  split at h
  · cases h
  · rename_i q1 hq
    cases h
    exact (pdoEntryHalType_frame hq).2.2.2.1

theorem pdoEntryBody_halPin_at (env : Env) (p q : LCEC_CONF_PDOENTRY_T × Bool) (w : String)
    (h : pdoEntryBody env p "halPin" w = Step.cont q) :
    q.1.halPin = strncpy w (env.LCEC_CONF_STR_MAXLEN - 1) := by
  simp only [pdoEntryBody, String.reduceEq, if_false, if_true] at h
  cases h
  rfl

theorem pdoEntryHalType_complex {p q : LCEC_CONF_PDOENTRY_T} {v : String}
    (h : pdoEntryHalType p v = some q) (hc : strcaseeq v "complex" = true) :
    q.subType = lcecPdoEntTypeComplex := by
  unfold pdoEntryHalType at h
  split_ifs at h with c1 c2 c3 c4 c5
  · exact absurd (strcaseeq_excl c1 hc) (by decide)
  · exact absurd (strcaseeq_excl c2 hc) (by decide)
  · exact absurd (strcaseeq_excl c3 hc) (by decide)
  · exact absurd (strcaseeq_excl c4 hc) (by decide)
  · exact absurd (strcaseeq_excl c5 hc) (by decide)
  · cases h
    rfl

theorem strncpy_ne_empty {w : String} {n : Nat} (hw : w ≠ "") (hn : 1 ≤ n) : strncpy w n ≠ "" := by
  unfold strncpy
  intro h
  apply hw
  have h1 := congrArg String.data h
  change List.take n w.data = [] at h1
  have h2 : w.data = [] := by
    cases hd : w.data with
    | nil => rfl
    | cons c cs =>
      rw [hd] at h1
      cases n with
      | zero => omega
      | succ m => simp at h1
  exact String.ext h2

/-- C5: for every pdoEntry attribute list (names pairwise distinct) whose
`halType` equals `complex` ignoring case and whose `halPin` is not empty,
`parsePdoEntryAttrs` never accepts: whenever it returns, the parser is stopped,
and it does return in every state whose current slave and pdo exist.  (The pin
name buffer holds at least one character besides the terminator.) -/
theorem complex_with_halPin_aborts (env : Env) (st : State) (attr : Attrs) (v w : String)
    (hmax : 2 ≤ env.LCEC_CONF_STR_MAXLEN) (hnd : (attr.map Prod.fst).Nodup)
    (hv : ("halType", v) ∈ attr) (hc : strcaseeq v "complex" = true)
    (hw : ("halPin", w) ∈ attr) (hne : w ≠ "") :
    (∀ st1, parsePdoEntryAttrs env st attr = some st1 → st1.stopped = true) ∧
    (st.slave.isSome = true → st.pdo.isSome = true →
      ∃ st1, parsePdoEntryAttrs env st attr = some st1 ∧ st1.stopped = true) := by
  have hno : ¬ ∃ st1, parsePdoEntryAttrs env st attr = some st1 ∧ st1.stopped = false := by
    rw [parsePdoEntryAttrs_accept_iff]
    rintro ⟨_, _, _, _, p, fr, hl, _, _, _, c4, _⟩
    apply c4
    constructor
    · obtain ⟨p1, q1, _, hb, e2⟩ := attrLoop_nodup_field (pdoEntryBody env)
        (fun x => x.1.subType) "halType" v (pdoEntryBody_subType_other env) attr _ _ hnd hv hl
      simp only at e2
      rw [e2]
      exact pdoEntryHalType_complex (pdoEntryBody_halType_at env p1 q1 v hb) hc
    · obtain ⟨p1, q1, _, hb, e2⟩ := attrLoop_nodup_field (pdoEntryBody env)
        (fun x => x.1.halPin) "halPin" w (pdoEntryBody_halPin_other env) attr _ _ hnd hw hl
      simp only at e2
      rw [e2, pdoEntryBody_halPin_at env p1 q1 w hb]
      exact strncpy_ne_empty hne (by omega)
  have hall : ∀ st1, parsePdoEntryAttrs env st attr = some st1 → st1.stopped = true := by
    intro st1 h
    cases hs : st1.stopped with
    | true => rfl
    | false => exact absurd ⟨st1, h, hs⟩ hno
  refine ⟨hall, ?_⟩
  intro hsl hpd
  obtain ⟨st1, h⟩ := parsePdoEntryAttrs_total env st attr hsl hpd
  exact ⟨st1, h, hall st1 h⟩

theorem complex_with_halPin_aborts_witness :
    2 ≤ sampleEnv.LCEC_CONF_STR_MAXLEN ∧
    ([("idx", "7000"), ("subIdx", "1"), ("bitLen", "16"), ("halPin", "out"),
      ("halType", "Complex")].map Prod.fst).Nodup ∧
    ("halType", "Complex") ∈ [("idx", "7000"), ("subIdx", "1"), ("bitLen", "16"), ("halPin", "out"),
      ("halType", "Complex")] ∧
    strcaseeq "Complex" "complex" = true ∧
    ("halPin", "out") ∈ [("idx", "7000"), ("subIdx", "1"), ("bitLen", "16"), ("halPin", "out"),
      ("halType", "Complex")] ∧
    "out" ≠ "" ∧
    ((∀ st1, parsePdoEntryAttrs sampleEnv sampleStatePdo
        [("idx", "7000"), ("subIdx", "1"), ("bitLen", "16"), ("halPin", "out"),
          ("halType", "Complex")] = some st1 → st1.stopped = true) ∧
    (sampleStatePdo.slave.isSome = true → sampleStatePdo.pdo.isSome = true →
      ∃ st1, parsePdoEntryAttrs sampleEnv sampleStatePdo
        [("idx", "7000"), ("subIdx", "1"), ("bitLen", "16"), ("halPin", "out"),
          ("halType", "Complex")] = some st1 ∧ st1.stopped = true)) :=
  ⟨by decide, by decide, by decide, by decide, by decide, by decide,
    complex_with_halPin_aborts sampleEnv sampleStatePdo
      [("idx", "7000"), ("subIdx", "1"), ("bitLen", "16"), ("halPin", "out"), ("halType", "Complex")]
      "Complex" "out" (by decide) (by decide) (by decide) (by decide) (by decide) (by decide)⟩

/-- C6, the failing input: on `<pdoEntry ... halType="complex" halPin="out"/>` the
handler `parsePdoEntryAttrs` stops the parser and nevertheless increments the
slave's `pdoEntryCount` and `pdoMappingCount` and the pdo's `pdoEntryCount`. -/
theorem pdoEntry_counters_changed_on_abort :
    (parsePdoEntryAttrs sampleEnv sampleStatePdo sampleComplexPinAttrs).map (fun s => s.stopped)
      = some true ∧
    sampleStatePdo.slave.map (fun s => (s.pdoEntryCount, s.pdoMappingCount)) = some (0, 0) ∧
    sampleStatePdo.pdo.map (fun p => p.pdoEntryCount) = some 0 ∧
    (parsePdoEntryAttrs sampleEnv sampleStatePdo sampleComplexPinAttrs).map
      (fun s => s.slave.map (fun s => (s.pdoEntryCount, s.pdoMappingCount))) = some (some (1, 1)) ∧
    (parsePdoEntryAttrs sampleEnv sampleStatePdo sampleComplexPinAttrs).map
      (fun s => s.pdo.map (fun p => p.pdoEntryCount)) = some (some 1) := by
  refine ⟨by rfl, by rfl, by rfl, by rfl, by rfl⟩
theorem attrLoop_all_cont {P : Type} (body : P → String → String → Step P) :
    ∀ (attrs : Attrs) (p : P), (∀ a ∈ attrs, ∀ p, ∃ q, body p a.1 a.2 = Step.cont q) →
      ∃ q, attrLoop body p attrs = Step.cont q := by
  intro attrs
  induction attrs with
  | nil => intro p _; exact ⟨p, rfl⟩
  | cons a rest ih =>
    intro p h
    obtain ⟨n, v⟩ := a
    obtain ⟨q, hq⟩ := h (n, v) (List.mem_cons_self _ _) p
    simp only [attrLoop]
    simp only at hq
    rw [hq]
    exact ih q (fun a ha => h a (List.mem_cons_of_mem _ ha))

theorem sdoConf_of_getElem {st : State} {i : Nat} {c : LCEC_CONF_SDOCONF_T}
    (hi : st.currSdoConf = some i) (hg : st.outputBuf[i]? = some (ConfRec.sdoConf c)) :
    st.sdoConf = some c := by
  unfold State.sdoConf
  rw [hi]
  simp only
  rw [hg]

theorem sdoConfigBody_index_other (env : Env) (p : LCEC_CONF_SDOCONF_T) (n v : String)
    (q : LCEC_CONF_SDOCONF_T) (hn : n ≠ "idx")
    (h : sdoConfigBody env p n v = Step.cont q) : q.index = p.index := by
  unfold sdoConfigBody at h
  dsimp only at h
  split_ifs at h
  all_goals first
    | (cases h; rfl)
    | exact absurd (by assumption) hn

theorem sdoConfigBody_subindex_other (env : Env) (p : LCEC_CONF_SDOCONF_T) (n v : String)
    (q : LCEC_CONF_SDOCONF_T) (hn : n ≠ "subIdx")
    (h : sdoConfigBody env p n v = Step.cont q) : q.subindex = p.subindex := by
  unfold sdoConfigBody at h
  dsimp only at h
  split_ifs at h
  all_goals first
    | (cases h; rfl)
    | exact absurd (by assumption) hn

theorem sdoConfigBody_idx_at (env : Env) (p q : LCEC_CONF_SDOCONF_T) (v : String)
    (h : sdoConfigBody env p "idx" v = Step.cont q) :
    q.index = (toInt32 (strtol env.longBits v 16).1).toNat ∧
      0 ≤ toInt32 (strtol env.longBits v 16).1 ∧ toInt32 (strtol env.longBits v 16).1 < 0xffff := by
  simp only [sdoConfigBody, if_true] at h
  split_ifs at h with c
  cases h
  push_neg at c
  exact ⟨rfl, c.1, c.2⟩

theorem sdoConfigBody_subIdx_complete (env : Env) (p q : LCEC_CONF_SDOCONF_T) (v : String)
    (hc : strcaseeq v "complete" = true)
    (h : sdoConfigBody env p "subIdx" v = Step.cont q) :
    q.subindex = env.LCEC_CONF_SDO_COMPLETE_SUBIDX := by
  simp only [sdoConfigBody, String.reduceEq, if_false, if_true, hc] at h
  cases h
  rfl

theorem sdoConfigBody_subIdx_literal (env : Env) (p q : LCEC_CONF_SDOCONF_T) (v : String)
    (hc : strcaseeq v "complete" = false)
    (h : sdoConfigBody env p "subIdx" v = Step.cont q) :
    q.subindex = toInt32 (strtol env.longBits v 16).1 ∧ 0 ≤ q.subindex ∧ q.subindex ≤ 254 := by
  simp only [sdoConfigBody, String.reduceEq, if_false, if_true, hc, Bool.false_eq_true] at h
  split_ifs at h with c
  cases h
  push_neg at c
  refine ⟨rfl, c.1, ?_⟩
  have := c.2
  simp only
  omega

theorem sdoConfigBody_no_fault (env : Env) (p : LCEC_CONF_SDOCONF_T) (n v : String) :
    sdoConfigBody env p n v ≠ Step.fault := by
  unfold sdoConfigBody
  dsimp only
  split_ifs
  all_goals (intro h; cases h)

/-- The part of `parseSdoConfigAttrs` behind the tests. -/
theorem sdoConfig_tail (st st2 : State) (p c : LCEC_CONF_SDOCONF_T)
    (f : LCEC_CONF_SLAVE_T → LCEC_CONF_SLAVE_T)
    (hb : st2.outputBuf = st.outputBuf ++ [ConfRec.sdoConf p])
    (hc : st2.currSlave = st.currSlave) (ht : st2.stopped = st.stopped) :
    (∃ st1, State.updSlave { st2 with currSdoConf := some st.outputBuf.length } f = some st1 ∧
        st1.stopped = false ∧ st1.sdoConf = some c) ↔
      (st.stopped = false ∧ st.slave.isSome = true ∧ p = c) := by
  have hsl := slave_of_snoc st { st2 with currSdoConf := some st.outputBuf.length }
    (ConfRec.sdoConf p) hc hb (by intro s h; cases h)
  have hrec : ∀ st1, State.updSlave { st2 with currSdoConf := some st.outputBuf.length } f
      = some st1 → st1.sdoConf = some p ∧ st1.stopped = st.stopped := by
    intro st1 h
    have hk := (updSlave_keeps h).2 st.outputBuf.length (ConfRec.sdoConf p)
      (by intro s hh; cases hh) (by
        show st2.outputBuf[st.outputBuf.length]? = _
        rw [hb]
        simp)
    have ht2 := updSlave_stopped h
    obtain ⟨i, s, _, _, rfl⟩ := updSlave_some h
    exact ⟨sdoConf_of_getElem (i := st.outputBuf.length) rfl hk, ht2.trans ht⟩
  constructor
  · rintro ⟨st1, h, hs, hcc⟩
    obtain ⟨e1, e2⟩ := hrec st1 h
    obtain ⟨s, hs3, _⟩ := updSlave_slave h
    rw [e1] at hcc
    refine ⟨by rw [← e2]; exact hs, ?_, Option.some.inj hcc⟩
    rw [← hsl, hs3]
    rfl
  · rintro ⟨a, b, rfl⟩
    obtain ⟨s, hs3⟩ := Option.isSome_iff_exists.mp b
    rw [← hsl] at hs3
    obtain ⟨i4, _, _, h4⟩ := updSlave_of_slave f hs3
    obtain ⟨e1, e2⟩ := hrec _ h4
    exact ⟨_, h4, by rw [e2]; exact a, e1⟩

/-- When `parseSdoConfigAttrs` accepts, and the record it then leaves as the
current SDO configuration. -/
theorem parseSdoConfigAttrs_accept_iff (env : Env) (st : State) (attr : Attrs)
    (c : LCEC_CONF_SDOCONF_T) :
    (∃ st1, parseSdoConfigAttrs env st attr = some st1 ∧ st1.stopped = false ∧
        st1.sdoConf = some c) ↔
      (st.stopped = false ∧ env.sizeof lcecConfTypeSdoConfig ≤ st.freeMem ∧
        st.slave.isSome = true ∧
        attrLoop (sdoConfigBody env) { index := 0xffff, subindex := 0xff } attr = Step.cont c ∧
        c.index ≠ 0xffff ∧ c.subindex ≠ 0xff) := by
  unfold parseSdoConfigAttrs
  by_cases hmem : env.sizeof lcecConfTypeSdoConfig ≤ st.freeMem
  · rw [addOutputBuffer_of_le _ hmem]
    dsimp only
    cases hloop : attrLoop (sdoConfigBody env) { index := 0xffff, subindex := 0xff } attr with
    | fault =>
      dsimp only
      constructor
      · rintro ⟨st1, h, _⟩
        cases h
      · rintro ⟨_, _, _, hl, _⟩
        cases hl
    | abort q =>
      dsimp only
      constructor
      · rintro ⟨st1, h, hs, _⟩
        cases h
        cases hs
      · rintro ⟨_, _, _, hl, _⟩
        cases hl
    | cont p =>
      dsimp only
      by_cases h1 : p.index = 0xffff
      · rw [if_pos h1]
        constructor
        · rintro ⟨st1, h, hs, _⟩
          cases h
          cases hs
        · rintro ⟨_, _, _, hl, c1, _⟩
          cases hl
          exact absurd h1 c1
      by_cases h2 : p.subindex = 0xff
      · rw [if_neg h1, if_pos h2]
        constructor
        · rintro ⟨st1, h, hs, _⟩
          cases h
          cases hs
        · rintro ⟨_, _, _, hl, _, c2⟩
          cases hl
          exact absurd h2 c2
      rw [if_neg h1, if_neg h2]
      refine Iff.trans (sdoConfig_tail st _ p c _
        (by simp [State.writeRec, set_length_append]) rfl rfl) ?_
      constructor
      · rintro ⟨a, b, rfl⟩
        exact ⟨a, hmem, b, rfl, h1, h2⟩
      · rintro ⟨a, _, b, hl, _, _⟩
        exact ⟨a, b, Step.cont.inj hl⟩
  · have halloc : addOutputBuffer st (env.sizeof lcecConfTypeSdoConfig) (ConfRec.sdoConf {}) = none := by
      unfold addOutputBuffer
      rw [if_neg hmem]
    rw [halloc]
    dsimp only
    constructor
    · rintro ⟨st1, h, hs, _⟩
      cases h
      cases hs
    · rintro ⟨_, c, _⟩
      exact absurd c hmem

/-- C7: for every sdoConfig attribute list that consists of a valid `idx` and a
`subIdx` equal to `complete` ignoring case, `parseSdoConfigAttrs` (in a state
that is not stopped, has a current slave and room for the record) accepts the
element and stores the sentinel `LCEC_CONF_SDO_COMPLETE_SUBIDX` as sub-index;
the sentinel differs from the marker `0xff` of a missing sub-index, and every
accepted element with a literal `subIdx` stores the hexadecimal value of the
text, which lies in 0..254 and differs from the sentinel. -/
theorem sdoConfig_complete_sentinel (env : Env) (hsent : env.sdoCompleteIsSentinel)
    (st : State) (attr : Attrs) (vi vs : String)
    (hst : st.stopped = false) (hmem : env.sizeof lcecConfTypeSdoConfig ≤ st.freeMem)
    (hsl : st.slave.isSome = true) (hnd : (attr.map Prod.fst).Nodup)
    (hidx : ("idx", vi) ∈ attr)
    (hvalid : 0 ≤ toInt32 (strtol env.longBits vi 16).1 ∧
      toInt32 (strtol env.longBits vi 16).1 < 0xffff)
    (hsub : ("subIdx", vs) ∈ attr) (hc : strcaseeq vs "complete" = true)
    (honly : ∀ a ∈ attr, a.1 = "idx" ∨ a.1 = "subIdx") :
    (∃ st1 c, parseSdoConfigAttrs env st attr = some st1 ∧ st1.stopped = false ∧
      st1.sdoConf = some c ∧ c.subindex = env.LCEC_CONF_SDO_COMPLETE_SUBIDX ∧
      c.index = (toInt32 (strtol env.longBits vi 16).1).toNat) ∧
    env.LCEC_CONF_SDO_COMPLETE_SUBIDX ≠ 0xff ∧
    (∀ (st' : State) (attr' : Attrs) (v' : String) (st2 : State) (c' : LCEC_CONF_SDOCONF_T),
      (attr'.map Prod.fst).Nodup → ("subIdx", v') ∈ attr' → strcaseeq v' "complete" = false →
      parseSdoConfigAttrs env st' attr' = some st2 → st2.stopped = false →
      st2.sdoConf = some c' →
      c'.subindex = toInt32 (strtol env.longBits v' 16).1 ∧ 0 ≤ c'.subindex ∧ c'.subindex ≤ 254 ∧
        c'.subindex ≠ env.LCEC_CONF_SDO_COMPLETE_SUBIDX) := by
  have hs255 : env.LCEC_CONF_SDO_COMPLETE_SUBIDX ≠ 0xff := by
    rcases hsent with h | h <;> omega
  refine ⟨?_, hs255, ?_⟩
  · obtain ⟨c, hl⟩ := attrLoop_all_cont (sdoConfigBody env) attr { index := 0xffff, subindex := 0xff }
      (by
        intro a ha p
        rcases honly a ha with h | h
        · have hv : a.2 = vi := nodup_fst_unique hnd (by rw [← h]; exact ha) hidx
          rw [h, hv]
          refine ⟨{ p with index := (toInt32 (strtol env.longBits vi 16).1).toNat }, ?_⟩
          simp only [sdoConfigBody, if_true]
          rw [if_neg (by push_neg; exact hvalid)]
        · have hv : a.2 = vs := nodup_fst_unique hnd (by rw [← h]; exact ha) hsub
          rw [h, hv]
          exact ⟨{ p with subindex := env.LCEC_CONF_SDO_COMPLETE_SUBIDX }, by
            simp [sdoConfigBody, hc]⟩)
    obtain ⟨p1, q1, _, hb1, e1⟩ := attrLoop_nodup_field (sdoConfigBody env)
      (fun x => x.index) "idx" vi (sdoConfigBody_index_other env) attr _ _ hnd hidx hl
    obtain ⟨p2, q2, _, hb2, e2⟩ := attrLoop_nodup_field (sdoConfigBody env)
      (fun x => x.subindex) "subIdx" vs (sdoConfigBody_subindex_other env) attr _ _ hnd hsub hl
    have hi := sdoConfigBody_idx_at env p1 q1 vi hb1
    have hsx := sdoConfigBody_subIdx_complete env p2 q2 vs hc hb2
    have hacc := (parseSdoConfigAttrs_accept_iff env st attr c).mpr
      ⟨hst, hmem, hsl, hl, by
        rw [e1, hi.1]
        have := hi.2
        omega, by rw [e2, hsx]; exact hs255⟩
    obtain ⟨st1, h1, h2, h3⟩ := hacc
    exact ⟨st1, c, h1, h2, h3, by rw [e2, hsx], by rw [e1, hi.1]⟩
  · intro st' attr' v' st2 c' hnd' hsub' hlit hp hs2 hc2
    obtain ⟨_, _, _, hl, _, _⟩ := (parseSdoConfigAttrs_accept_iff env st' attr' c').mp
      ⟨st2, hp, hs2, hc2⟩
    obtain ⟨p2, q2, _, hb2, e2⟩ := attrLoop_nodup_field (sdoConfigBody env)
      (fun x => x.subindex) "subIdx" v' (sdoConfigBody_subindex_other env) attr' _ _ hnd' hsub' hl
    obtain ⟨k1, k2, k3⟩ := sdoConfigBody_subIdx_literal env p2 q2 v' hlit hb2
    rw [e2]
    refine ⟨k1, k2, k3, ?_⟩
    rcases hsent with h | h <;> omega

theorem sdoConfig_complete_sentinel_witness :
    sampleEnv.sdoCompleteIsSentinel ∧ sampleStateSlave.stopped = false ∧
    sampleEnv.sizeof lcecConfTypeSdoConfig ≤ sampleStateSlave.freeMem ∧
    sampleStateSlave.slave.isSome = true ∧
    ([("idx", "8000"), ("subIdx", "Complete")].map Prod.fst).Nodup ∧
    ("idx", "8000") ∈ [("idx", "8000"), ("subIdx", "Complete")] ∧
    (0 ≤ toInt32 (strtol sampleEnv.longBits "8000" 16).1 ∧
      toInt32 (strtol sampleEnv.longBits "8000" 16).1 < 0xffff) ∧
    ("subIdx", "Complete") ∈ [("idx", "8000"), ("subIdx", "Complete")] ∧
    strcaseeq "Complete" "complete" = true ∧
    (∀ a ∈ [("idx", "8000"), ("subIdx", "Complete")], a.1 = "idx" ∨ a.1 = "subIdx") ∧
    ((∃ st1 c, parseSdoConfigAttrs sampleEnv sampleStateSlave
        [("idx", "8000"), ("subIdx", "Complete")] = some st1 ∧ st1.stopped = false ∧
      st1.sdoConf = some c ∧ c.subindex = sampleEnv.LCEC_CONF_SDO_COMPLETE_SUBIDX ∧
      c.index = (toInt32 (strtol sampleEnv.longBits "8000" 16).1).toNat) ∧
    sampleEnv.LCEC_CONF_SDO_COMPLETE_SUBIDX ≠ 0xff ∧
    (∀ (st' : State) (attr' : Attrs) (v' : String) (st2 : State) (c' : LCEC_CONF_SDOCONF_T),
      (attr'.map Prod.fst).Nodup → ("subIdx", v') ∈ attr' → strcaseeq v' "complete" = false →
      parseSdoConfigAttrs sampleEnv st' attr' = some st2 → st2.stopped = false →
      st2.sdoConf = some c' →
      c'.subindex = toInt32 (strtol sampleEnv.longBits v' 16).1 ∧ 0 ≤ c'.subindex ∧
        c'.subindex ≤ 254 ∧ c'.subindex ≠ sampleEnv.LCEC_CONF_SDO_COMPLETE_SUBIDX)) :=
  ⟨Or.inl (by decide), by decide, by decide, by rfl, by decide, by decide, by decide, by decide,
    by decide, by decide,
    sdoConfig_complete_sentinel sampleEnv (Or.inl (by decide)) sampleStateSlave
      [("idx", "8000"), ("subIdx", "Complete")] "8000" "Complete" (by decide) (by decide) (by rfl)
      (by decide) (by decide) (by decide) (by decide) (by decide) (by decide)⟩

/-- C8: in every parse state whose current slave has a type name other than
`generic`, for every attribute list, `parseSyncManagerAttrs` returns with the
parser stopped and nothing else changed: no record is reserved in the output
buffer, and the current slave (so its `syncManagerCount`) and `currSyncManager`
are as before. -/
theorem syncManager_needs_generic (env : Env) (st : State) (attr : Attrs)
    (sl : LCEC_CONF_SLAVE_T) (hsl : st.slave = some sl) (hty : sl.typename ≠ "generic") :
    parseSyncManagerAttrs env st attr = some st.stop ∧
    st.stop.stopped = true ∧ st.stop.outputBuf = st.outputBuf ∧
    st.stop.outputLen = st.outputLen ∧ st.stop.freeMem = st.freeMem ∧
    st.stop.slave = some sl ∧ st.stop.currSyncManager = st.currSyncManager := by
  refine ⟨?_, rfl, rfl, rfl, rfl, hsl, rfl⟩
  unfold parseSyncManagerAttrs
  rw [hsl]
  dsimp only
  rw [if_pos hty]

theorem syncManager_needs_generic_witness :
    sampleStateDeviceSlave.slave = some { typename := "EL2202", name := "0" } ∧
    ("EL2202" : String) ≠ "generic" ∧
    (parseSyncManagerAttrs sampleEnv sampleStateDeviceSlave [("idx", "2"), ("dir", "out")]
        = some sampleStateDeviceSlave.stop ∧
      sampleStateDeviceSlave.stop.stopped = true ∧
      sampleStateDeviceSlave.stop.outputBuf = sampleStateDeviceSlave.outputBuf ∧
      sampleStateDeviceSlave.stop.outputLen = sampleStateDeviceSlave.outputLen ∧
      sampleStateDeviceSlave.stop.freeMem = sampleStateDeviceSlave.freeMem ∧
      sampleStateDeviceSlave.stop.slave = some { typename := "EL2202", name := "0" } ∧
      sampleStateDeviceSlave.stop.currSyncManager = sampleStateDeviceSlave.currSyncManager) :=
  ⟨by rfl, by decide,
    syncManager_needs_generic sampleEnv sampleStateDeviceSlave [("idx", "2"), ("dir", "out")]
      { typename := "EL2202", name := "0" } (by rfl) (by decide)⟩

theorem lookupStart_isSome (s : Int) (el : String) :
    (lookupStart xml_states s el).isSome = true ↔
      ∃ r ∈ xml_states, r.state_from = s ∧ r.el = el := by
  unfold lookupStart
  rw [List.find?_isSome]
  constructor
  · rintro ⟨r, hr, h⟩
    simp only [Bool.and_eq_true, decide_eq_true_eq] at h
    exact ⟨r, hr, h.1.symm, h.2.symm⟩
  · rintro ⟨r, hr, h1, h2⟩
    exact ⟨r, hr, by simp [h1, h2]⟩

theorem table_accepts_iff (c : LCEC_CONF_TYPE_T) (el : String) :
    (∃ r ∈ xml_states, r.state_from = c.toInt ∧ r.el = el) ↔ ∃ t, (c, el, t) ∈ legalNesting := by
  constructor
  · rintro ⟨r, hr, h1, h2⟩
    simp only [xml_states, List.mem_cons, List.mem_singleton, List.not_mem_nil, or_false] at hr
    rcases hr with h | h | h | h | h | h | h | h | h | h | h | h | h | h | h | h <;>
      subst h <;> subst h2 <;> cases c <;> simp [LCEC_CONF_TYPE_T.toInt] at h1 <;>
      simp [legalNesting]
  · rintro ⟨t, ht⟩
    simp only [legalNesting, List.mem_cons, List.mem_singleton, Prod.mk.injEq, List.not_mem_nil,
      or_false] at ht
    rcases ht with h | h | h | h | h | h | h | h | h | h | h | h | h | h | h <;>
      obtain ⟨rfl, rfl, rfl⟩ := h <;>
      simp [xml_states, LCEC_CONF_TYPE_T.toInt]

theorem table_target (c t : LCEC_CONF_TYPE_T) (el : String) (h : (c, el, t) ∈ legalNesting)
    (r : LCEC_CONF_XML_HANLDER_T) (hr : r ∈ xml_states) (h1 : r.state_from = c.toInt)
    (h2 : r.el = el) : r.state_to = t.toInt := by
  simp only [legalNesting, List.mem_cons, List.mem_singleton, Prod.mk.injEq, List.not_mem_nil,
    or_false] at h
  simp only [xml_states, List.mem_cons, List.mem_singleton, List.not_mem_nil, or_false] at hr
  rcases h with h | h | h | h | h | h | h | h | h | h | h | h | h | h | h <;>
    obtain ⟨rfl, rfl, rfl⟩ := h <;>
    rcases hr with k | k | k | k | k | k | k | k | k | k | k | k | k | k | k | k <;>
    subst k <;> simp [LCEC_CONF_TYPE_T.toInt] at h1 h2 ⊢

theorem table_rows_nonneg (r : LCEC_CONF_XML_HANLDER_T) (hr : r ∈ xml_states) :
    (0 ≤ r.state_from ↔ 0 ≤ r.state_to) := by
  simp only [xml_states, List.mem_cons, List.mem_singleton, List.not_mem_nil, or_false] at hr
  rcases hr with k | k | k | k | k | k | k | k | k | k | k | k | k | k | k | k <;>
    subst k <;> simp [LCEC_CONF_TYPE_T.toInt]

theorem reachable_nonneg (s : Int) (h : Reachable s) : 0 ≤ s := by
  induction h with
  | root => simp [LCEC_CONF_TYPE_T.toInt]
  | start s r _ hr hf ih =>
    rw [← hf] at ih
    exact (table_rows_nonneg r hr).mp ih
  | stop s r _ hr ht ih =>
    rw [← ht] at ih
    exact (table_rows_nonneg r hr).mpr ih

/-- C9: the transition table `xml_states` has a row for a pair of a context and
an element name exactly when the pair is a legal nesting pair, and the row then
leads to the context of that element; no two rows have the same context and
name (the lookup is deterministic, and it finds a row exactly when there is
one); in the root context only `masters` has a row; the last row is
`("NULL", -1, -1)`, and `-1` is no context reachable from the root. -/
theorem xml_states_legal_nesting :
    (∀ (c : LCEC_CONF_TYPE_T) (el : String),
      (∃ r ∈ xml_states, r.state_from = c.toInt ∧ r.el = el) ↔ ∃ t, (c, el, t) ∈ legalNesting) ∧
    (∀ (c t : LCEC_CONF_TYPE_T) (el : String), (c, el, t) ∈ legalNesting →
      ∀ r ∈ xml_states, r.state_from = c.toInt → r.el = el → r.state_to = t.toInt) ∧
    (xml_states.map (fun r => (r.state_from, r.el))).Nodup ∧
    (∀ (s : Int) (el : String), (lookupStart xml_states s el).isSome = true ↔
      ∃ r ∈ xml_states, r.state_from = s ∧ r.el = el) ∧
    (∀ el : String, (∃ r ∈ xml_states, r.state_from = lcecConfTypeNone.toInt ∧ r.el = el) ↔
      el = "masters") ∧
    xml_states.getLast?.map (fun r => (r.el, r.state_from, r.state_to)) = some ("NULL", -1, -1) ∧
    (∀ s : Int, Reachable s → s ≠ -1) := by
  refine ⟨table_accepts_iff, fun c t el h r hr h1 h2 => table_target c t el h r hr h1 h2,
    by decide, lookupStart_isSome, ?_, by rfl, ?_⟩
  · intro el
    rw [table_accepts_iff]
    simp [legalNesting]
  · intro s h
    have := reachable_nonneg s h
    omega

theorem slaveKeys_append (a b : List ConfRec) : slaveKeys (a ++ b) = slaveKeys a ++ slaveKeys b := by
  unfold slaveKeys
  exact List.filterMap_append a b slaveKey

theorem slaveKeys_set (b : List ConfRec) : ∀ (i : Nat) (r r' : ConfRec), b[i]? = some r →
    slaveKey r' = slaveKey r → slaveKeys (b.set i r') = slaveKeys b := by
  induction b with
  | nil => intro i r r' h; simp at h
  | cons x t ih =>
    intro i r r' h hk
    cases i with
    | zero =>
      simp only [List.getElem?_cons_zero, Option.some.injEq] at h
      subst h
      simp only [List.set_cons_zero, slaveKeys, List.filterMap_cons, hk]
    | succ j =>
      simp only [List.getElem?_cons_succ] at h
      have := ih j r r' h hk
      simp only [slaveKeys] at this
      simp only [List.set_cons_succ, slaveKeys, List.filterMap_cons, this]

theorem slaveKeys_snoc_none (b : List ConfRec) (r : ConfRec) (h : slaveKey r = none) :
    slaveKeys (b ++ [r]) = slaveKeys b := by
  rw [slaveKeys_append]
  simp [slaveKeys, h]

/-- The record written into a fresh reservation replaces the zero record. -/
theorem alloc_write (st st1 : State) (len : Nat) (r0 r : ConfRec)
    (h : addOutputBuffer st len r0 = some st1) :
    (st1.writeRec st.outputBuf.length r).outputBuf = st.outputBuf ++ [r] ∧
    st1.outputBuf = st.outputBuf ++ [r0] := by
  obtain ⟨_, rfl⟩ := addOutputBuffer_some h
  exact ⟨by simp [State.writeRec, set_length_append], rfl⟩

theorem alloc_write_keys (st st1 : State) (len : Nat) (r0 r : ConfRec)
    (h : addOutputBuffer st len r0 = some st1) (hr : slaveKey r = none) :
    slaveKeys (st1.writeRec st.outputBuf.length r).outputBuf = slaveKeys st.outputBuf := by
  rw [(alloc_write st st1 len r0 r h).1]
  exact slaveKeys_snoc_none _ _ hr

theorem alloc_keys (st st1 : State) (len : Nat) (r0 : ConfRec)
    (h : addOutputBuffer st len r0 = some st1) (hr : slaveKey r0 = none) :
    slaveKeys st1.outputBuf = slaveKeys st.outputBuf := by
  rw [(alloc_write st st1 len r0 r0 h).2]
  exact slaveKeys_snoc_none _ _ hr

theorem updSlave_keys {st st1 : State} {f : LCEC_CONF_SLAVE_T → LCEC_CONF_SLAVE_T}
    (h : st.updSlave f = some st1)
    (hf : ∀ s, slaveKey (ConfRec.slave (f s)) = slaveKey (ConfRec.slave s)) :
    slaveKeys st1.outputBuf = slaveKeys st.outputBuf := by
  obtain ⟨i, s, _, hg, rfl⟩ := updSlave_some h
  exact slaveKeys_set _ i _ _ hg (hf s)

theorem updPdo_keys {st st1 : State} {f : LCEC_CONF_PDO_T → LCEC_CONF_PDO_T}
    (h : st.updPdo f = some st1) : slaveKeys st1.outputBuf = slaveKeys st.outputBuf := by
  obtain ⟨i, s, _, hg, rfl⟩ := updPdo_some h
  exact slaveKeys_set _ i _ _ hg rfl

theorem updSyncManager_keys {st st1 : State}
    {f : LCEC_CONF_SYNCMANAGER_T → LCEC_CONF_SYNCMANAGER_T}
    (h : st.updSyncManager f = some st1) : slaveKeys st1.outputBuf = slaveKeys st.outputBuf := by
  unfold State.updSyncManager at h
  split at h
  · rename_i i s hi hs
    cases h
    unfold State.syncManager at hs
    rw [hi] at hs
    simp only at hs
    split at hs
    · rename_i s1 hget
      exact slaveKeys_set _ i _ _ hget rfl
    · cases hs
  · cases h

theorem updSdoConf_keys {st st1 : State} {f : LCEC_CONF_SDOCONF_T → LCEC_CONF_SDOCONF_T}
    (h : st.updSdoConf f = some st1) : slaveKeys st1.outputBuf = slaveKeys st.outputBuf := by
  unfold State.updSdoConf at h
  split at h
  · rename_i i s hi hs
    cases h
    unfold State.sdoConf at hs
    rw [hi] at hs
    simp only at hs
    split at hs
    · rename_i s1 hget
      exact slaveKeys_set _ i _ _ hget rfl
    · cases hs
  · cases h

theorem updIdnConf_keys {st st1 : State} {f : LCEC_CONF_IDNCONF_T → LCEC_CONF_IDNCONF_T}
    (h : st.updIdnConf f = some st1) : slaveKeys st1.outputBuf = slaveKeys st.outputBuf := by
  unfold State.updIdnConf at h
  split at h
  · rename_i i s hi hs
    cases h
    unfold State.idnConf at hs
    rw [hi] at hs
    simp only at hs
    split at hs
    · rename_i s1 hget
      exact slaveKeys_set _ i _ _ hget rfl
    · cases hs
  · cases h

theorem parseMasterAttrs_keys (env : Env) (st st' : State) (attr : Attrs)
    (h : parseMasterAttrs env st attr = some st') :
    slaveKeys st'.outputBuf = slaveKeys st.outputBuf := by
  unfold parseMasterAttrs at h
  split at h
  · cases h; rfl
  · rename_i st1 halloc
    dsimp only at h
    split at h
    · cases h
    · cases h
      exact alloc_write_keys st st1 _ _ _ halloc rfl
    · cases h
      exact alloc_write_keys st st1 _ _ _ halloc rfl

theorem parseDcConfAttrs_keys (env : Env) (st st' : State) (attr : Attrs)
    (h : parseDcConfAttrs env st attr = some st') :
    slaveKeys st'.outputBuf = slaveKeys st.outputBuf := by
  unfold parseDcConfAttrs at h
  split at h
  · cases h; rfl
  · rename_i st1 halloc
    dsimp only at h
    split at h
    · cases h
    · cases h
      exact alloc_write_keys st st1 _ _ _ halloc rfl
    · cases h
      exact alloc_write_keys st st1 _ _ _ halloc rfl

theorem parseWatchdogAttrs_keys (env : Env) (st st' : State) (attr : Attrs)
    (h : parseWatchdogAttrs env st attr = some st') :
    slaveKeys st'.outputBuf = slaveKeys st.outputBuf := by
  unfold parseWatchdogAttrs at h
  split at h
  · cases h; rfl
  · rename_i st1 halloc
    dsimp only at h
    split at h
    · cases h
    · cases h
      exact alloc_write_keys st st1 _ _ _ halloc rfl
    · cases h
      exact alloc_write_keys st st1 _ _ _ halloc rfl

theorem parseSdoConfigAttrs_keys (env : Env) (st st' : State) (attr : Attrs)
    (h : parseSdoConfigAttrs env st attr = some st') :
    slaveKeys st'.outputBuf = slaveKeys st.outputBuf := by
  unfold parseSdoConfigAttrs at h
  split at h
  · cases h; rfl
  · rename_i st1 halloc
    dsimp only at h
    split at h
    · cases h
    · cases h
      exact alloc_write_keys st st1 _ _ _ halloc rfl
    · split_ifs at h
      · cases h
        exact alloc_write_keys st st1 _ _ _ halloc rfl
      · cases h
        exact alloc_write_keys st st1 _ _ _ halloc rfl
      · rw [updSlave_keys h (fun s => rfl)]
        exact alloc_write_keys st st1 _ _ _ halloc rfl

theorem parseIdnConfigAttrs_keys (env : Env) (st st' : State) (attr : Attrs)
    (h : parseIdnConfigAttrs env st attr = some st') :
    slaveKeys st'.outputBuf = slaveKeys st.outputBuf := by
  unfold parseIdnConfigAttrs at h
  split at h
  · cases h; rfl
  · rename_i st1 halloc
    dsimp only at h
    split at h
    · cases h
    · cases h
      exact alloc_write_keys st st1 _ _ _ halloc rfl
    · split_ifs at h
      · cases h
        exact alloc_write_keys st st1 _ _ _ halloc rfl
      · cases h
        exact alloc_write_keys st st1 _ _ _ halloc rfl
      · rw [updSlave_keys h (fun s => rfl)]
        exact alloc_write_keys st st1 _ _ _ halloc rfl

theorem parseSyncManagerAttrs_keys (env : Env) (st st' : State) (attr : Attrs)
    (h : parseSyncManagerAttrs env st attr = some st') :
    slaveKeys st'.outputBuf = slaveKeys st.outputBuf := by
  unfold parseSyncManagerAttrs at h
  split at h
  · cases h
  · split_ifs at h
    · cases h; rfl
    · split at h
      · cases h; rfl
      · rename_i st1 halloc
        dsimp only at h
        split at h
        · cases h
        · cases h
          exact alloc_write_keys st st1 _ _ _ halloc rfl
        · split_ifs at h
          · cases h
            exact alloc_write_keys st st1 _ _ _ halloc rfl
          · cases h
            exact alloc_write_keys st st1 _ _ _ halloc rfl
          · split at h
            · cases h
            · rename_i st3 h3
              cases h
              show slaveKeys st3.outputBuf = _
              rw [updSlave_keys h3 (fun s => rfl)]
              exact alloc_write_keys st st1 _ _ _ halloc rfl

theorem parsePdoAttrs_keys (env : Env) (st st' : State) (attr : Attrs)
    (h : parsePdoAttrs env st attr = some st') :
    slaveKeys st'.outputBuf = slaveKeys st.outputBuf := by
  unfold parsePdoAttrs at h
  split at h
  · cases h; rfl
  · rename_i st1 halloc
    dsimp only at h
    split at h
    · cases h
    · cases h
      exact alloc_write_keys st st1 _ _ _ halloc rfl
    · split_ifs at h
      · cases h
        exact alloc_write_keys st st1 _ _ _ halloc rfl
      · split at h
        · cases h
        · rename_i st3 h3
          split at h
          · cases h
          · rename_i st4 h4
            cases h
            show slaveKeys st4.outputBuf = _
            rw [updSyncManager_keys h4, updSlave_keys h3 (fun s => rfl)]
            exact alloc_write_keys st st1 _ _ _ halloc rfl

theorem parsePdoEntryAttrs_keys (env : Env) (st st' : State) (attr : Attrs)
    (h : parsePdoEntryAttrs env st attr = some st') :
    slaveKeys st'.outputBuf = slaveKeys st.outputBuf := by
  unfold parsePdoEntryAttrs at h
  split at h
  · cases h; rfl
  · rename_i st1 halloc
    dsimp only at h
    split at h
    · cases h
    · cases h
      exact alloc_write_keys st st1 _ _ _ halloc rfl
    · rename_i p fr _
      have hw := alloc_write_keys st st1 _ _ (ConfRec.pdoEntry p) halloc rfl
      by_cases h1 : p.index = 0xffff
      · rw [if_pos h1] at h
        cases h
        exact hw
      by_cases h2 : p.subindex = 0xff
      · rw [if_neg h1, if_pos h2] at h
        cases h
        exact hw
      by_cases h3 : p.bitLength = 0
      · rw [if_neg h1, if_neg h2, if_pos h3] at h
        cases h
        exact hw
      by_cases h5 : fr = true ∧ p.halType ≠ HAL_FLOAT
      · rw [if_neg h1, if_neg h2, if_neg h3, if_pos h5] at h
        cases h
        split_ifs
        · exact hw
        · exact hw
      rw [if_neg h1, if_neg h2, if_neg h3, if_neg h5] at h
      have hw3 : slaveKeys (if p.subType = lcecPdoEntTypeComplex ∧ p.halPin ≠ "" then
          (st1.writeRec st.outputBuf.length (ConfRec.pdoEntry p)).stop
          else st1.writeRec st.outputBuf.length (ConfRec.pdoEntry p)).outputBuf
            = slaveKeys st.outputBuf := by
        split_ifs
        · exact hw
        · exact hw
      split at h
      · cases h
      · rename_i st4 h4
        split at h
        · cases h
        · rename_i st5 h5'
          split at h
          · cases h
          · rename_i st6 h6
            cases h
            show slaveKeys st6.outputBuf = _
            have e5 : slaveKeys st5.outputBuf = slaveKeys st4.outputBuf := by
              split_ifs at h5'
              · exact updSlave_keys h5' (fun s => rfl)
              · cases h5'
                rfl
            rw [updPdo_keys h6, e5, updSlave_keys h4 (fun s => rfl)]
            exact hw3

theorem parseComplexEntryAttrs_keys (env : Env) (st st' : State) (attr : Attrs)
    (h : parseComplexEntryAttrs env st attr = some st') :
    slaveKeys st'.outputBuf = slaveKeys st.outputBuf := by
  unfold parseComplexEntryAttrs at h
  split at h
  · cases h; rfl
  · rename_i st1 halloc
    dsimp only at h
    split at h
    · cases h
    · cases h
      exact alloc_write_keys st st1 _ _ _ halloc rfl
    · rename_i p fr _
      have hw := alloc_write_keys st st1 _ _ (ConfRec.complexEntry p) halloc rfl
      by_cases h3 : p.bitLength = 0
      · rw [if_pos h3] at h
        cases h
        exact hw
      by_cases h5 : fr = true ∧ p.halType ≠ HAL_FLOAT
      · rw [if_neg h3, if_pos h5] at h
        cases h
        exact hw
      rw [if_neg h3, if_neg h5] at h
      split at h
      · cases h
      · rename_i st3 h3'
        cases h
        show slaveKeys st3.outputBuf = _
        split_ifs at h3'
        · rw [updSlave_keys h3' (fun s => rfl)]
          exact hw
        · cases h3'
          exact hw

theorem parseModParamAttrs_keys (env : Env) (st st' : State) (attr : Attrs)
    (h : parseModParamAttrs env st attr = some st') :
    slaveKeys st'.outputBuf = slaveKeys st.outputBuf := by
  unfold parseModParamAttrs at h
  split at h
  · cases h
  · split at h
    · cases h; rfl
    · split at h
      · cases h; rfl
      · rename_i st1 halloc
        have ha := alloc_keys st st1 _ _ halloc rfl
        dsimp only at h
        split at h
        · cases h
        · cases h
          exact ha
        · split at h
          · split_ifs at h
            · cases h; exact ha
            · cases h; exact ha
            · split at h
              · cases h; exact ha
              · have hw : ∀ r, slaveKey r = none →
                    slaveKeys (st1.writeRec st.outputBuf.length r).outputBuf
                      = slaveKeys st.outputBuf :=
                  fun r hr => alloc_write_keys st st1 _ _ r halloc hr
                split_ifs at h
                · cases h
                  exact hw _ rfl
                · rw [updSlave_keys h (fun s => rfl)]
                  exact hw _ rfl
          · cases h; exact ha
theorem attrLoop_abort_inv {P : Type} (body : P → String → String → Step P) (I : P → Prop)
    (hcont : ∀ p n v q, I p → body p n v = Step.cont q → I q)
    (habort : ∀ p n v q, I p → body p n v = Step.abort q → I q) :
    ∀ (attrs : Attrs) (p q : P), I p → attrLoop body p attrs = Step.abort q → I q := by
  intro attrs
  induction attrs with
  | nil =>
    intro p q _ h
    simp [attrLoop] at h
  | cons a rest ih =>
    intro p q hp h
    obtain ⟨n, v⟩ := a
    simp only [attrLoop] at h
    cases hb : body p n v with
    | cont p1 =>
      rw [hb] at h
      exact ih p1 q (hcont p n v p1 hp hb) h
    | abort p1 =>
      rw [hb] at h
      cases h
      exact habort p n v _ hp hb
    | fault => rw [hb] at h; cases h

theorem dataRawBody_keys (env : Env) (st q : State) (n v : String)
    (h : dataRawBody env st n v = Step.cont q ∨ dataRawBody env st n v = Step.abort q) :
    slaveKeys q.outputBuf = slaveKeys st.outputBuf := by
  unfold dataRawBody at h
  dsimp only at h
  split_ifs at h with c1 c2 c3
  · rcases h with h | h <;> cases h
    rfl
  · split at h
    · rcases h with h | h <;> cases h
      rfl
    · rename_i st1 halloc
      have ha := alloc_keys st st1 _ _ halloc rfl
      split_ifs at h
      · split at h
        · rcases h with h | h <;> cases h
        · rename_i st2 h2
          split at h
          · rcases h with h | h <;> cases h
          · rename_i st3 h3
            rcases h with h | h <;> cases h
            rw [updSlave_keys h3 (fun s => rfl), updSdoConf_keys h2]
            exact ha
      · split at h
        · rcases h with h | h <;> cases h
        · rename_i st2 h2
          split at h
          · rcases h with h | h <;> cases h
          · rename_i st3 h3
            rcases h with h | h <;> cases h
            rw [updSlave_keys h3 (fun s => rfl), updIdnConf_keys h2]
            exact ha
      · rcases h with h | h <;> cases h
        exact ha
  · rcases h with h | h <;> cases h
    rfl
  · rcases h with h | h <;> cases h
    rfl

theorem parseDataRawAttrs_keys (env : Env) (st st' : State) (attr : Attrs)
    (h : parseDataRawAttrs env st attr = some st') :
    slaveKeys st'.outputBuf = slaveKeys st.outputBuf := by
  unfold parseDataRawAttrs at h
  split at h
  · cases h
  · rename_i st1 hl
    cases h
    exact attrLoop_abort_inv (dataRawBody env)
      (fun x => slaveKeys x.outputBuf = slaveKeys st.outputBuf)
      (fun p n v q hp hb => (dataRawBody_keys env p q n v (Or.inl hb)).trans hp)
      (fun p n v q hp hb => (dataRawBody_keys env p q n v (Or.inr hb)).trans hp)
      attr st st1 rfl hl
  · rename_i st1 hl
    cases h
    exact attrLoop_cont_inv (dataRawBody env)
      (fun x => slaveKeys x.outputBuf = slaveKeys st.outputBuf)
      (fun p n v q hp hb => (dataRawBody_keys env p q n v (Or.inl hb)).trans hp)
      attr st _ rfl hl

theorem icmdRecs_keys (recs : List IcmdRec) : slaveKeys (recs.flatMap IcmdRec.toRecs) = [] := by
  induction recs with
  | nil => rfl
  | cons r t ih =>
    rw [List.flatMap_cons, slaveKeys_append, ih]
    cases r <;> rfl

theorem parseInitCmdsAttrs_keys (env : Env) (st st' : State) (attr : Attrs)
    (h : parseInitCmdsAttrs env st attr = some st') :
    slaveKeys st'.outputBuf = slaveKeys st.outputBuf := by
  unfold parseInitCmdsAttrs at h
  split at h
  · cases h
  · cases h; rfl
  · split at h
    · cases h; rfl
    · split_ifs at h
      · cases h; rfl
      · split at h
        · cases h
        · rename_i ret st1 hcall
          have hk : slaveKeys st1.outputBuf = slaveKeys st.outputBuf := by
            unfold callParseIcmds at hcall
            dsimp only at hcall
            split at hcall
            · cases hcall
            · rename_i st2 h2
              cases hcall
              rw [updSlave_keys h2 (fun s => rfl)]
              show slaveKeys (st.outputBuf ++ _) = _
              rw [slaveKeys_append, icmdRecs_keys, List.append_nil]
          split_ifs at h
          · cases h
            exact hk
          · cases h
            exact hk

/-- The field `proj` of the record an attribute loop builds is decided by the
last attribute named `N`, when every pass at `N` stores `g v` and every other
pass leaves the field. -/
theorem attrLoop_last_value {P F : Type} (body : P → String → String → Step P)
    (proj : P → F) (N : String) (g : String → F)
    (hat : ∀ p v q, body p N v = Step.cont q → proj q = g v)
    (hother : ∀ p n v q, n ≠ N → body p n v = Step.cont q → proj q = proj p) :
    ∀ (attrs : Attrs) (p q : P), attrLoop body p attrs = Step.cont q →
      proj q = (match attrValue N attrs with
                | some v => g v
                | none => proj p) := by
  intro attrs
  induction attrs with
  | nil =>
    intro p q h
    simp only [attrLoop, Step.cont.injEq] at h
    subst h
    rfl
  | cons a rest ih =>
    intro p q h
    obtain ⟨n, v⟩ := a
    simp only [attrLoop] at h
    cases hb : body p n v with
    | cont p1 =>
      rw [hb] at h
      have e := ih p1 q h
      simp only [attrValue]
      cases hr : attrValue N rest with
      | some w =>
        rw [hr] at e
        exact e
      | none =>
        rw [hr] at e
        by_cases hn : n = N
        · subst hn
          simp only [if_true]
          rw [e]
          exact hat p v p1 hb
        · simp only [if_neg hn]
          rw [e]
          exact hother p n v p1 hn hb
    | abort p1 =>
      rw [hb] at h
      cases h
    | fault =>
      rw [hb] at h
      cases h

theorem slaveBody_index (env : Env) (attr : Attrs) (q : LCEC_CONF_SLAVE_T)
    (h : attrLoop (slaveBody env) {} attr = Step.cont q) :
    q.index = (match attrValue "idx" attr with
               | some v => atoi env.longBits v
               | none => 0) := by
  refine attrLoop_last_value (slaveBody env) (fun p => p.index) "idx"
    (fun v => atoi env.longBits v) ?_ ?_ attr {} q h
  · intro p v q hb
    simp only [slaveBody, if_neg (by decide : ¬ ("idx" = "type")), if_true, Step.cont.injEq] at hb
    subst hb
    rfl
  · intro p n v q hn hb
    unfold slaveBody at hb
    split_ifs at hb <;> first | (cases hb <;> rfl) | contradiction

theorem slaveBody_typename (env : Env) (attr : Attrs) (q : LCEC_CONF_SLAVE_T)
    (h : attrLoop (slaveBody env) {} attr = Step.cont q) :
    q.typename = (match attrValue "type" attr with
                  | some v => strncpy v env.LCEC_CONF_STR_MAXLEN
                  | none => "") := by
  refine attrLoop_last_value (slaveBody env) (fun p => p.typename) "type"
    (fun v => strncpy v env.LCEC_CONF_STR_MAXLEN) ?_ ?_ attr {} q h
  · intro p v q hb
    simp only [slaveBody, if_true, Step.cont.injEq] at hb
    subst hb
    rfl
  · intro p n v q hn hb
    unfold slaveBody at hb
    split_ifs at hb <;> first | (cases hb <;> rfl) | contradiction

theorem slaveBody_name (env : Env) (attr : Attrs) (q : LCEC_CONF_SLAVE_T)
    (h : attrLoop (slaveBody env) {} attr = Step.cont q) :
    q.name = (match attrValue "name" attr with
              | some v => strncpy v (env.LCEC_CONF_STR_MAXLEN - 1)
              | none => "") := by
  refine attrLoop_last_value (slaveBody env) (fun p => p.name) "name"
    (fun v => strncpy v (env.LCEC_CONF_STR_MAXLEN - 1)) ?_ ?_ attr {} q h
  · intro p v q hb
    simp only [slaveBody, if_neg (by decide : ¬ ("name" = "type")),
      if_neg (by decide : ¬ ("name" = "idx")), if_true, Step.cont.injEq] at hb
    subst hb
    rfl
  · intro p n v q hn hb
    unfold slaveBody at hb
    split_ifs at hb <;> first | (cases hb <;> rfl) | contradiction

theorem slaveBody_key (env : Env) (attr : Attrs) (q : LCEC_CONF_SLAVE_T)
    (h : attrLoop (slaveBody env) {} attr = Step.cont q) :
    (q.index, q.typename, if q.name = "" then defaultName env q.index else q.name) =
      slaveKeyOf env attr := by
  rw [slaveBody_index env attr q h, slaveBody_typename env attr q h, slaveBody_name env attr q h]
  rfl

/-- A `slave` element the handler accepts appends one slave record, whose
identifying fields are those of the element. -/
theorem parseSlaveAttrs_keys (env : Env) (st st' : State) (attr : Attrs)
    (h : parseSlaveAttrs env st attr = some st') (hs : st'.stopped = false) :
    slaveKeys st'.outputBuf = slaveKeys st.outputBuf ++ [slaveKeyOf env attr] := by
  unfold parseSlaveAttrs at h
  split at h
  · cases h; cases hs
  · rename_i st1 halloc
    dsimp only at h
    split at h
    · cases h
    · cases h; cases hs
    · rename_i valid slaveType hpre
      split at h
      · cases h
      · cases h; cases hs
      · rename_i p hl
        by_cases hv : valid = false
        · rw [if_pos hv] at h
          cases h
          cases hs
        · rw [if_neg hv] at h
          cases h
          clear hs
          have hbuf := (alloc_write st st1 _ (ConfRec.slave {})
            (ConfRec.slave (if p.name = "" then { p with name := defaultName env p.index } else p))
            halloc).1
          change slaveKeys (st1.writeRec st.outputBuf.length _).outputBuf = _
          rw [hbuf, slaveKeys_append, ← slaveBody_key env attr p hl]
          congr 1
          by_cases hn : p.name = ""
          · simp only [hn, if_true, slaveKeys, List.filterMap_cons, List.filterMap_nil, slaveKey]
          · simp only [if_neg hn, slaveKeys, List.filterMap_cons, List.filterMap_nil, slaveKey]
theorem lookupStart_some {s : Int} {el : String} {row : LCEC_CONF_XML_HANLDER_T}
    (h : lookupStart xml_states s el = some row) : row ∈ xml_states ∧ row.el = el := by
  unfold lookupStart at h
  have h1 := List.mem_of_find?_eq_some h
  have h2 := List.find?_some h
  simp only [Bool.and_eq_true, decide_eq_true_eq] at h2
  exact ⟨h1, h2.2.symm⟩

/-- The rows of the table: the `slave` row calls `parseSlaveAttrs`, every other
row has no handler or one that leaves the slave records of the buffer. -/
theorem table_row_keys (row : LCEC_CONF_XML_HANLDER_T) (hr : row ∈ xml_states) :
    (row.el = "slave" ∧ row.start_handler = some parseSlaveAttrs) ∨
    (row.el ≠ "slave" ∧
      (row.start_handler = none ∨
        ∃ f, row.start_handler = some f ∧
          ∀ env st st' attr, f env st attr = some st' →
            slaveKeys st'.outputBuf = slaveKeys st.outputBuf)) := by
  simp only [xml_states, List.mem_cons, List.mem_singleton, List.not_mem_nil, or_false] at hr
  rcases hr with h | h | h | h | h | h | h | h | h | h | h | h | h | h | h | h <;> subst h
  · exact Or.inr ⟨by decide, Or.inl rfl⟩
  · exact Or.inr ⟨by decide, Or.inr ⟨_, rfl, parseMasterAttrs_keys⟩⟩
  · exact Or.inl ⟨rfl, rfl⟩
  · exact Or.inr ⟨by decide, Or.inr ⟨_, rfl, parseDcConfAttrs_keys⟩⟩
  · exact Or.inr ⟨by decide, Or.inr ⟨_, rfl, parseWatchdogAttrs_keys⟩⟩
  · exact Or.inr ⟨by decide, Or.inr ⟨_, rfl, parseSdoConfigAttrs_keys⟩⟩
  · exact Or.inr ⟨by decide, Or.inr ⟨_, rfl, parseDataRawAttrs_keys⟩⟩
  · exact Or.inr ⟨by decide, Or.inr ⟨_, rfl, parseIdnConfigAttrs_keys⟩⟩
  · exact Or.inr ⟨by decide, Or.inr ⟨_, rfl, parseDataRawAttrs_keys⟩⟩
  · exact Or.inr ⟨by decide, Or.inr ⟨_, rfl, parseInitCmdsAttrs_keys⟩⟩
  · exact Or.inr ⟨by decide, Or.inr ⟨_, rfl, parseSyncManagerAttrs_keys⟩⟩
  · exact Or.inr ⟨by decide, Or.inr ⟨_, rfl, parsePdoAttrs_keys⟩⟩
  · exact Or.inr ⟨by decide, Or.inr ⟨_, rfl, parsePdoEntryAttrs_keys⟩⟩
  · exact Or.inr ⟨by decide, Or.inr ⟨_, rfl, parseComplexEntryAttrs_keys⟩⟩
  · exact Or.inr ⟨by decide, Or.inr ⟨_, rfl, parseModParamAttrs_keys⟩⟩
  · exact Or.inr ⟨by decide, Or.inl rfl⟩

/-- An open-element event that does not stop the parser appends the slave
record of the element when the element is a `slave`, and no slave record
otherwise. -/
theorem xml_start_handler_keys (env : Env) (st st' : State) (el : String) (attr : Attrs)
    (h : xml_start_handler env st el attr = some st') (hs : st'.stopped = false) :
    slaveKeys st'.outputBuf =
      slaveKeys st.outputBuf ++ (if el = "slave" then [slaveKeyOf env attr] else []) := by
  unfold xml_start_handler at h
  split at h
  · cases h; cases hs
  · rename_i row hrow
    obtain ⟨hmem, hel⟩ := lookupStart_some hrow
    subst hel
    rcases table_row_keys row hmem with ⟨he, hh⟩ | ⟨he, hh | ⟨f, hf, hkeep⟩⟩
    · rw [hh] at h
      dsimp only at h
      split at h
      · cases h
      · rename_i st1 h1
        cases h
        rw [if_pos he]
        exact parseSlaveAttrs_keys env st st1 attr h1 hs
    · rw [hh] at h
      cases h
      rw [if_neg he, List.append_nil]
    · rw [hf] at h
      dsimp only at h
      split at h
      · cases h
      · rename_i st1 h1
        cases h
        rw [if_neg he, List.append_nil]
        exact hkeep env st st1 attr h1

theorem xml_end_handler_keys (st : State) (el : String) :
    (xml_end_handler st el).outputBuf = st.outputBuf := by
  unfold xml_end_handler
  split <;> rfl

theorem XML_Parse_stopped (env : Env) (st : State) (evs : List XmlEvent)
    (h : st.stopped = true) : XML_Parse env st evs = some st := by
  cases evs with
  | nil => rfl
  | cons ev rest => simp only [XML_Parse, h, if_true]

/-- A parse that ends without a stop has appended the slave records of the
`slave` start events, in the order of the events. -/
theorem XML_Parse_keys (env : Env) : ∀ (evs : List XmlEvent) (st st' : State),
    XML_Parse env st evs = some st' → st'.stopped = false →
    slaveKeys st'.outputBuf =
      slaveKeys st.outputBuf ++ (slaveStarts evs).map (slaveKeyOf env) := by
  intro evs
  induction evs with
  | nil =>
    intro st st' h _
    simp only [XML_Parse, Option.some.injEq] at h
    subst h
    simp [slaveStarts]
  | cons ev rest ih =>
    intro st st' h hs
    simp only [XML_Parse] at h
    by_cases hst : st.stopped = true
    · rw [if_pos hst] at h
      cases h
      rw [hst] at hs
      cases hs
    · rw [if_neg hst] at h
      cases hd : dispatch env st ev with
      | none =>
        rw [hd] at h
        cases h
      | some st1 =>
        rw [hd] at h
        dsimp only at h
        have hs1 : st1.stopped = false := by
          cases hb : st1.stopped with
          | false => rfl
          | true =>
            rw [XML_Parse_stopped env st1 rest hb] at h
            cases h
            rw [hb] at hs
            cases hs
        rw [ih st1 st' h hs]
        cases ev with
        | startElement el attr =>
          simp only [dispatch] at hd
          rw [xml_start_handler_keys env st st1 el attr hd hs1, List.append_assoc]
          congr 1
          by_cases he : el = "slave"
          · simp only [slaveStarts, if_pos he, List.map_cons, List.singleton_append]
          · simp only [slaveStarts, if_neg he, List.nil_append]
        | endElement el =>
          simp only [dispatch, Option.some.injEq] at hd
          subst hd
          rw [xml_end_handler_keys]
          simp only [slaveStarts]

theorem slaveStarts_append (a b : List XmlEvent) :
    slaveStarts (a ++ b) = slaveStarts a ++ slaveStarts b := by
  induction a with
  | nil => rfl
  | cons ev rest ih =>
    cases ev with
    | startElement el attr =>
      by_cases he : el = "slave"
      · simp only [List.cons_append, slaveStarts, if_pos he, List.append_eq, ih]
      · simp only [List.cons_append, slaveStarts, if_neg he, List.append_eq, ih]
    | endElement el => simp only [List.cons_append, slaveStarts, List.append_eq, ih]

mutual
/-- The `slave` start events of an element are its `slave` elements. -/
theorem slaveStarts_events : ∀ (e : XmlElem), slaveStarts e.events = e.slaves
  | XmlElem.node name attr children => by
    have ih := slaveStarts_eventsOfList children
    by_cases he : name = "slave"
    · simp only [XmlElem.events, XmlElem.slaves, slaveStarts, if_pos he, slaveStarts_append, ih,
        List.append_nil]
    · simp only [XmlElem.events, XmlElem.slaves, slaveStarts, if_neg he, slaveStarts_append, ih,
        List.append_nil]
/-- The `slave` start events of a list of siblings. -/
theorem slaveStarts_eventsOfList : ∀ (cs : List XmlElem),
    slaveStarts (eventsOfList cs) = slavesOfList cs
  | [] => by simp only [eventsOfList, slavesOfList, slaveStarts]
  | c :: cs => by
    have h1 := slaveStarts_events c
    have h2 := slaveStarts_eventsOfList cs
    simp only [eventsOfList, slavesOfList, slaveStarts_append, h1, h2]
end

/-- C10: for every document that is compiled without abort, the slave records
of the output buffer are, in buffer order, the records of the `slave` elements
of the document in document order: as many records as elements, the i-th
record carrying the index, type name and name of the i-th element. -/
theorem slave_records_follow_document (env : Env) (mem : Nat) (doc : XmlElem)
    (hdr : LCEC_CONF_HEADER_T) (recs : List ConfRec)
    (h : compile env mem doc = some (some (hdr, recs))) :
    slaveKeys recs = doc.slaves.map (slaveKeyOf env) ∧
    (slaveKeys recs).length = doc.slaves.length := by
  have key : slaveKeys recs = doc.slaves.map (slaveKeyOf env) := by
    unfold compile at h
    split at h
    · cases h
    · rename_i st hp
      by_cases hst : st.stopped = true
      · rw [if_pos hst] at h
        cases h
      · rw [if_neg hst] at h
        split at h
        · cases h
        · rename_i st1 halloc
          simp only [Option.some.injEq, Prod.mk.injEq] at h
          obtain ⟨_, rfl⟩ := h
          rw [alloc_keys st st1 _ _ halloc rfl,
            XML_Parse_keys env doc.events (initState mem) st hp (by simpa using hst),
            slaveStarts_events]
          rfl
  exact ⟨key, by rw [key, List.length_map]⟩

theorem slave_records_follow_document_witness :
    compile sampleEnv 100000 sampleDoc ≠ none ∧
    ∃ hdr recs, compile sampleEnv 100000 sampleDoc = some (some (hdr, recs)) ∧
      slaveKeys recs = [(0, "generic", "S0"), (1, "EL2202", "1")] ∧
      slaveKeys recs = sampleDoc.slaves.map (slaveKeyOf sampleEnv) :=
  ⟨by decide, _, _, by rfl, by rfl,
    (slave_records_follow_document sampleEnv 100000 sampleDoc _ _ (by rfl)).1⟩

theorem addOutputBuffer_alloc {st st1 : State} {len : Nat} {r : ConfRec}
    (h : addOutputBuffer st len r = some st1) : len ≤ st.freeMem ∧ st1 = st.alloc len r :=
  addOutputBuffer_some h

theorem alloc_writeRec (st : State) (len : Nat) (r0 r : ConfRec) :
    (st.alloc len r0).writeRec st.outputBuf.length r = st.alloc len r := by
  simp [State.alloc, State.writeRec, set_length_append]

theorem updSlave_modAt {st st1 : State} {f : LCEC_CONF_SLAVE_T → LCEC_CONF_SLAVE_T}
    (h : st.updSlave f = some st1) :
    st1 = { st with outputBuf := modAt st.currSlave (ConfRec.mapSlave f) st.outputBuf } := by
  obtain ⟨i, s, hi, hg, rfl⟩ := updSlave_some h
  simp only [modAt, hi, hg, ConfRec.mapSlave]

theorem updPdo_modAt {st st1 : State} {f : LCEC_CONF_PDO_T → LCEC_CONF_PDO_T}
    (h : st.updPdo f = some st1) :
    st1 = { st with outputBuf := modAt st.currPdo (ConfRec.mapPdo f) st.outputBuf } := by
  obtain ⟨i, s, hi, hg, rfl⟩ := updPdo_some h
  simp only [modAt, hi, hg, ConfRec.mapPdo]

theorem updSyncManager_modAt {st st1 : State}
    {f : LCEC_CONF_SYNCMANAGER_T → LCEC_CONF_SYNCMANAGER_T}
    (h : st.updSyncManager f = some st1) :
    st1 = { st with
      outputBuf := modAt st.currSyncManager (ConfRec.mapSyncManager f) st.outputBuf } := by
  unfold State.updSyncManager at h
  split at h
  · rename_i i s hi hs
    cases h
    unfold State.syncManager at hs
    rw [hi] at hs
    simp only at hs
    split at hs
    · rename_i s1 hget
      cases hs
      simp only [modAt, hi, hget, ConfRec.mapSyncManager]
    · cases hs
  · cases h

theorem updSdoConf_modAt {st st1 : State} {f : LCEC_CONF_SDOCONF_T → LCEC_CONF_SDOCONF_T}
    (h : st.updSdoConf f = some st1) :
    st1 = { st with outputBuf := modAt st.currSdoConf (ConfRec.mapSdoConf f) st.outputBuf } := by
  unfold State.updSdoConf at h
  split at h
  · rename_i i s hi hs
    cases h
    unfold State.sdoConf at hs
    rw [hi] at hs
    simp only at hs
    split at hs
    · rename_i s1 hget
      cases hs
      simp only [modAt, hi, hget, ConfRec.mapSdoConf]
    · cases hs
  · cases h

theorem updIdnConf_modAt {st st1 : State} {f : LCEC_CONF_IDNCONF_T → LCEC_CONF_IDNCONF_T}
    (h : st.updIdnConf f = some st1) :
    st1 = { st with outputBuf := modAt st.currIdnConf (ConfRec.mapIdnConf f) st.outputBuf } := by
  unfold State.updIdnConf at h
  split at h
  · rename_i i s hi hs
    cases h
    unfold State.idnConf at hs
    rw [hi] at hs
    simp only at hs
    split at hs
    · rename_i s1 hget
      cases hs
      simp only [modAt, hi, hget, ConfRec.mapIdnConf]
    · cases hs
  · cases h

/-- What an accepted `master` element does to the state. -/
theorem parseMasterAttrs_effect (env : Env) (st st' : State) (attr : Attrs)
    (h : parseMasterAttrs env st attr = some st') (hs : st'.stopped = false) :
    ∃ p, attrLoop (masterBody env) {} attr = Step.cont p ∧
      st' = { st.alloc (env.sizeof lcecConfTypeMaster)
                (ConfRec.master (if p.name = "" then { p with name := defaultName env p.index }
                                 else p)) with
              master_count := incU32 st.master_count,
              currMaster := some st.outputBuf.length } := by
  unfold parseMasterAttrs at h
  split at h
  · cases h; cases hs
  · rename_i st1 halloc
    obtain ⟨_, rfl⟩ := addOutputBuffer_alloc halloc
    dsimp only at h
    split at h
    · cases h
    · cases h; cases hs
    · rename_i p hl
      refine ⟨p, hl, ?_⟩
      rw [alloc_writeRec] at h
      cases h
      rfl

/-- What an accepted `slave` element does to the state. -/
theorem parseSlaveAttrs_effect (env : Env) (st st' : State) (attr : Attrs)
    (h : parseSlaveAttrs env st attr = some st') (hs : st'.stopped = false) :
    ∃ p ty, attrLoop (slaveBody env) {} attr = Step.cont p ∧
      attrLoop (slavePreBody env) (false, none) attr = Step.cont (true, ty) ∧
      st' = { st.alloc (env.sizeof lcecConfTypeSlave)
                (ConfRec.slave (if p.name = "" then { p with name := defaultName env p.index }
                                else p)) with
              slave_count := incU32 st.slave_count,
              currSlaveType := ty,
              currSlave := some st.outputBuf.length } := by
  unfold parseSlaveAttrs at h
  split at h
  · cases h; cases hs
  · rename_i st1 halloc
    obtain ⟨_, rfl⟩ := addOutputBuffer_alloc halloc
    dsimp only at h
    split at h
    · cases h
    · cases h; cases hs
    · rename_i valid slaveType hpre
      split at h
      · cases h
      · cases h; cases hs
      · rename_i p hl
        by_cases hv : valid = false
        · rw [if_pos hv] at h
          cases h
          cases hs
        · rw [if_neg hv] at h
          have hv1 : valid = true := by simpa using hv
          subst hv1
          refine ⟨p, slaveType, hl, hpre, ?_⟩
          rw [alloc_writeRec] at h
          cases h
          rfl

/-- What an accepted `dcConf` element does to the state. -/
theorem parseDcConfAttrs_effect (env : Env) (st st' : State) (attr : Attrs)
    (h : parseDcConfAttrs env st attr = some st') (hs : st'.stopped = false) :
    ∃ p, attrLoop (dcConfBody env st) {} attr = Step.cont p ∧
      st' = st.alloc (env.sizeof lcecConfTypeDcConf) (ConfRec.dcConf p) := by
  unfold parseDcConfAttrs at h
  split at h
  · cases h; cases hs
  · rename_i st1 halloc
    obtain ⟨_, rfl⟩ := addOutputBuffer_alloc halloc
    dsimp only at h
    split at h
    · cases h
    · cases h; cases hs
    · rename_i p hl
      refine ⟨p, hl, ?_⟩
      rw [alloc_writeRec] at h
      cases h
      rfl

/-- What an accepted `watchdog` element does to the state. -/
theorem parseWatchdogAttrs_effect (env : Env) (st st' : State) (attr : Attrs)
    (h : parseWatchdogAttrs env st attr = some st') (hs : st'.stopped = false) :
    ∃ p, attrLoop (watchdogBody env) {} attr = Step.cont p ∧
      st' = st.alloc (env.sizeof lcecConfTypeWatchdog) (ConfRec.watchdog p) := by
  unfold parseWatchdogAttrs at h
  split at h
  · cases h; cases hs
  · rename_i st1 halloc
    obtain ⟨_, rfl⟩ := addOutputBuffer_alloc halloc
    dsimp only at h
    split at h
    · cases h
    · cases h; cases hs
    · rename_i p hl
      refine ⟨p, hl, ?_⟩
      rw [alloc_writeRec] at h
      cases h
      rfl
theorem modAt_modAt (i : Option Nat) (g1 g2 : ConfRec → ConfRec) (buf : List ConfRec) :
    modAt i g2 (modAt i g1 buf) = modAt i (fun r => g2 (g1 r)) buf := by
  cases i with
  | none => rfl
  | some i =>
    simp only [modAt]
    cases hg : buf[i]? with
    | none => simp only [hg]
    | some r =>
      have hlt : i < buf.length := (List.getElem?_eq_some.mp hg).1
      simp only [List.getElem?_set_self hlt, List.set_set]

theorem mapSlave_mapSlave (f g : LCEC_CONF_SLAVE_T → LCEC_CONF_SLAVE_T) (r : ConfRec) :
    ConfRec.mapSlave g (ConfRec.mapSlave f r) = ConfRec.mapSlave (fun s => g (f s)) r := by
  cases r <;> rfl

/-- What an accepted `sdoConfig` element does to the state. -/
theorem parseSdoConfigAttrs_effect (env : Env) (st st' : State) (attr : Attrs)
    (h : parseSdoConfigAttrs env st attr = some st') (hs : st'.stopped = false) :
    ∃ p, attrLoop (sdoConfigBody env) { index := 0xffff, subindex := 0xff } attr = Step.cont p ∧
      st' = { st.alloc (env.sizeof lcecConfTypeSdoConfig) (ConfRec.sdoConf p) with
              outputBuf :=
                modAt st.currSlave
                  (ConfRec.mapSlave (addSdoConfigLength env (env.sizeof lcecConfTypeSdoConfig)))
                  (st.outputBuf ++ [ConfRec.sdoConf p]),
              currSdoConf := some st.outputBuf.length } := by
  unfold parseSdoConfigAttrs at h
  split at h
  · cases h; cases hs
  · rename_i st1 halloc
    obtain ⟨_, rfl⟩ := addOutputBuffer_alloc halloc
    dsimp only at h
    split at h
    · cases h
    · cases h; cases hs
    · rename_i p hl
      refine ⟨p, hl, ?_⟩
      rw [alloc_writeRec] at h
      by_cases h1 : p.index = 0xffff
      · rw [if_pos h1] at h; cases h; cases hs
      · rw [if_neg h1] at h
        by_cases h2 : p.subindex = 0xff
        · rw [if_pos h2] at h; cases h; cases hs
        · rw [if_neg h2] at h
          rw [updSlave_modAt h]
          rfl

/-- No pass of the attribute loop of `parseIdnConfigAttrs` writes the `state`
field. -/
theorem idnConfigBody_state (env : Env) (p q : LCEC_CONF_IDNCONF_T) (n v : String)
    (h : idnConfigBody env p n v = Step.cont q ∨ idnConfigBody env p n v = Step.abort q) :
    q.state = p.state := by
  unfold idnConfigBody at h
  by_cases h1 : n = "drive"
  · simp only [if_pos h1] at h
    split_ifs at h <;> rcases h with h | h <;> cases h <;> rfl
  · simp only [if_neg h1] at h
    by_cases h2 : n = "idn"
    · simp only [if_pos h2] at h
      split at h
      · rcases h with h | h <;> cases h; rfl
      · split_ifs at h <;> rcases h with h | h <;> cases h <;> rfl
    · simp only [if_neg h2] at h
      rcases h with h | h <;> cases h
      rfl

/-- The handler `parseIdnConfigAttrs` stops the parser on every attribute list. -/
theorem parseIdnConfigAttrs_stops (env : Env) (st st' : State) (attr : Attrs)
    (h : parseIdnConfigAttrs env st attr = some st') : st'.stopped = true := by
  unfold parseIdnConfigAttrs at h
  split at h
  · cases h; rfl
  · rename_i st1 halloc
    dsimp only at h
    split at h
    · cases h
    · cases h; rfl
    · rename_i p hl
      have hst : p.state = 0 :=
        attrLoop_cont_inv (idnConfigBody env) (fun q => q.state = 0)
          (fun p n v q hp hb => (idnConfigBody_state env p q n v (Or.inl hb)).trans hp)
          attr _ p rfl hl
      by_cases h1 : p.idn = 0xffff
      · rw [if_pos h1] at h; cases h; rfl
      · rw [if_neg h1, if_pos hst] at h
        cases h
        rfl

theorem parseHex_length (val : String) (h : 0 ≤ (parseHex val).1) :
    (parseHex val).1 = ((parseHex val).2.length : Int) := by
  unfold parseHex at h ⊢
  cases hb : hexBytes val.data with
  | none => rw [hb] at h; simp at h
  | some bs => rfl

/-- One pass of the attribute loop of `parseDataRawAttrs` that goes on leaves the
state or stores one data block. -/
theorem dataRawBody_cont (env : Env) (st q : State) (n v : String)
    (h : dataRawBody env st n v = Step.cont q) :
    q = st ∨ q = dataBlock env st (parseHex v).2 := by
  unfold dataRawBody at h
  by_cases hn : n = "data"
  · rw [if_pos hn] at h
    dsimp only at h
    by_cases hneg : (parseHex v).1 < 0
    · rw [if_pos hneg] at h; cases h
    · rw [if_neg hneg] at h
      by_cases hpos : (parseHex v).1 > 0
      · rw [if_pos hpos] at h
        have hlen : (parseHex v).1.toNat = (parseHex v).2.length := by
          have := parseHex_length v (by omega)
          omega
        rw [hlen] at h
        split at h
        · cases h; exact Or.inl rfl
        · rename_i st1 halloc
          obtain ⟨_, rfl⟩ := addOutputBuffer_alloc halloc
          right
          unfold dataBlock
          change (if st.xmlState = _ then _ else _) = _ at h
          by_cases hx : st.xmlState = lcecConfTypeSdoConfig.toInt
          · rw [if_pos hx] at h
            simp only [if_pos hx]
            split at h
            · cases h
            · rename_i st2 h2
              split at h
              · cases h
              · rename_i st3 h3
                cases h
                rw [updSlave_modAt h3, updSdoConf_modAt h2]
                rfl
          · rw [if_neg hx] at h
            simp only [if_neg hx]
            change (if st.xmlState = _ then _ else _) = _ at h
            by_cases hy : st.xmlState = lcecConfTypeIdnConfig.toInt
            · rw [if_pos hy] at h
              simp only [if_pos hy]
              split at h
              · cases h
              · rename_i st2 h2
                split at h
                · cases h
                · rename_i st3 h3
                  cases h
                  rw [updSlave_modAt h3, updIdnConf_modAt h2]
                  rfl
            · rw [if_neg hy] at h
              simp only [if_neg hy]
              cases h
              rfl
      · rw [if_neg hpos] at h
        cases h
        exact Or.inl rfl
  · rw [if_neg hn] at h
    cases h

/-- A property of the state that storing a data block preserves holds after an
accepted `sdoDataRaw` or `idnDataRaw` element. -/
theorem parseDataRawAttrs_inv (env : Env) (I : State → Prop)
    (hI : ∀ s bytes, I s → I (dataBlock env s bytes))
    (st st' : State) (attr : Attrs)
    (h : parseDataRawAttrs env st attr = some st') (hs : st'.stopped = false) (h0 : I st) :
    I st' := by
  unfold parseDataRawAttrs at h
  split at h
  · cases h
  · cases h; cases hs
  · rename_i st1 hl
    cases h
    refine attrLoop_cont_inv (dataRawBody env) I ?_ attr st _ h0 hl
    intro p n v q hp hb
    rcases dataRawBody_cont env p q n v hb with rfl | rfl
    · exact hp
    · exact hI _ _ hp

/-- What an accepted `initCmds` element does to the state. -/
theorem parseInitCmdsAttrs_effect (env : Env) (st st' : State) (attr : Attrs)
    (h : parseInitCmdsAttrs env st attr = some st') (hs : st'.stopped = false) :
    ∃ f, attrLoop initCmdsBody none attr = Step.cont (some f) ∧ f ≠ "" ∧
      (env.parseIcmds f).ret = 0 ∧
      st' = { st with
              outputBuf :=
                modAt st.currSlave
                  (ConfRec.mapSlave (fun sl =>
                    addIdnConfigLength env (env.parseIcmds f).idnLength
                      (addSdoConfigLength env (env.parseIcmds f).sdoLength sl)))
                  (st.outputBuf ++ (env.parseIcmds f).recs.flatMap IcmdRec.toRecs),
              outputLen := st.outputLen + (env.parseIcmds f).bytes,
              freeMem := st.freeMem - (env.parseIcmds f).bytes } := by
  unfold parseInitCmdsAttrs at h
  split at h
  · cases h
  · cases h; cases hs
  · rename_i filename hl
    split at h
    · cases h; cases hs
    · rename_i f
      by_cases hf : f = ""
      · rw [if_pos hf] at h; cases h; cases hs
      · rw [if_neg hf] at h
        split at h
        · cases h
        · rename_i ret st1 hc
          unfold callParseIcmds at hc
          dsimp only at hc
          split at hc
          · cases hc
          · rename_i st2 hu
            simp only [Option.some.injEq, Prod.mk.injEq] at hc
            obtain ⟨hret, rfl⟩ := hc
            by_cases hr : ret ≠ 0
            · rw [if_pos hr] at h; cases h; cases hs
            · rw [if_neg hr] at h
              cases h
              refine ⟨f, hl, hf, ?_, ?_⟩
              · rw [hret]; simpa using hr
              · rw [updSlave_modAt hu]
                rfl
/-- What an accepted `syncManager` element does to the state. -/
theorem parseSyncManagerAttrs_effect (env : Env) (st st' : State) (attr : Attrs)
    (h : parseSyncManagerAttrs env st attr = some st') (hs : st'.stopped = false) :
    ∃ p sl, st.slave = some sl ∧ sl.typename = "generic" ∧
      attrLoop (syncManagerBody env) { index := 0xff, dir := EC_DIR_INVALID } attr
        = Step.cont p ∧
      st' = { st.alloc (env.sizeof lcecConfTypeSyncManager) (ConfRec.syncManager p) with
              outputBuf :=
                modAt st.currSlave (ConfRec.mapSlave incSyncManagerCount)
                  (st.outputBuf ++ [ConfRec.syncManager p]),
              currSyncManager := some st.outputBuf.length } := by
  unfold parseSyncManagerAttrs at h
  split at h
  · cases h
  · rename_i sl hsl
    by_cases hty : sl.typename ≠ "generic"
    · rw [if_pos hty] at h; cases h; cases hs
    · rw [if_neg hty] at h
      have hty1 : sl.typename = "generic" := by simpa using hty
      split at h
      · cases h; cases hs
      · rename_i st1 halloc
        obtain ⟨_, rfl⟩ := addOutputBuffer_alloc halloc
        dsimp only at h
        split at h
        · cases h
        · cases h; cases hs
        · rename_i p hl
          refine ⟨p, sl, hsl, hty1, hl, ?_⟩
          rw [alloc_writeRec] at h
          by_cases h1 : p.index = 0xff
          · rw [if_pos h1] at h; cases h; cases hs
          · rw [if_neg h1] at h
            by_cases h2 : p.dir = EC_DIR_INVALID
            · rw [if_pos h2] at h; cases h; cases hs
            · rw [if_neg h2] at h
              split at h
              · cases h
              · rename_i st3 hu
                cases h
                rw [updSlave_modAt hu]
                rfl

/-- What an accepted `pdo` element does to the state. -/
theorem parsePdoAttrs_effect (env : Env) (st st' : State) (attr : Attrs)
    (h : parsePdoAttrs env st attr = some st') (hs : st'.stopped = false) :
    ∃ p, attrLoop (pdoBody env) { index := 0xffff } attr = Step.cont p ∧
      st' = { st.alloc (env.sizeof lcecConfTypePdo) (ConfRec.pdo p) with
              outputBuf :=
                modAt st.currSyncManager (ConfRec.mapSyncManager incSmPdoCount)
                  (modAt st.currSlave (ConfRec.mapSlave incPdoCount)
                    (st.outputBuf ++ [ConfRec.pdo p])),
              currPdo := some st.outputBuf.length } := by
  unfold parsePdoAttrs at h
  split at h
  · cases h; cases hs
  · rename_i st1 halloc
    obtain ⟨_, rfl⟩ := addOutputBuffer_alloc halloc
    dsimp only at h
    split at h
    · cases h
    · cases h; cases hs
    · rename_i p hl
      refine ⟨p, hl, ?_⟩
      rw [alloc_writeRec] at h
      by_cases h1 : p.index = 0xffff
      · rw [if_pos h1] at h; cases h; cases hs
      · rw [if_neg h1] at h
        split at h
        · cases h
        · rename_i st3 hu
          split at h
          · cases h
          · rename_i st4 hm
            cases h
            rw [updSyncManager_modAt hm, updSlave_modAt hu]
            rfl

theorem pdoEntrySlaveCounts_pos {halPin : String} (h : halPin ≠ "") :
    pdoEntrySlaveCounts halPin = fun s => incPdoMappingCount (incPdoEntryCount s) := by
  funext s
  simp only [pdoEntrySlaveCounts, if_pos h]

theorem pdoEntrySlaveCounts_neg {halPin : String} (h : ¬ halPin ≠ "") :
    pdoEntrySlaveCounts halPin = incPdoEntryCount := by
  funext s
  simp only [pdoEntrySlaveCounts, if_neg h]

/-- What an accepted `pdoEntry` element does to the state. -/
theorem parsePdoEntryAttrs_effect (env : Env) (st st' : State) (attr : Attrs)
    (h : parsePdoEntryAttrs env st attr = some st') (hs : st'.stopped = false) :
    ∃ p fr, attrLoop (pdoEntryBody env) ({ index := 0xffff, subindex := 0xff }, false) attr
        = Step.cont (p, fr) ∧
      st' = { st.alloc (env.sizeof lcecConfTypePdoEntry) (ConfRec.pdoEntry p) with
              outputBuf :=
                modAt st.currPdo (ConfRec.mapPdo incPdoPdoEntryCount)
                  (modAt st.currSlave (ConfRec.mapSlave (pdoEntrySlaveCounts p.halPin))
                    (st.outputBuf ++ [ConfRec.pdoEntry p])),
              currPdoEntry := some st.outputBuf.length,
              currComplexBitOffset := 0 } := by
  unfold parsePdoEntryAttrs at h
  split at h
  · cases h; cases hs
  · rename_i st1 halloc
    obtain ⟨_, rfl⟩ := addOutputBuffer_alloc halloc
    dsimp only at h
    split at h
    · cases h
    · cases h; cases hs
    · rename_i p fr hl
      refine ⟨p, fr, hl, ?_⟩
      rw [alloc_writeRec] at h
      by_cases h1 : p.index = 0xffff
      · rw [if_pos h1] at h; cases h; cases hs
      · rw [if_neg h1] at h
        by_cases h2 : p.subindex = 0xff
        · rw [if_pos h2] at h; cases h; cases hs
        · rw [if_neg h2] at h
          by_cases h3 : p.bitLength = 0
          · rw [if_pos h3] at h; cases h; cases hs
          · rw [if_neg h3] at h
            by_cases h5 : fr = true ∧ p.halType ≠ HAL_FLOAT
            · rw [if_pos h5] at h
              cases h
              revert hs
              split_ifs <;> intro hs <;> cases hs
            · rw [if_neg h5] at h
              by_cases h4 : p.subType = lcecPdoEntTypeComplex ∧ p.halPin ≠ ""
              · rw [if_pos h4] at h
                exfalso
                split at h
                · cases h
                · rename_i st4 hu4
                  have e4 := updSlave_stopped hu4
                  split at h
                  · cases h
                  · rename_i st5 hu5
                    have e5 : st5.stopped = st4.stopped := by
                      by_cases hp : p.halPin ≠ ""
                      · rw [if_pos hp] at hu5; exact updSlave_stopped hu5
                      · rw [if_neg hp] at hu5; cases hu5; rfl
                    split at h
                    · cases h
                    · rename_i st6 hu6
                      have e6 := updPdo_stopped hu6
                      cases h
                      change st6.stopped = false at hs
                      rw [e6, e5, e4] at hs
                      cases hs
              · rw [if_neg h4] at h
                split at h
                · cases h
                · rename_i st4 hu4
                  split at h
                  · cases h
                  · rename_i st5 hu5
                    split at h
                    · cases h
                    · rename_i st6 hu6
                      cases h
                      rw [updPdo_modAt hu6]
                      by_cases hp : p.halPin ≠ ""
                      · rw [if_pos hp] at hu5
                        rw [updSlave_modAt hu5, updSlave_modAt hu4]
                        simp only [modAt_modAt, mapSlave_mapSlave]
                        rw [pdoEntrySlaveCounts_pos hp]
                        rfl
                      · rw [if_neg hp] at hu5
                        cases hu5
                        rw [updSlave_modAt hu4]
                        rw [pdoEntrySlaveCounts_neg hp]
                        rfl

theorem set_of_getElem? {α : Type} : ∀ (b : List α) (i : Nat) (r : α), b[i]? = some r →
    b.set i r = b
  | [], i, r, h => by simp at h
  | x :: t, 0, r, h => by
    simp only [List.getElem?_cons_zero, Option.some.injEq] at h
    subst h
    rfl
  | x :: t, i + 1, r, h => by
    simp only [List.getElem?_cons_succ] at h
    simp only [List.set_cons_succ, set_of_getElem? t i r h]

/-- What an accepted `complexEntry` element does to the state. -/
theorem parseComplexEntryAttrs_effect (env : Env) (st st' : State) (attr : Attrs)
    (h : parseComplexEntryAttrs env st attr = some st') (hs : st'.stopped = false) :
    ∃ p fr, attrLoop (complexEntryBody env st) ({ bitOffset := st.currComplexBitOffset }, false)
        attr = Step.cont (p, fr) ∧
      st' = { st.alloc (env.sizeof lcecConfTypeComplexEntry) (ConfRec.complexEntry p) with
              outputBuf :=
                modAt st.currSlave
                  (ConfRec.mapSlave (if p.halPin ≠ "" then incPdoMappingCount else id))
                  (st.outputBuf ++ [ConfRec.complexEntry p]),
              currComplexBitOffset := (st.currComplexBitOffset + p.bitLength) % 256 } := by
  unfold parseComplexEntryAttrs at h
  split at h
  · cases h; cases hs
  · rename_i st1 halloc
    obtain ⟨_, rfl⟩ := addOutputBuffer_alloc halloc
    dsimp only at h
    split at h
    · cases h
    · cases h; cases hs
    · rename_i p fr hl
      refine ⟨p, fr, hl, ?_⟩
      rw [alloc_writeRec] at h
      by_cases h3 : p.bitLength = 0
      · rw [if_pos h3] at h; cases h; cases hs
      · rw [if_neg h3] at h
        by_cases h5 : fr = true ∧ p.halType ≠ HAL_FLOAT
        · rw [if_pos h5] at h; cases h; cases hs
        · rw [if_neg h5] at h
          split at h
          · cases h
          · rename_i st3 hu
            cases h
            by_cases hp : p.halPin ≠ ""
            · rw [if_pos hp] at hu
              rw [updSlave_modAt hu]
              simp only [if_pos hp]
              rfl
            · rw [if_neg hp] at hu
              cases hu
              simp only [if_neg hp]
              have hid : ∀ b : List ConfRec, modAt st.currSlave (ConfRec.mapSlave id) b = b := by
                intro b
                cases hc : st.currSlave with
                | none => rfl
                | some i =>
                  simp only [modAt]
                  cases hg : b[i]? with
                  | none => rfl
                  | some r =>
                    have : ConfRec.mapSlave id r = r := by cases r <;> rfl
                    simp only [this]
                    exact set_of_getElem? _ _ _ hg
              rw [hid]
              rfl

/-- What an accepted `modParam` element does to the state. -/
theorem parseModParamAttrs_effect (env : Env) (st st' : State) (attr : Attrs)
    (h : parseModParamAttrs env st attr = some st') (hs : st'.stopped = false) :
    ∃ m, st' = { st.alloc (env.sizeof lcecConfTypeModParam) (ConfRec.modParam m) with
                 outputBuf :=
                   modAt st.currSlave (ConfRec.mapSlave incModParamCount)
                     (st.outputBuf ++ [ConfRec.modParam m]) } := by
  unfold parseModParamAttrs at h
  split at h
  · cases h
  · rename_i slaveType hty
    split at h
    · cases h; cases hs
    · rename_i table htab
      split at h
      · cases h; cases hs
      · rename_i st1 halloc
        obtain ⟨_, rfl⟩ := addOutputBuffer_alloc halloc
        dsimp only at h
        split at h
        · cases h
        · cases h; cases hs
        · rename_i pname pval hl
          split at h
          · rename_i n v
            by_cases hn : n = ""
            · rw [if_pos hn] at h; cases h; cases hs
            · rw [if_neg hn] at h
              by_cases hv : v = ""
              · rw [if_pos hv] at h; cases h; cases hs
              · rw [if_neg hv] at h
                split at h
                · cases h; cases hs
                · rename_i d hd
                  rw [alloc_writeRec] at h
                  by_cases hr : (modParamValue env d.type v).2 = true
                  · rw [if_pos hr] at h; cases h; cases hs
                  · rw [if_neg hr] at h
                    refine ⟨{ id := d.id, value := (modParamValue env d.type v).1 }, ?_⟩
                    rw [updSlave_modAt h]
                    rfl
          · cases h; cases hs

/-- An open-element event that does not stop the parser has found a row of the
table by the context and the element name; the state is the one the row's
handler leaves, in the context the row leads to. -/
theorem xml_start_handler_row (env : Env) (st st' : State) (el : String) (attr : Attrs)
    (h : xml_start_handler env st el attr = some st') (hs : st'.stopped = false) :
    ∃ row, lookupStart xml_states st.xmlState el = some row ∧
      row ∈ xml_states ∧ row.el = el ∧ row.state_from = st.xmlState ∧
      ((row.start_handler = none ∧ st' = { st with xmlState := row.state_to }) ∨
        ∃ f st1, row.start_handler = some f ∧ f env st attr = some st1 ∧
          st1.stopped = false ∧ st' = { st1 with xmlState := row.state_to }) := by
  unfold xml_start_handler at h
  split at h
  · cases h; cases hs
  · rename_i row hrow
    obtain ⟨hmem, hel⟩ := lookupStart_some hrow
    have hfrom : row.state_from = st.xmlState := by
      unfold lookupStart at hrow
      have h2 := List.find?_some hrow
      simp only [Bool.and_eq_true, decide_eq_true_eq] at h2
      exact h2.1.symm
    refine ⟨row, hrow, hmem, hel, hfrom, ?_⟩
    cases hh : row.start_handler with
    | none =>
      rw [hh] at h
      cases h
      exact Or.inl ⟨rfl, rfl⟩
    | some f =>
      rw [hh] at h
      dsimp only at h
      split at h
      · cases h
      · rename_i st1 h1
        cases h
        exact Or.inr ⟨f, st1, rfl, h1, hs, rfl⟩

/-- An invariant that each event keeps in step with an abstract state holds at
the end of a parse that was not stopped. -/
theorem XML_Parse_fold {α : Type} (env : Env) (J : State → α → Prop)
    (astep : α → XmlEvent → α)
    (hstep : ∀ st a ev st1, J st a → st.stopped = false → dispatch env st ev = some st1 →
      st1.stopped = false → J st1 (astep a ev)) :
    ∀ (evs : List XmlEvent) (st : State) (a : α) (st' : State), J st a →
      XML_Parse env st evs = some st' → st'.stopped = false → J st' (evs.foldl astep a) := by
  intro evs
  induction evs with
  | nil =>
    intro st a st' hj h _
    simp only [XML_Parse, Option.some.injEq] at h
    subst h
    exact hj
  | cons ev rest ih =>
    intro st a st' hj h hs
    simp only [XML_Parse] at h
    by_cases hst : st.stopped = true
    · rw [if_pos hst] at h
      cases h
      rw [hst] at hs
      cases hs
    · rw [if_neg hst] at h
      have hst0 : st.stopped = false := by simpa using hst
      cases hd : dispatch env st ev with
      | none =>
        rw [hd] at h
        cases h
      | some st1 =>
        rw [hd] at h
        dsimp only at h
        have hs1 : st1.stopped = false := by
          cases hb : st1.stopped with
          | false => rfl
          | true =>
            rw [XML_Parse_stopped env st1 rest hb] at h
            cases h
            rw [hb] at hs
            cases hs
        exact ih st1 (astep a ev) st' (hstep st a ev st1 hj hst0 hd hs1) h hs

theorem sumStarts_append (w : String → Attrs → Nat) (a b : List XmlEvent) :
    sumStarts w (a ++ b) = sumStarts w a + sumStarts w b := by
  simp only [sumStarts, List.map_append, List.sum_append]

theorem sumStarts_cons (w : String → Attrs → Nat) (ev : XmlEvent) (b : List XmlEvent) :
    sumStarts w (ev :: b) = startWeight w ev + sumStarts w b := by
  simp only [sumStarts, List.map_cons, List.sum_cons]

mutual
/-- The weights of the elements an element's events open add up to the weight of
the element. -/
theorem sumStarts_events (w : String → Attrs → Nat) :
    ∀ (e : XmlElem), sumStarts w e.events = e.weight w
  | XmlElem.node name attr children => by
    have ih := sumStarts_eventsOfList w children
    simp only [XmlElem.events, XmlElem.weight, sumStarts_cons, sumStarts_append, ih, startWeight]
    simp only [sumStarts, List.map_cons, List.map_nil, List.sum_cons, List.sum_nil, startWeight]
    omega
/-- The weights of the elements the events of a list of siblings open. -/
theorem sumStarts_eventsOfList (w : String → Attrs → Nat) :
    ∀ (cs : List XmlElem), sumStarts w (eventsOfList cs) = weightOfList w cs
  | [] => by simp only [eventsOfList, weightOfList, sumStarts, List.map_nil, List.sum_nil]
  | c :: cs => by
    have h1 := sumStarts_events w c
    have h2 := sumStarts_eventsOfList w cs
    simp only [eventsOfList, weightOfList, sumStarts_append, h1, h2]
end
/-- The cases of an open-element event that does not stop the parser, row by
row of the table: the element name, the context before, and the handler that
has accepted the element. -/
theorem xml_start_handler_cases (env : Env) (st st' : State) (el : String) (attr : Attrs)
    (h : xml_start_handler env st el attr = some st') (hs : st'.stopped = false) :
    (el = "masters" ∧ st.xmlState = lcecConfTypeNone.toInt ∧
      st' = { st with xmlState := lcecConfTypeMasters.toInt }) ∨
    (el = "master" ∧ st.xmlState = lcecConfTypeMasters.toInt ∧
      Ran parseMasterAttrs env st attr lcecConfTypeMaster st') ∨
    (el = "slave" ∧ st.xmlState = lcecConfTypeMaster.toInt ∧
      Ran parseSlaveAttrs env st attr lcecConfTypeSlave st') ∨
    (el = "dcConf" ∧ st.xmlState = lcecConfTypeSlave.toInt ∧
      Ran parseDcConfAttrs env st attr lcecConfTypeDcConf st') ∨
    (el = "watchdog" ∧ st.xmlState = lcecConfTypeSlave.toInt ∧
      Ran parseWatchdogAttrs env st attr lcecConfTypeWatchdog st') ∨
    (el = "sdoConfig" ∧ st.xmlState = lcecConfTypeSlave.toInt ∧
      Ran parseSdoConfigAttrs env st attr lcecConfTypeSdoConfig st') ∨
    (el = "sdoDataRaw" ∧ st.xmlState = lcecConfTypeSdoConfig.toInt ∧
      Ran parseDataRawAttrs env st attr lcecConfTypeSdoDataRaw st') ∨
    (el = "idnConfig" ∧ st.xmlState = lcecConfTypeSlave.toInt ∧
      Ran parseIdnConfigAttrs env st attr lcecConfTypeIdnConfig st') ∨
    (el = "idnDataRaw" ∧ st.xmlState = lcecConfTypeIdnConfig.toInt ∧
      Ran parseDataRawAttrs env st attr lcecConfTypeIdnDataRaw st') ∨
    (el = "initCmds" ∧ st.xmlState = lcecConfTypeSlave.toInt ∧
      Ran parseInitCmdsAttrs env st attr lcecConfTypeInitCmds st') ∨
    (el = "syncManager" ∧ st.xmlState = lcecConfTypeSlave.toInt ∧
      Ran parseSyncManagerAttrs env st attr lcecConfTypeSyncManager st') ∨
    (el = "pdo" ∧ st.xmlState = lcecConfTypeSyncManager.toInt ∧
      Ran parsePdoAttrs env st attr lcecConfTypePdo st') ∨
    (el = "pdoEntry" ∧ st.xmlState = lcecConfTypePdo.toInt ∧
      Ran parsePdoEntryAttrs env st attr lcecConfTypePdoEntry st') ∨
    (el = "complexEntry" ∧ st.xmlState = lcecConfTypePdoEntry.toInt ∧
      Ran parseComplexEntryAttrs env st attr lcecConfTypeComplexEntry st') ∨
    (el = "modParam" ∧ st.xmlState = lcecConfTypeSlave.toInt ∧
      Ran parseModParamAttrs env st attr lcecConfTypeModParam st') ∨
    (el = "NULL" ∧ st.xmlState = -1 ∧ st' = st) := by
  obtain ⟨row, _, hmem, hel, hfrom, hrun⟩ := xml_start_handler_row env st st' el attr h hs
  simp only [xml_states, List.mem_cons, List.mem_singleton, List.not_mem_nil, or_false] at hmem
  rcases hmem with h | h | h | h | h | h | h | h | h | h | h | h | h | h | h | h <;> subst h <;>
    simp only [reduceCtorEq, false_and, exists_false, or_false, false_or, true_and,
      Option.some.injEq, exists_and_left, exists_eq_left'] at hrun
  · exact Or.inl ⟨hel.symm, hfrom.symm, hrun⟩
  · exact Or.inr (Or.inl ⟨hel.symm, hfrom.symm, hrun⟩)
  · exact Or.inr (Or.inr (Or.inl ⟨hel.symm, hfrom.symm, hrun⟩))
  · exact Or.inr (Or.inr (Or.inr (Or.inl ⟨hel.symm, hfrom.symm, hrun⟩)))
  · exact Or.inr (Or.inr (Or.inr (Or.inr (Or.inl ⟨hel.symm, hfrom.symm, hrun⟩))))
  · exact Or.inr (Or.inr (Or.inr (Or.inr (Or.inr (Or.inl ⟨hel.symm, hfrom.symm, hrun⟩)))))
  · exact Or.inr (Or.inr (Or.inr (Or.inr (Or.inr (Or.inr (Or.inl ⟨hel.symm, hfrom.symm, hrun⟩))))))
  · exact Or.inr (Or.inr (Or.inr (Or.inr (Or.inr (Or.inr (Or.inr (Or.inl ⟨hel.symm, hfrom.symm, hrun⟩)))))))
  · exact Or.inr (Or.inr (Or.inr (Or.inr (Or.inr (Or.inr (Or.inr (Or.inr (Or.inl ⟨hel.symm, hfrom.symm, hrun⟩))))))))
  · exact Or.inr (Or.inr (Or.inr (Or.inr (Or.inr (Or.inr (Or.inr (Or.inr (Or.inr (Or.inl ⟨hel.symm, hfrom.symm, hrun⟩)))))))))
  · exact Or.inr (Or.inr (Or.inr (Or.inr (Or.inr (Or.inr (Or.inr (Or.inr (Or.inr (Or.inr (Or.inl ⟨hel.symm, hfrom.symm, hrun⟩))))))))))
  · exact Or.inr (Or.inr (Or.inr (Or.inr (Or.inr (Or.inr (Or.inr (Or.inr (Or.inr (Or.inr (Or.inr (Or.inl ⟨hel.symm, hfrom.symm, hrun⟩)))))))))))
  · exact Or.inr (Or.inr (Or.inr (Or.inr (Or.inr (Or.inr (Or.inr (Or.inr (Or.inr (Or.inr (Or.inr (Or.inr (Or.inl ⟨hel.symm, hfrom.symm, hrun⟩))))))))))))
  · exact Or.inr (Or.inr (Or.inr (Or.inr (Or.inr (Or.inr (Or.inr (Or.inr (Or.inr (Or.inr (Or.inr (Or.inr (Or.inr (Or.inl ⟨hel.symm, hfrom.symm, hrun⟩)))))))))))))
  · exact Or.inr (Or.inr (Or.inr (Or.inr (Or.inr (Or.inr (Or.inr (Or.inr (Or.inr (Or.inr (Or.inr (Or.inr (Or.inr (Or.inr (Or.inl ⟨hel.symm, hfrom.symm, hrun⟩))))))))))))))
  · refine Or.inr (Or.inr (Or.inr (Or.inr (Or.inr (Or.inr (Or.inr (Or.inr (Or.inr (Or.inr (Or.inr (Or.inr (Or.inr (Or.inr (Or.inr (⟨hel.symm, hfrom.symm, ?_⟩)))))))))))))))
    rw [hrun]
    cases st
    simp only at hfrom
    simp only [hfrom]
theorem dataBlock_frame (env : Env) (s : State) (bytes : List Nat) :
    (dataBlock env s bytes).master_count = s.master_count ∧
    (dataBlock env s bytes).slave_count = s.slave_count ∧
    (dataBlock env s bytes).xmlState = s.xmlState ∧
    (dataBlock env s bytes).stopped = s.stopped ∧
    (dataBlock env s bytes).currMaster = s.currMaster ∧
    (dataBlock env s bytes).currSlave = s.currSlave ∧
    (dataBlock env s bytes).currSlaveType = s.currSlaveType ∧
    (dataBlock env s bytes).currSyncManager = s.currSyncManager ∧
    (dataBlock env s bytes).currPdo = s.currPdo ∧
    (dataBlock env s bytes).currPdoEntry = s.currPdoEntry ∧
    (dataBlock env s bytes).currSdoConf = s.currSdoConf ∧
    (dataBlock env s bytes).currIdnConf = s.currIdnConf ∧
    (dataBlock env s bytes).outputLen = s.outputLen + bytes.length ∧
    (dataBlock env s bytes).freeMem = s.freeMem - bytes.length := by
  unfold dataBlock
  dsimp only
  split_ifs <;> exact ⟨rfl, rfl, rfl, rfl, rfl, rfl, rfl, rfl, rfl, rfl, rfl, rfl, rfl, rfl⟩

/-- An accepted `sdoDataRaw` or `idnDataRaw` element leaves the counters, the
context and the back-references. -/
theorem parseDataRawAttrs_frame (env : Env) (st st' : State) (attr : Attrs)
    (h : parseDataRawAttrs env st attr = some st') (hs : st'.stopped = false) :
    st'.master_count = st.master_count ∧ st'.slave_count = st.slave_count ∧
    st'.xmlState = st.xmlState ∧ st'.currMaster = st.currMaster ∧
    st'.currSlave = st.currSlave ∧ st'.currSlaveType = st.currSlaveType ∧
    st'.currSyncManager = st.currSyncManager ∧ st'.currPdo = st.currPdo ∧
    st'.currPdoEntry = st.currPdoEntry ∧ st'.currSdoConf = st.currSdoConf ∧
    st'.currIdnConf = st.currIdnConf := by
  refine parseDataRawAttrs_inv env
    (fun s => s.master_count = st.master_count ∧ s.slave_count = st.slave_count ∧
      s.xmlState = st.xmlState ∧ s.currMaster = st.currMaster ∧
      s.currSlave = st.currSlave ∧ s.currSlaveType = st.currSlaveType ∧
      s.currSyncManager = st.currSyncManager ∧ s.currPdo = st.currPdo ∧
      s.currPdoEntry = st.currPdoEntry ∧ s.currSdoConf = st.currSdoConf ∧
      s.currIdnConf = st.currIdnConf) ?_ st st' attr h hs
    ⟨rfl, rfl, rfl, rfl, rfl, rfl, rfl, rfl, rfl, rfl, rfl⟩
  intro s bytes hp
  obtain ⟨e1, e2, e3, _, e5, e6, e7, e8, e9, e10, e11, e12, _, _⟩ := dataBlock_frame env s bytes
  obtain ⟨p1, p2, p3, p5, p6, p7, p8, p9, p10, p11, p12⟩ := hp
  exact ⟨e1.trans p1, e2.trans p2, e3.trans p3, e5.trans p5, e6.trans p6, e7.trans p7,
    e8.trans p8, e9.trans p9, e10.trans p10, e11.trans p11, e12.trans p12⟩

/-- An open-element event that does not stop the parser increments
`master_count` when the element is a `master`, `slave_count` when it is a
`slave`, and leaves the two counters otherwise. -/
theorem xml_start_handler_counts (env : Env) (st st' : State) (el : String) (attr : Attrs)
    (h : xml_start_handler env st el attr = some st') (hs : st'.stopped = false) :
    st'.master_count = (if el = "master" then incU32 st.master_count else st.master_count) ∧
    st'.slave_count = (if el = "slave" then incU32 st.slave_count else st.slave_count) := by
  rcases xml_start_handler_cases env st st' el attr h hs with
    ⟨rfl, _, rfl⟩ | ⟨rfl, _, st0, h0, hs0, rfl⟩ | ⟨rfl, _, st0, h0, hs0, rfl⟩ |
    ⟨rfl, _, st0, h0, hs0, rfl⟩ | ⟨rfl, _, st0, h0, hs0, rfl⟩ | ⟨rfl, _, st0, h0, hs0, rfl⟩ |
    ⟨rfl, _, st0, h0, hs0, rfl⟩ | ⟨rfl, _, st0, h0, hs0, rfl⟩ | ⟨rfl, _, st0, h0, hs0, rfl⟩ |
    ⟨rfl, _, st0, h0, hs0, rfl⟩ | ⟨rfl, _, st0, h0, hs0, rfl⟩ | ⟨rfl, _, st0, h0, hs0, rfl⟩ |
    ⟨rfl, _, st0, h0, hs0, rfl⟩ | ⟨rfl, _, st0, h0, hs0, rfl⟩ | ⟨rfl, _, st0, h0, hs0, rfl⟩ |
    ⟨rfl, _, rfl⟩
  · exact ⟨rfl, rfl⟩
  · obtain ⟨p, _, rfl⟩ := parseMasterAttrs_effect env st st0 attr h0 hs0
    exact ⟨rfl, rfl⟩
  · obtain ⟨p, ty, _, _, rfl⟩ := parseSlaveAttrs_effect env st st0 attr h0 hs0
    exact ⟨rfl, rfl⟩
  · obtain ⟨p, _, rfl⟩ := parseDcConfAttrs_effect env st st0 attr h0 hs0
    exact ⟨rfl, rfl⟩
  · obtain ⟨p, _, rfl⟩ := parseWatchdogAttrs_effect env st st0 attr h0 hs0
    exact ⟨rfl, rfl⟩
  · obtain ⟨p, _, rfl⟩ := parseSdoConfigAttrs_effect env st st0 attr h0 hs0
    exact ⟨rfl, rfl⟩
  · obtain ⟨e1, e2, _⟩ := parseDataRawAttrs_frame env st st0 attr h0 hs0
    exact ⟨e1, e2⟩
  · have := parseIdnConfigAttrs_stops env st st0 attr h0
    rw [hs0] at this
    cases this
  · obtain ⟨e1, e2, _⟩ := parseDataRawAttrs_frame env st st0 attr h0 hs0
    exact ⟨e1, e2⟩
  · obtain ⟨f, _, _, _, rfl⟩ := parseInitCmdsAttrs_effect env st st0 attr h0 hs0
    exact ⟨rfl, rfl⟩
  · obtain ⟨p, sl, _, _, _, rfl⟩ := parseSyncManagerAttrs_effect env st st0 attr h0 hs0
    exact ⟨rfl, rfl⟩
  · obtain ⟨p, _, rfl⟩ := parsePdoAttrs_effect env st st0 attr h0 hs0
    exact ⟨rfl, rfl⟩
  · obtain ⟨p, fr, _, rfl⟩ := parsePdoEntryAttrs_effect env st st0 attr h0 hs0
    exact ⟨rfl, rfl⟩
  · obtain ⟨p, fr, _, rfl⟩ := parseComplexEntryAttrs_effect env st st0 attr h0 hs0
    exact ⟨rfl, rfl⟩
  · obtain ⟨m, rfl⟩ := parseModParamAttrs_effect env st st0 attr h0 hs0
    exact ⟨rfl, rfl⟩
  · exact ⟨rfl, rfl⟩

theorem xml_end_handler_frame (st : State) (el : String) :
    (xml_end_handler st el).master_count = st.master_count ∧
    (xml_end_handler st el).slave_count = st.slave_count ∧
    (xml_end_handler st el).outputBuf = st.outputBuf ∧
    (xml_end_handler st el).outputLen = st.outputLen := by
  unfold xml_end_handler
  split <;> exact ⟨rfl, rfl, rfl, rfl⟩

theorem foldl_counts (evs : List XmlEvent) : ∀ (a : Nat × Nat),
    evs.foldl (fun a ev => (a.1 + startWeight (isElem "master") ev,
        a.2 + startWeight (isElem "slave") ev)) a =
      (a.1 + sumStarts (isElem "master") evs, a.2 + sumStarts (isElem "slave") evs) := by
  induction evs with
  | nil => intro a; simp [sumStarts]
  | cons ev rest ih =>
    intro a
    simp only [List.foldl_cons, ih, sumStarts_cons]
    ext <;> simp only [] <;> omega

/-- After a parse that was not stopped the two counters have grown by the numbers
of `master` and `slave` elements opened (modulo 2^32). -/
theorem XML_Parse_counts (env : Env) (evs : List XmlEvent) (st st' : State) (m s : Nat)
    (hm : st.master_count = m % 4294967296) (hsl : st.slave_count = s % 4294967296)
    (h : XML_Parse env st evs = some st') (hs : st'.stopped = false) :
    st'.master_count = (m + sumStarts (isElem "master") evs) % 4294967296 ∧
    st'.slave_count = (s + sumStarts (isElem "slave") evs) % 4294967296 := by
  have key := XML_Parse_fold env
    (fun st a => st.master_count = a.1 % 4294967296 ∧ st.slave_count = a.2 % 4294967296)
    (fun a ev => (a.1 + startWeight (isElem "master") ev,
        a.2 + startWeight (isElem "slave") ev)) ?_ evs st (m, s) st' ⟨hm, hsl⟩ h hs
  · rw [foldl_counts] at key
    exact key
  · intro st a ev st1 hj _ hd hs1
    obtain ⟨j1, j2⟩ := hj
    cases ev with
    | startElement el attr =>
      simp only [dispatch] at hd
      obtain ⟨c1, c2⟩ := xml_start_handler_counts env st st1 el attr hd hs1
      dsimp only [startWeight, isElem]
      rw [c1, c2, j1, j2]
      constructor
      · split_ifs <;> first | omega | (simp only [incU32]; omega)
      · split_ifs <;> first | omega | (simp only [incU32]; omega)
    | endElement el =>
      simp only [dispatch, Option.some.injEq] at hd
      subst hd
      obtain ⟨c1, c2, _⟩ := xml_end_handler_frame st el
      dsimp only [startWeight]
      rw [c1, c2, j1, j2]
      exact ⟨by omega, by omega⟩
theorem masterBody_no_fault (env : Env) (p : LCEC_CONF_MASTER_T) (n v : String) :
    masterBody env p n v ≠ Step.fault := by
  unfold masterBody
  split_ifs <;> intro h <;> cases h

theorem slaveBody_no_fault (env : Env) (p : LCEC_CONF_SLAVE_T) (n v : String) :
    slaveBody env p n v ≠ Step.fault := by
  unfold slaveBody
  split_ifs <;> intro h <;> cases h

theorem slavePreBody_no_fault (env : Env) (p : Bool × Option lcec_typelist_t) (n v : String) :
    slavePreBody env p n v ≠ Step.fault := by
  unfold slavePreBody
  split_ifs
  · split
    · intro h; cases h
    · split_ifs <;> intro h <;> cases h
  · intro h; cases h

/-- The handler `parseMasterAttrs` returns; it increments `master_count` when it
accepts the element, leaves it when it stops the parser, and never writes
`slave_count`. -/
theorem parseMasterAttrs_count (env : Env) (st : State) (attr : Attrs)
    (hst : st.stopped = false) :
    ∃ st', parseMasterAttrs env st attr = some st' ∧ st'.slave_count = st.slave_count ∧
      ((st'.stopped = false ∧ st'.master_count = (st.master_count + 1) % 4294967296) ∨
        (st'.stopped = true ∧ st'.master_count = st.master_count)) := by
  unfold parseMasterAttrs
  cases halloc : addOutputBuffer st (env.sizeof lcecConfTypeMaster) (ConfRec.master {}) with
  | none => exact ⟨_, rfl, rfl, Or.inr ⟨rfl, rfl⟩⟩
  | some st1 =>
    obtain ⟨_, rfl⟩ := addOutputBuffer_alloc halloc
    dsimp only
    cases hl : attrLoop (masterBody env) {} attr with
    | fault => exact absurd hl (attrLoop_no_fault _ (masterBody_no_fault env) _ _)
    | abort p => exact ⟨_, rfl, rfl, Or.inr ⟨rfl, rfl⟩⟩
    | cont p => exact ⟨_, rfl, rfl, Or.inl ⟨hst, rfl⟩⟩

/-- The handler `parseSlaveAttrs` returns; it increments `slave_count` when it
accepts the element, leaves it when it stops the parser, and never writes
`master_count`. -/
theorem parseSlaveAttrs_count (env : Env) (st : State) (attr : Attrs)
    (hst : st.stopped = false) :
    ∃ st', parseSlaveAttrs env st attr = some st' ∧ st'.master_count = st.master_count ∧
      ((st'.stopped = false ∧ st'.slave_count = (st.slave_count + 1) % 4294967296) ∨
        (st'.stopped = true ∧ st'.slave_count = st.slave_count)) := by
  unfold parseSlaveAttrs
  cases halloc : addOutputBuffer st (env.sizeof lcecConfTypeSlave) (ConfRec.slave {}) with
  | none => exact ⟨_, rfl, rfl, Or.inr ⟨rfl, rfl⟩⟩
  | some st1 =>
    obtain ⟨_, rfl⟩ := addOutputBuffer_alloc halloc
    dsimp only
    cases hpre : attrLoop (slavePreBody env) (false, none) attr with
    | fault => exact absurd hpre (attrLoop_no_fault _ (slavePreBody_no_fault env) _ _)
    | abort p => exact ⟨_, rfl, rfl, Or.inr ⟨rfl, rfl⟩⟩
    | cont q =>
      obtain ⟨valid, ty⟩ := q
      dsimp only
      cases hl : attrLoop (slaveBody env) {} attr with
      | fault => exact absurd hl (attrLoop_no_fault _ (slaveBody_no_fault env) _ _)
      | abort p => exact ⟨_, rfl, rfl, Or.inr ⟨rfl, rfl⟩⟩
      | cont p =>
        dsimp only
        cases valid with
        | false => exact ⟨_, rfl, rfl, Or.inr ⟨rfl, rfl⟩⟩
        | true => exact ⟨_, rfl, rfl, Or.inl ⟨hst, rfl⟩⟩

theorem compile_some (env : Env) (mem : Nat) (doc : XmlElem) (hdr : LCEC_CONF_HEADER_T)
    (recs : List ConfRec) (h : compile env mem doc = some (some (hdr, recs))) :
    ∃ st, XML_Parse env (initState mem) doc.events = some st ∧ st.stopped = false ∧
      env.sizeof lcecConfTypeNone ≤ st.freeMem ∧
      hdr = { magic := env.LCEC_CONF_SHMEM_MAGIC,
              length := st.outputLen + env.sizeof lcecConfTypeNone } ∧
      recs = st.outputBuf ++ [ConfRec.null] := by
  unfold compile at h
  split at h
  · cases h
  · rename_i st hp
    by_cases hst : st.stopped = true
    · rw [if_pos hst] at h
      cases h
    · rw [if_neg hst] at h
      split at h
      · cases h
      · rename_i st1 halloc
        obtain ⟨hle, rfl⟩ := addOutputBuffer_alloc halloc
        simp only [Option.some.injEq, Prod.mk.injEq] at h
        obtain ⟨rfl, rfl⟩ := h
        exact ⟨st, hp, by simpa using hst, hle, rfl, rfl⟩

/-- C11: `parseMasterAttrs` (`parseSlaveAttrs`) returns on every attribute list;
it increases `master_count` (`slave_count`) by one, in 32-bit arithmetic, when it
accepts the element, leaves it when it stops the parser, and does not write the
other counter; after a compilation that succeeds the two counters hold the
numbers of `master` and of `slave` elements of the document (modulo 2^32). -/
theorem counts_follow_accepted_elements (env : Env) :
    (∀ (st : State) (attr : Attrs), st.stopped = false →
      ∃ st', parseMasterAttrs env st attr = some st' ∧ st'.slave_count = st.slave_count ∧
        ((st'.stopped = false ∧ st'.master_count = (st.master_count + 1) % 4294967296) ∨
          (st'.stopped = true ∧ st'.master_count = st.master_count))) ∧
    (∀ (st : State) (attr : Attrs), st.stopped = false →
      ∃ st', parseSlaveAttrs env st attr = some st' ∧ st'.master_count = st.master_count ∧
        ((st'.stopped = false ∧ st'.slave_count = (st.slave_count + 1) % 4294967296) ∨
          (st'.stopped = true ∧ st'.slave_count = st.slave_count))) ∧
    (∀ (mem : Nat) (doc : XmlElem) (hdr : LCEC_CONF_HEADER_T) (recs : List ConfRec),
      compile env mem doc = some (some (hdr, recs)) →
      ∃ st, XML_Parse env (initState mem) doc.events = some st ∧ st.stopped = false ∧
        st.master_count = doc.count "master" % 4294967296 ∧
        st.slave_count = doc.count "slave" % 4294967296) := by
  refine ⟨parseMasterAttrs_count env, parseSlaveAttrs_count env, ?_⟩
  intro mem doc hdr recs h
  obtain ⟨st, hp, hs, _⟩ := compile_some env mem doc hdr recs h
  have hc := XML_Parse_counts env doc.events (initState mem) st 0 0 rfl rfl hp hs
  rw [sumStarts_events, sumStarts_events, Nat.zero_add, Nat.zero_add] at hc
  exact ⟨st, hp, hs, hc.1, hc.2⟩

theorem counts_follow_accepted_elements_witness :
    sampleDoc.count "master" = 1 ∧ sampleDoc.count "slave" = 2 ∧
    ∃ st, XML_Parse sampleEnv (initState 100000) sampleDoc.events = some st ∧
      st.stopped = false ∧
      st.master_count = sampleDoc.count "master" % 4294967296 ∧
      st.slave_count = sampleDoc.count "slave" % 4294967296 :=
  ⟨by rfl, by rfl,
    (counts_follow_accepted_elements sampleEnv).2.2 100000 sampleDoc _ _ (by rfl)⟩

/-- An attribute loop whose passes stop the parser at every name outside
`names` does not run to its end over attributes with such a name. -/
theorem attrLoop_unknown {P : Type} (body : P → String → String → Step P)
    (names : List String)
    (hun : ∀ p n v, n ∉ names → ∃ q, body p n v = Step.abort q) :
    ∀ (attrs : Attrs), (∃ a ∈ attrs, a.1 ∉ names) → ∀ (p q : P),
      attrLoop body p attrs ≠ Step.cont q := by
  intro attrs
  induction attrs with
  | nil =>
    rintro ⟨a, ha, _⟩
    simp at ha
  | cons a rest ih =>
    rintro ⟨b, hb, hbn⟩ p q h
    obtain ⟨n, v⟩ := a
    obtain ⟨p1, h1, hr⟩ := attrLoop_cons_cont h
    rcases List.mem_cons.mp hb with rfl | hrest
    · obtain ⟨q1, hq1⟩ := hun p n v hbn
      rw [hq1] at h1
      cases h1
    · exact ih ⟨b, hrest, hbn⟩ p1 q hr

theorem masterBody_unknown (env : Env) (p : LCEC_CONF_MASTER_T) (n v : String)
    (hn : n ∉ ["idx", "name", "appTimePeriod", "refClockSyncCycles"]) :
    ∃ q, masterBody env p n v = Step.abort q := by
  simp only [List.mem_cons, List.mem_singleton, List.not_mem_nil, or_false, not_or] at hn
  obtain ⟨h1, h2, h3, h4⟩ := hn
  exact ⟨p, by simp only [masterBody, if_neg h1, if_neg h2, if_neg h3, if_neg h4]⟩

theorem slaveBody_unknown (env : Env) (p : LCEC_CONF_SLAVE_T) (n v : String)
    (hn : n ∉ ["type", "idx", "name", "vid", "pid", "configPdos"]) :
    ∃ q, slaveBody env p n v = Step.abort q := by
  simp only [List.mem_cons, List.mem_singleton, List.not_mem_nil, or_false, not_or] at hn
  obtain ⟨h1, h2, h3, h4, h5, h6⟩ := hn
  refine ⟨p, ?_⟩
  simp only [slaveBody, if_neg h1, if_neg h2, if_neg h3, if_neg h4, if_neg h5, if_neg h6]
  split_ifs <;> rfl

theorem dcConfBody_unknown (env : Env) (st : State) (p : LCEC_CONF_DC_T) (n v : String)
    (hn : n ∉ ["assignActivate", "sync0Cycle", "sync0Shift", "sync1Cycle", "sync1Shift"]) :
    ∃ q, dcConfBody env st p n v = Step.abort q := by
  simp only [List.mem_cons, List.mem_singleton, List.not_mem_nil, or_false, not_or] at hn
  obtain ⟨h1, h2, h3, h4, h5⟩ := hn
  exact ⟨p, by simp only [dcConfBody, if_neg h1, if_neg h2, if_neg h3, if_neg h4, if_neg h5]⟩

theorem watchdogBody_unknown (env : Env) (p : LCEC_CONF_WATCHDOG_T) (n v : String)
    (hn : n ∉ ["divider", "intervals"]) :
    ∃ q, watchdogBody env p n v = Step.abort q := by
  simp only [List.mem_cons, List.mem_singleton, List.not_mem_nil, or_false, not_or] at hn
  obtain ⟨h1, h2⟩ := hn
  exact ⟨p, by simp only [watchdogBody, if_neg h1, if_neg h2]⟩

theorem sdoConfigBody_unknown (env : Env) (p : LCEC_CONF_SDOCONF_T) (n v : String)
    (hn : n ∉ ["idx", "subIdx"]) :
    ∃ q, sdoConfigBody env p n v = Step.abort q := by
  simp only [List.mem_cons, List.mem_singleton, List.not_mem_nil, or_false, not_or] at hn
  obtain ⟨h1, h2⟩ := hn
  exact ⟨p, by simp only [sdoConfigBody, if_neg h1, if_neg h2]⟩

theorem idnConfigBody_unknown (env : Env) (p : LCEC_CONF_IDNCONF_T) (n v : String)
    (hn : n ∉ ["drive", "idn"]) :
    ∃ q, idnConfigBody env p n v = Step.abort q := by
  simp only [List.mem_cons, List.mem_singleton, List.not_mem_nil, or_false, not_or] at hn
  obtain ⟨h1, h2⟩ := hn
  exact ⟨p, by simp only [idnConfigBody, if_neg h1, if_neg h2]⟩

theorem dataRawBody_unknown (env : Env) (p : State) (n v : String)
    (hn : n ∉ ["data"]) :
    ∃ q, dataRawBody env p n v = Step.abort q := by
  simp only [List.mem_singleton] at hn
  exact ⟨p, by simp only [dataRawBody, if_neg hn]⟩

theorem initCmdsBody_unknown (p : Option String) (n v : String)
    (hn : n ∉ ["filename"]) :
    ∃ q, initCmdsBody p n v = Step.abort q := by
  simp only [List.mem_singleton] at hn
  exact ⟨p, by simp only [initCmdsBody, if_neg hn]⟩

theorem syncManagerBody_unknown (env : Env) (p : LCEC_CONF_SYNCMANAGER_T) (n v : String)
    (hn : n ∉ ["idx", "dir"]) :
    ∃ q, syncManagerBody env p n v = Step.abort q := by
  simp only [List.mem_cons, List.mem_singleton, List.not_mem_nil, or_false, not_or] at hn
  obtain ⟨h1, h2⟩ := hn
  exact ⟨p, by simp only [syncManagerBody, if_neg h1, if_neg h2]⟩

theorem pdoBody_unknown (env : Env) (p : LCEC_CONF_PDO_T) (n v : String)
    (hn : n ∉ ["idx"]) :
    ∃ q, pdoBody env p n v = Step.abort q := by
  simp only [List.mem_singleton] at hn
  exact ⟨p, by simp only [pdoBody, if_neg hn]⟩

theorem pdoEntryBody_unknown (env : Env) (p : LCEC_CONF_PDOENTRY_T × Bool) (n v : String)
    (hn : n ∉ ["idx", "subIdx", "bitLen", "halType", "scale", "offset", "halPin"]) :
    ∃ q, pdoEntryBody env p n v = Step.abort q := by
  simp only [List.mem_cons, List.mem_singleton, List.not_mem_nil, or_false, not_or] at hn
  obtain ⟨h1, h2, h3, h4, h5, h6, h7⟩ := hn
  exact ⟨p, by simp only [pdoEntryBody, if_neg h1, if_neg h2, if_neg h3, if_neg h4, if_neg h5,
    if_neg h6, if_neg h7]⟩

theorem complexEntryBody_unknown (env : Env) (st : State) (p : LCEC_CONF_COMPLEXENTRY_T × Bool)
    (n v : String) (hn : n ∉ ["bitLen", "halType", "scale", "offset", "halPin"]) :
    ∃ q, complexEntryBody env st p n v = Step.abort q := by
  simp only [List.mem_cons, List.mem_singleton, List.not_mem_nil, or_false, not_or] at hn
  obtain ⟨h1, h2, h3, h4, h5⟩ := hn
  exact ⟨p, by simp only [complexEntryBody, if_neg h1, if_neg h2, if_neg h3, if_neg h4,
    if_neg h5]⟩

theorem modParamBody_unknown (p : Option String × Option String) (n v : String)
    (hn : n ∉ ["name", "value"]) :
    ∃ q, modParamBody p n v = Step.abort q := by
  simp only [List.mem_cons, List.mem_singleton, List.not_mem_nil, or_false, not_or] at hn
  obtain ⟨h1, h2⟩ := hn
  exact ⟨p, by simp only [modParamBody, if_neg h1, if_neg h2]⟩
theorem dcConfBody_no_fault (env : Env) (st : State) (hm : st.master.isSome = true)
    (p : LCEC_CONF_DC_T) (n v : String) : dcConfBody env st p n v ≠ Step.fault := by
  have hsc : ∀ s, parseSyncCycle env st s ≠ none := by
    intro s
    unfold parseSyncCycle
    cases hmm : st.master with
    | none => rw [hmm] at hm; cases hm
    | some m => split <;> simp
  unfold dcConfBody
  split_ifs
  · intro h; cases h
  · cases hc : parseSyncCycle env st v with
    | none => exact absurd hc (hsc v)
    | some c => intro h; cases h
  · intro h; cases h
  · cases hc : parseSyncCycle env st v with
    | none => exact absurd hc (hsc v)
    | some c => intro h; cases h
  · intro h; cases h
  · intro h; cases h

theorem watchdogBody_no_fault (env : Env) (p : LCEC_CONF_WATCHDOG_T) (n v : String) :
    watchdogBody env p n v ≠ Step.fault := by
  unfold watchdogBody
  split_ifs <;> intro h <;> cases h

theorem idnConfigBody_no_fault (env : Env) (p : LCEC_CONF_IDNCONF_T) (n v : String) :
    idnConfigBody env p n v ≠ Step.fault := by
  unfold idnConfigBody
  dsimp only
  split_ifs
  all_goals first
    | (intro h; cases h)
    | (split
       · intro h; cases h
       · split_ifs <;> intro h <;> cases h)

theorem initCmdsBody_no_fault (p : Option String) (n v : String) :
    initCmdsBody p n v ≠ Step.fault := by
  unfold initCmdsBody
  split_ifs <;> intro h <;> cases h

theorem syncManagerBody_no_fault (env : Env) (p : LCEC_CONF_SYNCMANAGER_T) (n v : String) :
    syncManagerBody env p n v ≠ Step.fault := by
  unfold syncManagerBody
  dsimp only
  split_ifs <;> intro h <;> cases h

theorem pdoBody_no_fault (env : Env) (p : LCEC_CONF_PDO_T) (n v : String) :
    pdoBody env p n v ≠ Step.fault := by
  unfold pdoBody
  dsimp only
  split_ifs <;> intro h <;> cases h

theorem modParamBody_no_fault (p : Option String × Option String) (n v : String) :
    modParamBody p n v ≠ Step.fault := by
  unfold modParamBody
  split_ifs <;> intro h <;> cases h

/-- An attribute loop that cannot run to its end and cannot fault stops the
parser. -/
theorem attrLoop_aborts {P : Type} (body : P → String → String → Step P) (p : P)
    (attrs : Attrs) (hnc : ∀ q, attrLoop body p attrs ≠ Step.cont q)
    (hnf : attrLoop body p attrs ≠ Step.fault) : ∃ q, attrLoop body p attrs = Step.abort q := by
  cases h : attrLoop body p attrs with
  | cont q => exact absurd h (hnc q)
  | abort q => exact ⟨q, rfl⟩
  | fault => exact absurd h hnf

theorem parseMasterAttrs_unknown (env : Env) (st : State) (attr : Attrs)
    (hbad : ∃ a ∈ attr, a.1 ∉ ["idx", "name", "appTimePeriod", "refClockSyncCycles"]) :
    ∃ st', parseMasterAttrs env st attr = some st' ∧ st'.stopped = true := by
  unfold parseMasterAttrs
  cases addOutputBuffer st (env.sizeof lcecConfTypeMaster) (ConfRec.master {}) with
  | none => exact ⟨_, rfl, rfl⟩
  | some st1 =>
    obtain ⟨q, hq⟩ := attrLoop_aborts (masterBody env) {} attr
      (attrLoop_unknown _ _ (masterBody_unknown env) attr hbad _)
      (attrLoop_no_fault _ (masterBody_no_fault env) _ _)
    dsimp only
    rw [hq]
    exact ⟨_, rfl, rfl⟩

theorem parseSlaveAttrs_unknown (env : Env) (st : State) (attr : Attrs)
    (hbad : ∃ a ∈ attr, a.1 ∉ ["type", "idx", "name", "vid", "pid", "configPdos"]) :
    ∃ st', parseSlaveAttrs env st attr = some st' ∧ st'.stopped = true := by
  unfold parseSlaveAttrs
  cases addOutputBuffer st (env.sizeof lcecConfTypeSlave) (ConfRec.slave {}) with
  | none => exact ⟨_, rfl, rfl⟩
  | some st1 =>
    dsimp only
    cases hpre : attrLoop (slavePreBody env) (false, none) attr with
    | fault => exact absurd hpre (attrLoop_no_fault _ (slavePreBody_no_fault env) _ _)
    | abort p => exact ⟨_, rfl, rfl⟩
    | cont q =>
      obtain ⟨q, hq⟩ := attrLoop_aborts (slaveBody env) {} attr
        (attrLoop_unknown _ _ (slaveBody_unknown env) attr hbad _)
        (attrLoop_no_fault _ (slaveBody_no_fault env) _ _)
      dsimp only
      rw [hq]
      exact ⟨_, rfl, rfl⟩

theorem parseDcConfAttrs_unknown (env : Env) (st : State) (attr : Attrs)
    (hm : st.master.isSome = true)
    (hbad : ∃ a ∈ attr, a.1 ∉
      ["assignActivate", "sync0Cycle", "sync0Shift", "sync1Cycle", "sync1Shift"]) :
    ∃ st', parseDcConfAttrs env st attr = some st' ∧ st'.stopped = true := by
  unfold parseDcConfAttrs
  cases addOutputBuffer st (env.sizeof lcecConfTypeDcConf) (ConfRec.dcConf {}) with
  | none => exact ⟨_, rfl, rfl⟩
  | some st1 =>
    obtain ⟨q, hq⟩ := attrLoop_aborts (dcConfBody env st) {} attr
      (attrLoop_unknown _ _ (dcConfBody_unknown env st) attr hbad _)
      (attrLoop_no_fault _ (dcConfBody_no_fault env st hm) _ _)
    dsimp only
    rw [hq]
    exact ⟨_, rfl, rfl⟩

theorem parseWatchdogAttrs_unknown (env : Env) (st : State) (attr : Attrs)
    (hbad : ∃ a ∈ attr, a.1 ∉ ["divider", "intervals"]) :
    ∃ st', parseWatchdogAttrs env st attr = some st' ∧ st'.stopped = true := by
  unfold parseWatchdogAttrs
  cases addOutputBuffer st (env.sizeof lcecConfTypeWatchdog) (ConfRec.watchdog {}) with
  | none => exact ⟨_, rfl, rfl⟩
  | some st1 =>
    obtain ⟨q, hq⟩ := attrLoop_aborts (watchdogBody env) {} attr
      (attrLoop_unknown _ _ (watchdogBody_unknown env) attr hbad _)
      (attrLoop_no_fault _ (watchdogBody_no_fault env) _ _)
    dsimp only
    rw [hq]
    exact ⟨_, rfl, rfl⟩

theorem parseSdoConfigAttrs_unknown (env : Env) (st : State) (attr : Attrs)
    (hbad : ∃ a ∈ attr, a.1 ∉ ["idx", "subIdx"]) :
    ∃ st', parseSdoConfigAttrs env st attr = some st' ∧ st'.stopped = true := by
  unfold parseSdoConfigAttrs
  cases addOutputBuffer st (env.sizeof lcecConfTypeSdoConfig) (ConfRec.sdoConf {}) with
  | none => exact ⟨_, rfl, rfl⟩
  | some st1 =>
    obtain ⟨q, hq⟩ := attrLoop_aborts (sdoConfigBody env) { index := 0xffff, subindex := 0xff }
      attr (attrLoop_unknown _ _ (sdoConfigBody_unknown env) attr hbad _)
      (attrLoop_no_fault _ (sdoConfigBody_no_fault env) _ _)
    dsimp only
    rw [hq]
    exact ⟨_, rfl, rfl⟩

theorem parseIdnConfigAttrs_unknown (env : Env) (st : State) (attr : Attrs)
    (hbad : ∃ a ∈ attr, a.1 ∉ ["drive", "idn"]) :
    ∃ st', parseIdnConfigAttrs env st attr = some st' ∧ st'.stopped = true := by
  unfold parseIdnConfigAttrs
  cases addOutputBuffer st (env.sizeof lcecConfTypeIdnConfig) (ConfRec.idnConf {}) with
  | none => exact ⟨_, rfl, rfl⟩
  | some st1 =>
    obtain ⟨q, hq⟩ := attrLoop_aborts (idnConfigBody env)
      { drive := 0, idn := 0xffff, state := 0 } attr
      (attrLoop_unknown _ _ (idnConfigBody_unknown env) attr hbad _)
      (attrLoop_no_fault _ (idnConfigBody_no_fault env) _ _)
    dsimp only
    rw [hq]
    exact ⟨_, rfl, rfl⟩

theorem parseInitCmdsAttrs_unknown (env : Env) (st : State) (attr : Attrs)
    (hbad : ∃ a ∈ attr, a.1 ∉ ["filename"]) :
    ∃ st', parseInitCmdsAttrs env st attr = some st' ∧ st'.stopped = true := by
  unfold parseInitCmdsAttrs
  obtain ⟨q, hq⟩ := attrLoop_aborts initCmdsBody none attr
    (attrLoop_unknown _ _ initCmdsBody_unknown attr hbad _)
    (attrLoop_no_fault _ initCmdsBody_no_fault _ _)
  rw [hq]
  exact ⟨_, rfl, rfl⟩

theorem parseSyncManagerAttrs_unknown (env : Env) (st : State) (attr : Attrs)
    (hsl : st.slave.isSome = true)
    (hbad : ∃ a ∈ attr, a.1 ∉ ["idx", "dir"]) :
    ∃ st', parseSyncManagerAttrs env st attr = some st' ∧ st'.stopped = true := by
  unfold parseSyncManagerAttrs
  cases hs : st.slave with
  | none => rw [hs] at hsl; cases hsl
  | some sl =>
    dsimp only
    by_cases hty : sl.typename ≠ "generic"
    · rw [if_pos hty]
      exact ⟨_, rfl, rfl⟩
    · rw [if_neg hty]
      cases addOutputBuffer st (env.sizeof lcecConfTypeSyncManager) (ConfRec.syncManager {}) with
      | none => exact ⟨_, rfl, rfl⟩
      | some st1 =>
        obtain ⟨q, hq⟩ := attrLoop_aborts (syncManagerBody env)
          { index := 0xff, dir := EC_DIR_INVALID } attr
          (attrLoop_unknown _ _ (syncManagerBody_unknown env) attr hbad _)
          (attrLoop_no_fault _ (syncManagerBody_no_fault env) _ _)
        dsimp only
        rw [hq]
        exact ⟨_, rfl, rfl⟩

theorem parsePdoAttrs_unknown (env : Env) (st : State) (attr : Attrs)
    (hbad : ∃ a ∈ attr, a.1 ∉ ["idx"]) :
    ∃ st', parsePdoAttrs env st attr = some st' ∧ st'.stopped = true := by
  unfold parsePdoAttrs
  cases addOutputBuffer st (env.sizeof lcecConfTypePdo) (ConfRec.pdo {}) with
  | none => exact ⟨_, rfl, rfl⟩
  | some st1 =>
    obtain ⟨q, hq⟩ := attrLoop_aborts (pdoBody env) { index := 0xffff } attr
      (attrLoop_unknown _ _ (pdoBody_unknown env) attr hbad _)
      (attrLoop_no_fault _ (pdoBody_no_fault env) _ _)
    dsimp only
    rw [hq]
    exact ⟨_, rfl, rfl⟩

theorem parsePdoEntryAttrs_unknown (env : Env) (st : State) (attr : Attrs)
    (hbad : ∃ a ∈ attr, a.1 ∉
      ["idx", "subIdx", "bitLen", "halType", "scale", "offset", "halPin"]) :
    ∃ st', parsePdoEntryAttrs env st attr = some st' ∧ st'.stopped = true := by
  unfold parsePdoEntryAttrs
  cases addOutputBuffer st (env.sizeof lcecConfTypePdoEntry) (ConfRec.pdoEntry {}) with
  | none => exact ⟨_, rfl, rfl⟩
  | some st1 =>
    obtain ⟨q, hq⟩ := attrLoop_aborts (pdoEntryBody env)
      ({ index := 0xffff, subindex := 0xff }, false) attr
      (attrLoop_unknown _ _ (pdoEntryBody_unknown env) attr hbad _)
      (attrLoop_no_fault _ (pdoEntryBody_no_fault env) _ _)
    dsimp only
    rw [hq]
    exact ⟨_, rfl, rfl⟩

theorem parseComplexEntryAttrs_unknown (env : Env) (st : State) (attr : Attrs)
    (hpe : st.pdoEntry.isSome = true)
    (hbad : ∃ a ∈ attr, a.1 ∉ ["bitLen", "halType", "scale", "offset", "halPin"]) :
    ∃ st', parseComplexEntryAttrs env st attr = some st' ∧ st'.stopped = true := by
  obtain ⟨parent, hpar⟩ := Option.isSome_iff_exists.mp hpe
  unfold parseComplexEntryAttrs
  cases addOutputBuffer st (env.sizeof lcecConfTypeComplexEntry) (ConfRec.complexEntry {}) with
  | none => exact ⟨_, rfl, rfl⟩
  | some st1 =>
    obtain ⟨q, hq⟩ := attrLoop_aborts (complexEntryBody env st)
      ({ bitOffset := st.currComplexBitOffset }, false) attr
      (attrLoop_unknown _ _ (complexEntryBody_unknown env st) attr hbad _)
      (attrLoop_no_fault _ (complexEntryBody_no_fault env st parent hpar) _ _)
    dsimp only
    rw [hq]
    exact ⟨_, rfl, rfl⟩

theorem parseModParamAttrs_unknown (env : Env) (st : State) (attr : Attrs)
    (hty : st.currSlaveType.isSome = true)
    (hbad : ∃ a ∈ attr, a.1 ∉ ["name", "value"]) :
    ∃ st', parseModParamAttrs env st attr = some st' ∧ st'.stopped = true := by
  unfold parseModParamAttrs
  cases hs : st.currSlaveType with
  | none => rw [hs] at hty; cases hty
  | some ty =>
    dsimp only
    cases ty.modparams with
    | none => exact ⟨_, rfl, rfl⟩
    | some table =>
      dsimp only
      cases addOutputBuffer st (env.sizeof lcecConfTypeModParam) (ConfRec.modParam {}) with
      | none => exact ⟨_, rfl, rfl⟩
      | some st1 =>
        obtain ⟨q, hq⟩ := attrLoop_aborts modParamBody (none, none) attr
          (attrLoop_unknown _ _ modParamBody_unknown attr hbad _)
          (attrLoop_no_fault _ modParamBody_no_fault _ _)
        dsimp only
        rw [hq]
        exact ⟨_, rfl, rfl⟩
theorem modAt_getElem? (i : Nat) (g : ConfRec → ConfRec) (buf : List ConfRec) (j : Nat) :
    (modAt (some i) g buf)[j]? = if j = i then (buf[j]?).map g else buf[j]? := by
  simp only [modAt]
  cases hg : buf[i]? with
  | none =>
    by_cases hji : j = i
    · subst hji
      simp only [hg, if_true, Option.map_none']
    · simp only [if_neg hji]
  | some r =>
    have hlt : i < buf.length := (List.getElem?_eq_some.mp hg).1
    by_cases hji : j = i
    · subst hji
      simp only [List.getElem?_set_self hlt, hg, if_true, Option.map_some']
    · simp only [if_neg hji]
      rw [List.getElem?_set_ne (fun h => hji h.symm)]

theorem modAt_length (i : Option Nat) (g : ConfRec → ConfRec) (buf : List ConfRec) :
    (modAt i g buf).length = buf.length := by
  cases i with
  | none => rfl
  | some i =>
    simp only [modAt]
    split <;> simp

theorem HasRec_append {P : ConfRec → Prop} {i : Option Nat} {buf : List ConfRec}
    (l : List ConfRec) (h : HasRec P i buf) : HasRec P i (buf ++ l) := by
  obtain ⟨k, r, hi, hg, hp⟩ := h
  have hlt : k < buf.length := (List.getElem?_eq_some.mp hg).1
  exact ⟨k, r, hi, by rw [List.getElem?_append_left hlt]; exact hg, hp⟩

theorem HasRec_modAt {P : ConfRec → Prop} {i : Option Nat} {buf : List ConfRec}
    (j : Option Nat) (g : ConfRec → ConfRec) (hg : ∀ r, P r → P (g r))
    (h : HasRec P i buf) : HasRec P i (modAt j g buf) := by
  obtain ⟨k, r, hi, hk, hp⟩ := h
  cases j with
  | none => exact ⟨k, r, hi, hk, hp⟩
  | some j =>
    by_cases hkj : k = j
    · exact ⟨k, g r, hi, by rw [modAt_getElem?, if_pos hkj, hk]; rfl, hg r hp⟩
    · exact ⟨k, r, hi, by rw [modAt_getElem?, if_neg hkj, hk], hp⟩

theorem slave_isSome_iff (st : State) :
    st.slave.isSome = true ↔ HasRec ConfRec.IsSlave st.currSlave st.outputBuf := by
  constructor
  · intro h
    obtain ⟨s, hs⟩ := Option.isSome_iff_exists.mp h
    obtain ⟨i, hi, hg⟩ := slave_some hs
    exact ⟨i, _, hi, hg, s, rfl⟩
  · rintro ⟨k, r, hi, hg, s, rfl⟩
    rw [slave_of_getElem hi hg]
    rfl

theorem sdoConf_isSome_iff (st : State) :
    st.sdoConf.isSome = true ↔ HasRec ConfRec.IsSdoConf st.currSdoConf st.outputBuf := by
  constructor
  · intro h
    unfold State.sdoConf at h
    split at h
    · cases h
    · rename_i i hi
      split at h
      · rename_i c hg
        exact ⟨i, _, hi, hg, c, rfl⟩
      · cases h
  · rintro ⟨k, r, hi, hg, s, rfl⟩
    rw [sdoConf_of_getElem hi hg]
    rfl

theorem idnConf_isSome_iff (st : State) :
    st.idnConf.isSome = true ↔ HasRec ConfRec.IsIdnConf st.currIdnConf st.outputBuf := by
  constructor
  · intro h
    unfold State.idnConf at h
    split at h
    · cases h
    · rename_i i hi
      split at h
      · rename_i c hg
        exact ⟨i, _, hi, hg, c, rfl⟩
      · cases h
  · rintro ⟨k, r, hi, hg, s, rfl⟩
    unfold State.idnConf
    rw [hi]
    simp only
    rw [hg]
    rfl

theorem IsSlave_mapSlave (f : LCEC_CONF_SLAVE_T → LCEC_CONF_SLAVE_T) (r : ConfRec)
    (h : r.IsSlave) : (ConfRec.mapSlave f r).IsSlave := by
  obtain ⟨s, rfl⟩ := h
  exact ⟨f s, rfl⟩

theorem IsSlave_mapSdoConf (f : LCEC_CONF_SDOCONF_T → LCEC_CONF_SDOCONF_T) (r : ConfRec)
    (h : r.IsSlave) : (ConfRec.mapSdoConf f r).IsSlave := by
  obtain ⟨s, rfl⟩ := h
  exact ⟨s, rfl⟩

theorem IsSlave_mapIdnConf (f : LCEC_CONF_IDNCONF_T → LCEC_CONF_IDNCONF_T) (r : ConfRec)
    (h : r.IsSlave) : (ConfRec.mapIdnConf f r).IsSlave := by
  obtain ⟨s, rfl⟩ := h
  exact ⟨s, rfl⟩

theorem IsSdoConf_mapSlave (f : LCEC_CONF_SLAVE_T → LCEC_CONF_SLAVE_T) (r : ConfRec)
    (h : r.IsSdoConf) : (ConfRec.mapSlave f r).IsSdoConf := by
  obtain ⟨s, rfl⟩ := h
  exact ⟨s, rfl⟩

theorem IsSdoConf_mapSdoConf (f : LCEC_CONF_SDOCONF_T → LCEC_CONF_SDOCONF_T) (r : ConfRec)
    (h : r.IsSdoConf) : (ConfRec.mapSdoConf f r).IsSdoConf := by
  obtain ⟨s, rfl⟩ := h
  exact ⟨f s, rfl⟩

theorem IsIdnConf_mapSlave (f : LCEC_CONF_SLAVE_T → LCEC_CONF_SLAVE_T) (r : ConfRec)
    (h : r.IsIdnConf) : (ConfRec.mapSlave f r).IsIdnConf := by
  obtain ⟨s, rfl⟩ := h
  exact ⟨s, rfl⟩

theorem IsIdnConf_mapIdnConf (f : LCEC_CONF_IDNCONF_T → LCEC_CONF_IDNCONF_T) (r : ConfRec)
    (h : r.IsIdnConf) : (ConfRec.mapIdnConf f r).IsIdnConf := by
  obtain ⟨s, rfl⟩ := h
  exact ⟨f s, rfl⟩

theorem updSlave_total {st : State} (f : LCEC_CONF_SLAVE_T → LCEC_CONF_SLAVE_T)
    (h : st.slave.isSome = true) :
    st.updSlave f = some { st with
      outputBuf := modAt st.currSlave (ConfRec.mapSlave f) st.outputBuf } := by
  obtain ⟨s, hs⟩ := Option.isSome_iff_exists.mp h
  obtain ⟨i, _, _, hu⟩ := updSlave_of_slave f hs
  rw [hu]
  exact congrArg some (updSlave_modAt hu)

theorem updSdoConf_total {st : State} (f : LCEC_CONF_SDOCONF_T → LCEC_CONF_SDOCONF_T)
    (h : st.sdoConf.isSome = true) :
    st.updSdoConf f = some { st with
      outputBuf := modAt st.currSdoConf (ConfRec.mapSdoConf f) st.outputBuf } := by
  obtain ⟨k, r, hi, hg, s, rfl⟩ := (sdoConf_isSome_iff st).mp h
  have hu : st.updSdoConf f =
      some { st with outputBuf := st.outputBuf.set k (ConfRec.sdoConf (f s)) } := by
    unfold State.updSdoConf
    rw [hi, sdoConf_of_getElem hi hg]
  rw [hu]
  exact congrArg some (updSdoConf_modAt hu)

theorem updIdnConf_total {st : State} (f : LCEC_CONF_IDNCONF_T → LCEC_CONF_IDNCONF_T)
    (h : st.idnConf.isSome = true) :
    st.updIdnConf f = some { st with
      outputBuf := modAt st.currIdnConf (ConfRec.mapIdnConf f) st.outputBuf } := by
  obtain ⟨k, r, hi, hg, s, rfl⟩ := (idnConf_isSome_iff st).mp h
  have hc : st.idnConf = some s := by
    unfold State.idnConf
    rw [hi]
    simp only
    rw [hg]
  have hu : st.updIdnConf f =
      some { st with outputBuf := st.outputBuf.set k (ConfRec.idnConf (f s)) } := by
    unfold State.updIdnConf
    rw [hi, hc]
  rw [hu]
  exact congrArg some (updIdnConf_modAt hu)
/-- One pass of the attribute loop of `parseDataRawAttrs` when the
back-references are set: no NULL is dereferenced; a well-formed, non-empty data
text whose reservation succeeds stores one data block. -/
theorem dataRawBody_ready (env : Env) (st : State) (n v : String) (hr : DataRawReady st) :
    dataRawBody env st n v =
      (if n = "data" then
        if (parseHex v).1 < 0 then Step.abort st
        else if (parseHex v).1 > 0 then
          if (parseHex v).2.length ≤ st.freeMem then Step.cont (dataBlock env st (parseHex v).2)
          else Step.cont st
        else Step.cont st
      else Step.abort st) := by
  unfold dataRawBody
  by_cases hn : n = "data"
  · simp only [if_pos hn]
    by_cases hneg : (parseHex v).1 < 0
    · simp only [if_pos hneg]
    · simp only [if_neg hneg]
      by_cases hpos : (parseHex v).1 > 0
      · simp only [if_pos hpos]
        have hlen : (parseHex v).1.toNat = (parseHex v).2.length := by
          have := parseHex_length v (by omega)
          omega
        rw [hlen]
        by_cases hmem : (parseHex v).2.length ≤ st.freeMem
        · rw [addOutputBuffer_of_le _ hmem, if_pos hmem]
          dsimp only
          unfold dataBlock
          dsimp only
          by_cases hx : st.xmlState = lcecConfTypeSdoConfig.toInt
          · obtain ⟨hc, hs⟩ := hr.1 hx
            rw [if_pos hx, if_pos hx]
            rw [updSdoConf_total _ (by
              rw [sdoConf_isSome_iff] at hc ⊢
              exact HasRec_append _ hc)]
            dsimp only
            rw [updSlave_total _ (by
              rw [slave_isSome_iff] at hs ⊢
              exact HasRec_modAt _ _ (IsSlave_mapSdoConf _) (HasRec_append _ hs))]
            rfl
          · rw [if_neg hx, if_neg hx]
            by_cases hy : st.xmlState = lcecConfTypeIdnConfig.toInt
            · obtain ⟨hc, hs⟩ := hr.2 hy
              rw [if_pos hy, if_pos hy]
              rw [updIdnConf_total _ (by
                rw [idnConf_isSome_iff] at hc ⊢
                exact HasRec_append _ hc)]
              dsimp only
              rw [updSlave_total _ (by
                rw [slave_isSome_iff] at hs ⊢
                exact HasRec_modAt _ _ (IsSlave_mapIdnConf _) (HasRec_append _ hs))]
              rfl
            · rw [if_neg hy, if_neg hy]
              rfl
        · rw [if_neg hmem]
          unfold addOutputBuffer
          rw [if_neg hmem]
      · simp only [if_neg hpos]
  · simp only [if_neg hn]

theorem dataBlock_ready (env : Env) (st : State) (bytes : List Nat) (hr : DataRawReady st) :
    DataRawReady (dataBlock env st bytes) := by
  obtain ⟨e1, e2, e3, _, e5, e6, e7, e8, e9, e10, e11, e12, _, _⟩ := dataBlock_frame env st bytes
  unfold DataRawReady
  rw [e3, sdoConf_isSome_iff, idnConf_isSome_iff, slave_isSome_iff, e6, e11, e12]
  constructor
  · intro hx
    obtain ⟨hc, hs⟩ := hr.1 hx
    rw [sdoConf_isSome_iff] at hc
    rw [slave_isSome_iff] at hs
    unfold dataBlock
    simp only [if_pos hx, State.alloc]
    exact ⟨HasRec_modAt _ _ (IsSdoConf_mapSlave _)
        (HasRec_modAt _ _ (IsSdoConf_mapSdoConf _) (HasRec_append _ hc)),
      HasRec_modAt _ _ (IsSlave_mapSlave _)
        (HasRec_modAt _ _ (IsSlave_mapSdoConf _) (HasRec_append _ hs))⟩
  · intro hy
    have hx : ¬ st.xmlState = lcecConfTypeSdoConfig.toInt := by
      rw [hy]; decide
    obtain ⟨hc, hs⟩ := hr.2 hy
    rw [idnConf_isSome_iff] at hc
    rw [slave_isSome_iff] at hs
    unfold dataBlock
    simp only [if_neg hx, if_pos hy, State.alloc]
    exact ⟨HasRec_modAt _ _ (IsIdnConf_mapSlave _)
        (HasRec_modAt _ _ (IsIdnConf_mapIdnConf _) (HasRec_append _ hc)),
      HasRec_modAt _ _ (IsSlave_mapSlave _)
        (HasRec_modAt _ _ (IsSlave_mapIdnConf _) (HasRec_append _ hs))⟩

theorem attrLoop_no_fault_inv {P : Type} (body : P → String → String → Step P)
    (I : P → Prop) (hnf : ∀ p n v, I p → body p n v ≠ Step.fault)
    (hpres : ∀ p n v q, I p → body p n v = Step.cont q → I q) :
    ∀ (attrs : Attrs) (p : P), I p → attrLoop body p attrs ≠ Step.fault := by
  intro attrs
  induction attrs with
  | nil => intro p _ h; simp [attrLoop] at h
  | cons a rest ih =>
    intro p hp h
    obtain ⟨n, v⟩ := a
    simp only [attrLoop] at h
    cases hb : body p n v with
    | cont q => rw [hb] at h; exact ih q (hpres p n v q hp hb) h
    | abort q => rw [hb] at h; cases h
    | fault => exact hnf p n v hp hb

theorem dataRawBody_no_fault (env : Env) (st : State) (n v : String) (hr : DataRawReady st) :
    dataRawBody env st n v ≠ Step.fault := by
  rw [dataRawBody_ready env st n v hr]
  split_ifs <;> intro h <;> cases h

theorem dataRawBody_pres (env : Env) (st q : State) (n v : String) (hr : DataRawReady st)
    (h : dataRawBody env st n v = Step.cont q) : DataRawReady q := by
  rcases dataRawBody_cont env st q n v h with rfl | rfl
  · exact hr
  · exact dataBlock_ready env _ _ hr

theorem parseDataRawAttrs_unknown (env : Env) (st : State) (attr : Attrs)
    (hr : DataRawReady st) (hbad : ∃ a ∈ attr, a.1 ∉ ["data"]) :
    ∃ st', parseDataRawAttrs env st attr = some st' ∧ st'.stopped = true := by
  unfold parseDataRawAttrs
  obtain ⟨q, hq⟩ := attrLoop_aborts (dataRawBody env) st attr
    (attrLoop_unknown _ _ (dataRawBody_unknown env) attr hbad _)
    (attrLoop_no_fault_inv _ DataRawReady (fun p n v hp => dataRawBody_no_fault env p n v hp)
      (fun p n v q hp hb => dataRawBody_pres env p q n v hp hb) attr st hr)
  rw [hq]
  exact ⟨_, rfl, rfl⟩
/-- C12: every attribute handler stops the parser when the attribute list holds
a name outside the names the handler's loop tests: `master` (idx, name,
appTimePeriod, refClockSyncCycles), `slave` (type, idx, name, vid, pid,
configPdos), `dcConf` (assignActivate, sync0Cycle, sync0Shift, sync1Cycle,
sync1Shift), `watchdog` (divider, intervals), `sdoConfig` (idx, subIdx),
`idnConfig` (drive, idn), `sdoDataRaw` and `idnDataRaw` (data), `initCmds`
(filename), `syncManager` (idx, dir), `pdo` (idx), `pdoEntry` (idx, subIdx,
bitLen, halType, scale, offset, halPin), `complexEntry` (bitLen, halType, scale,
offset, halPin), `modParam` (name, value).  The handler returns (no NULL is
dereferenced) when the back-references it goes through are set. -/
theorem unknown_attribute_aborts (env : Env) (st : State) (attr : Attrs) :
    ((∃ a ∈ attr, a.1 ∉ ["idx", "name", "appTimePeriod", "refClockSyncCycles"]) →
      ∃ st', parseMasterAttrs env st attr = some st' ∧ st'.stopped = true) ∧
    ((∃ a ∈ attr, a.1 ∉ ["type", "idx", "name", "vid", "pid", "configPdos"]) →
      ∃ st', parseSlaveAttrs env st attr = some st' ∧ st'.stopped = true) ∧
    (st.master.isSome = true →
      (∃ a ∈ attr, a.1 ∉
        ["assignActivate", "sync0Cycle", "sync0Shift", "sync1Cycle", "sync1Shift"]) →
      ∃ st', parseDcConfAttrs env st attr = some st' ∧ st'.stopped = true) ∧
    ((∃ a ∈ attr, a.1 ∉ ["divider", "intervals"]) →
      ∃ st', parseWatchdogAttrs env st attr = some st' ∧ st'.stopped = true) ∧
    ((∃ a ∈ attr, a.1 ∉ ["idx", "subIdx"]) →
      ∃ st', parseSdoConfigAttrs env st attr = some st' ∧ st'.stopped = true) ∧
    ((∃ a ∈ attr, a.1 ∉ ["drive", "idn"]) →
      ∃ st', parseIdnConfigAttrs env st attr = some st' ∧ st'.stopped = true) ∧
    (DataRawReady st → (∃ a ∈ attr, a.1 ∉ ["data"]) →
      ∃ st', parseDataRawAttrs env st attr = some st' ∧ st'.stopped = true) ∧
    ((∃ a ∈ attr, a.1 ∉ ["filename"]) →
      ∃ st', parseInitCmdsAttrs env st attr = some st' ∧ st'.stopped = true) ∧
    (st.slave.isSome = true → (∃ a ∈ attr, a.1 ∉ ["idx", "dir"]) →
      ∃ st', parseSyncManagerAttrs env st attr = some st' ∧ st'.stopped = true) ∧
    ((∃ a ∈ attr, a.1 ∉ ["idx"]) →
      ∃ st', parsePdoAttrs env st attr = some st' ∧ st'.stopped = true) ∧
    ((∃ a ∈ attr, a.1 ∉ ["idx", "subIdx", "bitLen", "halType", "scale", "offset", "halPin"]) →
      ∃ st', parsePdoEntryAttrs env st attr = some st' ∧ st'.stopped = true) ∧
    (st.pdoEntry.isSome = true →
      (∃ a ∈ attr, a.1 ∉ ["bitLen", "halType", "scale", "offset", "halPin"]) →
      ∃ st', parseComplexEntryAttrs env st attr = some st' ∧ st'.stopped = true) ∧
    (st.currSlaveType.isSome = true → (∃ a ∈ attr, a.1 ∉ ["name", "value"]) →
      ∃ st', parseModParamAttrs env st attr = some st' ∧ st'.stopped = true) :=
  ⟨parseMasterAttrs_unknown env st attr, parseSlaveAttrs_unknown env st attr,
    parseDcConfAttrs_unknown env st attr, parseWatchdogAttrs_unknown env st attr,
    parseSdoConfigAttrs_unknown env st attr, parseIdnConfigAttrs_unknown env st attr,
    parseDataRawAttrs_unknown env st attr, parseInitCmdsAttrs_unknown env st attr,
    parseSyncManagerAttrs_unknown env st attr, parsePdoAttrs_unknown env st attr,
    parsePdoEntryAttrs_unknown env st attr, parseComplexEntryAttrs_unknown env st attr,
    parseModParamAttrs_unknown env st attr⟩

theorem unknown_attribute_aborts_witness :
    (∃ st', parseMasterAttrs sampleEnv (initState 1000) [("idx", "0"), ("colour", "red")]
        = some st' ∧ st'.stopped = true) ∧
    (sampleStatePdoEntry.pdoEntry.isSome = true ∧
      ∃ st', parseComplexEntryAttrs sampleEnv sampleStatePdoEntry
        [("bitLen", "4"), ("colour", "red")] = some st' ∧ st'.stopped = true) :=
  ⟨(unknown_attribute_aborts sampleEnv (initState 1000) [("idx", "0"), ("colour", "red")]).1
      ⟨("colour", "red"), by simp, by decide⟩,
    by rfl,
    (unknown_attribute_aborts sampleEnv sampleStatePdoEntry
      [("bitLen", "4"), ("colour", "red")]).2.2.2.2.2.2.2.2.2.2.2.1 (by rfl)
      ⟨("colour", "red"), by simp, by decide⟩⟩

/-- C13: the outcome of `parseSlaveAttrs` depends on the order of the attributes.
The generic-only attributes `vid`, `pid` and `configPdos` are tested against the
type name the second loop has copied so far, so `vid` behind `type="generic"` is
accepted and `vid` before it stops the parser, although the two lists are
permutations of each other with pairwise distinct names. -/
theorem slave_attribute_order_matters :
    List.Perm [("vid", "2"), ("type", "generic")] [("type", "generic"), ("vid", "2")] ∧
    (([("type", "generic"), ("vid", "2")] : Attrs).map Prod.fst).Nodup ∧
    (parseSlaveAttrs sampleEnv (initState 1000) [("type", "generic"), ("vid", "2")]).map
      (fun s => (s.stopped, s.slave_count, s.slave.map (fun r => (r.typename, r.vid))))
      = some (false, 1, some ("generic", 2)) ∧
    (parseSlaveAttrs sampleEnv (initState 1000) [("vid", "2"), ("type", "generic")]).map
      (fun s => (s.stopped, s.slave_count)) = some (true, 0) :=
  ⟨List.Perm.swap _ _ _, by decide, by rfl, by rfl⟩
theorem slavePre_without_type (env : Env) : ∀ (attr : Attrs) (p : Bool × Option lcec_typelist_t),
    (∀ a ∈ attr, a.1 ≠ "type") → attrLoop (slavePreBody env) p attr = Step.cont p := by
  intro attr
  induction attr with
  | nil => intro p _; rfl
  | cons a rest ih =>
    intro p h
    obtain ⟨n, v⟩ := a
    have hn : n ≠ "type" := h (n, v) (List.mem_cons_self _ _)
    simp only [attrLoop, slavePreBody, if_neg hn]
    exact ih p (fun a ha => h a (List.mem_cons_of_mem _ ha))

/-- A `slave` element without a `type` attribute stops the parser. -/
theorem parseSlaveAttrs_missing (env : Env) (st : State) (attr : Attrs)
    (hno : ∀ a ∈ attr, a.1 ≠ "type") :
    ∃ st', parseSlaveAttrs env st attr = some st' ∧ st'.stopped = true := by
  unfold parseSlaveAttrs
  cases addOutputBuffer st (env.sizeof lcecConfTypeSlave) (ConfRec.slave {}) with
  | none => exact ⟨_, rfl, rfl⟩
  | some st1 =>
    dsimp only
    rw [slavePre_without_type env attr _ hno]
    dsimp only
    cases hl : attrLoop (slaveBody env) {} attr with
    | fault => exact absurd hl (attrLoop_no_fault _ (slaveBody_no_fault env) _ _)
    | abort p => exact ⟨_, rfl, rfl⟩
    | cont p => exact ⟨_, rfl, rfl⟩

/-- An `sdoConfig` element without `idx` or without `subIdx` stops the parser. -/
theorem parseSdoConfigAttrs_missing (env : Env) (st : State) (attr : Attrs)
    (hno : (∀ a ∈ attr, a.1 ≠ "idx") ∨ (∀ a ∈ attr, a.1 ≠ "subIdx")) :
    ∃ st', parseSdoConfigAttrs env st attr = some st' ∧ st'.stopped = true := by
  unfold parseSdoConfigAttrs
  cases addOutputBuffer st (env.sizeof lcecConfTypeSdoConfig) (ConfRec.sdoConf {}) with
  | none => exact ⟨_, rfl, rfl⟩
  | some st1 =>
    dsimp only
    cases hl : attrLoop (sdoConfigBody env) { index := 0xffff, subindex := 0xff } attr with
    | fault => exact absurd hl (attrLoop_no_fault _ (sdoConfigBody_no_fault env) _ _)
    | abort p => exact ⟨_, rfl, rfl⟩
    | cont p =>
      dsimp only
      by_cases h1 : p.index = 0xffff
      · rw [if_pos h1]; exact ⟨_, rfl, rfl⟩
      · rw [if_neg h1]
        by_cases h2 : p.subindex = 0xff
        · rw [if_pos h2]; exact ⟨_, rfl, rfl⟩
        · exfalso
          rcases hno with hno | hno
          · exact h1 (attrLoop_frame (sdoConfigBody env) (fun p => p.index) "idx"
              (fun p n v q hn hb => sdoConfigBody_index_other env p n v q hn hb) attr _ p hno hl)
          · exact h2 (attrLoop_frame (sdoConfigBody env) (fun p => p.subindex) "subIdx"
              (fun p n v q hn hb => sdoConfigBody_subindex_other env p n v q hn hb)
              attr _ p hno hl)

theorem syncManagerBody_index_other (env : Env) (p q : LCEC_CONF_SYNCMANAGER_T) (n v : String)
    (hn : n ≠ "idx") (h : syncManagerBody env p n v = Step.cont q) : q.index = p.index := by
  unfold syncManagerBody at h
  rw [if_neg hn] at h
  split_ifs at h <;> cases h <;> rfl

theorem syncManagerBody_dir_other (env : Env) (p q : LCEC_CONF_SYNCMANAGER_T) (n v : String)
    (hn : n ≠ "dir") (h : syncManagerBody env p n v = Step.cont q) : q.dir = p.dir := by
  unfold syncManagerBody at h
  dsimp only at h
  split_ifs at h <;> first | (cases h; rfl) | contradiction

/-- A `syncManager` element without `idx` or without `dir` stops the parser. -/
theorem parseSyncManagerAttrs_missing (env : Env) (st : State) (attr : Attrs)
    (hsl : st.slave.isSome = true)
    (hno : (∀ a ∈ attr, a.1 ≠ "idx") ∨ (∀ a ∈ attr, a.1 ≠ "dir")) :
    ∃ st', parseSyncManagerAttrs env st attr = some st' ∧ st'.stopped = true := by
  unfold parseSyncManagerAttrs
  cases hs : st.slave with
  | none => rw [hs] at hsl; cases hsl
  | some sl =>
    dsimp only
    by_cases hty : sl.typename ≠ "generic"
    · rw [if_pos hty]
      exact ⟨_, rfl, rfl⟩
    · rw [if_neg hty]
      cases addOutputBuffer st (env.sizeof lcecConfTypeSyncManager) (ConfRec.syncManager {}) with
      | none => exact ⟨_, rfl, rfl⟩
      | some st1 =>
        dsimp only
        cases hl : attrLoop (syncManagerBody env) { index := 0xff, dir := EC_DIR_INVALID }
            attr with
        | fault => exact absurd hl (attrLoop_no_fault _ (syncManagerBody_no_fault env) _ _)
        | abort p => exact ⟨_, rfl, rfl⟩
        | cont p =>
          dsimp only
          by_cases h1 : p.index = 0xff
          · rw [if_pos h1]; exact ⟨_, rfl, rfl⟩
          · rw [if_neg h1]
            by_cases h2 : p.dir = EC_DIR_INVALID
            · rw [if_pos h2]; exact ⟨_, rfl, rfl⟩
            · exfalso
              rcases hno with hno | hno
              · exact h1 (attrLoop_frame (syncManagerBody env) (fun p => p.index) "idx"
                  (fun p n v q hn hb => syncManagerBody_index_other env p q n v hn hb)
                  attr _ p hno hl)
              · exact h2 (attrLoop_frame (syncManagerBody env) (fun p => p.dir) "dir"
                  (fun p n v q hn hb => syncManagerBody_dir_other env p q n v hn hb)
                  attr _ p hno hl)

/-- A `pdo` element without `idx` stops the parser. -/
theorem parsePdoAttrs_missing (env : Env) (st : State) (attr : Attrs)
    (hno : ∀ a ∈ attr, a.1 ≠ "idx") :
    ∃ st', parsePdoAttrs env st attr = some st' ∧ st'.stopped = true := by
  unfold parsePdoAttrs
  cases addOutputBuffer st (env.sizeof lcecConfTypePdo) (ConfRec.pdo {}) with
  | none => exact ⟨_, rfl, rfl⟩
  | some st1 =>
    dsimp only
    cases hl : attrLoop (pdoBody env) { index := 0xffff } attr with
    | fault => exact absurd hl (attrLoop_no_fault _ (pdoBody_no_fault env) _ _)
    | abort p => exact ⟨_, rfl, rfl⟩
    | cont p =>
      dsimp only
      have h1 : p.index = 0xffff :=
        attrLoop_frame (pdoBody env) (fun p => p.index) "idx"
          (fun p n v q hn hb => by
            unfold pdoBody at hb
            rw [if_neg hn] at hb
            cases hb) attr _ p hno hl
      rw [if_pos h1]
      exact ⟨_, rfl, rfl⟩

theorem pdoEntryBody_fields_other (env : Env) (p q : LCEC_CONF_PDOENTRY_T × Bool) (n v : String)
    (h : pdoEntryBody env p n v = Step.cont q) :
    (n ≠ "idx" → q.1.index = p.1.index) ∧ (n ≠ "subIdx" → q.1.subindex = p.1.subindex) ∧
    (n ≠ "bitLen" → q.1.bitLength = p.1.bitLength) := by
  unfold pdoEntryBody at h
  dsimp only at h
  split_ifs at h
  all_goals first
    | (cases h; exact ⟨fun _ => rfl, fun _ => rfl, fun _ => rfl⟩)
    | (cases h; refine ⟨fun hn => ?_, fun hn => ?_, fun hn => ?_⟩ <;>
        first | rfl | contradiction)
    | skip
  split at h
  · cases h
  · rename_i q1 hq
    cases h
    obtain ⟨e1, e2, e3, _⟩ := pdoEntryHalType_frame hq
    exact ⟨fun _ => e1, fun _ => e2, fun _ => e3⟩

/-- A `pdoEntry` element without `idx`, without `subIdx` or without `bitLen`
stops the parser. -/
theorem parsePdoEntryAttrs_missing (env : Env) (st : State) (attr : Attrs)
    (hno : (∀ a ∈ attr, a.1 ≠ "idx") ∨ (∀ a ∈ attr, a.1 ≠ "subIdx") ∨
      (∀ a ∈ attr, a.1 ≠ "bitLen")) :
    ∃ st', parsePdoEntryAttrs env st attr = some st' ∧ st'.stopped = true := by
  unfold parsePdoEntryAttrs
  cases addOutputBuffer st (env.sizeof lcecConfTypePdoEntry) (ConfRec.pdoEntry {}) with
  | none => exact ⟨_, rfl, rfl⟩
  | some st1 =>
    dsimp only
    cases hl : attrLoop (pdoEntryBody env) ({ index := 0xffff, subindex := 0xff }, false)
        attr with
    | fault => exact absurd hl (attrLoop_no_fault _ (pdoEntryBody_no_fault env) _ _)
    | abort p => exact ⟨_, rfl, rfl⟩
    | cont q =>
      obtain ⟨p, fr⟩ := q
      dsimp only
      by_cases h1 : p.index = 0xffff
      · rw [if_pos h1]; exact ⟨_, rfl, rfl⟩
      · rw [if_neg h1]
        by_cases h2 : p.subindex = 0xff
        · rw [if_pos h2]; exact ⟨_, rfl, rfl⟩
        · rw [if_neg h2]
          by_cases h3 : p.bitLength = 0
          · rw [if_pos h3]; exact ⟨_, rfl, rfl⟩
          · exfalso
            rcases hno with hno | hno | hno
            · exact h1 (attrLoop_frame (pdoEntryBody env) (fun p => p.1.index) "idx"
                (fun p n v q hn hb => (pdoEntryBody_fields_other env p q n v hb).1 hn)
                attr _ (p, fr) hno hl)
            · exact h2 (attrLoop_frame (pdoEntryBody env) (fun p => p.1.subindex) "subIdx"
                (fun p n v q hn hb => (pdoEntryBody_fields_other env p q n v hb).2.1 hn)
                attr _ (p, fr) hno hl)
            · exact h3 (attrLoop_frame (pdoEntryBody env) (fun p => p.1.bitLength) "bitLen"
                (fun p n v q hn hb => (pdoEntryBody_fields_other env p q n v hb).2.2 hn)
                attr _ (p, fr) hno hl)

theorem attrLoop_no_fault_on {P : Type} (body : P → String → String → Step P) :
    ∀ (attrs : Attrs) (p : P), (∀ a ∈ attrs, ∀ p, body p a.1 a.2 ≠ Step.fault) →
      attrLoop body p attrs ≠ Step.fault := by
  intro attrs
  induction attrs with
  | nil => intro p _ h; simp [attrLoop] at h
  | cons a rest ih =>
    intro p hnf h
    obtain ⟨n, v⟩ := a
    simp only [attrLoop] at h
    cases hb : body p n v with
    | cont q =>
      rw [hb] at h
      exact ih q (fun a ha => hnf a (List.mem_cons_of_mem _ ha)) h
    | abort q => rw [hb] at h; cases h
    | fault => exact hnf (n, v) (List.mem_cons_self _ _) p hb

theorem complexEntryBody_other (env : Env) (st : State) (p : LCEC_CONF_COMPLEXENTRY_T × Bool)
    (n v : String) (hn : n ≠ "bitLen") :
    complexEntryBody env st p n v ≠ Step.fault ∧
    ∀ q, complexEntryBody env st p n v = Step.cont q → q.1.bitLength = p.1.bitLength := by
  unfold complexEntryBody
  rw [if_neg hn]
  split_ifs
  · cases hh : complexEntryHalType p.1 v with
    | none => exact ⟨(by intro h; cases h), (by intro q h; cases h)⟩
    | some q1 =>
      refine ⟨(by intro h; cases h), ?_⟩
      intro q h
      cases h
      exact (complexEntryHalType_frame hh).2.1
  all_goals exact ⟨(by intro h; cases h), (by intro q h; cases h <;> rfl)⟩

/-- A `complexEntry` element without `bitLen` stops the parser. -/
theorem parseComplexEntryAttrs_missing (env : Env) (st : State) (attr : Attrs)
    (hno : ∀ a ∈ attr, a.1 ≠ "bitLen") :
    ∃ st', parseComplexEntryAttrs env st attr = some st' ∧ st'.stopped = true := by
  unfold parseComplexEntryAttrs
  cases addOutputBuffer st (env.sizeof lcecConfTypeComplexEntry) (ConfRec.complexEntry {}) with
  | none => exact ⟨_, rfl, rfl⟩
  | some st1 =>
    dsimp only
    cases hl : attrLoop (complexEntryBody env st) ({ bitOffset := st.currComplexBitOffset }, false)
        attr with
    | fault =>
      exact absurd hl (attrLoop_no_fault_on _ attr _
        (fun a ha p => (complexEntryBody_other env st p a.1 a.2 (hno a ha)).1))
    | abort p => exact ⟨_, rfl, rfl⟩
    | cont q =>
      obtain ⟨p, fr⟩ := q
      dsimp only
      have h3 : p.bitLength = 0 :=
        attrLoop_frame (complexEntryBody env st) (fun p => p.1.bitLength) "bitLen"
          (fun p n v q hn hb => (complexEntryBody_other env st p n v hn).2 q hb)
          attr _ (p, fr) hno hl
      rw [if_pos h3]
      exact ⟨_, rfl, rfl⟩

theorem initCmdsBody_value (attr : Attrs) (q : Option String)
    (h : attrLoop initCmdsBody none attr = Step.cont q) : q = attrValue "filename" attr := by
  have := attrLoop_last_value initCmdsBody (fun p => p) "filename" (fun v => some v)
    (fun p v q hb => by
      simp only [initCmdsBody, if_true, Step.cont.injEq] at hb
      exact hb.symm)
    (fun p n v q hn hb => by
      simp only [initCmdsBody, if_neg hn] at hb
      cases hb) attr none q h
  dsimp only at this
  rw [this]
  cases attrValue "filename" attr <;> rfl

/-- An `initCmds` element without a non-empty `filename` stops the parser. -/
theorem parseInitCmdsAttrs_missing (env : Env) (st : State) (attr : Attrs)
    (hno : attrValue "filename" attr = none ∨ attrValue "filename" attr = some "") :
    ∃ st', parseInitCmdsAttrs env st attr = some st' ∧ st'.stopped = true := by
  unfold parseInitCmdsAttrs
  cases hl : attrLoop initCmdsBody none attr with
  | fault => exact absurd hl (attrLoop_no_fault _ initCmdsBody_no_fault _ _)
  | abort p => exact ⟨_, rfl, rfl⟩
  | cont q =>
    have hq := initCmdsBody_value attr q hl
    dsimp only
    rcases hno with hno | hno
    · rw [hq, hno]
      exact ⟨_, rfl, rfl⟩
    · rw [hq, hno]
      exact ⟨_, rfl, rfl⟩

theorem modParamBody_value (attr : Attrs) (q : Option String × Option String)
    (h : attrLoop modParamBody (none, none) attr = Step.cont q) :
    q = (attrValue "name" attr, attrValue "value" attr) := by
  have h1 := attrLoop_last_value modParamBody (fun p => p.1) "name" (fun v => some v)
    (fun p v q hb => by
      simp only [modParamBody, if_true, Step.cont.injEq] at hb
      rw [← hb])
    (fun p n v q hn hb => by
      simp only [modParamBody, if_neg hn] at hb
      split_ifs at hb <;> cases hb
      rfl) attr (none, none) q h
  have h2 := attrLoop_last_value modParamBody (fun p => p.2) "value" (fun v => some v)
    (fun p v q hb => by
      simp only [modParamBody, if_neg (by decide : ¬ ("value" = "name")), if_true,
        Step.cont.injEq] at hb
      rw [← hb])
    (fun p n v q hn hb => by
      simp only [modParamBody, if_neg hn] at hb
      split_ifs at hb <;> cases hb
      rfl) attr (none, none) q h
  dsimp only at h1 h2
  ext1
  · rw [h1]; cases attrValue "name" attr <;> rfl
  · rw [h2]; cases attrValue "value" attr <;> rfl

/-- A `modParam` element without a non-empty `name` or without a non-empty
`value` stops the parser. -/
theorem parseModParamAttrs_missing (env : Env) (st : State) (attr : Attrs)
    (hty : st.currSlaveType.isSome = true)
    (hno : (attrValue "name" attr = none ∨ attrValue "name" attr = some "") ∨
      (attrValue "value" attr = none ∨ attrValue "value" attr = some "")) :
    ∃ st', parseModParamAttrs env st attr = some st' ∧ st'.stopped = true := by
  unfold parseModParamAttrs
  cases hs : st.currSlaveType with
  | none => rw [hs] at hty; cases hty
  | some ty =>
    dsimp only
    cases ty.modparams with
    | none => exact ⟨_, rfl, rfl⟩
    | some table =>
      dsimp only
      cases addOutputBuffer st (env.sizeof lcecConfTypeModParam) (ConfRec.modParam {}) with
      | none => exact ⟨_, rfl, rfl⟩
      | some st1 =>
        dsimp only
        cases hl : attrLoop modParamBody (none, none) attr with
        | fault => exact absurd hl (attrLoop_no_fault _ modParamBody_no_fault _ _)
        | abort p => exact ⟨_, rfl, rfl⟩
        | cont q =>
          have hq := modParamBody_value attr q hl
          subst hq
          dsimp only
          cases hn : attrValue "name" attr with
          | none => exact ⟨_, rfl, rfl⟩
          | some n =>
            cases hv : attrValue "value" attr with
            | none => exact ⟨_, rfl, rfl⟩
            | some v =>
              dsimp only
              by_cases h1 : n = ""
              · rw [if_pos h1]; exact ⟨_, rfl, rfl⟩
              · by_cases h2 : v = ""
                · rw [if_neg h1, if_pos h2]; exact ⟨_, rfl, rfl⟩
                · exfalso
                  rw [hn, hv] at hno
                  simp only [reduceCtorEq, Option.some.injEq, false_or] at hno
                  rcases hno with h | h
                  · exact h1 h
                  · exact h2 h
/-- C14: a missing mandatory attribute stops the parser: `parseSlaveAttrs`
without `type`; `parseSdoConfigAttrs` without `idx` or without `subIdx`;
`parseSyncManagerAttrs` without `idx` or without `dir`; `parsePdoAttrs` without
`idx`; `parsePdoEntryAttrs` without `idx`, `subIdx` or `bitLen`;
`parseComplexEntryAttrs` without `bitLen`; `parseInitCmdsAttrs` when `filename`
is absent or empty; `parseModParamAttrs` when `name` or `value` is absent or
empty.  The handler returns (for `syncManager` and `modParam`: when the
back-reference it reads first is set). -/
theorem missing_mandatory_attribute_aborts (env : Env) (st : State) (attr : Attrs) :
    ((∀ a ∈ attr, a.1 ≠ "type") →
      ∃ st', parseSlaveAttrs env st attr = some st' ∧ st'.stopped = true) ∧
    ((∀ a ∈ attr, a.1 ≠ "idx") ∨ (∀ a ∈ attr, a.1 ≠ "subIdx") →
      ∃ st', parseSdoConfigAttrs env st attr = some st' ∧ st'.stopped = true) ∧
    (st.slave.isSome = true → (∀ a ∈ attr, a.1 ≠ "idx") ∨ (∀ a ∈ attr, a.1 ≠ "dir") →
      ∃ st', parseSyncManagerAttrs env st attr = some st' ∧ st'.stopped = true) ∧
    ((∀ a ∈ attr, a.1 ≠ "idx") →
      ∃ st', parsePdoAttrs env st attr = some st' ∧ st'.stopped = true) ∧
    ((∀ a ∈ attr, a.1 ≠ "idx") ∨ (∀ a ∈ attr, a.1 ≠ "subIdx") ∨
        (∀ a ∈ attr, a.1 ≠ "bitLen") →
      ∃ st', parsePdoEntryAttrs env st attr = some st' ∧ st'.stopped = true) ∧
    ((∀ a ∈ attr, a.1 ≠ "bitLen") →
      ∃ st', parseComplexEntryAttrs env st attr = some st' ∧ st'.stopped = true) ∧
    (attrValue "filename" attr = none ∨ attrValue "filename" attr = some "" →
      ∃ st', parseInitCmdsAttrs env st attr = some st' ∧ st'.stopped = true) ∧
    (st.currSlaveType.isSome = true →
      (attrValue "name" attr = none ∨ attrValue "name" attr = some "") ∨
        (attrValue "value" attr = none ∨ attrValue "value" attr = some "") →
      ∃ st', parseModParamAttrs env st attr = some st' ∧ st'.stopped = true) :=
  ⟨parseSlaveAttrs_missing env st attr, parseSdoConfigAttrs_missing env st attr,
    parseSyncManagerAttrs_missing env st attr, parsePdoAttrs_missing env st attr,
    parsePdoEntryAttrs_missing env st attr, parseComplexEntryAttrs_missing env st attr,
    parseInitCmdsAttrs_missing env st attr, parseModParamAttrs_missing env st attr⟩

theorem missing_mandatory_attribute_aborts_witness :
    (∃ st', parsePdoEntryAttrs sampleEnv sampleStatePdo [("idx", "7000"), ("subIdx", "1")]
        = some st' ∧ st'.stopped = true) ∧
    (sampleStateSlave.slave.isSome = true ∧
      ∃ st', parseSyncManagerAttrs sampleEnv sampleStateSlave [("idx", "2")] = some st' ∧
        st'.stopped = true) :=
  ⟨(missing_mandatory_attribute_aborts sampleEnv sampleStatePdo
      [("idx", "7000"), ("subIdx", "1")]).2.2.2.2.1
      (Or.inr (Or.inr (by decide))),
    by rfl,
    (missing_mandatory_attribute_aborts sampleEnv sampleStateSlave [("idx", "2")]).2.2.1
      (by rfl) (Or.inr (by decide))⟩

theorem masterBody_index (env : Env) (attr : Attrs) (q : LCEC_CONF_MASTER_T)
    (h : attrLoop (masterBody env) {} attr = Step.cont q) :
    q.index = (match attrValue "idx" attr with
               | some v => atoi env.longBits v
               | none => 0) := by
  refine attrLoop_last_value (masterBody env) (fun p => p.index) "idx"
    (fun v => atoi env.longBits v) ?_ ?_ attr {} q h
  · intro p v q hb
    simp only [masterBody, if_true, Step.cont.injEq] at hb
    subst hb
    rfl
  · intro p n v q hn hb
    unfold masterBody at hb
    split_ifs at hb <;> first | (cases hb <;> rfl) | contradiction

theorem masterBody_name (env : Env) (attr : Attrs) (q : LCEC_CONF_MASTER_T)
    (h : attrLoop (masterBody env) {} attr = Step.cont q) :
    q.name = (match attrValue "name" attr with
              | some v => strncpy v (env.LCEC_CONF_STR_MAXLEN - 1)
              | none => "") := by
  refine attrLoop_last_value (masterBody env) (fun p => p.name) "name"
    (fun v => strncpy v (env.LCEC_CONF_STR_MAXLEN - 1)) ?_ ?_ attr {} q h
  · intro p v q hb
    simp only [masterBody, if_neg (by decide : ¬ ("name" = "idx")), if_true,
      Step.cont.injEq] at hb
    subst hb
    rfl
  · intro p n v q hn hb
    unfold masterBody at hb
    split_ifs at hb <;> first | (cases hb <;> rfl) | contradiction

theorem strncpy_zero (s : String) : strncpy s 0 = "" := by
  unfold strncpy
  rfl

theorem strncpy_of_le (s : String) (n : Nat) (h : s.length ≤ n) : strncpy s n = s := by
  unfold strncpy
  have : s.data.take n = s.data := List.take_of_length_le h
  rw [this]

/-- The name an accepted `master` or `slave` element gets from the values `nm` of
its `name` attribute and `idx` of its index. -/
theorem default_name_cases (env : Env) (nm : Option String) (index : Int) (name : String)
    (hname : name = (match nm with
                     | some v => strncpy v (env.LCEC_CONF_STR_MAXLEN - 1)
                     | none => "")) :
    (nm = none → (if name = "" then defaultName env index else name) = defaultName env index) ∧
    (∀ v, nm = some v → v ≠ "" →
      (if name = "" then defaultName env index else name)
        = strncpy v (env.LCEC_CONF_STR_MAXLEN - 1)) := by
  constructor
  · intro h
    subst h
    rw [hname]
    rfl
  · intro v h hv
    subst h
    dsimp only at hname
    by_cases hm : 1 ≤ env.LCEC_CONF_STR_MAXLEN - 1
    · have hne := strncpy_ne_empty hv hm
      rw [← hname] at hne
      rw [if_neg hne, hname]
    · have h0 : env.LCEC_CONF_STR_MAXLEN - 1 = 0 := by omega
      rw [h0, strncpy_zero] at hname
      rw [if_pos hname, h0, strncpy_zero]
      unfold defaultName
      rw [h0, strncpy_zero]

/-- The record of an accepted `master` or `slave` element holds as index the
decimal value of the `idx` attribute (0 when absent), wherever it stands in the
list.  Without a `name` attribute the name is the decimal rendering of that
index, cut to `LCEC_CONF_STR_MAXLEN - 1` characters (so the full rendering when
it is shorter than `LCEC_CONF_STR_MAXLEN`, and `"0"` when `idx` is absent too);
with a non-empty `name` the name is that text cut to
`LCEC_CONF_STR_MAXLEN - 1` characters. -/
theorem default_name_is_index (env : Env) (st st' : State) (attr : Attrs)
    (hs : st'.stopped = false) :
    (parseMasterAttrs env st attr = some st' →
      ∃ m : LCEC_CONF_MASTER_T, st'.outputBuf = st.outputBuf ++ [ConfRec.master m] ∧
        m.index = (match attrValue "idx" attr with
                   | some v => atoi env.longBits v
                   | none => 0) ∧
        (attrValue "name" attr = none →
          m.name = strncpy (toString m.index) (env.LCEC_CONF_STR_MAXLEN - 1) ∧
          ((toString m.index).length < env.LCEC_CONF_STR_MAXLEN → m.name = toString m.index) ∧
          (attrValue "idx" attr = none → 2 ≤ env.LCEC_CONF_STR_MAXLEN → m.name = "0")) ∧
        (∀ v, attrValue "name" attr = some v → v ≠ "" →
          m.name = strncpy v (env.LCEC_CONF_STR_MAXLEN - 1))) ∧
    (parseSlaveAttrs env st attr = some st' →
      ∃ s : LCEC_CONF_SLAVE_T, st'.outputBuf = st.outputBuf ++ [ConfRec.slave s] ∧
        s.index = (match attrValue "idx" attr with
                   | some v => atoi env.longBits v
                   | none => 0) ∧
        (attrValue "name" attr = none →
          s.name = strncpy (toString s.index) (env.LCEC_CONF_STR_MAXLEN - 1) ∧
          ((toString s.index).length < env.LCEC_CONF_STR_MAXLEN → s.name = toString s.index) ∧
          (attrValue "idx" attr = none → 2 ≤ env.LCEC_CONF_STR_MAXLEN → s.name = "0")) ∧
        (∀ v, attrValue "name" attr = some v → v ≠ "" →
          s.name = strncpy v (env.LCEC_CONF_STR_MAXLEN - 1))) := by
  constructor
  · intro h
    obtain ⟨p, hl, rfl⟩ := parseMasterAttrs_effect env st st' attr h hs
    have hi := masterBody_index env attr p hl
    have hn := masterBody_name env attr p hl
    obtain ⟨d1, d2⟩ := default_name_cases env (attrValue "name" attr) p.index p.name hn
    have hidx : (if p.name = "" then { p with name := defaultName env p.index } else p).index
        = p.index := by split_ifs <;> rfl
    have hnm : (if p.name = "" then { p with name := defaultName env p.index } else p).name
        = (if p.name = "" then defaultName env p.index else p.name) := by split_ifs <;> rfl
    refine ⟨_, rfl, hidx.trans hi, ?_, ?_⟩
    · intro hno
      have e := d1 hno
      rw [hnm, hidx, e]
      refine ⟨rfl, ?_, ?_⟩
      · intro hlen
        exact strncpy_of_le _ _ (by omega)
      · intro hnoidx h2
        rw [hi, hnoidx]
        show strncpy (toString (0 : Int)) (env.LCEC_CONF_STR_MAXLEN - 1) = "0"
        have h1 : (toString (0 : Int)).length = 1 := by rfl
        rw [strncpy_of_le _ _ (by omega)]
        rfl
    · intro v hv hne
      rw [hnm]
      exact d2 v hv hne
  · intro h
    obtain ⟨p, ty, hl, _, rfl⟩ := parseSlaveAttrs_effect env st st' attr h hs
    have hi := slaveBody_index env attr p hl
    have hn := slaveBody_name env attr p hl
    obtain ⟨d1, d2⟩ := default_name_cases env (attrValue "name" attr) p.index p.name hn
    have hidx : (if p.name = "" then { p with name := defaultName env p.index } else p).index
        = p.index := by split_ifs <;> rfl
    have hnm : (if p.name = "" then { p with name := defaultName env p.index } else p).name
        = (if p.name = "" then defaultName env p.index else p.name) := by split_ifs <;> rfl
    refine ⟨_, rfl, hidx.trans hi, ?_, ?_⟩
    · intro hno
      have e := d1 hno
      rw [hnm, hidx, e]
      refine ⟨rfl, ?_, ?_⟩
      · intro hlen
        exact strncpy_of_le _ _ (by omega)
      · intro hnoidx h2
        rw [hi, hnoidx]
        show strncpy (toString (0 : Int)) (env.LCEC_CONF_STR_MAXLEN - 1) = "0"
        have h1 : (toString (0 : Int)).length = 1 := by rfl
        rw [strncpy_of_le _ _ (by omega)]
        rfl
    · intro v hv hne
      rw [hnm]
      exact d2 v hv hne
theorem default_name_is_index_witness :
    sampleMasterResult.stopped = false ∧
    parseMasterAttrs sampleEnv (initState 1000) [("idx", "7")] = some sampleMasterResult ∧
    sampleMasterResult.outputBuf = [ConfRec.master { index := 7, name := "7" }] ∧
    ∃ m : LCEC_CONF_MASTER_T,
      sampleMasterResult.outputBuf = (initState 1000).outputBuf ++ [ConfRec.master m] ∧
      m.name = strncpy (toString m.index) (sampleEnv.LCEC_CONF_STR_MAXLEN - 1) :=
  ⟨by rfl, by rfl, by rfl,
    Exists.imp (fun _ h => ⟨h.1, (h.2.2.1 (by rfl)).1⟩)
      ((default_name_is_index sampleEnv (initState 1000) sampleMasterResult [("idx", "7")]
        (by rfl)).1 (by rfl))⟩
theorem dataBlock_sdo_buf (env : Env) (st : State) (bytes : List Nat)
    (hx : st.xmlState = lcecConfTypeSdoConfig.toInt) :
    (dataBlock env st bytes).outputBuf =
      modAt st.currSlave (ConfRec.mapSlave (addSdoConfigLength env bytes.length))
        (modAt st.currSdoConf (ConfRec.mapSdoConf (addSdoLength env bytes.length))
          (st.outputBuf ++ [ConfRec.dataRaw bytes])) := by
  unfold dataBlock
  simp only [if_pos hx, State.alloc]

/-- The records after a data block was stored in the context of an SDO
configuration: the current configuration record and the current slave record
have the length added, every other item of the buffer stays, and the block is
the new last item. -/
theorem dataBlock_sdo (env : Env) (st : State) (bytes : List Nat)
    (c : LCEC_CONF_SDOCONF_T) (sl : LCEC_CONF_SLAVE_T)
    (hx : st.xmlState = lcecConfTypeSdoConfig.toInt)
    (hc : st.sdoConf = some c) (hs : st.slave = some sl) :
    (dataBlock env st bytes).sdoConf = some (addSdoLength env bytes.length c) ∧
    (dataBlock env st bytes).slave = some (addSdoConfigLength env bytes.length sl) ∧
    (dataBlock env st bytes).outputBuf.length = st.outputBuf.length + 1 ∧
    (dataBlock env st bytes).outputBuf[st.outputBuf.length]? = some (ConfRec.dataRaw bytes) ∧
    (∀ j r, st.outputBuf[j]? = some r → some j ≠ st.currSlave → some j ≠ st.currSdoConf →
      (dataBlock env st bytes).outputBuf[j]? = some r) := by
  obtain ⟨i, hi, hgi⟩ := slave_some hs
  obtain ⟨k, r0, hk, hgk, c0, rfl⟩ := (sdoConf_isSome_iff st).mp (by rw [hc]; rfl)
  have hc0 : c0 = c := by
    have := sdoConf_of_getElem hk hgk
    rw [hc] at this
    exact (Option.some.inj this).symm
  subst hc0
  have hik : i ≠ k := by
    intro h
    subst h
    rw [hgi] at hgk
    cases hgk
  have hilt : i < st.outputBuf.length := (List.getElem?_eq_some.mp hgi).1
  have hklt : k < st.outputBuf.length := (List.getElem?_eq_some.mp hgk).1
  obtain ⟨_, _, _, _, _, e6, _, _, _, _, e11, _, _, _⟩ := dataBlock_frame env st bytes
  have hbuf := dataBlock_sdo_buf env st bytes hx
  rw [hi, hk] at hbuf
  refine ⟨?_, ?_, ?_, ?_, ?_⟩
  · apply sdoConf_of_getElem (i := k) (by rw [e11]; exact hk)
    rw [hbuf, modAt_getElem?, if_neg (fun h => hik h.symm), modAt_getElem?, if_pos rfl,
      List.getElem?_append_left hklt, hgk]
    rfl
  · apply slave_of_getElem (i := i) (by rw [e6]; exact hi)
    rw [hbuf, modAt_getElem?, if_pos rfl, modAt_getElem?, if_neg hik,
      List.getElem?_append_left hilt, hgi]
    rfl
  · rw [hbuf, modAt_length, modAt_length, List.length_append]
    rfl
  · rw [hbuf, modAt_getElem?, if_neg (Nat.ne_of_gt hilt), modAt_getElem?,
      if_neg (Nat.ne_of_gt hklt), List.getElem?_append_right (Nat.le_refl _)]
    simp
  · intro j r hj hjs hjc
    have hjlt : j < st.outputBuf.length := (List.getElem?_eq_some.mp hj).1
    have hji : j ≠ i := by
      intro h; apply hjs; rw [hi, h]
    have hjk : j ≠ k := by
      intro h; apply hjc; rw [hk, h]
    rw [hbuf, modAt_getElem?, if_neg hji, modAt_getElem?, if_neg hjk,
      List.getElem?_append_left hjlt, hj]

theorem attrLoop_single {P : Type} (body : P → String → String → Step P) (p : P)
    (n v : String) :
    attrLoop body p [(n, v)] = (match body p n v with
      | Step.cont q => Step.cont q
      | Step.abort q => Step.abort q
      | Step.fault => Step.fault) := by
  cases h : body p n v <;> simp only [attrLoop, h]

/-- The handler `parseDataRawAttrs` on one `data` attribute in the context of an
SDO configuration whose back-references are set. -/
theorem parseDataRawAttrs_data (env : Env) (st : State) (v : String)
    (hr : DataRawReady st) :
    parseDataRawAttrs env st [("data", v)] =
      (if (parseHex v).1 < 0 then some st.stop
       else if (parseHex v).1 > 0 then
         if (parseHex v).2.length ≤ st.freeMem then some (dataBlock env st (parseHex v).2)
         else some st
       else some st) := by
  unfold parseDataRawAttrs
  rw [attrLoop_single, dataRawBody_ready env st "data" v hr, if_pos rfl]
  split_ifs <;> rfl
theorem sdoConfig_then_slave (env : Env) (st0 st1 : State) (attr0 : Attrs)
    (sl0 : LCEC_CONF_SLAVE_T) (hs0 : st0.slave = some sl0)
    (h : parseSdoConfigAttrs env st0 attr0 = some st1) (hs1 : st1.stopped = false) :
    ∃ p, st1.sdoConf = some p ∧
      st1.slave = some (addSdoConfigLength env (env.sizeof lcecConfTypeSdoConfig) sl0) ∧
      st1.freeMem = st0.freeMem - env.sizeof lcecConfTypeSdoConfig := by
  obtain ⟨p, _, rfl⟩ := parseSdoConfigAttrs_effect env st0 st1 attr0 h hs1
  obtain ⟨i, hi, hgi⟩ := slave_some hs0
  have hilt : i < st0.outputBuf.length := (List.getElem?_eq_some.mp hgi).1
  refine ⟨p, ?_, ?_, rfl⟩
  · apply sdoConf_of_getElem (i := st0.outputBuf.length) rfl
    show (modAt st0.currSlave _ _)[st0.outputBuf.length]? = _
    rw [hi, modAt_getElem?, if_neg (Nat.ne_of_gt hilt),
      List.getElem?_append_right (Nat.le_refl _)]
    simp
  · apply slave_of_getElem (i := i) (by exact hi)
    show (modAt st0.currSlave _ _)[i]? = _
    rw [hi, modAt_getElem?, if_pos rfl, List.getElem?_append_left hilt, hgi]
    rfl

/-- C17: in the context of an SDO configuration whose record `c` and slave
record `sl` the back-references point to, `parseDataRawAttrs` on a `data`
attribute that decodes to `n > 0` bytes, the reservation succeeding, reserves
`n` bytes for the data block (the new last item), adds `n` to the length of `c`
and to the `sdoConfigLength` of `sl` (in `size_t` arithmetic), and leaves every
other field of the two records (`idnConfigLength` and the counters among them),
every other item of the buffer, the two HAL counters and the parser running.
When the decoded length is negative the handler stops the parser and changes
nothing else.  Hence an accepted `sdoConfig` followed by such a data block
leaves the slave's `sdoConfigLength` grown by the size of the record and by
`n`. -/
theorem sdoDataRaw_lengths (env : Env) (st : State) (v : String)
    (c : LCEC_CONF_SDOCONF_T) (sl : LCEC_CONF_SLAVE_T)
    (hx : st.xmlState = lcecConfTypeSdoConfig.toInt)
    (hc : st.sdoConf = some c) (hs : st.slave = some sl) :
    (0 < (parseHex v).1 → (parseHex v).1.toNat ≤ st.freeMem →
      ∃ st', parseDataRawAttrs env st [("data", v)] = some st' ∧
        st'.stopped = st.stopped ∧
        st'.outputLen = st.outputLen + (parseHex v).1.toNat ∧
        st'.freeMem = st.freeMem - (parseHex v).1.toNat ∧
        st'.outputBuf.length = st.outputBuf.length + 1 ∧
        st'.outputBuf[st.outputBuf.length]? = some (ConfRec.dataRaw (parseHex v).2) ∧
        (parseHex v).2.length = (parseHex v).1.toNat ∧
        st'.sdoConf =
          some { c with length := (c.length + (parseHex v).1.toNat) % 2 ^ env.longBits } ∧
        st'.slave =
          some { sl with
            sdoConfigLength := (sl.sdoConfigLength + (parseHex v).1.toNat) % 2 ^ env.longBits } ∧
        (∀ j r, st.outputBuf[j]? = some r → some j ≠ st.currSlave →
          some j ≠ st.currSdoConf → st'.outputBuf[j]? = some r) ∧
        st'.master_count = st.master_count ∧ st'.slave_count = st.slave_count) ∧
    ((parseHex v).1 < 0 → parseDataRawAttrs env st [("data", v)] = some st.stop) ∧
    (∀ (st0 st1 : State) (attr0 : Attrs),
      parseSdoConfigAttrs env st0 attr0 = some st1 → st0.slave.isSome = true →
      st1.stopped = false → 0 < (parseHex v).1 → (parseHex v).1.toNat ≤ st1.freeMem →
      ∃ st' sl0, st0.slave = some sl0 ∧
        parseDataRawAttrs env { st1 with xmlState := lcecConfTypeSdoConfig.toInt } [("data", v)]
          = some st' ∧
        st'.slave =
          some { sl0 with
            sdoConfigLength :=
              ((sl0.sdoConfigLength + env.sizeof lcecConfTypeSdoConfig) % 2 ^ env.longBits
                + (parseHex v).1.toNat) % 2 ^ env.longBits }) := by
  have hr : DataRawReady st :=
    ⟨fun _ => ⟨by rw [hc]; rfl, by rw [hs]; rfl⟩,
     fun hy => by rw [hx] at hy; exact absurd hy (by decide)⟩
  have hd := parseDataRawAttrs_data env st v hr
  refine ⟨?_, ?_, ?_⟩
  · intro hpos hmem
    have hlen : (parseHex v).2.length = (parseHex v).1.toNat := by
      have := parseHex_length v (by omega)
      omega
    rw [if_neg (by omega), if_pos hpos, if_pos (by rw [hlen]; exact hmem)] at hd
    obtain ⟨e1, e2, _, e4, _, _, _, _, _, _, _, _, e13, e14⟩ :=
      dataBlock_frame env st (parseHex v).2
    obtain ⟨b1, b2, b3, b4, b5⟩ := dataBlock_sdo env st (parseHex v).2 c sl hx hc hs
    rw [hlen] at e13 e14 b1 b2
    exact ⟨_, hd, e4, e13, e14, b3, b4, hlen, b1, b2, b5, e1, e2⟩
  · intro hneg
    rw [if_pos hneg] at hd
    exact hd
  · intro st0 st1 attr0 h0 hsl0 hst hpos hmem
    obtain ⟨sl0, hs0⟩ := Option.isSome_iff_exists.mp hsl0
    obtain ⟨p, hp, hsl1, _⟩ := sdoConfig_then_slave env st0 st1 attr0 sl0 hs0 h0 hst
    have hlen : (parseHex v).2.length = (parseHex v).1.toNat := by
      have := parseHex_length v (by omega)
      omega
    have hr1 : DataRawReady { st1 with xmlState := lcecConfTypeSdoConfig.toInt } :=
      ⟨fun _ => ⟨by show st1.sdoConf.isSome = true; rw [hp]; rfl,
                 by show st1.slave.isSome = true; rw [hsl1]; rfl⟩,
       fun hy => by
         change lcecConfTypeSdoConfig.toInt = lcecConfTypeIdnConfig.toInt at hy
         exact absurd hy (by decide)⟩
    have hd1 := parseDataRawAttrs_data env { st1 with xmlState := lcecConfTypeSdoConfig.toInt }
      v hr1
    rw [if_neg (by omega), if_pos hpos, if_pos (by rw [hlen]; exact hmem)] at hd1
    obtain ⟨_, b2, _⟩ := dataBlock_sdo env { st1 with xmlState := lcecConfTypeSdoConfig.toInt }
      (parseHex v).2 p _ rfl hp hsl1
    rw [hlen] at b2
    exact ⟨_, sl0, hs0, hd1, b2⟩

theorem sdoDataRaw_lengths_witness :
    (parseHex "0a0B").1 = 2 ∧
    ∃ st', parseDataRawAttrs sampleEnv sampleStateSdo [("data", "0a0B")] = some st' ∧
      st'.stopped = sampleStateSdo.stopped ∧
      st'.outputLen = sampleStateSdo.outputLen + (parseHex "0a0B").1.toNat ∧
      st'.sdoConf = some { index := 0x8000, subindex := 1, length := 2 } ∧
      st'.slave.map (fun s => (s.sdoConfigLength, s.idnConfigLength)) = some (18, 0) :=
  ⟨by rfl,
    Exists.imp (fun _ h => ⟨h.1, h.2.1, h.2.2.1, h.2.2.2.2.2.2.2.1,
        by rw [h.2.2.2.2.2.2.2.2.1]; rfl⟩)
      ((sdoDataRaw_lengths sampleEnv sampleStateSdo "0a0B"
        { index := 0x8000, subindex := 1 }
        { typename := "generic", name := "0", sdoConfigLength := 16 }
        (by rfl) (by rfl) (by rfl)).1 (by decide) (by decide))⟩
theorem addOutputBuffer_of_lt {st : State} {len : Nat} (r : ConfRec) (h : st.freeMem < len) :
    addOutputBuffer st len r = none := by
  unfold addOutputBuffer
  rw [if_neg (by omega)]

/-- C18: when the reservation of its record fails, each of the handlers of
`master`, `slave`, `dcConf`, `watchdog`, `sdoConfig`, `idnConfig`, `syncManager`
(on a generic slave), `pdo`, `pdoEntry`, `complexEntry` and `modParam` (on a
slave type with a parameter table) stops the parser and changes nothing else.
`parseDataRawAttrs` does not: when the reservation of the data block fails it
goes on, and an element with the one attribute `data` is accepted with the state
unchanged (no data block, no length added, parser not stopped). -/
theorem allocation_failure_aborts_except_dataRaw (env : Env) (st : State) (attr : Attrs) :
    (st.freeMem < env.sizeof lcecConfTypeMaster → parseMasterAttrs env st attr = some st.stop) ∧
    (st.freeMem < env.sizeof lcecConfTypeSlave → parseSlaveAttrs env st attr = some st.stop) ∧
    (st.freeMem < env.sizeof lcecConfTypeDcConf → parseDcConfAttrs env st attr = some st.stop) ∧
    (st.freeMem < env.sizeof lcecConfTypeWatchdog →
      parseWatchdogAttrs env st attr = some st.stop) ∧
    (st.freeMem < env.sizeof lcecConfTypeSdoConfig →
      parseSdoConfigAttrs env st attr = some st.stop) ∧
    (st.freeMem < env.sizeof lcecConfTypeIdnConfig →
      parseIdnConfigAttrs env st attr = some st.stop) ∧
    (st.slave.isSome = true → st.freeMem < env.sizeof lcecConfTypeSyncManager →
      parseSyncManagerAttrs env st attr = some st.stop) ∧
    (st.freeMem < env.sizeof lcecConfTypePdo → parsePdoAttrs env st attr = some st.stop) ∧
    (st.freeMem < env.sizeof lcecConfTypePdoEntry →
      parsePdoEntryAttrs env st attr = some st.stop) ∧
    (st.freeMem < env.sizeof lcecConfTypeComplexEntry →
      parseComplexEntryAttrs env st attr = some st.stop) ∧
    (st.currSlaveType.isSome = true → st.freeMem < env.sizeof lcecConfTypeModParam →
      parseModParamAttrs env st attr = some st.stop) ∧
    (∀ v : String, DataRawReady st → 0 < (parseHex v).1 →
      st.freeMem < (parseHex v).1.toNat →
      parseDataRawAttrs env st [("data", v)] = some st) ∧
    (sampleStateSdo.stopped = false ∧ (parseHex "0a0B").1 = 2 ∧
      parseDataRawAttrs sampleEnv { sampleStateSdo with freeMem := 1 } [("data", "0a0B")]
        = some { sampleStateSdo with freeMem := 1 }) := by
  refine ⟨?_, ?_, ?_, ?_, ?_, ?_, ?_, ?_, ?_, ?_, ?_, ?_, by rfl, by rfl, by rfl⟩
  · intro h
    unfold parseMasterAttrs
    rw [addOutputBuffer_of_lt _ h]
  · intro h
    unfold parseSlaveAttrs
    rw [addOutputBuffer_of_lt _ h]
  · intro h
    unfold parseDcConfAttrs
    rw [addOutputBuffer_of_lt _ h]
  · intro h
    unfold parseWatchdogAttrs
    rw [addOutputBuffer_of_lt _ h]
  · intro h
    unfold parseSdoConfigAttrs
    rw [addOutputBuffer_of_lt _ h]
  · intro h
    unfold parseIdnConfigAttrs
    rw [addOutputBuffer_of_lt _ h]
  · intro hsl h
    unfold parseSyncManagerAttrs
    cases hs : st.slave with
    | none => rw [hs] at hsl; cases hsl
    | some sl =>
      dsimp only
      split_ifs
      · rfl
      · rw [addOutputBuffer_of_lt _ h]
  · intro h
    unfold parsePdoAttrs
    rw [addOutputBuffer_of_lt _ h]
  · intro h
    unfold parsePdoEntryAttrs
    rw [addOutputBuffer_of_lt _ h]
  · intro h
    unfold parseComplexEntryAttrs
    rw [addOutputBuffer_of_lt _ h]
  · intro hty h
    unfold parseModParamAttrs
    cases hs : st.currSlaveType with
    | none => rw [hs] at hty; cases hty
    | some ty =>
      dsimp only
      cases ty.modparams with
      | none => rfl
      | some table =>
        dsimp only
        rw [addOutputBuffer_of_lt _ h]
  · intro v hr hpos hmem
    rw [parseDataRawAttrs_data env st v hr, if_neg (by omega), if_pos hpos]
    have hlen : (parseHex v).2.length = (parseHex v).1.toNat := by
      have := parseHex_length v (by omega)
      omega
    rw [if_neg (by omega)]
/-- C19: in `parseIdnConfigAttrs` the attribute `state` cannot be given.  A pass
of the loop at the name `state` stops the parser (invalid attribute), so every
attribute list with a `state` attribute is rejected; a pass at the name `drive`
always takes the first branch (the second test of `drive` is never reached);
no pass writes the `state` field, which is therefore still 0 when the loop
ends. -/
theorem idnConfig_state_unreachable (env : Env) (st : State) (attr : Attrs) :
    (∀ (p : LCEC_CONF_IDNCONF_T) (v : String), idnConfigBody env p "state" v = Step.abort p) ∧
    (∀ v : String, ("state", v) ∈ attr →
      ∃ st', parseIdnConfigAttrs env st attr = some st' ∧ st'.stopped = true) ∧
    (∀ (p : LCEC_CONF_IDNCONF_T) (v : String), idnConfigBody env p "drive" v =
      if atoi env.longBits v < 0 ∨ atoi env.longBits v > 7 then Step.abort p
      else Step.cont { p with drive := (atoi env.longBits v).toNat }) ∧
    (∀ (p q : LCEC_CONF_IDNCONF_T) (n v : String),
      idnConfigBody env p n v = Step.cont q ∨ idnConfigBody env p n v = Step.abort q →
      q.state = p.state) ∧
    (∀ q : LCEC_CONF_IDNCONF_T,
      attrLoop (idnConfigBody env) { drive := 0, idn := 0xffff, state := 0 } attr = Step.cont q
        ∨ attrLoop (idnConfigBody env) { drive := 0, idn := 0xffff, state := 0 } attr
          = Step.abort q →
      q.state = 0) := by
  have hstate : ∀ (p : LCEC_CONF_IDNCONF_T) (v : String),
      idnConfigBody env p "state" v = Step.abort p := by
    intro p v
    simp only [idnConfigBody, if_neg (by decide : ¬ ("state" = "drive")),
      if_neg (by decide : ¬ ("state" = "idn"))]
  refine ⟨hstate, ?_, ?_, ?_, ?_⟩
  · intro v hv
    exact parseIdnConfigAttrs_unknown env st attr
      ⟨("state", v), hv, (by decide : "state" ∉ ["drive", "idn"])⟩
  · intro p v
    simp only [idnConfigBody, if_true]
  · intro p q n v h
    exact idnConfigBody_state env p q n v h
  · intro q h
    rcases h with h | h
    · exact attrLoop_cont_inv (idnConfigBody env) (fun q => q.state = 0)
        (fun p n v q hp hb => (idnConfigBody_state env p q n v (Or.inl hb)).trans hp)
        attr _ q rfl h
    · exact attrLoop_abort_inv (idnConfigBody env) (fun q => q.state = 0)
        (fun p n v q hp hb => (idnConfigBody_state env p q n v (Or.inl hb)).trans hp)
        (fun p n v q hp hb => (idnConfigBody_state env p q n v (Or.inr hb)).trans hp)
        attr _ q rfl h

theorem idnConfig_state_unreachable_witness :
    ∃ st', parseIdnConfigAttrs sampleEnv sampleStateSlave
        [("drive", "1"), ("idn", "S-0-1"), ("state", "PREOP")] = some st' ∧
      st'.stopped = true :=
  (idnConfig_state_unreachable sampleEnv sampleStateSlave
    [("drive", "1"), ("idn", "S-0-1"), ("state", "PREOP")]).2.1 "PREOP" (by simp)
theorem modAt_map {α : Type} (φ : ConfRec → α) (i : Option Nat) (g : ConfRec → ConfRec)
    (hφ : ∀ r, φ (g r) = φ r) (buf : List ConfRec) :
    (modAt i g buf).map φ = buf.map φ := by
  cases i with
  | none => rfl
  | some i =>
    simp only [modAt]
    cases hg : buf[i]? with
    | none => rfl
    | some r =>
      dsimp only
      apply List.ext_getElem?
      intro j
      simp only [List.getElem?_map]
      by_cases hij : i = j
      · subst hij
        have hlt : i < buf.length := (List.getElem?_eq_some.mp hg).1
        rw [List.getElem?_set_self hlt, hg]
        simp only [Option.map_some', hφ]
      · rw [List.getElem?_set_ne hij]

theorem recShape_mapSlave (env : Env) (f : LCEC_CONF_SLAVE_T → LCEC_CONF_SLAVE_T)
    (r : ConfRec) : recShape env (ConfRec.mapSlave f r) = recShape env r := by
  cases r <;> rfl

theorem recShape_mapSyncManager (env : Env)
    (f : LCEC_CONF_SYNCMANAGER_T → LCEC_CONF_SYNCMANAGER_T)
    (r : ConfRec) : recShape env (ConfRec.mapSyncManager f r) = recShape env r := by
  cases r <;> rfl

theorem recShape_mapPdo (env : Env) (f : LCEC_CONF_PDO_T → LCEC_CONF_PDO_T)
    (r : ConfRec) : recShape env (ConfRec.mapPdo f r) = recShape env r := by
  cases r <;> rfl

theorem recShape_mapSdoConf (env : Env) (f : LCEC_CONF_SDOCONF_T → LCEC_CONF_SDOCONF_T)
    (r : ConfRec) : recShape env (ConfRec.mapSdoConf f r) = recShape env r := by
  cases r <;> rfl

theorem recShape_mapIdnConf (env : Env) (f : LCEC_CONF_IDNCONF_T → LCEC_CONF_IDNCONF_T)
    (r : ConfRec) : recShape env (ConfRec.mapIdnConf f r) = recShape env r := by
  cases r <;> rfl

theorem shape_modSlave (env : Env) (i : Option Nat) (f : LCEC_CONF_SLAVE_T → LCEC_CONF_SLAVE_T)
    (buf : List ConfRec) :
    (modAt i (ConfRec.mapSlave f) buf).map (recShape env) = buf.map (recShape env) :=
  modAt_map _ i _ (recShape_mapSlave env f) buf

theorem shape_modSyncManager (env : Env) (i : Option Nat)
    (f : LCEC_CONF_SYNCMANAGER_T → LCEC_CONF_SYNCMANAGER_T) (buf : List ConfRec) :
    (modAt i (ConfRec.mapSyncManager f) buf).map (recShape env) = buf.map (recShape env) :=
  modAt_map _ i _ (recShape_mapSyncManager env f) buf

theorem shape_modPdo (env : Env) (i : Option Nat) (f : LCEC_CONF_PDO_T → LCEC_CONF_PDO_T)
    (buf : List ConfRec) :
    (modAt i (ConfRec.mapPdo f) buf).map (recShape env) = buf.map (recShape env) :=
  modAt_map _ i _ (recShape_mapPdo env f) buf

theorem shape_modSdoConf (env : Env) (i : Option Nat)
    (f : LCEC_CONF_SDOCONF_T → LCEC_CONF_SDOCONF_T) (buf : List ConfRec) :
    (modAt i (ConfRec.mapSdoConf f) buf).map (recShape env) = buf.map (recShape env) :=
  modAt_map _ i _ (recShape_mapSdoConf env f) buf

theorem shape_modIdnConf (env : Env) (i : Option Nat)
    (f : LCEC_CONF_IDNCONF_T → LCEC_CONF_IDNCONF_T) (buf : List ConfRec) :
    (modAt i (ConfRec.mapIdnConf f) buf).map (recShape env) = buf.map (recShape env) :=
  modAt_map _ i _ (recShape_mapIdnConf env f) buf

theorem bufSize_of_shape (env : Env) (a b : List ConfRec)
    (h : a.map (recShape env) = b.map (recShape env)) : bufSize env a = bufSize env b := by
  have := congrArg (List.map Prod.fst) h
  simp only [List.map_map] at this
  unfold bufSize
  exact congrArg List.sum this

theorem null_of_shape (env : Env) (a b : List ConfRec)
    (h : a.map (recShape env) = b.map (recShape env)) (hb : ConfRec.null ∉ b) :
    ConfRec.null ∉ a := by
  intro ha
  have h1 : recShape env ConfRec.null ∈ a.map (recShape env) := List.mem_map_of_mem _ ha
  rw [h] at h1
  obtain ⟨r, hr, hs⟩ := List.mem_map.mp h1
  have h2 := congrArg Prod.snd hs
  simp only [recShape, decide_eq_decide] at h2
  have : r = ConfRec.null := by simpa using h2
  exact hb (this ▸ hr)

/-- The buffer of the state `st1` has the items of the buffer of `st`, changed
through back-references at most, followed by the items `new`, none of them a
terminator, whose sizes the length has grown by. -/
theorem sized_step (env : Env) (st st1 : State) (new : List ConfRec)
    (hbuf : st1.outputBuf.map (recShape env) = (st.outputBuf ++ new).map (recShape env))
    (hlen : st1.outputLen = st.outputLen + bufSize env new)
    (hnew : ConfRec.null ∉ new)
    (h : ConfRec.null ∉ st.outputBuf ∧ st.outputLen = bufSize env st.outputBuf) :
    ConfRec.null ∉ st1.outputBuf ∧ st1.outputLen = bufSize env st1.outputBuf := by
  constructor
  · apply null_of_shape env _ _ hbuf
    intro hm
    rcases List.mem_append.mp hm with hm | hm
    · exact h.1 hm
    · exact hnew hm
  · rw [bufSize_of_shape env _ _ hbuf, hlen, h.2]
    simp only [bufSize, List.map_append, List.sum_append]
theorem dataBlock_grow (env : Env) (s : State) (bytes : List Nat) :
    (dataBlock env s bytes).outputBuf.map (recShape env)
      = (s.outputBuf ++ [ConfRec.dataRaw bytes]).map (recShape env) ∧
    (dataBlock env s bytes).outputLen = s.outputLen + bytes.length := by
  unfold dataBlock
  dsimp only
  split_ifs
  · exact ⟨by simp only [shape_modSlave, shape_modSdoConf, State.alloc], rfl⟩
  · exact ⟨by simp only [shape_modSlave, shape_modIdnConf, State.alloc], rfl⟩
  · exact ⟨rfl, rfl⟩

/-- What an open-element event that does not stop the parser does to the
buffer: items are changed through back-references at most, and items that are
no terminator are appended, whose sizes are added to the length. -/
theorem xml_start_handler_grow (env : Env) (st st' : State) (el : String) (attr : Attrs)
    (h : xml_start_handler env st el attr = some st') (hs : st'.stopped = false) :
    ∃ new : List ConfRec,
      st'.outputBuf.map (recShape env) = (st.outputBuf ++ new).map (recShape env) ∧
      ConfRec.null ∉ new ∧
      (env.IcmdsSized → st'.outputLen = st.outputLen + bufSize env new) := by
  rcases xml_start_handler_cases env st st' el attr h hs with
    ⟨rfl, _, rfl⟩ | ⟨rfl, _, st0, h0, hs0, rfl⟩ | ⟨rfl, _, st0, h0, hs0, rfl⟩ |
    ⟨rfl, _, st0, h0, hs0, rfl⟩ | ⟨rfl, _, st0, h0, hs0, rfl⟩ | ⟨rfl, _, st0, h0, hs0, rfl⟩ |
    ⟨rfl, _, st0, h0, hs0, rfl⟩ | ⟨rfl, _, st0, h0, hs0, rfl⟩ | ⟨rfl, _, st0, h0, hs0, rfl⟩ |
    ⟨rfl, _, st0, h0, hs0, rfl⟩ | ⟨rfl, _, st0, h0, hs0, rfl⟩ | ⟨rfl, _, st0, h0, hs0, rfl⟩ |
    ⟨rfl, _, st0, h0, hs0, rfl⟩ | ⟨rfl, _, st0, h0, hs0, rfl⟩ | ⟨rfl, _, st0, h0, hs0, rfl⟩ |
    ⟨rfl, _, rfl⟩
  · exact ⟨[], by simp, by simp, fun _ => by simp [bufSize]⟩
  · obtain ⟨p, _, rfl⟩ := parseMasterAttrs_effect env st st0 attr h0 hs0
    exact ⟨[_], rfl, by simp, fun _ => by simp [bufSize, recSize, State.alloc]⟩
  · obtain ⟨p, ty, _, _, rfl⟩ := parseSlaveAttrs_effect env st st0 attr h0 hs0
    exact ⟨[_], rfl, by simp, fun _ => by simp [bufSize, recSize, State.alloc]⟩
  · obtain ⟨p, _, rfl⟩ := parseDcConfAttrs_effect env st st0 attr h0 hs0
    exact ⟨[_], rfl, by simp, fun _ => by simp [bufSize, recSize, State.alloc]⟩
  · obtain ⟨p, _, rfl⟩ := parseWatchdogAttrs_effect env st st0 attr h0 hs0
    exact ⟨[_], rfl, by simp, fun _ => by simp [bufSize, recSize, State.alloc]⟩
  · obtain ⟨p, _, rfl⟩ := parseSdoConfigAttrs_effect env st st0 attr h0 hs0
    exact ⟨[ConfRec.sdoConf p], by simp only [shape_modSlave], by simp,
      fun _ => by simp [bufSize, recSize, State.alloc]⟩
  · exact parseDataRawAttrs_inv env
      (fun s => ∃ new : List ConfRec,
        s.outputBuf.map (recShape env) = (st.outputBuf ++ new).map (recShape env) ∧
        ConfRec.null ∉ new ∧
        (env.IcmdsSized → s.outputLen = st.outputLen + bufSize env new))
      (fun s bytes ⟨new, e1, e2, e3⟩ => by
        obtain ⟨g1, g2⟩ := dataBlock_grow env s bytes
        refine ⟨new ++ [ConfRec.dataRaw bytes], ?_, ?_, ?_⟩
        · rw [g1, List.map_append, e1, ← List.map_append, List.append_assoc]
        · simp [e2]
        · intro hic
          rw [g2, e3 hic]
          simp [bufSize, recSize, Nat.add_assoc])
      st st0 attr h0 hs0 ⟨[], by simp, by simp, fun _ => by simp [bufSize]⟩
  · have := parseIdnConfigAttrs_stops env st st0 attr h0
    rw [hs0] at this
    cases this
  · exact parseDataRawAttrs_inv env
      (fun s => ∃ new : List ConfRec,
        s.outputBuf.map (recShape env) = (st.outputBuf ++ new).map (recShape env) ∧
        ConfRec.null ∉ new ∧
        (env.IcmdsSized → s.outputLen = st.outputLen + bufSize env new))
      (fun s bytes ⟨new, e1, e2, e3⟩ => by
        obtain ⟨g1, g2⟩ := dataBlock_grow env s bytes
        refine ⟨new ++ [ConfRec.dataRaw bytes], ?_, ?_, ?_⟩
        · rw [g1, List.map_append, e1, ← List.map_append, List.append_assoc]
        · simp [e2]
        · intro hic
          rw [g2, e3 hic]
          simp [bufSize, recSize, Nat.add_assoc])
      st st0 attr h0 hs0 ⟨[], by simp, by simp, fun _ => by simp [bufSize]⟩
  · obtain ⟨f, _, _, _, rfl⟩ := parseInitCmdsAttrs_effect env st st0 attr h0 hs0
    refine ⟨(env.parseIcmds f).recs.flatMap IcmdRec.toRecs, by simp only [shape_modSlave],
      ?_, fun hic => by simp only [hic f]⟩
    intro hm
    obtain ⟨r, _, hr⟩ := List.mem_flatMap.mp hm
    cases r <;> simp [IcmdRec.toRecs] at hr
  · obtain ⟨p, sl, _, _, _, rfl⟩ := parseSyncManagerAttrs_effect env st st0 attr h0 hs0
    exact ⟨[ConfRec.syncManager p], by simp only [shape_modSlave], by simp,
      fun _ => by simp [bufSize, recSize, State.alloc]⟩
  · obtain ⟨p, _, rfl⟩ := parsePdoAttrs_effect env st st0 attr h0 hs0
    exact ⟨[ConfRec.pdo p], by simp only [shape_modSlave, shape_modSyncManager], by simp,
      fun _ => by simp [bufSize, recSize, State.alloc]⟩
  · obtain ⟨p, fr, _, rfl⟩ := parsePdoEntryAttrs_effect env st st0 attr h0 hs0
    exact ⟨[ConfRec.pdoEntry p], by simp only [shape_modSlave, shape_modPdo], by simp,
      fun _ => by simp [bufSize, recSize, State.alloc]⟩
  · obtain ⟨p, fr, _, rfl⟩ := parseComplexEntryAttrs_effect env st st0 attr h0 hs0
    exact ⟨[ConfRec.complexEntry p], by simp only [shape_modSlave], by simp,
      fun _ => by simp [bufSize, recSize, State.alloc]⟩
  · obtain ⟨m, rfl⟩ := parseModParamAttrs_effect env st st0 attr h0 hs0
    exact ⟨[ConfRec.modParam m], by simp only [shape_modSlave], by simp,
      fun _ => by simp [bufSize, recSize, State.alloc]⟩
  · exact ⟨[], by simp, by simp, fun _ => by simp [bufSize]⟩

/-- After a parse that was not stopped the buffer holds no terminator, and its
length is the sum of the sizes of its items. -/
theorem XML_Parse_sized (env : Env) (evs : List XmlEvent) (st st' : State)
    (h : XML_Parse env st evs = some st') (hs : st'.stopped = false)
    (h0 : ConfRec.null ∉ st.outputBuf)
    (h1 : env.IcmdsSized → st.outputLen = bufSize env st.outputBuf) :
    ConfRec.null ∉ st'.outputBuf ∧
    (env.IcmdsSized → st'.outputLen = bufSize env st'.outputBuf) := by
  have key := XML_Parse_fold env
    (fun st (_ : Unit) => ConfRec.null ∉ st.outputBuf ∧
      (env.IcmdsSized → st.outputLen = bufSize env st.outputBuf))
    (fun a _ => a) ?_ evs st () st' ⟨h0, h1⟩ h hs
  · exact key
  · intro st a ev st1 hj _ hd hs1
    cases ev with
    | startElement el attr =>
      simp only [dispatch] at hd
      obtain ⟨new, g1, g2, g3⟩ := xml_start_handler_grow env st st1 el attr hd hs1
      constructor
      · apply null_of_shape env _ _ g1
        intro hm
        rcases List.mem_append.mp hm with hm | hm
        · exact hj.1 hm
        · exact g2 hm
      · intro hic
        exact (sized_step env st st1 new g1 (g3 hic) g2 ⟨hj.1, hj.2 hic⟩).2
    | endElement el =>
      simp only [dispatch, Option.some.injEq] at hd
      subst hd
      obtain ⟨_, _, c3, c4⟩ := xml_end_handler_frame st el
      rw [c3, c4]
      exact hj
/-- C20: a compilation that reaches finalization appends one terminator behind
the items the parse has written; the buffer the parse has written holds no
terminator, so the terminator is the last item of the stream and the only one.
The header holds the magic `LCEC_CONF_SHMEM_MAGIC` and as length the length of
the buffer after the terminator was reserved, which is the sum of the sizes of
all items, the terminator included (the bytes the init command reader reports
being those of its records). -/
theorem terminator_and_header (env : Env) (mem : Nat) (doc : XmlElem)
    (hdr : LCEC_CONF_HEADER_T) (recs : List ConfRec)
    (h : compile env mem doc = some (some (hdr, recs))) :
    ∃ st, XML_Parse env (initState mem) doc.events = some st ∧ st.stopped = false ∧
      recs = st.outputBuf ++ [ConfRec.null] ∧
      ConfRec.null ∉ st.outputBuf ∧
      recs.getLast? = some ConfRec.null ∧
      recs.count ConfRec.null = 1 ∧
      hdr.magic = env.LCEC_CONF_SHMEM_MAGIC ∧
      hdr.length = st.outputLen + env.sizeof lcecConfTypeNone ∧
      (env.IcmdsSized → hdr.length = bufSize env recs) := by
  obtain ⟨st, hp, hs, _, rfl, rfl⟩ := compile_some env mem doc hdr recs h
  obtain ⟨hnull, hsize⟩ := XML_Parse_sized env doc.events (initState mem) st hp hs
    (by simp [initState]) (fun _ => by simp [initState, bufSize])
  refine ⟨st, hp, hs, rfl, hnull, by simp, ?_, rfl, rfl, ?_⟩
  · rw [List.count_append, List.count_eq_zero_of_not_mem hnull]
    simp
  · intro hic
    show st.outputLen + env.sizeof lcecConfTypeNone = _
    rw [hsize hic]
    simp [bufSize, recSize]

theorem terminator_and_header_witness :
    sampleEnv.IcmdsSized ∧
    ∃ hdr recs, compile sampleEnv 100000 sampleDoc = some (some (hdr, recs)) ∧
      hdr = { magic := 0xACDCACDC, length := 718 } ∧
      ∃ st, XML_Parse sampleEnv (initState 100000) sampleDoc.events = some st ∧
        recs = st.outputBuf ++ [ConfRec.null] ∧ ConfRec.null ∉ st.outputBuf ∧
        hdr.length = bufSize sampleEnv recs :=
  ⟨fun _ => rfl, _, _, by rfl, by rfl,
    Exists.imp (fun _ h => ⟨h.1, h.2.2.1, h.2.2.2.1, h.2.2.2.2.2.2.2.2 (fun _ => rfl)⟩)
      (terminator_and_header sampleEnv 100000 sampleDoc _ _ (by rfl))⟩

theorem modLast_snoc {α : Type} (f : α → α) : ∀ (l : List α) (a : α),
    modLast f (l ++ [a]) = l ++ [f a]
  | [], a => rfl
  | [b], a => rfl
  | b :: c :: t, a => by
    have ih := modLast_snoc f (c :: t) a
    simp only [List.cons_append] at ih ⊢
    simp only [modLast, ih]

theorem modLast_nil {α : Type} (f : α → α) : modLast f ([] : List α) = [] := rfl

theorem modLast_id {α : Type} (f : α → α) (hf : ∀ a, f a = a) : ∀ (l : List α),
    modLast f l = l
  | [] => rfl
  | [a] => by simp only [modLast, hf]
  | a :: b :: t => by
    have ih := modLast_id f hf (b :: t)
    simp only [modLast, ih]

theorem modLast_modLast {α : Type} (f g : α → α) : ∀ (l : List α),
    modLast g (modLast f l) = modLast (fun a => g (f a)) l
  | [] => rfl
  | [a] => rfl
  | a :: b :: t => by
    have ih := modLast_modLast f g (b :: t)
    cases t with
    | nil => rfl
    | cons c t =>
      simp only [modLast] at ih ⊢
      rw [ih]

theorem XML_Parse_append (env : Env) : ∀ (a b : List XmlEvent) (st : State),
    XML_Parse env st (a ++ b) = (XML_Parse env st a).bind (fun s => XML_Parse env s b) := by
  intro a
  induction a with
  | nil =>
    intro b st
    simp only [List.nil_append, XML_Parse, Option.some_bind]
  | cons ev rest ih =>
    intro b st
    simp only [List.cons_append, XML_Parse]
    by_cases hst : st.stopped = true
    · simp only [if_pos hst, Option.some_bind]
      exact (XML_Parse_stopped env st b hst).symm
    · simp only [if_neg hst]
      cases hd : dispatch env st ev with
      | none => rfl
      | some st1 => exact ih b st1

theorem table_from_of_el (r : LCEC_CONF_XML_HANLDER_T) (hr : r ∈ xml_states) :
    (xml_states.find? (fun x => decide (x.el = r.el))).map (fun x => x.state_from)
      = some r.state_from := by
  simp only [xml_states, List.mem_cons, List.mem_singleton, List.not_mem_nil, or_false] at hr
  rcases hr with h | h | h | h | h | h | h | h | h | h | h | h | h | h | h | h <;> subst h <;> rfl

theorem table_from_unique (r r' : LCEC_CONF_XML_HANLDER_T) (hr : r ∈ xml_states)
    (hr' : r' ∈ xml_states) (he : r.el = r'.el) : r.state_from = r'.state_from := by
  have h1 := table_from_of_el r hr
  have h2 := table_from_of_el r' hr'
  rw [he, h2] at h1
  exact (Option.some.inj h1).symm

theorem lookupEnd_some {s : Int} {el : String} {row : LCEC_CONF_XML_HANLDER_T}
    (h : lookupEnd xml_states s el = some row) :
    row ∈ xml_states ∧ row.el = el ∧ row.state_to = s := by
  unfold lookupEnd at h
  have h1 := List.mem_of_find?_eq_some h
  have h2 := List.find?_some h
  simp only [Bool.and_eq_true, decide_eq_true_eq] at h2
  exact ⟨h1, h2.2.symm, h2.1.symm⟩

mutual
/-- A parse of the events of an element that was not stopped: the element is
legally nested in the context the parse started in, and the parse ends in that
context. -/
theorem parse_legal (env : Env) : ∀ (e : XmlElem) (st st' : State),
    XML_Parse env st e.events = some st' → st'.stopped = false →
    Legal st.xmlState e = true ∧ st'.xmlState = st.xmlState
  | XmlElem.node name attr children, st, st', h, hs => by
    simp only [XmlElem.events, XML_Parse] at h
    by_cases hst : st.stopped = true
    · rw [if_pos hst] at h
      cases h
      rw [hst] at hs
      cases hs
    · rw [if_neg hst] at h
      cases hd : dispatch env st (XmlEvent.startElement name attr) with
      | none => rw [hd] at h; cases h
      | some st1 =>
        rw [hd] at h
        dsimp only at h
        rw [XML_Parse_append] at h
        cases h2 : XML_Parse env st1 (eventsOfList children) with
        | none => rw [h2] at h; cases h
        | some st2 =>
          rw [h2] at h
          simp only [Option.some_bind, XML_Parse] at h
          have hs2 : st2.stopped = false := by
            cases hb : st2.stopped with
            | false => rfl
            | true =>
              rw [if_pos hb] at h
              cases h
              rw [hb] at hs
              cases hs
          rw [if_neg (by rw [hs2]; decide)] at h
          simp only [dispatch, Option.some.injEq] at h
          have hs1 : st1.stopped = false := by
            cases hb : st1.stopped with
            | false => rfl
            | true =>
              rw [XML_Parse_stopped env st1 _ hb] at h2
              cases h2
              rw [hb] at hs2
              cases hs2
          simp only [dispatch] at hd
          obtain ⟨row, hrow, hmem, hel, hfrom, hrun⟩ :=
            xml_start_handler_row env st st1 name attr hd hs1
          have hx1 : st1.xmlState = row.state_to := by
            rcases hrun with ⟨_, rfl⟩ | ⟨f, st0, _, _, _, rfl⟩ <;> rfl
          obtain ⟨hleg, hx2⟩ := parse_legalList env children st1 st2 h2 hs2
          refine ⟨?_, ?_⟩
          · simp only [Legal, hrow]
            rw [← hx1]
            exact hleg
          · subst h
            unfold xml_end_handler at hs ⊢
            cases hle : lookupEnd xml_states st2.xmlState name with
            | none =>
              rw [hle] at hs
              cases hs
            | some row' =>
              obtain ⟨hmem', hel', _⟩ := lookupEnd_some hle
              show row'.state_from = st.xmlState
              rw [← hfrom]
              exact table_from_unique row' row hmem' hmem (hel'.trans hel.symm)
/-- A parse of the events of a list of siblings that was not stopped. -/
theorem parse_legalList (env : Env) : ∀ (cs : List XmlElem) (st st' : State),
    XML_Parse env st (eventsOfList cs) = some st' → st'.stopped = false →
    LegalList st.xmlState cs = true ∧ st'.xmlState = st.xmlState
  | [], st, st', h, _ => by
    simp only [eventsOfList, XML_Parse, Option.some.injEq] at h
    subst h
    exact ⟨rfl, rfl⟩
  | c :: cs, st, st', h, hs => by
    simp only [eventsOfList] at h
    rw [XML_Parse_append] at h
    cases h1 : XML_Parse env st c.events with
    | none => rw [h1] at h; cases h
    | some st1 =>
      rw [h1] at h
      simp only [Option.some_bind] at h
      have hs1 : st1.stopped = false := by
        cases hb : st1.stopped with
        | false => rfl
        | true =>
          rw [XML_Parse_stopped env st1 _ hb] at h
          cases h
          rw [hb] at hs
          cases hs
      obtain ⟨l1, x1⟩ := parse_legal env c st st1 h1 hs1
      obtain ⟨l2, x2⟩ := parse_legalList env cs st1 st' h hs
      rw [x1] at l2
      exact ⟨by simp only [LegalList, l1, l2, Bool.and_self], x2.trans x1⟩
end
theorem lookupStart_from {s : Int} {el : String} {row : LCEC_CONF_XML_HANLDER_T}
    (h : lookupStart xml_states s el = some row) : row.state_from = s := by
  unfold lookupStart at h
  have h2 := List.find?_some h
  simp only [Bool.and_eq_true, decide_eq_true_eq] at h2
  exact h2.1.symm

mutual
/-- One counter over the events of a legally nested element: inside an element
named `K` the weight of the element is added to the last entry, outside every
element named `K` starts an entry that ends with the weight below it. -/
theorem segFold_elem (K : String) (w : String → Attrs → Nat) (wnames : List String)
    (inside : Int → Bool)
    (hw : ∀ el attr, el ∉ wnames → w el attr = 0) (hK : K ∉ wnames)
    (R1 : ∀ row ∈ xml_states, inside row.state_from = true →
      row.el ≠ K ∧ inside row.state_to = true)
    (R2 : ∀ row ∈ xml_states, inside row.state_from = false →
      (row.el = K → inside row.state_to = true) ∧
      (row.el ≠ K → inside row.state_to = false ∧ row.el ∉ wnames)) :
    ∀ (e : XmlElem) (c : Int), Legal c e = true →
      (inside c = true → e.nodes K = [] ∧
        ∀ L, e.events.foldl (segStep K w) L = modLast (fun n => n + e.weight w) L) ∧
      (inside c = false →
        ∀ L, e.events.foldl (segStep K w) L = L ++ (e.nodes K).map (fun s => s.weight w))
  | XmlElem.node name attr children, c, hl => by
    simp only [Legal] at hl
    cases hrow : lookupStart xml_states c name with
    | none => rw [hrow] at hl; cases hl
    | some row =>
      rw [hrow] at hl
      dsimp only at hl
      obtain ⟨hmem, hel⟩ := lookupStart_some hrow
      have hfrom := lookupStart_from hrow
      have ih := segFold_list K w wnames inside hw hK R1 R2 children row.state_to hl
      refine ⟨?_, ?_⟩
      · intro hin
        obtain ⟨r1, r2⟩ := R1 row hmem (by rw [hfrom]; exact hin)
        rw [hel] at r1
        obtain ⟨n0, f0⟩ := ih.1 r2
        refine ⟨?_, ?_⟩
        · simp only [XmlElem.nodes, if_neg r1, n0]
        · intro L
          simp only [XmlElem.events, List.foldl_cons, List.foldl_append, List.foldl_nil, f0,
            segStep, if_neg r1, XmlElem.weight, modLast_modLast]
          congr 1
          funext n
          omega
      · intro hout
        obtain ⟨r1, r2⟩ := R2 row hmem (by rw [hfrom]; exact hout)
        rw [hel] at r1 r2
        intro L
        by_cases hk : name = K
        · obtain ⟨n0, f0⟩ := ih.1 (r1 hk)
          have hz : w name attr = 0 := hw name attr (by rw [hk]; exact hK)
          simp only [XmlElem.events, List.foldl_cons, List.foldl_append, List.foldl_nil, f0,
            segStep, if_pos hk, XmlElem.nodes, n0, List.map_cons, List.map_nil,
            XmlElem.weight, modLast_snoc, hz, Nat.zero_add]
        · obtain ⟨r3, r4⟩ := r2 hk
          have f0 := ih.2 r3
          have hz : w name attr = 0 := hw name attr r4
          simp only [XmlElem.events, List.foldl_cons, List.foldl_append, List.foldl_nil, f0,
            segStep, if_neg hk, XmlElem.nodes, hz, Nat.add_zero]
          rw [modLast_id (fun n => n) (fun _ => rfl)]
/-- One counter over the events of a list of legally nested siblings. -/
theorem segFold_list (K : String) (w : String → Attrs → Nat) (wnames : List String)
    (inside : Int → Bool)
    (hw : ∀ el attr, el ∉ wnames → w el attr = 0) (hK : K ∉ wnames)
    (R1 : ∀ row ∈ xml_states, inside row.state_from = true →
      row.el ≠ K ∧ inside row.state_to = true)
    (R2 : ∀ row ∈ xml_states, inside row.state_from = false →
      (row.el = K → inside row.state_to = true) ∧
      (row.el ≠ K → inside row.state_to = false ∧ row.el ∉ wnames)) :
    ∀ (cs : List XmlElem) (c : Int), LegalList c cs = true →
      (inside c = true → nodesOfList K cs = [] ∧
        ∀ L, (eventsOfList cs).foldl (segStep K w) L
          = modLast (fun n => n + weightOfList w cs) L) ∧
      (inside c = false →
        ∀ L, (eventsOfList cs).foldl (segStep K w) L
          = L ++ (nodesOfList K cs).map (fun s => s.weight w))
  | [], c, _ => by
    refine ⟨fun _ => ⟨rfl, fun L => ?_⟩, fun _ L => ?_⟩
    · simp only [eventsOfList, List.foldl_nil, weightOfList, Nat.add_zero]
      rw [modLast_id (fun n => n) (fun _ => rfl)]
    · simp only [eventsOfList, List.foldl_nil, nodesOfList, List.map_nil, List.append_nil]
  | e :: es, c, hl => by
    simp only [LegalList, Bool.and_eq_true] at hl
    have ih1 := segFold_elem K w wnames inside hw hK R1 R2 e c hl.1
    have ih2 := segFold_list K w wnames inside hw hK R1 R2 es c hl.2
    refine ⟨?_, ?_⟩
    · intro hin
      obtain ⟨n1, f1⟩ := ih1.1 hin
      obtain ⟨n2, f2⟩ := ih2.1 hin
      refine ⟨by simp only [nodesOfList, n1, n2, List.append_nil], fun L => ?_⟩
      simp only [eventsOfList, List.foldl_append, f1, f2, weightOfList, modLast_modLast]
      congr 1
      funext n
      omega
    · intro hout L
      simp only [eventsOfList, List.foldl_append, ih1.2 hout, ih2.2 hout, nodesOfList,
        List.map_append, List.append_assoc]
end

mutual
/-- A weight that is 0 on every element the table allows below the contexts
`inside` is 0 on the elements legally nested there. -/
theorem weight_zero (w : String → Attrs → Nat) (inside : Int → Bool)
    (R : ∀ row ∈ xml_states, inside row.state_from = true →
      inside row.state_to = true ∧ ∀ attr, w row.el attr = 0) :
    ∀ (e : XmlElem) (c : Int), Legal c e = true → inside c = true → e.weight w = 0
  | XmlElem.node name attr children, c, hl, hin => by
    simp only [Legal] at hl
    cases hrow : lookupStart xml_states c name with
    | none => rw [hrow] at hl; cases hl
    | some row =>
      rw [hrow] at hl
      dsimp only at hl
      obtain ⟨hmem, hel⟩ := lookupStart_some hrow
      have hfrom := lookupStart_from hrow
      obtain ⟨r1, r2⟩ := R row hmem (by rw [hfrom]; exact hin)
      have ih := weightList_zero w inside R children row.state_to hl r1
      have hz := r2 attr
      rw [hel] at hz
      simp only [XmlElem.weight, ih, hz]
/-- The list version of `weight_zero`. -/
theorem weightList_zero (w : String → Attrs → Nat) (inside : Int → Bool)
    (R : ∀ row ∈ xml_states, inside row.state_from = true →
      inside row.state_to = true ∧ ∀ attr, w row.el attr = 0) :
    ∀ (cs : List XmlElem) (c : Int), LegalList c cs = true → inside c = true →
      weightOfList w cs = 0
  | [], _, _, _ => rfl
  | e :: es, c, hl, hin => by
    simp only [LegalList, Bool.and_eq_true] at hl
    simp only [weightOfList, weight_zero w inside R e c hl.1 hin,
      weightList_zero w inside R es c hl.2 hin]
end

mutual
/-- Every element named `K` of a legally nested element is legally nested in
some context. -/
theorem nodes_legal (K : String) : ∀ (e : XmlElem) (c : Int), Legal c e = true →
    ∀ s ∈ e.nodes K, s.name = K ∧ ∃ c1, Legal c1 s = true
  | XmlElem.node name attr children, c, hl => by
    intro s hs
    have hl0 := hl
    simp only [Legal] at hl
    cases hrow : lookupStart xml_states c name with
    | none => rw [hrow] at hl; cases hl
    | some row =>
      rw [hrow] at hl
      dsimp only at hl
      have ih := nodesOfList_legal K children row.state_to hl
      simp only [XmlElem.nodes] at hs
      by_cases hk : name = K
      · rw [if_pos hk] at hs
        rcases List.mem_cons.mp hs with h | h
        · subst h
          exact ⟨hk, c, hl0⟩
        · exact ih s h
      · rw [if_neg hk] at hs
        exact ih s hs
/-- The list version of `nodes_legal`. -/
theorem nodesOfList_legal (K : String) : ∀ (cs : List XmlElem) (c : Int),
    LegalList c cs = true → ∀ s ∈ nodesOfList K cs, s.name = K ∧ ∃ c1, Legal c1 s = true
  | [], _, _ => by
    intro s hs
    simp only [nodesOfList, List.not_mem_nil] at hs
  | e :: es, c, hl => by
    intro s hs
    simp only [LegalList, Bool.and_eq_true] at hl
    simp only [nodesOfList, List.mem_append] at hs
    rcases hs with h | h
    · exact nodes_legal K e c hl.1 s h
    · exact nodesOfList_legal K es c hl.2 s h
end
theorem pinWeight_support (el : String) (attr : Attrs)
    (h : el ∉ ["pdoEntry", "complexEntry"]) : pinWeight el attr = 0 := by
  simp only [List.mem_cons, List.mem_singleton, List.not_mem_nil, or_false] at h
  simp only [pinWeight, h, false_and, if_false]

theorem modParamBody_cont (attr : Attrs)
    (hnames : ∀ a ∈ attr, a.1 = "name" ∨ a.1 = "value") :
    attrLoop modParamBody (none, none) attr
      = Step.cont (attrValue "name" attr, attrValue "value" attr) := by
  obtain ⟨q, hq⟩ := attrLoop_all_cont modParamBody attr (none, none) (by
    intro a ha p
    rcases hnames a ha with h | h
    · exact ⟨(some a.2, p.2), by simp only [modParamBody, if_pos h]⟩
    · exact ⟨(p.1, some a.2), by
        simp only [modParamBody, h, if_neg (by decide : ¬ ("value" = "name")), if_true]⟩)
  rw [hq, modParamBody_value attr q hq]

/-- The slave record the current slave points to after an item was appended and
the record was changed by `f`. -/
theorem slave_after_mod (st : State) (len : Nat) (r : ConfRec)
    (f : LCEC_CONF_SLAVE_T → LCEC_CONF_SLAVE_T) (sl : LCEC_CONF_SLAVE_T)
    (hsl : st.slave = some sl) :
    ∃ i, st.currSlave = some i ∧ st.outputBuf[i]? = some (ConfRec.slave sl) ∧
      modAt st.currSlave (ConfRec.mapSlave f) (st.outputBuf ++ [r])
        = (st.outputBuf ++ [r]).set i (ConfRec.slave (f sl)) := by
  obtain ⟨i, hi, hb, _⟩ := updSlave_of_slave f hsl
  refine ⟨i, hi, hb, ?_⟩
  have hlt : i < st.outputBuf.length := (List.getElem?_eq_some.mp hb).1
  have hb2 : (st.outputBuf ++ [r])[i]? = some (ConfRec.slave sl) := by
    rw [List.getElem?_append_left hlt]
    exact hb
  rw [hi]
  simp only [modAt, hb2]
  rfl

/-- What `parseModParamAttrs` does with an element it accepts: the name and the
value are the texts of the attributes, the row is the first row of the table of
the current slave type with that name, the value passed the check of the row's
type. -/
theorem parseModParamAttrs_accept (env : Env) (st st' : State) (attr : Attrs)
    (h : parseModParamAttrs env st attr = some st') (hs : st'.stopped = false) :
    ∃ ty table n v d,
      st.currSlaveType = some ty ∧ ty.modparams = some table ∧
      attrValue "name" attr = some n ∧ attrValue "value" attr = some v ∧
      n ≠ "" ∧ v ≠ "" ∧
      table.find? (fun d => decide (n = d.name)) = some d ∧
      (modParamValue env d.type v).2 = false ∧
      env.sizeof lcecConfTypeModParam ≤ st.freeMem ∧
      (∃ sl, st.slave = some sl) ∧
      st' = { st.alloc (env.sizeof lcecConfTypeModParam)
                (ConfRec.modParam { id := d.id, value := (modParamValue env d.type v).1 }) with
              outputBuf :=
                modAt st.currSlave (ConfRec.mapSlave incModParamCount)
                  (st.outputBuf ++
                    [ConfRec.modParam { id := d.id, value := (modParamValue env d.type v).1 }]) } := by
  unfold parseModParamAttrs at h
  split at h
  · cases h
  · rename_i slaveType hty
    split at h
    · cases h; cases hs
    · rename_i table htab
      split at h
      · cases h; cases hs
      · rename_i st1 halloc
        obtain ⟨hmem, rfl⟩ := addOutputBuffer_alloc halloc
        dsimp only at h
        split at h
        · cases h
        · cases h; cases hs
        · rename_i pname pval hl
          have hval := modParamBody_value attr _ hl
          split at h
          · rename_i n v
            by_cases hn : n = ""
            · rw [if_pos hn] at h; cases h; cases hs
            · rw [if_neg hn] at h
              by_cases hv : v = ""
              · rw [if_pos hv] at h; cases h; cases hs
              · rw [if_neg hv] at h
                split at h
                · cases h; cases hs
                · rename_i d hd
                  rw [alloc_writeRec] at h
                  by_cases hr : (modParamValue env d.type v).2 = true
                  · rw [if_pos hr] at h; cases h; cases hs
                  · rw [if_neg hr] at h
                    have e1 : attrValue "name" attr = some n := (congrArg Prod.fst hval).symm
                    have e2 : attrValue "value" attr = some v := (congrArg Prod.snd hval).symm
                    have hsl : ∃ sl, st.slave = some sl := by
                      obtain ⟨i, s, hi, hb, _⟩ := updSlave_some h
                      have hb2 := (getElem?_snoc_ne hb (by intro hx; cases hx)).2
                      refine ⟨s, ?_⟩
                      unfold State.slave
                      rw [show st.currSlave = some i from hi]
                      dsimp only
                      rw [hb2]
                    refine ⟨slaveType, table, n, v, d, hty, htab, e1, e2, hn, hv, hd,
                      by simpa using hr, hmem, hsl, ?_⟩
                    rw [updSlave_modAt h]
                    rfl
          · cases h; cases hs

/-- The handler `parseModParamAttrs` on an element with the attributes `name`
and `value` whose name stands in the table of the current slave type: the record
is written with the id of the first row of that name, and the check of the value
decides between the increment of `modParamCount` and the stop. -/
theorem parseModParamAttrs_found (env : Env) (st : State) (attr : Attrs) (ty : lcec_typelist_t)
    (table : List lcec_modparam_desc_t) (n v : String) (d : lcec_modparam_desc_t)
    (sl : LCEC_CONF_SLAVE_T)
    (hty : st.currSlaveType = some ty) (htab : ty.modparams = some table)
    (hnames : ∀ a ∈ attr, a.1 = "name" ∨ a.1 = "value")
    (hn : attrValue "name" attr = some n) (hv : attrValue "value" attr = some v)
    (hn0 : n ≠ "") (hv0 : v ≠ "")
    (hmem : env.sizeof lcecConfTypeModParam ≤ st.freeMem)
    (hd : table.find? (fun d => decide (n = d.name)) = some d)
    (hsl : st.slave = some sl) :
    parseModParamAttrs env st attr =
      some (if (modParamValue env d.type v).2 = true then
              (st.alloc (env.sizeof lcecConfTypeModParam)
                (ConfRec.modParam { id := d.id, value := (modParamValue env d.type v).1 })).stop
            else
              { st.alloc (env.sizeof lcecConfTypeModParam)
                  (ConfRec.modParam { id := d.id, value := (modParamValue env d.type v).1 }) with
                outputBuf :=
                  modAt st.currSlave (ConfRec.mapSlave incModParamCount)
                    (st.outputBuf ++
                      [ConfRec.modParam
                        { id := d.id, value := (modParamValue env d.type v).1 }]) }) := by
  have halloc : addOutputBuffer st (env.sizeof lcecConfTypeModParam) (ConfRec.modParam {})
      = some (st.alloc (env.sizeof lcecConfTypeModParam) (ConfRec.modParam {})) :=
    addOutputBuffer_of_le _ hmem
  unfold parseModParamAttrs
  rw [hty]
  dsimp only
  rw [htab]
  dsimp only
  rw [halloc]
  dsimp only
  rw [modParamBody_cont attr hnames, hn, hv]
  dsimp only
  rw [if_neg hn0, if_neg hv0, hd]
  dsimp only
  rw [alloc_writeRec]
  by_cases hr : (modParamValue env d.type v).2 = true
  · rw [if_pos hr, if_pos hr]
  · rw [if_neg hr, if_neg hr]
    have hs2 : (st.alloc (env.sizeof lcecConfTypeModParam)
        (ConfRec.modParam { id := d.id, value := (modParamValue env d.type v).1 })).slave
          = st.slave :=
      slave_of_snoc st _ _ rfl rfl (fun s => by intro hh; cases hh)
    rw [updSlave_total _ (by rw [hs2, hsl]; rfl)]
    rfl
/-- Without a row of the given name (or without a name) `parseModParamAttrs`
stops the parser and leaves the slave record. -/
theorem parseModParamAttrs_no_row (env : Env) (st : State) (attr : Attrs) (ty : lcec_typelist_t)
    (table : List lcec_modparam_desc_t)
    (hty : st.currSlaveType = some ty) (htab : ty.modparams = some table)
    (hno : ∀ n, attrValue "name" attr = some n → ∀ d ∈ table, d.name ≠ n) :
    ∃ st', parseModParamAttrs env st attr = some st' ∧ st'.stopped = true ∧
      st'.slave = st.slave := by
  unfold parseModParamAttrs
  rw [hty]
  dsimp only
  rw [htab]
  dsimp only
  cases halloc : addOutputBuffer st (env.sizeof lcecConfTypeModParam) (ConfRec.modParam {}) with
  | none => exact ⟨_, rfl, rfl, rfl⟩
  | some st1 =>
    obtain ⟨_, rfl⟩ := addOutputBuffer_alloc halloc
    have hsl : (st.alloc (env.sizeof lcecConfTypeModParam) (ConfRec.modParam {})).stop.slave
        = st.slave :=
      slave_of_snoc st _ _ rfl rfl (fun s => by intro hh; cases hh)
    dsimp only
    cases hl : attrLoop modParamBody (none, none) attr with
    | fault => exact absurd hl (attrLoop_no_fault modParamBody modParamBody_no_fault attr _)
    | abort q => exact ⟨_, rfl, rfl, hsl⟩
    | cont q =>
      have hval := modParamBody_value attr q hl
      obtain ⟨pname, pval⟩ := q
      cases pname with
      | none => exact ⟨_, rfl, rfl, hsl⟩
      | some n =>
        cases pval with
        | none => exact ⟨_, rfl, rfl, hsl⟩
        | some v =>
          dsimp only
          by_cases hn : n = ""
          · rw [if_pos hn]; exact ⟨_, rfl, rfl, hsl⟩
          · rw [if_neg hn]
            by_cases hv : v = ""
            · rw [if_pos hv]; exact ⟨_, rfl, rfl, hsl⟩
            · rw [if_neg hv]
              have e1 : attrValue "name" attr = some n := (congrArg Prod.fst hval).symm
              have hnone : table.find? (fun d => decide (n = d.name)) = none := by
                rw [List.find?_eq_none]
                intro d hd hh
                exact hno n e1 d hd (of_decide_eq_true hh).symm
              rw [hnone]
              exact ⟨_, rfl, rfl, hsl⟩

/-- C21: `parseModParamAttrs` resolves the name in the module parameter table of
the current slave type.  Without a table it stops the parser; with a table that
has no row of exactly the given name it stops the parser and leaves the slave
record; when it accepts the element, the row `d` it took is the first row of the
table whose name is the text of the `name` attribute, the record appended to the
buffer holds the id of that row, and the only other change of the buffer is that
`modParamCount` of the current slave has grown by one (as an `unsigned int`). -/
theorem modParam_name_resolved (env : Env) (st : State) (attr : Attrs) (ty : lcec_typelist_t)
    (hty : st.currSlaveType = some ty) :
    (ty.modparams = none → parseModParamAttrs env st attr = some st.stop) ∧
    (∀ table, ty.modparams = some table →
      (∀ n, attrValue "name" attr = some n → ∀ d ∈ table, d.name ≠ n) →
      ∃ st', parseModParamAttrs env st attr = some st' ∧ st'.stopped = true ∧
        st'.slave = st.slave) ∧
    (∀ table st', ty.modparams = some table →
      parseModParamAttrs env st attr = some st' → st'.stopped = false →
      ∃ n v pre d post i sl,
        attrValue "name" attr = some n ∧ attrValue "value" attr = some v ∧
        table = pre ++ d :: post ∧ (∀ x ∈ pre, x.name ≠ n) ∧ d.name = n ∧
        st.currSlave = some i ∧ st.outputBuf[i]? = some (ConfRec.slave sl) ∧
        st'.outputBuf
          = (st.outputBuf ++
              [ConfRec.modParam { id := d.id, value := (modParamValue env d.type v).1 }]).set i
              (ConfRec.slave { sl with modParamCount := (sl.modParamCount + 1) % 4294967296 })) := by
  refine ⟨?_, ?_, ?_⟩
  · intro hnone
    unfold parseModParamAttrs
    rw [hty]
    dsimp only
    rw [hnone]
  · intro table htab hno
    exact parseModParamAttrs_no_row env st attr ty table hty htab hno
  · intro table st' htab h hs
    obtain ⟨ty1, table1, n, v, d, hty1, htab1, hn, hv, _, _, hd, _, _, hsl, rfl⟩ :=
      parseModParamAttrs_accept env st st' attr h hs
    rw [hty] at hty1
    cases hty1
    rw [htab] at htab1
    cases htab1
    obtain ⟨hp, pre, post, hsplit, hpre⟩ := List.find?_eq_some.mp hd
    obtain ⟨sl, hsl⟩ := hsl
    obtain ⟨i, hi, hb, hmod⟩ := slave_after_mod st (env.sizeof lcecConfTypeModParam)
      (ConfRec.modParam { id := d.id, value := (modParamValue env d.type v).1 })
      incModParamCount sl hsl
    refine ⟨n, v, pre, d, post, i, sl, hn, hv, hsplit, ?_, (of_decide_eq_true hp).symm, hi, hb,
      hmod⟩
    intro x hx hxn
    have := hpre x hx
    rw [hxn] at this
    simp at this
theorem modParam_name_resolved_witness :
    sampleStateModSlave.currSlaveType = some sampleModType ∧
    ∃ st', parseModParamAttrs sampleEnv sampleStateModSlave [("value", "7"), ("name", "count")]
        = some st' ∧ st'.stopped = false ∧
      ∃ n v pre d post i sl,
        attrValue "name" [("value", "7"), ("name", "count")] = some n ∧
        attrValue "value" [("value", "7"), ("name", "count")] = some v ∧
        sampleModTable = pre ++ d :: post ∧ (∀ x ∈ pre, x.name ≠ n) ∧ d.name = n ∧
        sampleStateModSlave.currSlave = some i ∧
        sampleStateModSlave.outputBuf[i]? = some (ConfRec.slave sl) ∧
        st'.outputBuf
          = (sampleStateModSlave.outputBuf ++
              [ConfRec.modParam
                { id := d.id, value := (modParamValue sampleEnv d.type v).1 }]).set i
              (ConfRec.slave { sl with modParamCount := (sl.modParamCount + 1) % 4294967296 }) :=
  ⟨rfl, _, by rfl, by rfl,
    (modParam_name_resolved sampleEnv sampleStateModSlave [("value", "7"), ("name", "count")]
      sampleModType rfl).2.2 sampleModTable _ rfl (by rfl) (by rfl)⟩

theorem strcaseeq_upper (u l v : String)
    (h : u.data.map Char.toLower = l.data.map Char.toLower) :
    strcaseeq u v = strcaseeq v l := by
  unfold strcaseeq
  rw [h]
  by_cases hh : l.data.map Char.toLower = v.data.map Char.toLower
  · rw [decide_eq_true hh, decide_eq_true hh.symm]
  · rw [decide_eq_false hh, decide_eq_false (fun h2 => hh h2.symm)]

/-- The check of a value of the type BIT. -/
theorem modParamValue_bit (env : Env) (v : String) :
    (v = "1" ∨ strcaseeq v "true" = true →
      modParamValue env MODPARAM_TYPE_BIT v = (LCEC_CONF_MODPARAM_VAL_T.bit 1, false)) ∧
    (v = "0" ∨ strcaseeq v "false" = true →
      modParamValue env MODPARAM_TYPE_BIT v = (LCEC_CONF_MODPARAM_VAL_T.bit 0, false)) ∧
    (¬ (v = "1" ∨ strcaseeq v "true" = true ∨ v = "0" ∨ strcaseeq v "false" = true) →
      (modParamValue env MODPARAM_TYPE_BIT v).2 = true) := by
  have ht : strcaseeq "TRUE" v = strcaseeq v "true" := strcaseeq_upper _ _ _ (by decide)
  have hf : strcaseeq "FALSE" v = strcaseeq v "false" := strcaseeq_upper _ _ _ (by decide)
  have h1 : ("1" = v) = (v = "1") := propext eq_comm
  have h0 : ("0" = v) = (v = "0") := propext eq_comm
  simp only [modParamValue, ht, hf, h1, h0]
  refine ⟨?_, ?_, ?_⟩
  · intro h
    rw [if_pos h]
  · intro h
    have hn : ¬ (v = "1" ∨ strcaseeq v "true" = true) := by
      rintro (h1 | h1)
      · rcases h with h | h
        · rw [h1] at h; exact absurd h (by decide)
        · rw [h1] at h; exact absurd h (by decide)
      · rcases h with h | h
        · rw [h] at h1; exact absurd h1 (by decide)
        · exact absurd (strcaseeq_excl h1 h) (by decide)
    rw [if_neg hn, if_pos h]
  · intro h
    rw [if_neg (fun hh => h (hh.elim Or.inl (fun x => Or.inr (Or.inl x)))),
      if_neg (fun hh => h (hh.elim (fun x => Or.inr (Or.inr (Or.inl x)))
        (fun x => Or.inr (Or.inr (Or.inr x)))))]
/-- The handler `parseModParamAttrs` stops the parser only on paths that leave
the slave record. -/
theorem parseModParamAttrs_stopped_slave (env : Env) (st st' : State) (attr : Attrs)
    (hst : st.stopped = false)
    (h : parseModParamAttrs env st attr = some st') (hs : st'.stopped = true) :
    st'.slave = st.slave := by
  cases hacc : st'.stopped with
  | true =>
    unfold parseModParamAttrs at h
    split at h
    · cases h
    · split at h
      · cases h; rfl
      · split at h
        · cases h; rfl
        · rename_i st1 halloc
          obtain ⟨_, rfl⟩ := addOutputBuffer_alloc halloc
          have hsl : ∀ m, (st.alloc (env.sizeof lcecConfTypeModParam)
              (ConfRec.modParam m)).stop.slave = st.slave :=
            fun m => slave_of_snoc st _ _ rfl rfl (fun s => by intro hh; cases hh)
          dsimp only at h
          split at h
          · cases h
          · cases h; exact hsl _
          · split at h
            · split_ifs at h
              · cases h; exact hsl _
              · cases h; exact hsl _
              · split at h
                · cases h; exact hsl _
                · rw [alloc_writeRec] at h
                  split_ifs at h
                  · cases h; exact hsl _
                  · exfalso
                    have e := updSlave_modAt h
                    rw [e] at hs
                    rw [show ({ st.alloc (env.sizeof lcecConfTypeModParam) _ with
                      outputBuf := _ } : State).stopped = st.stopped from rfl, hst] at hs
                    cases hs
            · cases h; exact hsl _
  | false => rw [hacc] at hs; cases hs

/-- The buffer after an accepted `modParam` element: the record stands at the
end, and the current slave has counted it. -/
theorem modParam_accepted_view (st : State) (len : Nat) (m : LCEC_CONF_MODPARAM_T)
    (sl : LCEC_CONF_SLAVE_T) (hsl : st.slave = some sl) :
    ({ st.alloc len (ConfRec.modParam m) with
       outputBuf := modAt st.currSlave (ConfRec.mapSlave incModParamCount)
         (st.outputBuf ++ [ConfRec.modParam m]) } : State).outputBuf[st.outputBuf.length]?
      = some (ConfRec.modParam m) ∧
    ({ st.alloc len (ConfRec.modParam m) with
       outputBuf := modAt st.currSlave (ConfRec.mapSlave incModParamCount)
         (st.outputBuf ++ [ConfRec.modParam m]) } : State).slave
      = some (incModParamCount sl) := by
  obtain ⟨i, hi, hb, hmod⟩ := slave_after_mod st len (ConfRec.modParam m) incModParamCount sl hsl
  have hlt : i < st.outputBuf.length := (List.getElem?_eq_some.mp hb).1
  constructor
  · show (modAt st.currSlave (ConfRec.mapSlave incModParamCount)
      (st.outputBuf ++ [ConfRec.modParam m]))[st.outputBuf.length]? = _
    rw [hmod, List.getElem?_set_ne (by omega)]
    simp
  · unfold State.slave
    show (match st.currSlave with
      | none => none
      | some i =>
        match (modAt st.currSlave (ConfRec.mapSlave incModParamCount)
          (st.outputBuf ++ [ConfRec.modParam m]))[i]? with
        | some (ConfRec.slave s) => some s
        | _ => none) = _
    rw [hmod, hi]
    dsimp only
    rw [List.getElem?_set_self (by simp; omega)]

/-- The handler `parseModParamAttrs` on an element whose name stands in the
table: the record holds the id of the row and the value the check of the row's
type yields; the check decides between the stop and the count. -/
theorem modParam_typed (env : Env) (st : State) (attr : Attrs) (ty : lcec_typelist_t)
    (table : List lcec_modparam_desc_t) (n v : String) (d : lcec_modparam_desc_t)
    (sl : LCEC_CONF_SLAVE_T)
    (hty : st.currSlaveType = some ty) (htab : ty.modparams = some table)
    (hnames : ∀ a ∈ attr, a.1 = "name" ∨ a.1 = "value")
    (hn : attrValue "name" attr = some n) (hv : attrValue "value" attr = some v)
    (hn0 : n ≠ "") (hv0 : v ≠ "")
    (hmem : env.sizeof lcecConfTypeModParam ≤ st.freeMem)
    (hd : table.find? (fun d => decide (n = d.name)) = some d)
    (hsl : st.slave = some sl) :
    ∃ st', parseModParamAttrs env st attr = some st' ∧
      st'.outputBuf[st.outputBuf.length]?
        = some (ConfRec.modParam { id := d.id, value := (modParamValue env d.type v).1 }) ∧
      ((modParamValue env d.type v).2 = true → st'.stopped = true ∧ st'.slave = st.slave) ∧
      ((modParamValue env d.type v).2 = false →
        st'.stopped = st.stopped ∧ st'.slave = some (incModParamCount sl)) := by
  have key := parseModParamAttrs_found env st attr ty table n v d sl hty htab hnames hn hv hn0
    hv0 hmem hd hsl
  by_cases hr : (modParamValue env d.type v).2 = true
  · rw [if_pos hr] at key
    refine ⟨_, key, ?_, fun _ => ⟨rfl, ?_⟩, fun hh => ?_⟩
    · show (st.outputBuf ++ [_])[st.outputBuf.length]? = _
      simp
    · exact slave_of_snoc st _ _ rfl rfl (fun s => by intro hh; cases hh)
    · rw [hh] at hr; cases hr
  · rw [if_neg hr] at key
    obtain ⟨v1, v2⟩ := modParam_accepted_view st (env.sizeof lcecConfTypeModParam)
      { id := d.id, value := (modParamValue env d.type v).1 } sl hsl
    exact ⟨_, key, v1, fun hh => absurd hh hr, fun _ => ⟨rfl, v2⟩⟩

/-- C28: for a module parameter of the type BIT (the row `d` of the table the
name resolves to), `parseModParamAttrs` accepts the value `1` and the values
that equal `true` ignoring case and stores the bit 1, accepts the value `0` and
the values that equal `false` ignoring case and stores the bit 0, and on every
other value stops the parser and leaves `modParamCount` (the slave record). -/
theorem modParam_bit_values (env : Env) (st : State) (attr : Attrs) (ty : lcec_typelist_t)
    (table : List lcec_modparam_desc_t) (n v : String) (d : lcec_modparam_desc_t)
    (sl : LCEC_CONF_SLAVE_T)
    (hst : st.stopped = false)
    (hty : st.currSlaveType = some ty) (htab : ty.modparams = some table)
    (hnames : ∀ a ∈ attr, a.1 = "name" ∨ a.1 = "value")
    (hn : attrValue "name" attr = some n) (hv : attrValue "value" attr = some v)
    (hn0 : n ≠ "")
    (hmem : env.sizeof lcecConfTypeModParam ≤ st.freeMem)
    (hd : table.find? (fun d => decide (n = d.name)) = some d)
    (hsl : st.slave = some sl) (hbit : d.type = MODPARAM_TYPE_BIT) :
    ∃ st', parseModParamAttrs env st attr = some st' ∧
      (st'.stopped = false ↔
        (v = "1" ∨ strcaseeq v "true" = true ∨ v = "0" ∨ strcaseeq v "false" = true)) ∧
      (v = "1" ∨ strcaseeq v "true" = true →
        st'.outputBuf[st.outputBuf.length]?
          = some (ConfRec.modParam { id := d.id, value := LCEC_CONF_MODPARAM_VAL_T.bit 1 }) ∧
        st'.slave = some { sl with modParamCount := (sl.modParamCount + 1) % 4294967296 }) ∧
      (v = "0" ∨ strcaseeq v "false" = true →
        st'.outputBuf[st.outputBuf.length]?
          = some (ConfRec.modParam { id := d.id, value := LCEC_CONF_MODPARAM_VAL_T.bit 0 }) ∧
        st'.slave = some { sl with modParamCount := (sl.modParamCount + 1) % 4294967296 }) ∧
      (st'.stopped = true → st'.slave = st.slave) := by
  obtain ⟨b1, b0, bx⟩ := modParamValue_bit env v
  by_cases hv0 : v = ""
  · obtain ⟨st', h, hs⟩ := parseModParamAttrs_missing env st attr (by rw [hty]; rfl)
      (Or.inr (Or.inr (by rw [hv, hv0])))
    refine ⟨st', h, ?_, ?_, ?_, fun hs2 => parseModParamAttrs_stopped_slave env st st' attr hst h hs2⟩
    · rw [hs, hv0]
      decide
    · intro hh; rw [hv0] at hh; exact absurd hh (by decide)
    · intro hh; rw [hv0] at hh; exact absurd hh (by decide)
  · obtain ⟨st', h, hrec, hstop, hacc⟩ := modParam_typed env st attr ty table n v d sl hty htab
      hnames hn hv hn0 hv0 hmem hd hsl
    rw [hbit] at hrec hstop hacc
    refine ⟨st', h, ?_, ?_, ?_, fun hs2 => parseModParamAttrs_stopped_slave env st st' attr hst h hs2⟩
    · constructor
      · intro hs
        by_contra hno
        rw [(hstop (bx hno)).1] at hs
        cases hs
      · intro hok
        have h2 : (modParamValue env MODPARAM_TYPE_BIT v).2 = false := by
          rcases hok with h | h | h | h
          · rw [b1 (Or.inl h)]
          · rw [b1 (Or.inr h)]
          · rw [b0 (Or.inl h)]
          · rw [b0 (Or.inr h)]
        rw [(hacc h2).1, hst]
    · intro hok
      have e := b1 hok
      rw [e] at hrec hacc
      exact ⟨hrec, (hacc rfl).2⟩
    · intro hok
      have e := b0 hok
      rw [e] at hrec hacc
      exact ⟨hrec, (hacc rfl).2⟩

theorem modParam_bit_values_witness :
    sampleStateModSlave.stopped = false ∧
    sampleStateModSlave.currSlaveType = some sampleModType ∧
    sampleModType.modparams = some sampleModTable ∧
    sampleModTable.find? (fun d => decide ("enableFB2" = d.name))
      = some { name := "enableFB2", id := 1, type := MODPARAM_TYPE_BIT } ∧
    ∃ st', parseModParamAttrs sampleEnv sampleStateModSlave
        [("name", "enableFB2"), ("value", "True")] = some st' ∧
      (st'.stopped = false ↔
        ("True" = "1" ∨ strcaseeq "True" "true" = true ∨ "True" = "0" ∨
          strcaseeq "True" "false" = true)) ∧
      ("True" = "1" ∨ strcaseeq "True" "true" = true →
        st'.outputBuf[sampleStateModSlave.outputBuf.length]?
          = some (ConfRec.modParam { id := 1, value := LCEC_CONF_MODPARAM_VAL_T.bit 1 }) ∧
        st'.slave = some { typename := "AX5200", name := "0", modParamCount := 1 }) ∧
      ("True" = "0" ∨ strcaseeq "True" "false" = true →
        st'.outputBuf[sampleStateModSlave.outputBuf.length]?
          = some (ConfRec.modParam { id := 1, value := LCEC_CONF_MODPARAM_VAL_T.bit 0 }) ∧
        st'.slave = some { typename := "AX5200", name := "0", modParamCount := 1 }) ∧
      (st'.stopped = true → st'.slave = sampleStateModSlave.slave) :=
  ⟨rfl, rfl, rfl, by rfl,
    modParam_bit_values sampleEnv sampleStateModSlave [("name", "enableFB2"), ("value", "True")]
      sampleModType sampleModTable "enableFB2" "True"
      { name := "enableFB2", id := 1, type := MODPARAM_TYPE_BIT }
      { typename := "AX5200", name := "0" } rfl rfl rfl (by decide) (by rfl) (by rfl)
      (by decide) (by decide) (by rfl) (by rfl) rfl⟩
theorem scanBase_zero_decimal (c : Char) (cs : List Char) (h0 : c ≠ '0') :
    scanBase 0 (c :: cs) = (10, c :: cs) := by
  unfold scanBase
  split
  · rename_i x h r heq
    cases heq
    exact absurd rfl h0
  · rename_i heq
    cases heq
    exact absurd rfl h0
  · simp

/-- The scan of a decimal number without a leading zero, read with base 0. -/
theorem scanNumber_zero_decimal (ds : List Char) (hne : ds ≠ [])
    (hd : ∀ c ∈ ds, '0' ≤ c ∧ c ≤ '9') (h0 : ds.head? ≠ some '0') :
    scanNumber 0 ds = some (false, decimalValue ds, []) := by
  cases ds with
  | nil => exact absurd rfl hne
  | cons c cs =>
    obtain ⟨hsp, hm, hp, _⟩ := decimal_not_special (hd c (List.mem_cons_self _ _))
    have hc0 : c ≠ '0' := by
      intro hc
      apply h0
      rw [hc]
      rfl
    have hscan := scanDigits_decimal (c :: cs) 0 0 hd
    have hsign : scanSign (c :: cs) = (false, c :: cs) := by
      unfold scanSign
      split
      · rename_i r h1
        cases h1
        exact absurd rfl hm
      · rename_i r h1
        cases h1
        exact absurd rfl hp
      · rfl
    unfold scanNumber
    simp only [List.dropWhile, hsp, hsign, scanBase_zero_decimal c cs hc0, hscan]
    simp [decimalValue]

/-- The check of a decimal number as a value of the type U32 or S32: the value
passes whatever its size; what is stored is the value `strtoul` (`strtol`)
returns, cut to 32 bits. -/
theorem modParamValue_decimal (env : Env) (ds : List Char) (hne : ds ≠ [])
    (hd : ∀ c ∈ ds, '0' ≤ c ∧ c ≤ '9') (h0 : ds.head? ≠ some '0') :
    modParamValue env MODPARAM_TYPE_U32 (String.mk ds)
      = (LCEC_CONF_MODPARAM_VAL_T.u32
          ((if decimalValue ds ≥ 2 ^ env.longBits then 2 ^ env.longBits - 1
            else decimalValue ds) % 4294967296), false) ∧
    modParamValue env MODPARAM_TYPE_S32 (String.mk ds)
      = (LCEC_CONF_MODPARAM_VAL_T.s32
          (toInt32 (satLong env.longBits false (decimalValue ds))), false) := by
  have hs := scanNumber_zero_decimal ds hne hd h0
  constructor
  · simp only [modParamValue, strtoul, hs]
    split_ifs with a b
    · simp
    · exact absurd b (by decide)
    · simp
  · simp only [modParamValue, strtol, hs]
    simp

/-- The values of module parameters of the types U32 and S32 are checked
for their format only.  A decimal number without a leading zero passes the check
of either type whatever its size, and what is stored is the value `strtoul`
(`strtol`) returns, cut to 32 bits; the check fails exactly when `strtoul`
(`strtol`) leaves text unread.  In the sample state the value `4294967296` of a
U32 parameter is accepted and stored as 0, the value `-1` of a U32 parameter is
accepted and stored as 4294967295, the value `2147483648` of an S32 parameter is
accepted and stored as -2147483648, and the value `12abc` stops the parser. -/
theorem modParam_integer_range_unchecked (env : Env) (ds : List Char) (hne : ds ≠ [])
    (hd : ∀ c ∈ ds, '0' ≤ c ∧ c ≤ '9') (h0 : ds.head? ≠ some '0') :
    modParamValue env MODPARAM_TYPE_U32 (String.mk ds)
      = (LCEC_CONF_MODPARAM_VAL_T.u32
          ((if decimalValue ds ≥ 2 ^ env.longBits then 2 ^ env.longBits - 1
            else decimalValue ds) % 4294967296), false) ∧
    modParamValue env MODPARAM_TYPE_S32 (String.mk ds)
      = (LCEC_CONF_MODPARAM_VAL_T.s32
          (toInt32 (satLong env.longBits false (decimalValue ds))), false) ∧
    (∀ v, (modParamValue env MODPARAM_TYPE_U32 v).2 = true ↔
      (strtoul env.longBits v 0).2 ≠ []) ∧
    (∀ v, (modParamValue env MODPARAM_TYPE_S32 v).2 = true ↔
      (strtol env.longBits v 0).2 ≠ []) ∧
    (∃ st', parseModParamAttrs sampleEnv sampleStateModSlave
        [("name", "count"), ("value", "4294967296")] = some st' ∧ st'.stopped = false ∧
      st'.outputBuf[2]?
        = some (ConfRec.modParam { id := 2, value := LCEC_CONF_MODPARAM_VAL_T.u32 0 }) ∧
      st'.slave = some { typename := "AX5200", name := "0", modParamCount := 1 }) ∧
    (∃ st', parseModParamAttrs sampleEnv sampleStateModSlave
        [("name", "count"), ("value", "-1")] = some st' ∧ st'.stopped = false ∧
      st'.outputBuf[2]?
        = some (ConfRec.modParam
            { id := 2, value := LCEC_CONF_MODPARAM_VAL_T.u32 4294967295 })) ∧
    (∃ st', parseModParamAttrs sampleEnv sampleStateModSlave
        [("name", "shift"), ("value", "2147483648")] = some st' ∧ st'.stopped = false ∧
      st'.outputBuf[2]?
        = some (ConfRec.modParam
            { id := 3, value := LCEC_CONF_MODPARAM_VAL_T.s32 (-2147483648) })) ∧
    (∃ st', parseModParamAttrs sampleEnv sampleStateModSlave
        [("name", "count"), ("value", "12abc")] = some st' ∧ st'.stopped = true) := by
  obtain ⟨h1, h2⟩ := modParamValue_decimal env ds hne hd h0
  refine ⟨h1, h2, ?_, ?_, ⟨_, by rfl, by rfl, by rfl, by rfl⟩, ⟨_, by rfl, by rfl, by rfl⟩,
    ⟨_, by rfl, by rfl, by rfl⟩, ⟨_, by rfl, by rfl⟩⟩
  · intro v
    simp only [modParamValue, decide_eq_true_eq]
  · intro v
    simp only [modParamValue, decide_eq_true_eq]

theorem modParam_integer_range_unchecked_witness :
    "4294967296".data ≠ [] ∧ (∀ c ∈ "4294967296".data, '0' ≤ c ∧ c ≤ '9') ∧
    "4294967296".data.head? ≠ some '0' ∧
    decimalValue "4294967296".data = 4294967296 ∧
    modParamValue sampleEnv MODPARAM_TYPE_U32 "4294967296"
      = (LCEC_CONF_MODPARAM_VAL_T.u32
          ((if decimalValue "4294967296".data ≥ 2 ^ sampleEnv.longBits
            then 2 ^ sampleEnv.longBits - 1
            else decimalValue "4294967296".data) % 4294967296), false) :=
  ⟨by decide, by decide, by decide, by rfl,
    (modParam_integer_range_unchecked sampleEnv "4294967296".data (by decide) (by decide)
      (by decide)).1⟩

theorem pdoEntryBody_idx (env : Env) (p : LCEC_CONF_PDOENTRY_T × Bool) (v : String) :
    pdoEntryBody env p "idx" v =
      if toInt32 (strtol env.longBits v 16).1 < 0 ∨ toInt32 (strtol env.longBits v 16).1 ≥ 0xffff
      then Step.abort p
      else Step.cont ({ p.1 with index := (toInt32 (strtol env.longBits v 16).1).toNat }, p.2) := by
  simp only [pdoEntryBody, if_true]

theorem pdoEntryBody_subIdx (env : Env) (p : LCEC_CONF_PDOENTRY_T × Bool) (v : String) :
    pdoEntryBody env p "subIdx" v =
      if toInt32 (strtol env.longBits v 16).1 < 0 ∨ toInt32 (strtol env.longBits v 16).1 ≥ 0xff
      then Step.abort p
      else Step.cont ({ p.1 with subindex := (toInt32 (strtol env.longBits v 16).1).toNat },
        p.2) := by
  simp only [pdoEntryBody, String.reduceEq, if_false, if_true]

theorem pdoEntryBody_bitLen (env : Env) (p : LCEC_CONF_PDOENTRY_T × Bool) (v : String) :
    pdoEntryBody env p "bitLen" v =
      if atoi env.longBits v ≤ 0 ∨ atoi env.longBits v > env.LCEC_CONF_GENERIC_MAX_BITLEN
      then Step.abort p
      else Step.cont ({ p.1 with bitLength := toUInt 8 (atoi env.longBits v) }, p.2) := by
  simp only [pdoEntryBody, String.reduceEq, if_false, if_true]

theorem pdoBody_idx (env : Env) (p : LCEC_CONF_PDO_T) (v : String) :
    pdoBody env p "idx" v =
      if toInt32 (strtol env.longBits v 16).1 < 0 ∨ toInt32 (strtol env.longBits v 16).1 ≥ 0xffff
      then Step.abort p
      else Step.cont { p with index := (toInt32 (strtol env.longBits v 16).1).toNat } := by
  simp only [pdoBody, if_true]

theorem sdoConfigBody_idx (env : Env) (p : LCEC_CONF_SDOCONF_T) (v : String) :
    sdoConfigBody env p "idx" v =
      if toInt32 (strtol env.longBits v 16).1 < 0 ∨ toInt32 (strtol env.longBits v 16).1 ≥ 0xffff
      then Step.abort p
      else Step.cont { p with index := (toInt32 (strtol env.longBits v 16).1).toNat } := by
  simp only [sdoConfigBody, if_true]

/-- The check of a number the code has cut to `int`: a value that fits in an
`int` is checked as it stands. -/
theorem toInt32_fits {x : Int} (h0 : -2147483648 ≤ x) (h1 : x < 2147483648) : toInt32 x = x := by
  unfold toInt32
  omega

/-- An index or sub-index check `tmp < 0 || tmp >= bound` on the text `v`: when
the loop goes on, the stored value is the number read, cut to `int`, and lies
below the bound; a number that fits in an `int` and lies outside `[0, bound)`
stops the parser. -/
theorem hex_field_check (L : Nat) (v : String) (bound : Int) {P : Type} (p q : P)
    (f : Nat → P) (got : P → Nat) (hgot : ∀ n, got (f n) = n)
    (h : (if toInt32 (strtol L v 16).1 < 0 ∨ toInt32 (strtol L v 16).1 ≥ bound
          then Step.abort p else Step.cont (f (toInt32 (strtol L v 16).1).toNat)) = Step.cont q) :
    ((got q : Nat) : Int) = toInt32 (strtol L v 16).1 ∧ ((got q : Nat) : Int) < bound := by
  by_cases hc : toInt32 (strtol L v 16).1 < 0 ∨ toInt32 (strtol L v 16).1 ≥ bound
  · rw [if_pos hc] at h
    cases h
  · rw [if_neg hc] at h
    cases h
    rw [hgot]
    have h0 : 0 ≤ toInt32 (strtol L v 16).1 := by
      by_contra hneg
      exact hc (Or.inl (by omega))
    rw [Int.toNat_of_nonneg h0]
    refine ⟨rfl, ?_⟩
    by_contra hb
    exact hc (Or.inr (by omega))

/-- C23: the range checks of `idx`, `subIdx` and `bitLen` are made on the
number the text denotes after it has been cut to an `int`.  When the loop of
`parsePdoEntryAttrs` goes on after `idx` (`subIdx`), the stored index (sub-index)
is that `int` and lies in `[0, 0xfffe]` (`[0, 0xfe]`); after `bitLen` the `int`
lies in `[1, LCEC_CONF_GENERIC_MAX_BITLEN]` and the stored bit length is its low
byte; the same for the `idx` of `pdo` and `sdoConfig` and, with the bound
`LCEC_CONF_GENERIC_MAX_SUBPINS`, for the `bitLen` of `complexEntry`.  A text
whose number fits in an `int` and lies outside the range stops the parser.  A
number that does not fit is not rejected as such: in the sample state (a `long`
of 64 bits) the entry with `idx="100000001"`, `subIdx="100000002"` and
`bitLen="4294967304"` is accepted and stored with index 1, sub-index 2 and bit
length 8. -/
theorem index_ranges_checked_as_int (env : Env) :
    (∀ (p q : LCEC_CONF_PDOENTRY_T × Bool) (v : String),
      pdoEntryBody env p "idx" v = Step.cont q →
      (q.1.index : Int) = toInt32 (strtol env.longBits v 16).1 ∧ (q.1.index : Int) < 0xffff) ∧
    (∀ (p q : LCEC_CONF_PDOENTRY_T × Bool) (v : String),
      pdoEntryBody env p "subIdx" v = Step.cont q →
      (q.1.subindex : Int) = toInt32 (strtol env.longBits v 16).1 ∧
        (q.1.subindex : Int) < 0xff) ∧
    (∀ (p q : LCEC_CONF_PDOENTRY_T × Bool) (v : String),
      pdoEntryBody env p "bitLen" v = Step.cont q →
      1 ≤ atoi env.longBits v ∧ atoi env.longBits v ≤ env.LCEC_CONF_GENERIC_MAX_BITLEN ∧
        q.1.bitLength = toUInt 8 (atoi env.longBits v)) ∧
    (∀ (p q : LCEC_CONF_PDO_T) (v : String),
      pdoBody env p "idx" v = Step.cont q →
      (q.index : Int) = toInt32 (strtol env.longBits v 16).1 ∧ (q.index : Int) < 0xffff) ∧
    (∀ (p q : LCEC_CONF_SDOCONF_T) (v : String),
      sdoConfigBody env p "idx" v = Step.cont q →
      (q.index : Int) = toInt32 (strtol env.longBits v 16).1 ∧ (q.index : Int) < 0xffff) ∧
    (∀ (st : State) (p q : LCEC_CONF_COMPLEXENTRY_T × Bool) (v : String),
      complexEntryBody env st p "bitLen" v = Step.cont q →
      1 ≤ atoi env.longBits v ∧ atoi env.longBits v ≤ env.LCEC_CONF_GENERIC_MAX_SUBPINS ∧
        q.1.bitLength = toUInt 8 (atoi env.longBits v)) ∧
    (∀ (p : LCEC_CONF_PDOENTRY_T × Bool) (v : String),
      -2147483648 ≤ (strtol env.longBits v 16).1 → (strtol env.longBits v 16).1 < 2147483648 →
      ((strtol env.longBits v 16).1 < 0 ∨ (strtol env.longBits v 16).1 ≥ 0xffff →
        pdoEntryBody env p "idx" v = Step.abort p) ∧
      ((strtol env.longBits v 16).1 < 0 ∨ (strtol env.longBits v 16).1 ≥ 0xff →
        pdoEntryBody env p "subIdx" v = Step.abort p)) ∧
    (∀ (p : LCEC_CONF_PDOENTRY_T × Bool) (v : String),
      -2147483648 ≤ (strtol env.longBits v 10).1 → (strtol env.longBits v 10).1 < 2147483648 →
      ((strtol env.longBits v 10).1 ≤ 0 ∨
          (strtol env.longBits v 10).1 > env.LCEC_CONF_GENERIC_MAX_BITLEN) →
      pdoEntryBody env p "bitLen" v = Step.abort p) ∧
    (∃ st', parsePdoEntryAttrs sampleEnv sampleStatePdo
        [("idx", "100000001"), ("subIdx", "100000002"), ("bitLen", "4294967304"),
         ("halType", "u32")] = some st' ∧
      st'.stopped = false ∧
      (strtol sampleEnv.longBits "100000001" 16).1 = 4294967297 ∧
      st'.pdoEntry = some { index := 1, subindex := 2, bitLength := 8,
                            subType := lcecPdoEntTypeSimple, halType := HAL_U32 }) := by
  refine ⟨?_, ?_, ?_, ?_, ?_, ?_, ?_, ?_, ⟨_, by rfl, by rfl, by rfl, by rfl⟩⟩
  · intro p q v h
    rw [pdoEntryBody_idx] at h
    exact hex_field_check env.longBits v 0xffff p q (fun n => ({ p.1 with index := n }, p.2))
      (fun q => q.1.index) (fun _ => rfl) h
  · intro p q v h
    rw [pdoEntryBody_subIdx] at h
    exact hex_field_check env.longBits v 0xff p q (fun n => ({ p.1 with subindex := n }, p.2))
      (fun q => q.1.subindex) (fun _ => rfl) h
  · intro p q v h
    rw [pdoEntryBody_bitLen] at h
    by_cases hc : atoi env.longBits v ≤ 0 ∨ atoi env.longBits v > env.LCEC_CONF_GENERIC_MAX_BITLEN
    · rw [if_pos hc] at h; cases h
    · rw [if_neg hc] at h
      cases h
      refine ⟨?_, ?_, rfl⟩
      · by_contra hx; exact hc (Or.inl (by omega))
      · by_contra hx; exact hc (Or.inr (by omega))
  · intro p q v h
    rw [pdoBody_idx] at h
    exact hex_field_check env.longBits v 0xffff p q (fun n => { p with index := n })
      (fun q => q.index) (fun _ => rfl) h
  · intro p q v h
    rw [sdoConfigBody_idx] at h
    exact hex_field_check env.longBits v 0xffff p q (fun n => { p with index := n })
      (fun q => q.index) (fun _ => rfl) h
  · intro st p q v h
    simp only [complexEntryBody, if_true] at h
    by_cases hc : atoi env.longBits v ≤ 0 ∨
        atoi env.longBits v > env.LCEC_CONF_GENERIC_MAX_SUBPINS
    · rw [if_pos hc] at h; cases h
    · rw [if_neg hc] at h
      have h1 : 1 ≤ atoi env.longBits v := by
        by_contra hx; exact hc (Or.inl (by omega))
      have h2 : atoi env.longBits v ≤ env.LCEC_CONF_GENERIC_MAX_SUBPINS := by
        by_contra hx; exact hc (Or.inr (by omega))
      refine ⟨h1, h2, ?_⟩
      split at h
      · cases h
      · split_ifs at h
        cases h
        rfl
  · intro p v h0 h1
    have e := toInt32_fits h0 h1
    constructor
    · intro hc
      rw [pdoEntryBody_idx, e, if_pos hc]
    · intro hc
      rw [pdoEntryBody_subIdx, e, if_pos hc]
  · intro p v h0 h1 hc
    have e : atoi env.longBits v = (strtol env.longBits v 10).1 := toInt32_fits h0 h1
    rw [pdoEntryBody_bitLen, e, if_pos hc]

theorem index_ranges_checked_as_int_witness :
    pdoEntryBody sampleEnv ({ index := 0xffff, subindex := 0xff }, false) "idx" "1A00"
      = Step.cont ({ index := 0x1a00, subindex := 0xff }, false) ∧
    ((0x1a00 : Nat) : Int) = toInt32 (strtol sampleEnv.longBits "1A00" 16).1 ∧
    ((0x1a00 : Nat) : Int) < 0xffff ∧
    (-2147483648 ≤ (strtol sampleEnv.longBits "ffff" 16).1 ∧
      (strtol sampleEnv.longBits "ffff" 16).1 < 2147483648 ∧
      (strtol sampleEnv.longBits "ffff" 16).1 ≥ 0xffff) ∧
    pdoEntryBody sampleEnv ({ index := 0xffff, subindex := 0xff }, false) "idx" "ffff"
      = Step.abort ({ index := 0xffff, subindex := 0xff }, false) :=
  ⟨by rfl,
    ((index_ranges_checked_as_int sampleEnv).1 ({ index := 0xffff, subindex := 0xff }, false)
      ({ index := 0x1a00, subindex := 0xff }, false) "1A00" (by rfl)).1,
    by decide, ⟨by decide, by decide, by decide⟩,
    ((index_ranges_checked_as_int sampleEnv).2.2.2.2.2.2.1
      ({ index := 0xffff, subindex := 0xff }, false) "ffff" (by decide) (by decide)).1
      (Or.inr (by decide))⟩

theorem attrLoop_append {P : Type} (body : P → String → String → Step P) :
    ∀ (a b : Attrs) (p : P),
      attrLoop body p (a ++ b) =
        (match attrLoop body p a with
         | Step.cont q => attrLoop body q b
         | Step.abort q => Step.abort q
         | Step.fault => Step.fault) := by
  intro a
  induction a with
  | nil => intro b p; rfl
  | cons x rest ih =>
    intro b p
    obtain ⟨n, v⟩ := x
    simp only [List.cons_append, attrLoop]
    cases body p n v with
    | cont q => exact ih b q
    | abort q => rfl
    | fault => rfl

/-- A loop whose passes all go on from the records that satisfy `I`. -/
theorem attrLoop_cont_on {P : Type} (body : P → String → String → Step P) (I : P → Prop) :
    ∀ (attrs : Attrs) (p : P), I p →
      (∀ a ∈ attrs, ∀ p, I p → ∃ q, body p a.1 a.2 = Step.cont q ∧ I q) →
      ∃ q, attrLoop body p attrs = Step.cont q ∧ I q := by
  intro attrs
  induction attrs with
  | nil => intro p hp _; exact ⟨p, rfl, hp⟩
  | cons x rest ih =>
    intro p hp h
    obtain ⟨n, v⟩ := x
    obtain ⟨q, hq, hiq⟩ := h (n, v) (List.mem_cons_self _ _) p hp
    simp only [attrLoop, hq]
    exact ih q hiq (fun a ha => h a (List.mem_cons_of_mem _ ha))

/-- The field `proj` after a loop over attributes that keep `I`: the value of
the last attribute named `N`. -/
theorem attrLoop_last_value_on {P F : Type} (body : P → String → String → Step P)
    (I : P → Prop) (proj : P → F) (N : String) (g : String → F) :
    ∀ (attrs : Attrs) (p q : P), I p →
      (∀ a ∈ attrs, ∀ p q, I p → body p a.1 a.2 = Step.cont q →
        I q ∧ (a.1 = N → proj q = g a.2) ∧ (a.1 ≠ N → proj q = proj p)) →
      attrLoop body p attrs = Step.cont q →
      proj q = (match attrValue N attrs with
                | some v => g v
                | none => proj p) := by
  intro attrs
  induction attrs with
  | nil =>
    intro p q _ _ h
    simp only [attrLoop, Step.cont.injEq] at h
    subst h
    rfl
  | cons x rest ih =>
    intro p q hp h hl
    obtain ⟨n, v⟩ := x
    simp only [attrLoop] at hl
    cases hb : body p n v with
    | abort r => rw [hb] at hl; cases hl
    | fault => rw [hb] at hl; cases hl
    | cont r =>
      rw [hb] at hl
      dsimp only at hl
      obtain ⟨hir, hat, hother⟩ := h (n, v) (List.mem_cons_self _ _) p r hp hb
      have key := ih r q hir (fun a ha => h a (List.mem_cons_of_mem _ ha)) hl
      rw [key]
      simp only [attrValue]
      cases attrValue N rest with
      | some w => rfl
      | none =>
        dsimp only
        by_cases hn : n = N
        · rw [if_pos hn]
          exact hat hn
        · rw [if_neg hn]
          exact hother hn

/-- A loop over attributes that keep `I` does not go on to the end when one of
them is rejected from every record that satisfies `I`. -/
theorem attrLoop_bad_on {P : Type} (body : P → String → String → Step P) (I : P → Prop)
    (bad : String → Prop) :
    ∀ (attrs : Attrs) (p : P), I p →
      (∀ a ∈ attrs, ∀ p q, I p → body p a.1 a.2 = Step.cont q → I q) →
      (∀ a ∈ attrs, bad a.1 → ∀ p q, I p → body p a.1 a.2 ≠ Step.cont q) →
      (∃ a ∈ attrs, bad a.1) → ∀ q, attrLoop body p attrs ≠ Step.cont q := by
  intro attrs
  induction attrs with
  | nil =>
    intro p _ _ _ hex
    obtain ⟨a, ha, _⟩ := hex
    cases ha
  | cons x rest ih =>
    intro p hp hpres hbad hex q hl
    obtain ⟨n, v⟩ := x
    simp only [attrLoop] at hl
    cases hb : body p n v with
    | abort r => rw [hb] at hl; cases hl
    | fault => rw [hb] at hl; cases hl
    | cont r =>
      rw [hb] at hl
      dsimp only at hl
      obtain ⟨a, ha, hba⟩ := hex
      rcases List.mem_cons.mp ha with rfl | ha
      · exact hbad (n, v) (List.mem_cons_self _ _) hba p r hp hb
      · exact ih r (hpres (n, v) (List.mem_cons_self _ _) p r hp hb)
          (fun a ha => hpres a (List.mem_cons_of_mem _ ha))
          (fun a ha => hbad a (List.mem_cons_of_mem _ ha)) ⟨a, ha, hba⟩ q hl

theorem attrValue_skip (N : String) : ∀ (pre rest : Attrs), (∀ a ∈ pre, a.1 ≠ N) →
    attrValue N (pre ++ rest) = attrValue N rest := by
  intro pre
  induction pre with
  | nil => intro rest _; rfl
  | cons x t ih =>
    intro rest h
    obtain ⟨n, v⟩ := x
    have hn : n ≠ N := h (n, v) (List.mem_cons_self _ _)
    have e := ih rest (fun a ha => h a (List.mem_cons_of_mem _ ha))
    show attrValue N ((n, v) :: (t ++ rest)) = attrValue N rest
    simp only [attrValue, e, if_neg hn]
    cases attrValue N rest <;> rfl

theorem strncpy_generic (v : String) (n : Nat) (hn : 7 < n) :
    strncpy v n = "generic" ↔ v = "generic" := by
  constructor
  · intro h
    have h1 := congrArg String.data h
    change List.take n v.data = "generic".data at h1
    have hlen : (List.take n v.data).length = 7 := by rw [h1]; rfl
    rw [List.length_take] at hlen
    have hle : v.data.length ≤ n := by omega
    rw [List.take_of_length_le hle] at h1
    exact String.ext h1
  · intro h
    rw [h]
    unfold strncpy
    have : ("generic" : String).data.length ≤ n := by
      have : ("generic" : String).data.length = 7 := rfl
      omega
    rw [List.take_of_length_le this]

/-- With a type other than `generic` (or without a type) `parseSlaveAttrs` stops
the parser at `vid`, `pid` or `configPdos`. -/
theorem parseSlaveAttrs_generic_only (env : Env) (st : State) (attr : Attrs)
    (h8 : 7 < env.LCEC_CONF_STR_MAXLEN)
    (hty : ∀ v, ("type", v) ∈ attr → v ≠ "generic")
    (hbad : ∃ a ∈ attr, a.1 = "vid" ∨ a.1 = "pid" ∨ a.1 = "configPdos") :
    ∃ st', parseSlaveAttrs env st attr = some st' ∧ st'.stopped = true := by
  have hnc : ∀ q, attrLoop (slaveBody env) {} attr ≠ Step.cont q := by
    refine attrLoop_bad_on (slaveBody env) (fun p => p.typename ≠ "generic")
      (fun n => n = "vid" ∨ n = "pid" ∨ n = "configPdos") attr {} (by decide) ?_ ?_ hbad
    · intro a ha p q hp hb
      obtain ⟨n, v⟩ := a
      unfold slaveBody at hb
      dsimp only at hb
      by_cases h1 : n = "type"
      · rw [if_pos h1] at hb
        cases hb
        subst h1
        show strncpy v env.LCEC_CONF_STR_MAXLEN ≠ "generic"
        intro he
        exact hty v ha ((strncpy_generic v _ h8).mp he)
      · rw [if_neg h1] at hb
        by_cases h2 : n = "idx"
        · rw [if_pos h2] at hb; cases hb; exact hp
        · rw [if_neg h2] at hb
          by_cases h3 : n = "name"
          · rw [if_pos h3] at hb; cases hb; exact hp
          · rw [if_neg h3, if_neg hp] at hb
            cases hb
    · intro a _ hba p q hp hb
      obtain ⟨n, v⟩ := a
      have h1 : n ≠ "type" := by
        rcases hba with h | h | h <;> (dsimp only at h; rw [h]; decide)
      have h2 : n ≠ "idx" := by
        rcases hba with h | h | h <;> (dsimp only at h; rw [h]; decide)
      have h3 : n ≠ "name" := by
        rcases hba with h | h | h <;> (dsimp only at h; rw [h]; decide)
      unfold slaveBody at hb
      dsimp only at hb
      rw [if_neg h1, if_neg h2, if_neg h3, if_neg hp] at hb
      cases hb
  unfold parseSlaveAttrs
  cases addOutputBuffer st (env.sizeof lcecConfTypeSlave) (ConfRec.slave {}) with
  | none => exact ⟨_, rfl, rfl⟩
  | some st1 =>
    dsimp only
    cases hpre : attrLoop (slavePreBody env) (false, none) attr with
    | fault => exact absurd hpre (attrLoop_no_fault _ (slavePreBody_no_fault env) _ _)
    | abort p => exact ⟨_, rfl, rfl⟩
    | cont p =>
      dsimp only
      cases hl : attrLoop (slaveBody env) {} attr with
      | fault => exact absurd hl (attrLoop_no_fault _ (slaveBody_no_fault env) _ _)
      | abort p => exact ⟨_, rfl, rfl⟩
      | cont q => exact absurd hl (hnc q)

/-- One pass of the second loop of `parseSlaveAttrs` on a record whose type name
is `generic`, for the attributes other than `type`. -/
theorem slaveBody_generic_step (env : Env) (p : LCEC_CONF_SLAVE_T) (n v : String)
    (hp : p.typename = "generic")
    (hn : n = "idx" ∨ n = "name" ∨ n = "vid" ∨ n = "pid" ∨ n = "configPdos") :
    ∃ q, slaveBody env p n v = Step.cont q ∧ q.typename = "generic" ∧
      q.vid = (if n = "vid" then toUInt 32 (strtol env.longBits v 16).1 else p.vid) ∧
      q.pid = (if n = "pid" then toUInt 32 (strtol env.longBits v 16).1 else p.pid) ∧
      q.configPdos = (if n = "configPdos" then (if strcaseeq v "true" = true then 1 else 0)
                      else p.configPdos) := by
  rcases hn with h | h | h | h | h <;> subst h
  · exact ⟨{ p with index := atoi env.longBits v },
      by simp only [slaveBody, String.reduceEq, if_false, if_true], hp, rfl, rfl, rfl⟩
  · exact ⟨{ p with name := strncpy v (env.LCEC_CONF_STR_MAXLEN - 1) },
      by simp only [slaveBody, String.reduceEq, if_false, if_true], hp, rfl, rfl, rfl⟩
  · exact ⟨{ p with vid := toUInt 32 (strtol env.longBits v 16).1 },
      by simp only [slaveBody, String.reduceEq, if_false, if_true, hp], hp, rfl, rfl, rfl⟩
  · exact ⟨{ p with pid := toUInt 32 (strtol env.longBits v 16).1 },
      by simp only [slaveBody, String.reduceEq, if_false, if_true, hp], hp, rfl, rfl, rfl⟩
  · exact ⟨{ p with configPdos := if strcaseeq v "true" = true then 1 else 0 },
      by simp only [slaveBody, String.reduceEq, if_false, if_true, hp], hp, rfl, rfl, rfl⟩

/-- The second loop of `parseSlaveAttrs` over attributes other than `type`, from
a record whose type name is `generic`: it goes on to the end, and `vid`, `pid`
and `configPdos` hold the values of their attributes. -/
theorem slaveBody_generic_rest (env : Env) (rest : Attrs) (p : LCEC_CONF_SLAVE_T)
    (hp : p.typename = "generic")
    (hrest : ∀ a ∈ rest, a.1 = "idx" ∨ a.1 = "name" ∨ a.1 = "vid" ∨ a.1 = "pid" ∨
      a.1 = "configPdos") :
    ∃ q, attrLoop (slaveBody env) p rest = Step.cont q ∧ q.typename = "generic" ∧
      q.vid = (match attrValue "vid" rest with
               | some v => toUInt 32 (strtol env.longBits v 16).1
               | none => p.vid) ∧
      q.pid = (match attrValue "pid" rest with
               | some v => toUInt 32 (strtol env.longBits v 16).1
               | none => p.pid) ∧
      q.configPdos = (match attrValue "configPdos" rest with
                      | some v => if strcaseeq v "true" = true then 1 else 0
                      | none => p.configPdos) := by
  obtain ⟨q, hq, hiq⟩ := attrLoop_cont_on (slaveBody env) (fun p => p.typename = "generic")
    rest p hp (fun a ha p hp => by
      obtain ⟨q, h1, h2, _⟩ := slaveBody_generic_step env p a.1 a.2 hp (hrest a ha)
      exact ⟨q, h1, h2⟩)
  refine ⟨q, hq, hiq, ?_, ?_, ?_⟩
  · exact attrLoop_last_value_on (slaveBody env) (fun p => p.typename = "generic")
      (fun p => p.vid) "vid" (fun v => toUInt 32 (strtol env.longBits v 16).1) rest p q hp
      (fun a ha p q hp hb => by
        obtain ⟨q1, h1, h2, h3, _⟩ := slaveBody_generic_step env p a.1 a.2 hp (hrest a ha)
        rw [h1] at hb
        cases hb
        exact ⟨h2, fun hn => by dsimp only; rw [h3, if_pos hn],
          fun hn => by dsimp only; rw [h3, if_neg hn]⟩) hq
  · exact attrLoop_last_value_on (slaveBody env) (fun p => p.typename = "generic")
      (fun p => p.pid) "pid" (fun v => toUInt 32 (strtol env.longBits v 16).1) rest p q hp
      (fun a ha p q hp hb => by
        obtain ⟨q1, h1, h2, _, h3, _⟩ := slaveBody_generic_step env p a.1 a.2 hp (hrest a ha)
        rw [h1] at hb
        cases hb
        exact ⟨h2, fun hn => by dsimp only; rw [h3, if_pos hn],
          fun hn => by dsimp only; rw [h3, if_neg hn]⟩) hq
  · exact attrLoop_last_value_on (slaveBody env) (fun p => p.typename = "generic")
      (fun p => p.configPdos) "configPdos"
      (fun v => if strcaseeq v "true" = true then 1 else 0) rest p q hp
      (fun a ha p q hp hb => by
        obtain ⟨q1, h1, h2, _, _, h3⟩ := slaveBody_generic_step env p a.1 a.2 hp (hrest a ha)
        rw [h1] at hb
        cases hb
        exact ⟨h2, fun hn => by dsimp only; rw [h3, if_pos hn],
          fun hn => by dsimp only; rw [h3, if_neg hn]⟩) hq

/-- The second loop of `parseSlaveAttrs` over `idx` and `name` attributes: it
goes on, and leaves the type name and the fields of a generic slave. -/
theorem slaveBody_plain_pre (env : Env) (pre : Attrs) (p : LCEC_CONF_SLAVE_T)
    (hpre : ∀ a ∈ pre, a.1 = "idx" ∨ a.1 = "name") :
    ∃ q, attrLoop (slaveBody env) p pre = Step.cont q ∧ q.typename = p.typename ∧
      q.vid = p.vid ∧ q.pid = p.pid ∧ q.configPdos = p.configPdos := by
  obtain ⟨q, hq, hiq⟩ := attrLoop_cont_on (slaveBody env)
    (fun q => q.typename = p.typename ∧ q.vid = p.vid ∧ q.pid = p.pid ∧
      q.configPdos = p.configPdos) pre p ⟨rfl, rfl, rfl, rfl⟩
    (fun a ha q hq => by
      rcases hpre a ha with h | h
      · exact ⟨{ q with index := atoi env.longBits a.2 },
          by simp only [slaveBody, h, String.reduceEq, if_false, if_true], hq⟩
      · exact ⟨{ q with name := strncpy a.2 (env.LCEC_CONF_STR_MAXLEN - 1) },
          by simp only [slaveBody, h, String.reduceEq, if_false, if_true], hq⟩)
  exact ⟨q, hq, hiq⟩

/-- A generic slave whose `type` attribute stands before `vid`, `pid` and
`configPdos` is accepted, and the record holds the values of these attributes. -/
theorem parseSlaveAttrs_generic_accepts (env : Env) (st : State) (pre rest : Attrs)
    (ty : lcec_typelist_t)
    (h8 : 7 < env.LCEC_CONF_STR_MAXLEN)
    (hfind : env.lcec_findslavetype "generic" = some ty) (hname : ty.name ≠ none)
    (hmem : env.sizeof lcecConfTypeSlave ≤ st.freeMem)
    (hpre : ∀ a ∈ pre, a.1 = "idx" ∨ a.1 = "name")
    (hrest : ∀ a ∈ rest, a.1 = "idx" ∨ a.1 = "name" ∨ a.1 = "vid" ∨ a.1 = "pid" ∨
      a.1 = "configPdos") :
    ∃ st' q, parseSlaveAttrs env st (pre ++ ("type", "generic") :: rest) = some st' ∧
      st'.stopped = st.stopped ∧ st'.slave = some q ∧ q.typename = "generic" ∧
      q.vid = (match attrValue "vid" rest with
               | some v => toUInt 32 (strtol env.longBits v 16).1
               | none => 0) ∧
      q.pid = (match attrValue "pid" rest with
               | some v => toUInt 32 (strtol env.longBits v 16).1
               | none => 0) ∧
      q.configPdos = (match attrValue "configPdos" rest with
                      | some v => if strcaseeq v "true" = true then 1 else 0
                      | none => 0) := by
  have hpreloop : attrLoop (slavePreBody env) (false, none) (pre ++ ("type", "generic") :: rest)
      = Step.cont (true, some ty) := by
    rw [attrLoop_append, slavePre_without_type env pre _ (fun a ha => by
      rcases hpre a ha with h | h <;> (rw [h]; decide))]
    dsimp only
    simp only [attrLoop, slavePreBody, if_true, hfind, if_neg hname]
    exact slavePre_without_type env rest _ (fun a ha => by
      rcases hrest a ha with h | h | h | h | h <;> (rw [h]; decide))
  obtain ⟨q0, hq0, t0, v0, p0, c0⟩ := slaveBody_plain_pre env pre {} hpre
  have hgen : strncpy "generic" env.LCEC_CONF_STR_MAXLEN = "generic" :=
    (strncpy_generic "generic" _ h8).mpr rfl
  obtain ⟨q, hq, tq, vq, pq, cq⟩ := slaveBody_generic_rest env rest
    { q0 with typename := strncpy "generic" env.LCEC_CONF_STR_MAXLEN } hgen hrest
  have hloop : attrLoop (slaveBody env) {} (pre ++ ("type", "generic") :: rest)
      = Step.cont q := by
    rw [attrLoop_append, hq0]
    dsimp only
    simp only [attrLoop, slaveBody, if_true]
    exact hq
  have halloc : addOutputBuffer st (env.sizeof lcecConfTypeSlave) (ConfRec.slave {})
      = some (st.alloc (env.sizeof lcecConfTypeSlave) (ConfRec.slave {})) :=
    addOutputBuffer_of_le _ hmem
  refine ⟨{ st.alloc (env.sizeof lcecConfTypeSlave)
      (ConfRec.slave (if q.name = "" then { q with name := defaultName env q.index } else q)) with
      slave_count := incU32 st.slave_count,
      currSlaveType := some ty,
      currSlave := some st.outputBuf.length },
    if q.name = "" then { q with name := defaultName env q.index } else q, ?_, ?_, ?_,
    ?_, ?_, ?_, ?_⟩
  · unfold parseSlaveAttrs
    rw [halloc]
    dsimp only
    rw [hpreloop]
    dsimp only
    rw [hloop]
    dsimp only
    rw [alloc_writeRec]
    rfl
  · rfl
  · unfold State.slave
    show (match (st.outputBuf ++ [ConfRec.slave _])[st.outputBuf.length]? with
      | some (ConfRec.slave s) => some s
      | _ => none) = _
    simp
  · by_cases hn : q.name = ""
    · rw [if_pos hn]; exact tq
    · rw [if_neg hn]; exact tq
  · have : (if q.name = "" then { q with name := defaultName env q.index } else q).vid = q.vid := by
      by_cases hn : q.name = ""
      · rw [if_pos hn]
      · rw [if_neg hn]
    rw [this, vq]
    show (match attrValue "vid" rest with
      | some v => toUInt 32 (strtol env.longBits v 16).1
      | none => q0.vid) = _
    rw [v0]
  · have : (if q.name = "" then { q with name := defaultName env q.index } else q).pid = q.pid := by
      by_cases hn : q.name = ""
      · rw [if_pos hn]
      · rw [if_neg hn]
    rw [this, pq]
    show (match attrValue "pid" rest with
      | some v => toUInt 32 (strtol env.longBits v 16).1
      | none => q0.pid) = _
    rw [p0]
  · have : (if q.name = "" then { q with name := defaultName env q.index } else q).configPdos
        = q.configPdos := by
      by_cases hn : q.name = ""
      · rw [if_pos hn]
      · rw [if_neg hn]
    rw [this, cq]
    show (match attrValue "configPdos" rest with
      | some v => if strcaseeq v "true" = true then 1 else 0
      | none => q0.configPdos) = _
    rw [c0]

/-- C24: `vid`, `pid` and `configPdos` belong to the generic slave.  With a type
other than `generic`, or without a type, `parseSlaveAttrs` stops the parser at
any of them.  With `type="generic"` standing before them the slave is accepted,
and the record holds the hexadecimal value of the `vid` and `pid` texts (cut to
32 bits) and `configPdos` 1 exactly when the text equals `true` ignoring case.
With `type="generic"` standing behind them the handler stops the parser, as it
does on `<slave pid="3" type="generic"/>`, while it accepts
`<slave type="generic" pid="3"/>`. -/
theorem generic_only_attributes (env : Env) (st : State)
    (h8 : 7 < env.LCEC_CONF_STR_MAXLEN) :
    (∀ attr : Attrs, (∀ v, ("type", v) ∈ attr → v ≠ "generic") →
      (∃ a ∈ attr, a.1 = "vid" ∨ a.1 = "pid" ∨ a.1 = "configPdos") →
      ∃ st', parseSlaveAttrs env st attr = some st' ∧ st'.stopped = true) ∧
    (∀ (pre rest : Attrs) (ty : lcec_typelist_t),
      env.lcec_findslavetype "generic" = some ty → ty.name ≠ none →
      env.sizeof lcecConfTypeSlave ≤ st.freeMem →
      (∀ a ∈ pre, a.1 = "idx" ∨ a.1 = "name") →
      (∀ a ∈ rest, a.1 = "idx" ∨ a.1 = "name" ∨ a.1 = "vid" ∨ a.1 = "pid" ∨
        a.1 = "configPdos") →
      ∃ st' q, parseSlaveAttrs env st (pre ++ ("type", "generic") :: rest) = some st' ∧
        st'.stopped = st.stopped ∧ st'.slave = some q ∧ q.typename = "generic" ∧
        q.vid = (match attrValue "vid" rest with
                 | some v => toUInt 32 (strtol env.longBits v 16).1
                 | none => 0) ∧
        q.pid = (match attrValue "pid" rest with
                 | some v => toUInt 32 (strtol env.longBits v 16).1
                 | none => 0) ∧
        q.configPdos = (match attrValue "configPdos" rest with
                        | some v => if strcaseeq v "true" = true then 1 else 0
                        | none => 0)) ∧
    (∃ st1 st2,
      parseSlaveAttrs sampleEnv sampleStateSlowMaster [("pid", "3"), ("type", "generic")]
        = some st1 ∧ st1.stopped = true ∧
      parseSlaveAttrs sampleEnv sampleStateSlowMaster [("type", "generic"), ("pid", "3")]
        = some st2 ∧ st2.stopped = false ∧
      st2.slave = some { typename := "generic", pid := 3, name := "0" }) :=
  ⟨fun attr hty hbad => parseSlaveAttrs_generic_only env st attr h8 hty hbad,
    fun pre rest ty hfind hname hmem hpre hrest =>
      parseSlaveAttrs_generic_accepts env st pre rest ty h8 hfind hname hmem hpre hrest,
    ⟨_, _, by rfl, by rfl, by rfl, by rfl, by rfl⟩⟩

theorem generic_only_attributes_witness :
    7 < sampleEnv.LCEC_CONF_STR_MAXLEN ∧
    (∀ v, ("type", v) ∈ [("type", "EL2202"), ("configPdos", "true")] → v ≠ "generic") ∧
    (∃ st', parseSlaveAttrs sampleEnv sampleStateSlowMaster
        [("type", "EL2202"), ("configPdos", "true")] = some st' ∧ st'.stopped = true) ∧
    (∃ st' q, parseSlaveAttrs sampleEnv sampleStateSlowMaster
        ([("idx", "4")] ++ ("type", "generic") :: [("vid", "2"), ("configPdos", "TRUE")])
          = some st' ∧
      st'.stopped = sampleStateSlowMaster.stopped ∧ st'.slave = some q ∧
      q.typename = "generic" ∧
      q.vid = (match attrValue "vid" [("vid", "2"), ("configPdos", "TRUE")] with
               | some v => toUInt 32 (strtol sampleEnv.longBits v 16).1
               | none => 0) ∧
      q.pid = (match attrValue "pid" [("vid", "2"), ("configPdos", "TRUE")] with
               | some v => toUInt 32 (strtol sampleEnv.longBits v 16).1
               | none => 0) ∧
      q.configPdos = (match attrValue "configPdos" [("vid", "2"), ("configPdos", "TRUE")] with
                      | some v => if strcaseeq v "true" = true then 1 else 0
                      | none => 0)) :=
  ⟨by decide, by simp,
    (generic_only_attributes sampleEnv sampleStateSlowMaster (by decide)).1
      [("type", "EL2202"), ("configPdos", "true")] (by simp)
      ⟨("configPdos", "true"), by simp, Or.inr (Or.inr rfl)⟩,
    (generic_only_attributes sampleEnv sampleStateSlowMaster (by decide)).2.1
      [("idx", "4")] [("vid", "2"), ("configPdos", "TRUE")]
      { name := some "generic", modparams := none } (by rfl) (by decide) (by decide)
      (by simp) (by simp)⟩

/-- The values `pdoEntryHalType` takes, one by one, and the rejection of all others. -/
theorem pdoEntryHalType_cases (p : LCEC_CONF_PDOENTRY_T) (v : String) :
    (strcaseeq v "bit" = true → pdoEntryHalType p v = some { p with halType := HAL_BIT }) ∧
    (strcaseeq v "s32" = true → pdoEntryHalType p v = some { p with subType := lcecPdoEntTypeSimple, halType := HAL_S32 }) ∧
    (strcaseeq v "u32" = true → pdoEntryHalType p v = some { p with subType := lcecPdoEntTypeSimple, halType := HAL_U32 }) ∧
    (strcaseeq v "float" = true → pdoEntryHalType p v = some { p with subType := lcecPdoEntTypeFloatSigned, halType := HAL_FLOAT }) ∧
    (strcaseeq v "float-unsigned" = true → pdoEntryHalType p v = some { p with subType := lcecPdoEntTypeFloatUnsigned, halType := HAL_FLOAT }) ∧
    (strcaseeq v "complex" = true → pdoEntryHalType p v = some { p with subType := lcecPdoEntTypeComplex }) ∧
    (strcaseeq v "float-ieee" = true → pdoEntryHalType p v = some { p with subType := lcecPdoEntTypeFloatIeee, halType := HAL_FLOAT }) ∧
    (strcaseeq v "float-double-ieee" = true → pdoEntryHalType p v = some { p with subType := lcecPdoEntTypeFloatDoubleIeee, halType := HAL_FLOAT }) ∧
    (¬ (strcaseeq v "bit" = true ∨ strcaseeq v "s32" = true ∨ strcaseeq v "u32" = true ∨ strcaseeq v "float" = true ∨ strcaseeq v "float-unsigned" = true ∨ strcaseeq v "complex" = true ∨ strcaseeq v "float-ieee" = true ∨ strcaseeq v "float-double-ieee" = true) →
      pdoEntryHalType p v = none) := by
  refine ⟨?_, ?_, ?_, ?_, ?_, ?_, ?_, ?_, ?_⟩
  · intro h
    unfold pdoEntryHalType
    rw [if_pos h]
  · intro h
    unfold pdoEntryHalType
    rw [if_neg (fun c => absurd (strcaseeq_excl c h) (by decide)),
      if_pos h]
  · intro h
    unfold pdoEntryHalType
    rw [if_neg (fun c => absurd (strcaseeq_excl c h) (by decide)),
      if_neg (fun c => absurd (strcaseeq_excl c h) (by decide)),
      if_pos h]
  · intro h
    unfold pdoEntryHalType
    rw [if_neg (fun c => absurd (strcaseeq_excl c h) (by decide)),
      if_neg (fun c => absurd (strcaseeq_excl c h) (by decide)),
      if_neg (fun c => absurd (strcaseeq_excl c h) (by decide)),
      if_pos h]
  · intro h
    unfold pdoEntryHalType
    rw [if_neg (fun c => absurd (strcaseeq_excl c h) (by decide)),
      if_neg (fun c => absurd (strcaseeq_excl c h) (by decide)),
      if_neg (fun c => absurd (strcaseeq_excl c h) (by decide)),
      if_neg (fun c => absurd (strcaseeq_excl c h) (by decide)),
      if_pos h]
  · intro h
    unfold pdoEntryHalType
    rw [if_neg (fun c => absurd (strcaseeq_excl c h) (by decide)),
      if_neg (fun c => absurd (strcaseeq_excl c h) (by decide)),
      if_neg (fun c => absurd (strcaseeq_excl c h) (by decide)),
      if_neg (fun c => absurd (strcaseeq_excl c h) (by decide)),
      if_neg (fun c => absurd (strcaseeq_excl c h) (by decide)),
      if_pos h]
  · intro h
    unfold pdoEntryHalType
    rw [if_neg (fun c => absurd (strcaseeq_excl c h) (by decide)),
      if_neg (fun c => absurd (strcaseeq_excl c h) (by decide)),
      if_neg (fun c => absurd (strcaseeq_excl c h) (by decide)),
      if_neg (fun c => absurd (strcaseeq_excl c h) (by decide)),
      if_neg (fun c => absurd (strcaseeq_excl c h) (by decide)),
      if_neg (fun c => absurd (strcaseeq_excl c h) (by decide)),
      if_pos h]
  · intro h
    unfold pdoEntryHalType
    rw [if_neg (fun c => absurd (strcaseeq_excl c h) (by decide)),
      if_neg (fun c => absurd (strcaseeq_excl c h) (by decide)),
      if_neg (fun c => absurd (strcaseeq_excl c h) (by decide)),
      if_neg (fun c => absurd (strcaseeq_excl c h) (by decide)),
      if_neg (fun c => absurd (strcaseeq_excl c h) (by decide)),
      if_neg (fun c => absurd (strcaseeq_excl c h) (by decide)),
      if_neg (fun c => absurd (strcaseeq_excl c h) (by decide)),
      if_pos h]
  · intro h
    unfold pdoEntryHalType
    rw [if_neg (fun c => h (Or.inl c)),
      if_neg (fun c => h (Or.inr (Or.inl c))),
      if_neg (fun c => h (Or.inr (Or.inr (Or.inl c)))),
      if_neg (fun c => h (Or.inr (Or.inr (Or.inr (Or.inl c))))),
      if_neg (fun c => h (Or.inr (Or.inr (Or.inr (Or.inr (Or.inl c)))))),
      if_neg (fun c => h (Or.inr (Or.inr (Or.inr (Or.inr (Or.inr (Or.inl c))))))),
      if_neg (fun c => h (Or.inr (Or.inr (Or.inr (Or.inr (Or.inr (Or.inr (Or.inl c)))))))),
      if_neg (fun c => h (Or.inr (Or.inr (Or.inr (Or.inr (Or.inr (Or.inr (Or.inr (c)))))))))]

/-- The values `complexEntryHalType` takes, one by one, and the rejection of all others. -/
theorem complexEntryHalType_cases (p : LCEC_CONF_COMPLEXENTRY_T) (v : String) :
    (strcaseeq v "bit" = true → complexEntryHalType p v = some { p with subType := lcecPdoEntTypeSimple, halType := HAL_BIT }) ∧
    (strcaseeq v "s32" = true → complexEntryHalType p v = some { p with subType := lcecPdoEntTypeSimple, halType := HAL_S32 }) ∧
    (strcaseeq v "u32" = true → complexEntryHalType p v = some { p with subType := lcecPdoEntTypeSimple, halType := HAL_U32 }) ∧
    (strcaseeq v "float" = true → complexEntryHalType p v = some { p with subType := lcecPdoEntTypeFloatSigned, halType := HAL_FLOAT }) ∧
    (strcaseeq v "float-unsigned" = true → complexEntryHalType p v = some { p with subType := lcecPdoEntTypeFloatUnsigned, halType := HAL_FLOAT }) ∧
    (strcaseeq v "float-ieee" = true → complexEntryHalType p v = some { p with subType := lcecPdoEntTypeFloatIeee, halType := HAL_FLOAT }) ∧
    (strcaseeq v "float-double-ieee" = true → complexEntryHalType p v = some { p with subType := lcecPdoEntTypeFloatDoubleIeee, halType := HAL_FLOAT }) ∧
    (¬ (strcaseeq v "bit" = true ∨ strcaseeq v "s32" = true ∨ strcaseeq v "u32" = true ∨ strcaseeq v "float" = true ∨ strcaseeq v "float-unsigned" = true ∨ strcaseeq v "float-ieee" = true ∨ strcaseeq v "float-double-ieee" = true) →
      complexEntryHalType p v = none) := by
  refine ⟨?_, ?_, ?_, ?_, ?_, ?_, ?_, ?_⟩
  · intro h
    unfold complexEntryHalType
    rw [if_pos h]
  · intro h
    unfold complexEntryHalType
    rw [if_neg (fun c => absurd (strcaseeq_excl c h) (by decide)),
      if_pos h]
  · intro h
    unfold complexEntryHalType
    rw [if_neg (fun c => absurd (strcaseeq_excl c h) (by decide)),
      if_neg (fun c => absurd (strcaseeq_excl c h) (by decide)),
      if_pos h]
  · intro h
    unfold complexEntryHalType
    rw [if_neg (fun c => absurd (strcaseeq_excl c h) (by decide)),
      if_neg (fun c => absurd (strcaseeq_excl c h) (by decide)),
      if_neg (fun c => absurd (strcaseeq_excl c h) (by decide)),
      if_pos h]
  · intro h
    unfold complexEntryHalType
    rw [if_neg (fun c => absurd (strcaseeq_excl c h) (by decide)),
      if_neg (fun c => absurd (strcaseeq_excl c h) (by decide)),
      if_neg (fun c => absurd (strcaseeq_excl c h) (by decide)),
      if_neg (fun c => absurd (strcaseeq_excl c h) (by decide)),
      if_pos h]
  · intro h
    unfold complexEntryHalType
    rw [if_neg (fun c => absurd (strcaseeq_excl c h) (by decide)),
      if_neg (fun c => absurd (strcaseeq_excl c h) (by decide)),
      if_neg (fun c => absurd (strcaseeq_excl c h) (by decide)),
      if_neg (fun c => absurd (strcaseeq_excl c h) (by decide)),
      if_neg (fun c => absurd (strcaseeq_excl c h) (by decide)),
      if_pos h]
  · intro h
    unfold complexEntryHalType
    rw [if_neg (fun c => absurd (strcaseeq_excl c h) (by decide)),
      if_neg (fun c => absurd (strcaseeq_excl c h) (by decide)),
      if_neg (fun c => absurd (strcaseeq_excl c h) (by decide)),
      if_neg (fun c => absurd (strcaseeq_excl c h) (by decide)),
      if_neg (fun c => absurd (strcaseeq_excl c h) (by decide)),
      if_neg (fun c => absurd (strcaseeq_excl c h) (by decide)),
      if_pos h]
  · intro h
    unfold complexEntryHalType
    rw [if_neg (fun c => h (Or.inl c)),
      if_neg (fun c => h (Or.inr (Or.inl c))),
      if_neg (fun c => h (Or.inr (Or.inr (Or.inl c)))),
      if_neg (fun c => h (Or.inr (Or.inr (Or.inr (Or.inl c))))),
      if_neg (fun c => h (Or.inr (Or.inr (Or.inr (Or.inr (Or.inl c)))))),
      if_neg (fun c => h (Or.inr (Or.inr (Or.inr (Or.inr (Or.inr (Or.inl c))))))),
      if_neg (fun c => h (Or.inr (Or.inr (Or.inr (Or.inr (Or.inr (Or.inr (c))))))))]

theorem pdoEntryBody_halType (env : Env) (p : LCEC_CONF_PDOENTRY_T × Bool) (v : String) :
    (pdoEntryHalType p.1 v = none → pdoEntryBody env p "halType" v = Step.abort p) ∧
    (∀ q, pdoEntryHalType p.1 v = some q →
      pdoEntryBody env p "halType" v = Step.cont (q, p.2)) := by
  constructor
  · intro h
    simp only [pdoEntryBody, String.reduceEq, if_false, if_true, h]
  · intro q h
    simp only [pdoEntryBody, String.reduceEq, if_false, if_true, h]

theorem complexEntryBody_halType (env : Env) (st : State)
    (p : LCEC_CONF_COMPLEXENTRY_T × Bool) (v : String) :
    (complexEntryHalType p.1 v = none →
      complexEntryBody env st p "halType" v = Step.abort p) ∧
    (∀ q, complexEntryHalType p.1 v = some q →
      complexEntryBody env st p "halType" v = Step.cont (q, p.2)) := by
  constructor
  · intro h
    simp only [complexEntryBody, String.reduceEq, if_false, if_true, h]
  · intro q h
    simp only [complexEntryBody, String.reduceEq, if_false, if_true, h]

theorem syncManagerBody_dir (env : Env) (p : LCEC_CONF_SYNCMANAGER_T) (v : String) :
    syncManagerBody env p "dir" v =
      if strcaseeq v "in" = true then Step.cont { p with dir := EC_DIR_INPUT }
      else if strcaseeq v "out" = true then Step.cont { p with dir := EC_DIR_OUTPUT }
      else Step.abort p := by
  simp only [syncManagerBody, String.reduceEq, if_false, if_true]

/-- The enumerated attribute values are matched ignoring case against a
closed set.  The `halType` of a `pdoEntry` is accepted exactly when it equals
one of `bit`, `s32`, `u32`, `float`, `float-unsigned`, `complex`, `float-ieee`,
`float-double-ieee`, and the record then holds the kind the name stands for;
the `halType` of a `complexEntry` is accepted exactly when it equals one of
these names other than `complex`; the `dir` of a `syncManager` is accepted
exactly when it equals `in` (input) or `out` (output); every other value stops
the parser at the attribute. -/
theorem enumerated_values_closed (env : Env) :
    (∀ (p : LCEC_CONF_PDOENTRY_T × Bool) (v : String),
      ((∃ q, pdoEntryBody env p "halType" v = Step.cont q) ↔
        (strcaseeq v "bit" = true ∨ strcaseeq v "s32" = true ∨ strcaseeq v "u32" = true ∨
          strcaseeq v "float" = true ∨ strcaseeq v "float-unsigned" = true ∨
          strcaseeq v "complex" = true ∨ strcaseeq v "float-ieee" = true ∨
          strcaseeq v "float-double-ieee" = true)) ∧
      ((∀ q, pdoEntryBody env p "halType" v ≠ Step.cont q) →
        pdoEntryBody env p "halType" v = Step.abort p) ∧
      (strcaseeq v "bit" = true →
        pdoEntryBody env p "halType" v = Step.cont ({ p.1 with halType := HAL_BIT }, p.2)) ∧
      (strcaseeq v "s32" = true →
        pdoEntryBody env p "halType" v
          = Step.cont ({ p.1 with subType := lcecPdoEntTypeSimple, halType := HAL_S32 }, p.2)) ∧
      (strcaseeq v "u32" = true →
        pdoEntryBody env p "halType" v
          = Step.cont ({ p.1 with subType := lcecPdoEntTypeSimple, halType := HAL_U32 }, p.2)) ∧
      (strcaseeq v "float" = true →
        pdoEntryBody env p "halType" v
          = Step.cont ({ p.1 with subType := lcecPdoEntTypeFloatSigned,
                                  halType := HAL_FLOAT }, p.2)) ∧
      (strcaseeq v "float-unsigned" = true →
        pdoEntryBody env p "halType" v
          = Step.cont ({ p.1 with subType := lcecPdoEntTypeFloatUnsigned,
                                  halType := HAL_FLOAT }, p.2)) ∧
      (strcaseeq v "complex" = true →
        pdoEntryBody env p "halType" v
          = Step.cont ({ p.1 with subType := lcecPdoEntTypeComplex }, p.2)) ∧
      (strcaseeq v "float-ieee" = true →
        pdoEntryBody env p "halType" v
          = Step.cont ({ p.1 with subType := lcecPdoEntTypeFloatIeee,
                                  halType := HAL_FLOAT }, p.2)) ∧
      (strcaseeq v "float-double-ieee" = true →
        pdoEntryBody env p "halType" v
          = Step.cont ({ p.1 with subType := lcecPdoEntTypeFloatDoubleIeee,
                                  halType := HAL_FLOAT }, p.2))) ∧
    (∀ (st : State) (p : LCEC_CONF_COMPLEXENTRY_T × Bool) (v : String),
      ((∃ q, complexEntryBody env st p "halType" v = Step.cont q) ↔
        (strcaseeq v "bit" = true ∨ strcaseeq v "s32" = true ∨ strcaseeq v "u32" = true ∨
          strcaseeq v "float" = true ∨ strcaseeq v "float-unsigned" = true ∨
          strcaseeq v "float-ieee" = true ∨ strcaseeq v "float-double-ieee" = true)) ∧
      ((∀ q, complexEntryBody env st p "halType" v ≠ Step.cont q) →
        complexEntryBody env st p "halType" v = Step.abort p) ∧
      (strcaseeq v "complex" = true →
        complexEntryBody env st p "halType" v = Step.abort p)) ∧
    (∀ (p : LCEC_CONF_SYNCMANAGER_T) (v : String),
      ((∃ q, syncManagerBody env p "dir" v = Step.cont q) ↔
        (strcaseeq v "in" = true ∨ strcaseeq v "out" = true)) ∧
      (strcaseeq v "in" = true →
        syncManagerBody env p "dir" v = Step.cont { p with dir := EC_DIR_INPUT }) ∧
      (strcaseeq v "out" = true →
        syncManagerBody env p "dir" v = Step.cont { p with dir := EC_DIR_OUTPUT }) ∧
      (¬ (strcaseeq v "in" = true ∨ strcaseeq v "out" = true) →
        syncManagerBody env p "dir" v = Step.abort p)) := by
  refine ⟨?_, ?_, ?_⟩
  · intro p v
    obtain ⟨c1, c2, c3, c4, c5, c6, c7, c8, c0⟩ := pdoEntryHalType_cases p.1 v
    obtain ⟨bn, bs⟩ := pdoEntryBody_halType env p v
    refine ⟨⟨?_, ?_⟩, ?_, fun h => bs _ (c1 h), fun h => bs _ (c2 h), fun h => bs _ (c3 h),
      fun h => bs _ (c4 h), fun h => bs _ (c5 h), fun h => bs _ (c6 h), fun h => bs _ (c7 h),
      fun h => bs _ (c8 h)⟩
    · rintro ⟨q, hq⟩
      by_contra hno
      rw [bn (c0 hno)] at hq
      cases hq
    · rintro (h | h | h | h | h | h | h | h)
      · exact ⟨_, bs _ (c1 h)⟩
      · exact ⟨_, bs _ (c2 h)⟩
      · exact ⟨_, bs _ (c3 h)⟩
      · exact ⟨_, bs _ (c4 h)⟩
      · exact ⟨_, bs _ (c5 h)⟩
      · exact ⟨_, bs _ (c6 h)⟩
      · exact ⟨_, bs _ (c7 h)⟩
      · exact ⟨_, bs _ (c8 h)⟩
    · intro hno
      cases hh : pdoEntryHalType p.1 v with
      | none => exact bn hh
      | some q => exact absurd (bs q hh) (hno _)
  · intro st p v
    obtain ⟨c1, c2, c3, c4, c5, c7, c8, c0⟩ := complexEntryHalType_cases p.1 v
    obtain ⟨bn, bs⟩ := complexEntryBody_halType env st p v
    refine ⟨⟨?_, ?_⟩, ?_, ?_⟩
    · rintro ⟨q, hq⟩
      by_contra hno
      rw [bn (c0 hno)] at hq
      cases hq
    · rintro (h | h | h | h | h | h | h)
      · exact ⟨_, bs _ (c1 h)⟩
      · exact ⟨_, bs _ (c2 h)⟩
      · exact ⟨_, bs _ (c3 h)⟩
      · exact ⟨_, bs _ (c4 h)⟩
      · exact ⟨_, bs _ (c5 h)⟩
      · exact ⟨_, bs _ (c7 h)⟩
      · exact ⟨_, bs _ (c8 h)⟩
    · intro hno
      cases hh : complexEntryHalType p.1 v with
      | none => exact bn hh
      | some q => exact absurd (bs q hh) (hno _)
    · intro h
      apply bn
      apply c0
      rintro (c | c | c | c | c | c | c) <;> exact absurd (strcaseeq_excl c h) (by decide)
  · intro p v
    rw [syncManagerBody_dir]
    refine ⟨⟨?_, ?_⟩, ?_, ?_, ?_⟩
    · rintro ⟨q, hq⟩
      by_contra hno
      rw [if_neg (fun c => hno (Or.inl c)), if_neg (fun c => hno (Or.inr c))] at hq
      cases hq
    · rintro (h | h)
      · rw [if_pos h]; exact ⟨_, rfl⟩
      · rw [if_neg (fun c => absurd (strcaseeq_excl c h) (by decide)), if_pos h]
        exact ⟨_, rfl⟩
    · intro h
      rw [if_pos h]
    · intro h
      rw [if_neg (fun c => absurd (strcaseeq_excl c h) (by decide)), if_pos h]
    · intro hno
      rw [if_neg (fun c => hno (Or.inl c)), if_neg (fun c => hno (Or.inr c))]

theorem enumerated_values_closed_witness :
    strcaseeq "Float-IEEE" "float-ieee" = true ∧
    pdoEntryBody sampleEnv ({ index := 0xffff, subindex := 0xff }, false) "halType" "Float-IEEE"
      = Step.cont ({ index := 0xffff, subindex := 0xff, subType := lcecPdoEntTypeFloatIeee,
                     halType := HAL_FLOAT }, false) ∧
    strcaseeq "OUT" "out" = true ∧
    syncManagerBody sampleEnv { index := 0xff, dir := EC_DIR_INVALID } "dir" "OUT"
      = Step.cont { index := 0xff, dir := EC_DIR_OUTPUT } ∧
    ¬ (strcaseeq "both" "in" = true ∨ strcaseeq "both" "out" = true) ∧
    syncManagerBody sampleEnv { index := 0xff, dir := EC_DIR_INVALID } "dir" "both"
      = Step.abort { index := 0xff, dir := EC_DIR_INVALID } :=
  ⟨by decide,
    ((enumerated_values_closed sampleEnv).1 ({ index := 0xffff, subindex := 0xff }, false)
      "Float-IEEE").2.2.2.2.2.2.2.2.1 (by decide),
    by decide,
    ((enumerated_values_closed sampleEnv).2.2 { index := 0xff, dir := EC_DIR_INVALID }
      "OUT").2.2.1 (by decide),
    by decide,
    ((enumerated_values_closed sampleEnv).2.2 { index := 0xff, dir := EC_DIR_INVALID }
      "both").2.2.2 (by decide)⟩

theorem idnConfigBody_idn (env : Env) (p : LCEC_CONF_IDNCONF_T) (val : String) :
    (idnValue env.longBits val = none → idnConfigBody env p "idn" val = Step.abort p) ∧
    (idnValue env.longBits val = some 0xffff → idnConfigBody env p "idn" val = Step.abort p) := by
  constructor
  · intro h
    simp only [idnConfigBody, String.reduceEq, if_false, if_true, h]
  · intro h
    simp only [idnConfigBody, String.reduceEq, if_false, if_true, h]

/-- The value of an `idn` text of the structured form: `none` (the handler stops
the parser) when the set or the block is out of range. -/
theorem idnValue_structured (L : Nat) (val : String) (c : Char) (rest : List Char) (pfx : Char)
    (set block : Int) (hdata : val.data = c :: rest)
    (hsp : toupper c = 'S' ∨ toupper c = 'P')
    (hscan : sscanfIdn L val.data = (3, pfx, set, block))
    (hout : set < 0 ∨ set > 7 ∨ block < 0 ∨ block > 4095) :
    idnValue L val = none := by
  unfold idnValue
  rw [hscan, hdata]
  dsimp only
  rw [if_pos hsp, if_pos rfl]
  by_cases h1 : set < 0 ∨ set ≥ 8
  · rw [if_pos h1]
  · rw [if_neg h1]
    have h2 : block < 0 ∨ block ≥ 4096 := by omega
    rw [if_pos h2]

theorem digitOf_minus : digitOf '-' = none := by decide

theorem scanDigits_decimal_then : ∀ (ds : List Char) (t : List Char) (acc n : Nat),
    (∀ c ∈ ds, '0' ≤ c ∧ c ≤ '9') →
    scanDigits 10 acc n (ds ++ '-' :: t) =
      (ds.foldl (fun a c => a * 10 + (c.toNat - 48)) acc, n + ds.length, '-' :: t) := by
  intro ds
  induction ds with
  | nil =>
    intro t acc n _
    simp only [List.nil_append, scanDigits, digitOf_minus, List.foldl_nil, List.length_nil,
      Nat.add_zero]
  | cons c cs ih =>
    intro t acc n h
    have hc := digitOf_decimal (h c (List.mem_cons_self _ _))
    simp only [List.cons_append, scanDigits, hc.1, if_pos hc.2, List.foldl_cons,
      List.length_cons, List.append_eq]
    rw [ih t _ _ (fun x hx => h x (List.mem_cons_of_mem _ hx))]
    simp only [Prod.mk.injEq, and_true, true_and]
    omega

theorem scanNumber_decimal_then (ds t : List Char) (hne : ds ≠ [])
    (hd : ∀ c ∈ ds, '0' ≤ c ∧ c ≤ '9') :
    scanNumber 10 (ds ++ '-' :: t) = some (false, decimalValue ds, '-' :: t) := by
  cases ds with
  | nil => exact absurd rfl hne
  | cons c cs =>
    obtain ⟨hsp, hm, hp, _⟩ := decimal_not_special (hd c (List.mem_cons_self _ _))
    have hscan := scanDigits_decimal_then (c :: cs) t 0 0 hd
    have hsign : scanSign (c :: (cs ++ '-' :: t)) = (false, c :: (cs ++ '-' :: t)) := by
      unfold scanSign
      split
      · rename_i r h1
        cases h1
        exact absurd rfl hm
      · rename_i r h1
        cases h1
        exact absurd rfl hp
      · rfl
    unfold scanNumber
    simp only [List.cons_append, List.dropWhile, hsp, List.append_eq, hsign, scanBase_ten]
    simp only [List.cons_append] at hscan
    rw [hscan]
    simp [decimalValue]

theorem satLong_small (L : Nat) (hL : 32 ≤ L) (n : Nat) (hn : n < 2147483648) :
    toInt32 (satLong L false n) = (n : Int) := by
  unfold satLong
  have := two_pow_ge hL
  have hcast : ((n : Nat) : Int) < 2147483648 := by exact_mod_cast hn
  simp only [Bool.false_eq_true, if_false]
  rw [if_neg (by omega)]
  exact toInt32_of_range (by omega) hcast

/-- The call of `sscanf` on a text `<c>-<set>-<block>` with decimal numbers that
fit in an `int`. -/
theorem sscanfIdn_structured (L : Nat) (hL : 32 ≤ L) (c : Char) (ds1 ds2 : List Char)
    (hne1 : ds1 ≠ []) (hne2 : ds2 ≠ [])
    (hd1 : ∀ x ∈ ds1, '0' ≤ x ∧ x ≤ '9') (hd2 : ∀ x ∈ ds2, '0' ≤ x ∧ x ≤ '9')
    (hv1 : decimalValue ds1 < 2147483648) (hv2 : decimalValue ds2 < 2147483648) :
    sscanfIdn L (c :: '-' :: (ds1 ++ '-' :: ds2))
      = (3, c, (decimalValue ds1 : Int), (decimalValue ds2 : Int)) := by
  simp only [sscanfIdn, scanfInt, scanNumber_decimal_then ds1 ds2 hne1 hd1,
    scanNumber_decimal ds2 hne2 hd2, satLong_small L hL _ hv1, satLong_small L hL _ hv2]

/-- The handler `parseIdnConfigAttrs` returns on every attribute list, and what
it returns is the state with the parser stopped, with or without the record it
has reserved. -/
theorem parseIdnConfigAttrs_result (env : Env) (st : State) (attr : Attrs) :
    ∃ st', parseIdnConfigAttrs env st attr = some st' ∧
      (st' = st.stop ∨
        ∃ p, st' = (st.alloc (env.sizeof lcecConfTypeIdnConfig) (ConfRec.idnConf p)).stop) := by
  unfold parseIdnConfigAttrs
  cases halloc : addOutputBuffer st (env.sizeof lcecConfTypeIdnConfig) (ConfRec.idnConf {}) with
  | none => exact ⟨_, rfl, Or.inl rfl⟩
  | some st1 =>
    obtain ⟨_, rfl⟩ := addOutputBuffer_alloc halloc
    dsimp only
    cases hl : attrLoop (idnConfigBody env) { drive := 0, idn := 0xffff, state := 0 } attr with
    | fault => exact absurd hl (attrLoop_no_fault _ (idnConfigBody_no_fault env) _ _)
    | abort p =>
      refine ⟨_, rfl, Or.inr ⟨p, ?_⟩⟩
      rw [alloc_writeRec]
    | cont p =>
      have hst : p.state = 0 :=
        attrLoop_cont_inv (idnConfigBody env) (fun q => q.state = 0)
          (fun p n v q hp hb => (idnConfigBody_state env p q n v (Or.inl hb)).trans hp)
          attr _ p rfl hl
      dsimp only
      rw [alloc_writeRec]
      by_cases h1 : p.idn = 0xffff
      · rw [if_pos h1]
        exact ⟨_, rfl, Or.inr ⟨p, rfl⟩⟩
      · rw [if_neg h1, if_pos hst]
        exact ⟨_, rfl, Or.inr ⟨p, rfl⟩⟩

/-- C27: the ranges of the fields of an `idnConfig` element.  When `sscanf`
reads the three fields of an `idn` value that starts with `S` or `P` (in either
case), a set outside `[0, 7]` or a block outside `[0, 4095]` stops the parser at
the attribute; so does, for decimal numbers that fit in an `int`, every text
`<letter>-<set>-<block>` with a set above 7 or a block above 4095; a `drive`
value outside `[0, 7]` stops the parser at the attribute; so do the empty `idn`
value and an `idn` value that starts with neither `S`, `P` nor a digit.  The
handler itself stops the parser on every attribute list. -/
theorem idnConfig_field_ranges (env : Env) (p : LCEC_CONF_IDNCONF_T) :
    (∀ (val : String) (c : Char) (rest : List Char) (pfx : Char) (set block : Int),
      val.data = c :: rest → (toupper c = 'S' ∨ toupper c = 'P') →
      sscanfIdn env.longBits val.data = (3, pfx, set, block) →
      (set < 0 ∨ set > 7 ∨ block < 0 ∨ block > 4095) →
      idnConfigBody env p "idn" val = Step.abort p) ∧
    (∀ (c : Char) (ds1 ds2 : List Char), 32 ≤ env.longBits →
      (toupper c = 'S' ∨ toupper c = 'P') → ds1 ≠ [] → ds2 ≠ [] →
      (∀ x ∈ ds1, '0' ≤ x ∧ x ≤ '9') → (∀ x ∈ ds2, '0' ≤ x ∧ x ≤ '9') →
      decimalValue ds1 < 2147483648 → decimalValue ds2 < 2147483648 →
      (decimalValue ds1 > 7 ∨ decimalValue ds2 > 4095) →
      idnConfigBody env p "idn" (String.mk (c :: '-' :: (ds1 ++ '-' :: ds2))) = Step.abort p) ∧
    (∀ val : String, (atoi env.longBits val < 0 ∨ atoi env.longBits val > 7) →
      idnConfigBody env p "drive" val = Step.abort p) ∧
    idnConfigBody env p "idn" "" = Step.abort p ∧
    (∀ (val : String) (c : Char) (rest : List Char), val.data = c :: rest →
      toupper c ≠ 'S' → toupper c ≠ 'P' → ¬ ('0' ≤ toupper c ∧ toupper c ≤ '9') →
      idnConfigBody env p "idn" val = Step.abort p) ∧
    (∀ (st : State) (attr : Attrs),
      ∃ st', parseIdnConfigAttrs env st attr = some st' ∧ st'.stopped = true) := by
  refine ⟨?_, ?_, ?_, ?_, ?_, ?_⟩
  · intro val c rest pfx set block hdata hsp hscan hout
    exact (idnConfigBody_idn env p val).1
      (idnValue_structured env.longBits val c rest pfx set block hdata hsp hscan hout)
  · intro c ds1 ds2 hL hsp hne1 hne2 hd1 hd2 hv1 hv2 hout
    refine (idnConfigBody_idn env p _).1
      (idnValue_structured env.longBits _ c ('-' :: (ds1 ++ '-' :: ds2)) c
        (decimalValue ds1 : Int) (decimalValue ds2 : Int) rfl hsp
        (sscanfIdn_structured env.longBits hL c ds1 ds2 hne1 hne2 hd1 hd2 hv1 hv2) ?_)
    rcases hout with h | h
    · exact Or.inr (Or.inl (by exact_mod_cast h))
    · exact Or.inr (Or.inr (Or.inr (by exact_mod_cast h)))
  · intro val h
    simp only [idnConfigBody, if_true]
    rw [if_pos h]
  · exact (idnConfigBody_idn env p "").1 rfl
  · intro val c rest hdata hS hP hdig
    apply (idnConfigBody_idn env p val).2
    unfold idnValue
    rw [hdata]
    dsimp only
    rw [if_neg (fun h => h.elim hS hP), if_neg hdig]
  · intro st attr
    obtain ⟨st', h, hres⟩ := parseIdnConfigAttrs_result env st attr
    refine ⟨st', h, ?_⟩
    rcases hres with rfl | ⟨q, rfl⟩ <;> rfl

theorem idnConfig_field_ranges_witness :
    ("s-8-1".data = 's' :: "-8-1".data ∧ (toupper 's' = 'S' ∨ toupper 's' = 'P') ∧
      sscanfIdn sampleEnv.longBits "s-8-1".data = (3, 's', 8, 1)) ∧
    idnConfigBody sampleEnv { drive := 0, idn := 0xffff, state := 0 } "idn" "s-8-1"
      = Step.abort { drive := 0, idn := 0xffff, state := 0 } ∧
    sscanfIdn sampleEnv.longBits "P-1--5".data = (3, 'P', 1, -5) ∧
    idnConfigBody sampleEnv { drive := 0, idn := 0xffff, state := 0 } "idn" "P-1--5"
      = Step.abort { drive := 0, idn := 0xffff, state := 0 } ∧
    (atoi sampleEnv.longBits "8" < 0 ∨ atoi sampleEnv.longBits "8" > 7) ∧
    idnConfigBody sampleEnv { drive := 0, idn := 0xffff, state := 0 } "drive" "8"
      = Step.abort { drive := 0, idn := 0xffff, state := 0 } :=
  ⟨⟨by rfl, by decide, by rfl⟩,
    (idnConfig_field_ranges sampleEnv { drive := 0, idn := 0xffff, state := 0 }).1 "s-8-1" 's'
      "-8-1".data 's' 8 1 (by rfl) (by decide) (by rfl) (by decide),
    by rfl,
    (idnConfig_field_ranges sampleEnv { drive := 0, idn := 0xffff, state := 0 }).1 "P-1--5" 'P'
      "-1--5".data 'P' 1 (-5) (by rfl) (by decide) (by rfl) (by decide),
    by decide,
    (idnConfig_field_ranges sampleEnv { drive := 0, idn := 0xffff, state := 0 }).2.2.1 "8"
      (by decide)⟩

/-- The rows of the table around the contexts of an IDN configuration. -/
theorem idn_rows :
    (∀ row ∈ xml_states, row.state_from = lcecConfTypeIdnConfig.toInt →
      row.state_to = lcecConfTypeIdnDataRaw.toInt) ∧
    (∀ row ∈ xml_states, row.state_from ≠ lcecConfTypeIdnDataRaw.toInt) ∧
    (∀ row ∈ xml_states, row.el = "idnDataRaw" →
      row.state_from = lcecConfTypeIdnConfig.toInt) := by
  refine ⟨?_, ?_, ?_⟩ <;> decide

theorem NoIdn_ctx (st0 : State) (c : LCEC_CONF_TYPE_T) (hc : st0.currIdnConf = none)
    (h1 : c.toInt ≠ lcecConfTypeIdnConfig.toInt) (h2 : c.toInt ≠ lcecConfTypeIdnDataRaw.toInt) :
    NoIdn { st0 with xmlState := c.toInt } :=
  ⟨hc, h1, h2⟩

/-- One event keeps the parser out of the contexts of an IDN configuration. -/
theorem noIdn_step (env : Env) (st : State) (ev : XmlEvent) (st1 : State) (hj : NoIdn st)
    (hd : dispatch env st ev = some st1) (hs1 : st1.stopped = false) : NoIdn st1 := by
  cases ev with
  | endElement el =>
    simp only [dispatch, Option.some.injEq] at hd
    subst hd
    unfold xml_end_handler at hs1 ⊢
    cases hle : lookupEnd xml_states st.xmlState el with
    | none => rw [hle] at hs1; cases hs1
    | some row =>
      obtain ⟨hmem, _, hto⟩ := lookupEnd_some hle
      refine ⟨hj.1, ?_, ?_⟩
      · intro hfrom
        have := idn_rows.1 row hmem hfrom
        rw [hto] at this
        exact hj.2.2 this
      · exact idn_rows.2.1 row hmem
  | startElement el attr =>
    simp only [dispatch] at hd
    have hc := xml_start_handler_cases env st st1 el attr hd hs1
    rcases hc with ⟨_, _, h⟩ | ⟨_, _, h⟩ | ⟨_, _, h⟩ | ⟨_, _, h⟩ | ⟨_, _, h⟩ |
      ⟨_, _, h⟩ | ⟨_, _, h⟩ | ⟨_, _, h⟩ | ⟨_, hx, h⟩ | ⟨_, _, h⟩ | ⟨_, _, h⟩ |
      ⟨_, _, h⟩ | ⟨_, _, h⟩ | ⟨_, _, h⟩ | ⟨_, _, h⟩ | ⟨_, _, h⟩
    · subst h
      exact NoIdn_ctx _ lcecConfTypeMasters hj.1 (by decide) (by decide)
    · obtain ⟨st0, hf, hs0, rfl⟩ := h
      obtain ⟨p, _, rfl⟩ := parseMasterAttrs_effect env st st0 attr hf hs0
      exact NoIdn_ctx _ lcecConfTypeMaster hj.1 (by decide) (by decide)
    · obtain ⟨st0, hf, hs0, rfl⟩ := h
      obtain ⟨p, ty, _, _, rfl⟩ := parseSlaveAttrs_effect env st st0 attr hf hs0
      exact NoIdn_ctx _ lcecConfTypeSlave hj.1 (by decide) (by decide)
    · obtain ⟨st0, hf, hs0, rfl⟩ := h
      obtain ⟨p, _, rfl⟩ := parseDcConfAttrs_effect env st st0 attr hf hs0
      exact NoIdn_ctx _ lcecConfTypeDcConf hj.1 (by decide) (by decide)
    · obtain ⟨st0, hf, hs0, rfl⟩ := h
      obtain ⟨p, _, rfl⟩ := parseWatchdogAttrs_effect env st st0 attr hf hs0
      exact NoIdn_ctx _ lcecConfTypeWatchdog hj.1 (by decide) (by decide)
    · obtain ⟨st0, hf, hs0, rfl⟩ := h
      obtain ⟨p, _, rfl⟩ := parseSdoConfigAttrs_effect env st st0 attr hf hs0
      exact NoIdn_ctx _ lcecConfTypeSdoConfig hj.1 (by decide) (by decide)
    · obtain ⟨st0, hf, hs0, rfl⟩ := h
      have hfr := parseDataRawAttrs_frame env st st0 attr hf hs0
      exact NoIdn_ctx _ lcecConfTypeSdoDataRaw (hfr.2.2.2.2.2.2.2.2.2.2.trans hj.1) (by decide) (by decide)
    · obtain ⟨st0, hf, hs0, _⟩ := h
      rw [parseIdnConfigAttrs_stops env st st0 attr hf] at hs0
      cases hs0
    · exact absurd hx hj.2.1
    · obtain ⟨st0, hf, hs0, rfl⟩ := h
      obtain ⟨f, _, _, _, rfl⟩ := parseInitCmdsAttrs_effect env st st0 attr hf hs0
      exact NoIdn_ctx _ lcecConfTypeInitCmds hj.1 (by decide) (by decide)
    · obtain ⟨st0, hf, hs0, rfl⟩ := h
      obtain ⟨p, sl, _, _, _, rfl⟩ := parseSyncManagerAttrs_effect env st st0 attr hf hs0
      exact NoIdn_ctx _ lcecConfTypeSyncManager hj.1 (by decide) (by decide)
    · obtain ⟨st0, hf, hs0, rfl⟩ := h
      obtain ⟨p, _, rfl⟩ := parsePdoAttrs_effect env st st0 attr hf hs0
      exact NoIdn_ctx _ lcecConfTypePdo hj.1 (by decide) (by decide)
    · obtain ⟨st0, hf, hs0, rfl⟩ := h
      obtain ⟨p, fr, _, rfl⟩ := parsePdoEntryAttrs_effect env st st0 attr hf hs0
      exact NoIdn_ctx _ lcecConfTypePdoEntry hj.1 (by decide) (by decide)
    · obtain ⟨st0, hf, hs0, rfl⟩ := h
      obtain ⟨p, fr, _, rfl⟩ := parseComplexEntryAttrs_effect env st st0 attr hf hs0
      exact NoIdn_ctx _ lcecConfTypeComplexEntry hj.1 (by decide) (by decide)
    · obtain ⟨st0, hf, hs0, rfl⟩ := h
      obtain ⟨m, rfl⟩ := parseModParamAttrs_effect env st st0 attr hf hs0
      exact NoIdn_ctx _ lcecConfTypeModParam hj.1 (by decide) (by decide)
    · subst h
      exact hj

/-- A parse from the initial state that was not stopped has no current IDN
configuration and stands outside the contexts of an IDN configuration. -/
theorem XML_Parse_noIdn (env : Env) (mem : Nat) (evs : List XmlEvent) (st : State)
    (h : XML_Parse env (initState mem) evs = some st) (hs : st.stopped = false) : NoIdn st :=
  XML_Parse_fold env (fun st (_ : Unit) => NoIdn st) (fun a _ => a)
    (fun st _ ev st1 hj _ hd hs1 => noIdn_step env st ev st1 hj hd hs1)
    evs (initState mem) () st
    ⟨rfl, (by decide : (0 : Int) ≠ lcecConfTypeIdnConfig.toInt),
      (by decide : (0 : Int) ≠ lcecConfTypeIdnDataRaw.toInt)⟩ h hs

/-- The handler of the row the table has for an `idnConfig` element is
`parseIdnConfigAttrs`, and the row leads to the context of an IDN
configuration. -/
theorem idnConfig_row (s : Int) (row : LCEC_CONF_XML_HANLDER_T)
    (h : lookupStart xml_states s "idnConfig" = some row) :
    row.start_handler = some parseIdnConfigAttrs := by
  obtain ⟨hmem, hel⟩ := lookupStart_some h
  simp only [xml_states, List.mem_cons, List.mem_singleton, List.not_mem_nil, or_false] at hmem
  rcases hmem with h | h | h | h | h | h | h | h | h | h | h | h | h | h | h | h <;> subst h <;>
    first
      | rfl
      | exact absurd hel (by decide)

/-- C29: `parseIdnConfigAttrs` returns on every attribute list, and what it
returns has the parser stopped: no `idnConfig` element is accepted.  It leaves
`currIdnConf`, `currSlave` and the slave records of the buffer.  Hence a parse
that was not stopped has no current IDN configuration and stands in neither of
the two contexts of an IDN configuration, and an `idnConfig` or `idnDataRaw`
element that follows it stops the parser and leaves the slave records: no
`idnConfigLength` is increased by such an element. -/
theorem idnConfig_never_accepted (env : Env) :
    (∀ (st : State) (attr : Attrs),
      ∃ st', parseIdnConfigAttrs env st attr = some st' ∧ st'.stopped = true ∧
        st'.currIdnConf = st.currIdnConf ∧ st'.currSlave = st.currSlave ∧
        slaveRecs st'.outputBuf = slaveRecs st.outputBuf) ∧
    (∀ (mem : Nat) (evs : List XmlEvent) (st : State),
      XML_Parse env (initState mem) evs = some st → st.stopped = false →
      st.currIdnConf = none ∧ st.xmlState ≠ lcecConfTypeIdnConfig.toInt ∧
        st.xmlState ≠ lcecConfTypeIdnDataRaw.toInt) ∧
    (∀ (mem : Nat) (evs : List XmlEvent) (st : State) (el : String) (attr : Attrs),
      XML_Parse env (initState mem) evs = some st → st.stopped = false →
      el = "idnConfig" ∨ el = "idnDataRaw" →
      ∃ st', xml_start_handler env st el attr = some st' ∧ st'.stopped = true ∧
        st'.currIdnConf = none ∧ slaveRecs st'.outputBuf = slaveRecs st.outputBuf) := by
  have hhandler : ∀ (st : State) (attr : Attrs),
      ∃ st', parseIdnConfigAttrs env st attr = some st' ∧ st'.stopped = true ∧
        st'.currIdnConf = st.currIdnConf ∧ st'.currSlave = st.currSlave ∧
        slaveRecs st'.outputBuf = slaveRecs st.outputBuf := by
    intro st attr
    obtain ⟨st', h, hres⟩ := parseIdnConfigAttrs_result env st attr
    refine ⟨st', h, ?_⟩
    rcases hres with rfl | ⟨q, rfl⟩
    · exact ⟨rfl, rfl, rfl, rfl⟩
    · refine ⟨rfl, rfl, rfl, ?_⟩
      show slaveRecs (st.outputBuf ++ [ConfRec.idnConf q]) = slaveRecs st.outputBuf
      unfold slaveRecs
      rw [List.filterMap_append]
      exact List.append_nil _
  refine ⟨hhandler, ?_, ?_⟩
  · intro mem evs st h hs
    exact XML_Parse_noIdn env mem evs st h hs
  · intro mem evs st el attr h hs hel
    obtain ⟨j1, j2, _⟩ := XML_Parse_noIdn env mem evs st h hs
    unfold xml_start_handler
    cases hrow : lookupStart xml_states st.xmlState el with
    | none => exact ⟨_, rfl, rfl, j1, rfl⟩
    | some row =>
      dsimp only
      rcases hel with rfl | rfl
      · rw [idnConfig_row _ row hrow]
        dsimp only
        obtain ⟨st', h', hs', hc', _, hb'⟩ := hhandler st attr
        rw [h']
        exact ⟨_, rfl, hs', hc'.trans j1, hb'⟩
      · exfalso
        obtain ⟨hmem, hel'⟩ := lookupStart_some hrow
        have := idn_rows.2.2 row hmem hel'
        rw [lookupStart_from hrow] at this
        exact j2 this

theorem idnConfig_never_accepted_witness :
    (∃ st, XML_Parse sampleEnv (initState 100000) sampleDoc.events = some st ∧
      st.stopped = false) ∧
    ∃ st', xml_start_handler sampleEnv
        ((XML_Parse sampleEnv (initState 100000)
          [XmlEvent.startElement "masters" [], XmlEvent.startElement "master" [],
           XmlEvent.startElement "slave" [("type", "generic")]]).getD {})
        "idnConfig" [("drive", "1"), ("idn", "S-0-1"), ("state", "PREOP")] = some st' ∧
      st'.stopped = true ∧ st'.currIdnConf = none ∧
      slaveRecs st'.outputBuf = [{ typename := "generic", name := "0" }] :=
  ⟨⟨_, by rfl, by rfl⟩,
    Exists.imp (fun _ h => ⟨h.1, h.2.1, h.2.2.1, h.2.2.2.trans (by rfl)⟩)
      ((idnConfig_never_accepted sampleEnv).2.2 100000
        [XmlEvent.startElement "masters" [], XmlEvent.startElement "master" [],
         XmlEvent.startElement "slave" [("type", "generic")]] _ "idnConfig"
        [("drive", "1"), ("idn", "S-0-1"), ("state", "PREOP")] (by rfl) (by rfl) (Or.inl rfl))⟩

/-- One pass of the attribute loop of `parseComplexEntryAttrs` reads of the
state the bit length of the current `pdoEntry` and the bit offset only. -/
theorem complexEntryBody_congr (env : Env) (st st2 : State)
    (parent parent2 : LCEC_CONF_PDOENTRY_T)
    (hp : st.pdoEntry = some parent) (hp2 : st2.pdoEntry = some parent2)
    (hb : parent2.bitLength = parent.bitLength)
    (ho : st2.currComplexBitOffset = st.currComplexBitOffset) :
    complexEntryBody env st2 = complexEntryBody env st := by
  funext p n v
  unfold complexEntryBody
  rw [hp, hp2]
  dsimp only
  rw [hb, ho]

/-- C25: `parseComplexEntryAttrs` does not look at the kind of the `pdoEntry`
the element stands in.  Two states that differ in the kind (and in anything but
the bit length) of the current `pdoEntry` accept the same `complexEntry`
elements; and the sample document, whose `pdoEntry` has `halType="u32"` and a
`complexEntry` child, is compiled: the record of the `pdoEntry` has the kind
`lcecPdoEntTypeSimple`, and the record of the `complexEntry` follows it. -/
theorem complexEntry_parent_kind_unchecked (env : Env) (st st2 : State) (attr : Attrs)
    (parent parent2 : LCEC_CONF_PDOENTRY_T)
    (hp : st.pdoEntry = some parent) (hp2 : st2.pdoEntry = some parent2)
    (hb : parent2.bitLength = parent.bitLength)
    (hs : st2.stopped = st.stopped) (hm : st2.freeMem = st.freeMem)
    (ho : st2.currComplexBitOffset = st.currComplexBitOffset)
    (hsl : st2.slave.isSome = st.slave.isSome) :
    ((∃ st1, parseComplexEntryAttrs env st attr = some st1 ∧ st1.stopped = false) ↔
      (∃ st1, parseComplexEntryAttrs env st2 attr = some st1 ∧ st1.stopped = false)) ∧
    (∃ hdr st, compile sampleEnv 100000 sampleSimpleParentDoc
        = some (some (hdr, st.outputBuf ++ [ConfRec.null])) ∧
      XML_Parse sampleEnv (initState 100000) sampleSimpleParentDoc.events = some st ∧
      st.stopped = false ∧
      st.outputBuf.drop 4
        = [ConfRec.pdoEntry { index := 0x7000, subindex := 1, bitLength := 16,
                              subType := lcecPdoEntTypeSimple, halType := HAL_U32,
                              halPin := "word" },
           ConfRec.complexEntry { bitOffset := 0, bitLength := 4,
                                  subType := lcecPdoEntTypeSimple, halType := HAL_BIT,
                                  halPin := "a" }]) := by
  refine ⟨?_, ⟨_, _, by rfl, by rfl, by rfl, by rfl⟩⟩
  rw [parseComplexEntryAttrs_accept_iff, parseComplexEntryAttrs_accept_iff,
    complexEntryBody_congr env st st2 parent parent2 hp hp2 hb ho, hs, hm, ho, hsl]

theorem complexEntry_parent_kind_unchecked_witness :
    sampleStatePdoEntry.pdoEntry
      = some { index := 0x7000, subindex := 1, bitLength := 16,
               subType := lcecPdoEntTypeComplex } ∧
    sampleStatePdoEntrySimple.pdoEntry
      = some { index := 0x7000, subindex := 1, bitLength := 16,
               subType := lcecPdoEntTypeSimple, halType := HAL_U32 } ∧
    (∃ st1, parseComplexEntryAttrs sampleEnv sampleStatePdoEntry
        [("bitLen", "4"), ("halType", "bit"), ("halPin", "a")] = some st1 ∧
      st1.stopped = false) ∧
    ((∃ st1, parseComplexEntryAttrs sampleEnv sampleStatePdoEntry
        [("bitLen", "4"), ("halType", "bit"), ("halPin", "a")] = some st1 ∧
        st1.stopped = false) ↔
      (∃ st1, parseComplexEntryAttrs sampleEnv sampleStatePdoEntrySimple
        [("bitLen", "4"), ("halType", "bit"), ("halPin", "a")] = some st1 ∧
        st1.stopped = false)) :=
  ⟨by rfl, by rfl, ⟨_, by rfl, by rfl⟩,
    (complexEntry_parent_kind_unchecked sampleEnv sampleStatePdoEntry sampleStatePdoEntrySimple
      [("bitLen", "4"), ("halType", "bit"), ("halPin", "a")]
      { index := 0x7000, subindex := 1, bitLength := 16, subType := lcecPdoEntTypeComplex }
      { index := 0x7000, subindex := 1, bitLength := 16, subType := lcecPdoEntTypeSimple,
        halType := HAL_U32 } (by rfl) (by rfl) rfl (by rfl) (by rfl) (by rfl) (by rfl)).1⟩

theorem keepsKind_mapSlave (f : LCEC_CONF_SLAVE_T → LCEC_CONF_SLAVE_T) :
    KeepsKind (ConfRec.mapSlave f) := by
  intro r
  cases r <;> exact ⟨rfl, rfl, rfl, rfl, rfl, rfl⟩

theorem Below_left {parent ref : Option Nat} (h : Below parent ref) : parent.isSome = true := by
  obtain ⟨l, i, rfl, _, _⟩ := h
  rfl

theorem slave_isSome_kind (st : State)
    (h : HasRec (fun r => r.isSlave = true) st.currSlave st.outputBuf) :
    st.slave.isSome = true := by
  obtain ⟨k, r, hi, hg, hk⟩ := h
  unfold State.slave
  rw [hi]
  dsimp only
  rw [hg]
  cases r <;> first | rfl | cases hk

theorem syncManager_isSome_kind (st : State)
    (h : HasRec (fun r => r.isSyncManager = true) st.currSyncManager st.outputBuf) :
    st.syncManager.isSome = true := by
  obtain ⟨k, r, hi, hg, hk⟩ := h
  unfold State.syncManager
  rw [hi]
  dsimp only
  rw [hg]
  cases r <;> first | rfl | cases hk

/-- An assignment through `currSlave` goes through in a state whose buffer
grew from one in which `currSlave` points to a slave record. -/
theorem updSlave_ne_none (st S : State) (f : LCEC_CONF_SLAVE_T → LCEC_CONF_SLAVE_T)
    (new : List ConfRec) (hc : S.currSlave = st.currSlave)
    (hb : S.outputBuf = st.outputBuf ++ new)
    (hsl : HasRec (fun r => r.isSlave = true) st.currSlave st.outputBuf) :
    S.updSlave f ≠ none := by
  have h : S.slave.isSome = true :=
    slave_isSome_kind S (by rw [hc, hb]; exact HasRec_append _ hsl)
  rw [updSlave_total f h]
  exact Option.some_ne_none _

/-- An assignment through `currSyncManager` goes through after an assignment
through `currSlave` in a state whose buffer grew from one in which
`currSyncManager` points to a sync manager record. -/
theorem updSyncManager_ne_none (st S S2 : State)
    (f : LCEC_CONF_SLAVE_T → LCEC_CONF_SLAVE_T)
    (g : LCEC_CONF_SYNCMANAGER_T → LCEC_CONF_SYNCMANAGER_T)
    (new : List ConfRec) (hc : S.currSyncManager = st.currSyncManager)
    (hb : S.outputBuf = st.outputBuf ++ new) (hu : S.updSlave f = some S2)
    (hsm : HasRec (fun r => r.isSyncManager = true) st.currSyncManager st.outputBuf) :
    S2.updSyncManager g ≠ none := by
  have hS2 := updSlave_modAt hu
  have h : S2.syncManager.isSome = true := by
    apply syncManager_isSome_kind
    rw [hS2]
    show HasRec _ S.currSyncManager (modAt S.currSlave (ConfRec.mapSlave f) S.outputBuf)
    rw [hc, hb]
    exact HasRec_modAt _ _ (fun r hr => ((keepsKind_mapSlave _ r).2.2.1).trans hr)
      (HasRec_append _ hsm)
  obtain ⟨m, hm⟩ := Option.isSome_iff_exists.mp h
  unfold State.updSyncManager
  rw [hm]
  unfold State.syncManager at hm
  split at hm
  · cases hm
  · rename_i i hi
    rw [hi]
    exact Option.some_ne_none _

theorem idn_or_add (s b : Nat) (hb : b < 4096) : s <<< 12 ||| b = 4096 * s + b := by
  have h := Nat.mul_add_lt_is_or (i := 12) (b := b) (by simpa using hb) s
  rw [Nat.shiftLeft_eq, Nat.mul_comm s (2 ^ 12), ← h]

theorem or30_lt (b : Nat) (hb : b < 4096) : b ||| 30 < 4096 :=
  Nat.or_lt_two_pow (n := 12) hb (by decide)

/-- The value `parseIdnConfigAttrs` computes for the text `<c>-<set>-<block>`
with `c` one of `S` and `P`, a set of at most 7 and a block of at most 4095. -/
theorem idnValue_letter (L : Nat) (hL : 32 ≤ L) (c : Char) (hc : c = 'S' ∨ c = 'P')
    (ds1 ds2 : List Char) (hne1 : ds1 ≠ []) (hne2 : ds2 ≠ [])
    (hd1 : ∀ x ∈ ds1, '0' ≤ x ∧ x ≤ '9') (hd2 : ∀ x ∈ ds2, '0' ≤ x ∧ x ≤ '9')
    (h1 : decimalValue ds1 ≤ 7) (h2 : decimalValue ds2 ≤ 4095) :
    idnValue L (String.mk (c :: '-' :: (ds1 ++ '-' :: ds2)))
      = some (((4096 * decimalValue ds1 +
          (if c = 'P' then decimalValue ds2 ||| 30 else decimalValue ds2) : Nat)) : Int) := by
  have hscan := sscanfIdn_structured L hL c ds1 ds2 hne1 hne2 hd1 hd2 (by omega) (by omega)
  have hsp : toupper c = 'S' ∨ toupper c = 'P' := by
    rcases hc with rfl | rfl
    · exact Or.inl (by decide)
    · exact Or.inr (by decide)
  have hdata : (String.mk (c :: '-' :: (ds1 ++ '-' :: ds2))).data
      = c :: '-' :: (ds1 ++ '-' :: ds2) := rfl
  unfold idnValue
  rw [hdata, hscan]
  dsimp only
  rw [if_pos hsp, if_pos rfl, if_neg (by omega), if_neg (by omega)]
  simp only [Int.toNat_ofNat]
  rcases hc with rfl | rfl
  · rw [if_neg (by decide), if_neg (by decide), idn_or_add _ _ (by omega)]
  · rw [if_pos rfl, if_pos rfl, Nat.or_assoc]
    have h30 : (15 <<< 1 : Nat) = 30 := by decide
    rw [h30, idn_or_add (decimalValue ds1) (decimalValue ds2 ||| 30) (or30_lt _ (by omega))]
/-- C31: the value `parseIdnConfigAttrs` computes for a structured `idn` text
`<letter>-<set>-<block>` with the letter `S` or `P`, a set in `[0, 7]` and a
block in `[0, 4095]` is `4096 * set + block` for `S` and
`4096 * set + (block | 30)` for `P`: the source sets the bits `15 << 1`, not the
bit `1 << 15`.  The value is below `0x8000`, so it is never the marker `0xffff`,
and the values of two `S` texts agree only for the same set and block.  But two
texts have the same value whenever the sets agree and the blocks agree after
`| 30` is applied to the block of a `P` text: `P-0-0` and `S-0-30` both give 30,
`P-0-1` and `P-0-31` both give 31. -/
theorem idn_encoding_collides (L : Nat) (hL : 32 ≤ L) (c c2 : Char)
    (hc : c = 'S' ∨ c = 'P') (hc2 : c2 = 'S' ∨ c2 = 'P')
    (ds1 ds2 es1 es2 : List Char)
    (hne1 : ds1 ≠ []) (hne2 : ds2 ≠ []) (hne3 : es1 ≠ []) (hne4 : es2 ≠ [])
    (hd1 : ∀ x ∈ ds1, '0' ≤ x ∧ x ≤ '9') (hd2 : ∀ x ∈ ds2, '0' ≤ x ∧ x ≤ '9')
    (hd3 : ∀ x ∈ es1, '0' ≤ x ∧ x ≤ '9') (hd4 : ∀ x ∈ es2, '0' ≤ x ∧ x ≤ '9')
    (h1 : decimalValue ds1 ≤ 7) (h2 : decimalValue ds2 ≤ 4095)
    (h3 : decimalValue es1 ≤ 7) (h4 : decimalValue es2 ≤ 4095) :
    idnValue L (String.mk (c :: '-' :: (ds1 ++ '-' :: ds2)))
      = some (((4096 * decimalValue ds1 +
          (if c = 'P' then decimalValue ds2 ||| 30 else decimalValue ds2) : Nat)) : Int) ∧
    (∀ v, idnValue L (String.mk (c :: '-' :: (ds1 ++ '-' :: ds2))) = some v →
      0 ≤ v ∧ v < 0x8000 ∧ v ≠ 0xffff) ∧
    (idnValue L (String.mk (c :: '-' :: (ds1 ++ '-' :: ds2)))
        = idnValue L (String.mk (c2 :: '-' :: (es1 ++ '-' :: es2))) ↔
      decimalValue ds1 = decimalValue es1 ∧
      (if c = 'P' then decimalValue ds2 ||| 30 else decimalValue ds2)
        = (if c2 = 'P' then decimalValue es2 ||| 30 else decimalValue es2)) ∧
    (c = 'S' → c2 = 'S' →
      idnValue L (String.mk (c :: '-' :: (ds1 ++ '-' :: ds2)))
        = idnValue L (String.mk (c2 :: '-' :: (es1 ++ '-' :: es2))) →
      decimalValue ds1 = decimalValue es1 ∧ decimalValue ds2 = decimalValue es2) ∧
    (idnValue L "P-0-0" = some 30 ∧ idnValue L "S-0-30" = some 30) ∧
    (idnValue L "P-0-1" = some 31 ∧ idnValue L "P-0-31" = some 31) ∧
    (idnValue L "P-7-4095" = some 0x7fff ∧ idnValue L "S-7-4095" = some 0x7fff) := by
  have e1 := idnValue_letter L hL c hc ds1 ds2 hne1 hne2 hd1 hd2 h1 h2
  have e2 := idnValue_letter L hL c2 hc2 es1 es2 hne3 hne4 hd3 hd4 h3 h4
  have b1 : (if c = 'P' then decimalValue ds2 ||| 30 else decimalValue ds2) < 4096 := by
    split_ifs
    · exact or30_lt _ (by omega)
    · omega
  have b2 : (if c2 = 'P' then decimalValue es2 ||| 30 else decimalValue es2) < 4096 := by
    split_ifs
    · exact or30_lt _ (by omega)
    · omega
  have hiff : idnValue L (String.mk (c :: '-' :: (ds1 ++ '-' :: ds2)))
        = idnValue L (String.mk (c2 :: '-' :: (es1 ++ '-' :: es2))) ↔
      decimalValue ds1 = decimalValue es1 ∧
      (if c = 'P' then decimalValue ds2 ||| 30 else decimalValue ds2)
        = (if c2 = 'P' then decimalValue es2 ||| 30 else decimalValue es2) := by
    rw [e1, e2, Option.some.injEq, Nat.cast_inj]
    generalize (if c = 'P' then decimalValue ds2 ||| 30 else decimalValue ds2) = x at b1 ⊢
    generalize (if c2 = 'P' then decimalValue es2 ||| 30 else decimalValue es2) = y at b2 ⊢
    omega
  refine ⟨e1, ?_, hiff, ?_, ⟨?_, ?_⟩, ⟨?_, ?_⟩, ⟨?_, ?_⟩⟩
  · intro v hv
    rw [e1, Option.some.injEq] at hv
    subst hv
    generalize (if c = 'P' then decimalValue ds2 ||| 30 else decimalValue ds2) = x at b1 ⊢
    refine ⟨by omega, by omega, by omega⟩
  · intro hs hs2 heq
    have := hiff.mp heq
    rw [hs, hs2, if_neg (by decide), if_neg (by decide)] at this
    exact this
  · exact (idnValue_letter L hL 'P' (Or.inr rfl) ['0'] ['0'] (by simp) (by simp)
      (by decide) (by decide) (by decide) (by decide)).trans (by rfl)
  · exact (idnValue_letter L hL 'S' (Or.inl rfl) ['0'] ['3', '0'] (by simp) (by simp)
      (by decide) (by decide) (by decide) (by decide)).trans (by rfl)
  · exact (idnValue_letter L hL 'P' (Or.inr rfl) ['0'] ['1'] (by simp) (by simp)
      (by decide) (by decide) (by decide) (by decide)).trans (by rfl)
  · exact (idnValue_letter L hL 'P' (Or.inr rfl) ['0'] ['3', '1'] (by simp) (by simp)
      (by decide) (by decide) (by decide) (by decide)).trans (by rfl)
  · exact (idnValue_letter L hL 'P' (Or.inr rfl) ['7'] ['4', '0', '9', '5'] (by simp) (by simp)
      (by decide) (by decide) (by decide) (by decide)).trans (by rfl)
  · exact (idnValue_letter L hL 'S' (Or.inl rfl) ['7'] ['4', '0', '9', '5'] (by simp) (by simp)
      (by decide) (by decide) (by decide) (by decide)).trans (by rfl)

theorem idn_encoding_collides_witness :
    (32 ≤ sampleEnv.longBits ∧ decimalValue ['0'] = 0 ∧ decimalValue ['3', '0'] = 30) ∧
    idnValue sampleEnv.longBits "P-0-0" = idnValue sampleEnv.longBits "S-0-30" ∧
    idnConfigBody sampleEnv { drive := 0, idn := 0xffff, state := 0 } "idn" "P-0-0"
      = Step.cont { drive := 0, idn := 30, state := 0 } ∧
    idnConfigBody sampleEnv { drive := 0, idn := 0xffff, state := 0 } "idn" "S-0-30"
      = Step.cont { drive := 0, idn := 30, state := 0 } :=
  ⟨⟨by decide, by decide, by decide⟩,
    (idn_encoding_collides sampleEnv.longBits (by decide) 'P' 'S' (Or.inr rfl) (Or.inl rfl)
      ['0'] ['0'] ['0'] ['3', '0'] (by simp) (by simp) (by simp) (by simp)
      (by decide) (by decide) (by decide) (by decide)
      (by decide) (by decide) (by decide) (by decide)).2.2.1.mpr ⟨by decide, by decide⟩,
    by rfl, by rfl⟩
/-- A field that starts as the marker `m`, that every pass of the attribute `N`
sets to another value and no other pass writes, is the marker after the loop
exactly when the attribute `N` is absent. -/
theorem attrLoop_marker {P F : Type} (body : P → String → String → Step P) (proj : P → F)
    (N : String) (m : F)
    (hat : ∀ p v q, body p N v = Step.cont q → proj q ≠ m)
    (hother : ∀ p n v q, n ≠ N → body p n v = Step.cont q → proj q = proj p)
    (attrs : Attrs) (p q : P) (h0 : proj p = m) (h : attrLoop body p attrs = Step.cont q) :
    proj q = m ↔ ∀ a ∈ attrs, a.1 ≠ N := by
  constructor
  · intro hq a ha hname
    have hmem : (N, a.2) ∈ attrs := by
      rw [← hname]
      exact ha
    have := attrLoop_established body (fun q => proj q ≠ m) N a.2
      (fun p q hb => hat p a.2 q hb)
      (fun p n v q hp hb => by
        by_cases hn : n = N
        · subst hn
          exact hat p v q hb
        · show proj q ≠ m
          rw [hother p n v q hn hb]
          exact hp) attrs p q hmem h
    exact this hq
  · intro hno
    rw [attrLoop_frame body proj N hother attrs p q hno h]
    exact h0

theorem sdoConfigBody_idx_set (env : Env) (p q : LCEC_CONF_SDOCONF_T) (v : String)
    (h : sdoConfigBody env p "idx" v = Step.cont q) : q.index ≠ 0xffff := by
  rw [sdoConfigBody_idx] at h
  split_ifs at h with hc
  cases h
  dsimp only
  omega

theorem sdoConfigBody_subIdx_set (env : Env) (hsent : env.sdoCompleteIsSentinel)
    (p q : LCEC_CONF_SDOCONF_T) (v : String)
    (h : sdoConfigBody env p "subIdx" v = Step.cont q) : q.subindex ≠ 0xff := by
  unfold sdoConfigBody at h
  simp only [String.reduceEq, if_false, if_true] at h
  split_ifs at h with h1 h2
  · cases h
    dsimp only
    rcases hsent with hs | hs <;> omega
  · cases h
    dsimp only
    omega

theorem pdoBody_idx_set (env : Env) (p q : LCEC_CONF_PDO_T) (v : String)
    (h : pdoBody env p "idx" v = Step.cont q) : q.index ≠ 0xffff := by
  rw [pdoBody_idx] at h
  split_ifs at h with hc
  cases h
  dsimp only
  omega

theorem pdoBody_index_other (env : Env) (p : LCEC_CONF_PDO_T) (n v : String)
    (q : LCEC_CONF_PDO_T) (hn : n ≠ "idx") (h : pdoBody env p n v = Step.cont q) :
    q.index = p.index := by
  unfold pdoBody at h
  rw [if_neg hn] at h
  cases h

theorem pdoEntryBody_idx_set (env : Env) (p q : LCEC_CONF_PDOENTRY_T × Bool) (v : String)
    (h : pdoEntryBody env p "idx" v = Step.cont q) : q.1.index ≠ 0xffff := by
  rw [pdoEntryBody_idx] at h
  split_ifs at h with hc
  cases h
  dsimp only
  omega

theorem pdoEntryBody_subIdx_set (env : Env) (p q : LCEC_CONF_PDOENTRY_T × Bool) (v : String)
    (h : pdoEntryBody env p "subIdx" v = Step.cont q) : q.1.subindex ≠ 0xff := by
  rw [pdoEntryBody_subIdx] at h
  split_ifs at h with hc
  cases h
  dsimp only
  omega

theorem pdoEntryBody_bitLen_set (env : Env) (hmax : env.LCEC_CONF_GENERIC_MAX_BITLEN ≤ 255)
    (p q : LCEC_CONF_PDOENTRY_T × Bool) (v : String)
    (h : pdoEntryBody env p "bitLen" v = Step.cont q) : q.1.bitLength ≠ 0 := by
  rw [pdoEntryBody_bitLen] at h
  split_ifs at h with hc
  cases h
  dsimp only
  rw [toUInt8_of_range (by omega) (by omega)]
  omega

theorem complexEntryBody_bitLen_set (env : Env) (hmax : env.LCEC_CONF_GENERIC_MAX_SUBPINS ≤ 255)
    (st : State) (p q : LCEC_CONF_COMPLEXENTRY_T × Bool) (v : String)
    (h : complexEntryBody env st p "bitLen" v = Step.cont q) : q.1.bitLength ≠ 0 := by
  unfold complexEntryBody at h
  simp only [if_true] at h
  split_ifs at h with hc
  split at h
  · cases h
  · split_ifs at h
    cases h
    dsimp only
    rw [toUInt8_of_range (by omega) (by omega)]
    omega

theorem syncManagerBody_idx_set (env : Env) (p q : LCEC_CONF_SYNCMANAGER_T) (v : String)
    (h : syncManagerBody env p "idx" v = Step.cont q) : q.index ≠ 0xff := by
  unfold syncManagerBody at h
  simp only [if_true] at h
  split_ifs at h with hc
  cases h
  dsimp only
  unfold EC_MAX_SYNC_MANAGERS at hc
  omega

theorem syncManagerBody_dir_set (env : Env) (p q : LCEC_CONF_SYNCMANAGER_T) (v : String)
    (h : syncManagerBody env p "dir" v = Step.cont q) : q.dir ≠ EC_DIR_INVALID := by
  unfold syncManagerBody at h
  simp only [String.reduceEq, if_false, if_true] at h
  split_ifs at h
  · cases h
    intro hd
    cases hd
  · cases h
    intro hd
    cases hd
/-- The handler `parsePdoAttrs` accepts the element when the loop has run
through and has left an index other than the marker. -/
theorem parsePdoAttrs_accepts (env : Env) (st : State) (attr : Attrs) (p : LCEC_CONF_PDO_T)
    (hst : st.stopped = false) (hmem : env.sizeof lcecConfTypePdo ≤ st.freeMem)
    (hsl : HasRec (fun r => r.isSlave = true) st.currSlave st.outputBuf)
    (hsm : HasRec (fun r => r.isSyncManager = true) st.currSyncManager st.outputBuf)
    (hl : attrLoop (pdoBody env) { index := 0xffff } attr = Step.cont p)
    (hidx : p.index ≠ 0xffff) :
    ∃ st1, parsePdoAttrs env st attr = some st1 ∧ st1.stopped = false := by
  unfold parsePdoAttrs
  split
  · rename_i h0
    rw [addOutputBuffer_of_le _ hmem] at h0
    cases h0
  · rename_i st1 halloc
    obtain ⟨_, rfl⟩ := addOutputBuffer_alloc halloc
    dsimp only
    rw [hl]
    dsimp only
    rw [alloc_writeRec, if_neg hidx]
    split
    · rename_i hu
      exact absurd hu (updSlave_ne_none st _ _ [ConfRec.pdo p] (by rfl) (by rfl) hsl)
    · rename_i st3 hu
      split
      · rename_i hu2
        exact absurd hu2 (updSyncManager_ne_none st _ st3 _ _ [ConfRec.pdo p] (by rfl) (by rfl)
          hu hsm)
      · rename_i st4 hu2
        refine ⟨_, rfl, ?_⟩
        show st4.stopped = false
        rw [updSyncManager_modAt hu2]
        show st3.stopped = false
        rw [updSlave_stopped hu]
        exact hst

/-- The handler `parseSyncManagerAttrs` accepts the element of a generic slave
when the loop has run through and has left an index and a direction other than
the markers. -/
theorem parseSyncManagerAttrs_accepts (env : Env) (st : State) (attr : Attrs)
    (p : LCEC_CONF_SYNCMANAGER_T) (sl : LCEC_CONF_SLAVE_T)
    (hst : st.stopped = false) (hmem : env.sizeof lcecConfTypeSyncManager ≤ st.freeMem)
    (hsl : st.slave = some sl) (hgen : sl.typename = "generic")
    (hl : attrLoop (syncManagerBody env) { index := 0xff, dir := EC_DIR_INVALID } attr
      = Step.cont p)
    (hidx : p.index ≠ 0xff) (hdir : p.dir ≠ EC_DIR_INVALID) :
    ∃ st1, parseSyncManagerAttrs env st attr = some st1 ∧ st1.stopped = false := by
  have hsome : st.slave.isSome = true := by rw [hsl]; rfl
  unfold parseSyncManagerAttrs
  split
  · rename_i h0
    rw [hsl] at h0
    cases h0
  · rename_i sl2 h0
    rw [hsl] at h0
    cases h0
    rw [if_neg (by simpa using hgen)]
    split
    · rename_i h1
      rw [addOutputBuffer_of_le _ hmem] at h1
      cases h1
    · rename_i st1 halloc
      obtain ⟨_, rfl⟩ := addOutputBuffer_alloc halloc
      dsimp only
      rw [hl]
      dsimp only
      rw [alloc_writeRec, if_neg hidx, if_neg hdir]
      split
      · rename_i hu
        have hs2 := slave_of_snoc st (st.alloc (env.sizeof lcecConfTypeSyncManager)
          (ConfRec.syncManager p)) (ConfRec.syncManager p) rfl rfl (by intro s h; cases h)
        rw [updSlave_total _ (hs2.trans hsl ▸ rfl)] at hu
        cases hu
      · rename_i st3 hu
        refine ⟨_, rfl, ?_⟩
        show st3.stopped = false
        rw [updSlave_stopped hu]
        exact hst
theorem slave_kind_of_isSome (st : State) (h : st.slave.isSome = true) :
    HasRec (fun r => r.isSlave = true) st.currSlave st.outputBuf := by
  obtain ⟨k, r, hi, hg, s, rfl⟩ := (slave_isSome_iff st).mp h
  exact ⟨k, _, hi, hg, rfl⟩

theorem syncManager_kind_of_isSome (st : State) (h : st.syncManager.isSome = true) :
    HasRec (fun r => r.isSyncManager = true) st.currSyncManager st.outputBuf := by
  unfold State.syncManager at h
  split at h
  · cases h
  · rename_i i hi
    split at h
    · rename_i m hg
      exact ⟨i, _, hi, hg, rfl⟩
    · cases h

/-- C32: the markers of missing attributes never collide with an accepted
value.  When the attribute loop of `parseSdoConfigAttrs`, `parsePdoAttrs`,
`parsePdoEntryAttrs`, `parseComplexEntryAttrs` or `parseSyncManagerAttrs` has
run through the attribute list (every supplied attribute has passed its check),
the test the handler makes for a missing `idx` (`index == 0xffff`, for a sync
manager `index == 0xff`), `subIdx` (`subindex == 0xff`), `bitLen`
(`bitLength == 0`) or `dir` (`dir == EC_DIR_INVALID`) is true exactly when the
attribute list has no attribute of that name.  Hence, in a state that is not
stopped, has the memory for the record and the back-references the handler goes
through, a list that has run through the loop and holds the mandatory attributes
is accepted (for `pdoEntry` and `complexEntry`: unless one of the two tests on
the kind stops the parser).  The bounds `LCEC_CONF_GENERIC_MAX_BITLEN` and
`LCEC_CONF_GENERIC_MAX_SUBPINS` are taken to fit the `uint8_t` field
`bitLength`, and `LCEC_CONF_SDO_COMPLETE_SUBIDX` to be no value of a byte. -/
theorem markers_never_collide (env : Env) (attr : Attrs)
    (hsent : env.sdoCompleteIsSentinel)
    (hbit : env.LCEC_CONF_GENERIC_MAX_BITLEN ≤ 255)
    (hpin : env.LCEC_CONF_GENERIC_MAX_SUBPINS ≤ 255) :
    (∀ p, attrLoop (sdoConfigBody env) { index := 0xffff, subindex := 0xff } attr
        = Step.cont p →
      (p.index = 0xffff ↔ ∀ a ∈ attr, a.1 ≠ "idx") ∧
      (p.subindex = 0xff ↔ ∀ a ∈ attr, a.1 ≠ "subIdx")) ∧
    (∀ p, attrLoop (pdoBody env) { index := 0xffff } attr = Step.cont p →
      (p.index = 0xffff ↔ ∀ a ∈ attr, a.1 ≠ "idx")) ∧
    (∀ p fr, attrLoop (pdoEntryBody env) ({ index := 0xffff, subindex := 0xff }, false) attr
        = Step.cont (p, fr) →
      (p.index = 0xffff ↔ ∀ a ∈ attr, a.1 ≠ "idx") ∧
      (p.subindex = 0xff ↔ ∀ a ∈ attr, a.1 ≠ "subIdx") ∧
      (p.bitLength = 0 ↔ ∀ a ∈ attr, a.1 ≠ "bitLen")) ∧
    (∀ (st : State) p fr,
      attrLoop (complexEntryBody env st) ({ bitOffset := st.currComplexBitOffset }, false) attr
        = Step.cont (p, fr) →
      (p.bitLength = 0 ↔ ∀ a ∈ attr, a.1 ≠ "bitLen")) ∧
    (∀ p, attrLoop (syncManagerBody env) { index := 0xff, dir := EC_DIR_INVALID } attr
        = Step.cont p →
      (p.index = 0xff ↔ ∀ a ∈ attr, a.1 ≠ "idx") ∧
      (p.dir = EC_DIR_INVALID ↔ ∀ a ∈ attr, a.1 ≠ "dir")) ∧
    (∀ (st : State) p, st.stopped = false →
      env.sizeof lcecConfTypeSdoConfig ≤ st.freeMem → st.slave.isSome = true →
      attrLoop (sdoConfigBody env) { index := 0xffff, subindex := 0xff } attr = Step.cont p →
      (∃ a ∈ attr, a.1 = "idx") → (∃ a ∈ attr, a.1 = "subIdx") →
      ∃ st1, parseSdoConfigAttrs env st attr = some st1 ∧ st1.stopped = false) ∧
    (∀ (st : State) p, st.stopped = false →
      env.sizeof lcecConfTypePdo ≤ st.freeMem → st.slave.isSome = true →
      st.syncManager.isSome = true →
      attrLoop (pdoBody env) { index := 0xffff } attr = Step.cont p →
      (∃ a ∈ attr, a.1 = "idx") →
      ∃ st1, parsePdoAttrs env st attr = some st1 ∧ st1.stopped = false) ∧
    (∀ (st : State) p fr, st.stopped = false →
      env.sizeof lcecConfTypePdoEntry ≤ st.freeMem → st.slave.isSome = true →
      st.pdo.isSome = true →
      attrLoop (pdoEntryBody env) ({ index := 0xffff, subindex := 0xff }, false) attr
        = Step.cont (p, fr) →
      (∃ a ∈ attr, a.1 = "idx") → (∃ a ∈ attr, a.1 = "subIdx") →
      (∃ a ∈ attr, a.1 = "bitLen") →
      ¬(p.subType = lcecPdoEntTypeComplex ∧ p.halPin ≠ "") →
      ¬(fr = true ∧ p.halType ≠ HAL_FLOAT) →
      ∃ st1, parsePdoEntryAttrs env st attr = some st1 ∧ st1.stopped = false) ∧
    (∀ (st : State) p fr, st.stopped = false →
      env.sizeof lcecConfTypeComplexEntry ≤ st.freeMem → st.slave.isSome = true →
      attrLoop (complexEntryBody env st) ({ bitOffset := st.currComplexBitOffset }, false) attr
        = Step.cont (p, fr) →
      (∃ a ∈ attr, a.1 = "bitLen") →
      ¬(fr = true ∧ p.halType ≠ HAL_FLOAT) →
      ∃ st1, parseComplexEntryAttrs env st attr = some st1 ∧ st1.stopped = false) ∧
    (∀ (st : State) p sl, st.stopped = false →
      env.sizeof lcecConfTypeSyncManager ≤ st.freeMem → st.slave = some sl →
      sl.typename = "generic" →
      attrLoop (syncManagerBody env) { index := 0xff, dir := EC_DIR_INVALID } attr
        = Step.cont p →
      (∃ a ∈ attr, a.1 = "idx") → (∃ a ∈ attr, a.1 = "dir") →
      ∃ st1, parseSyncManagerAttrs env st attr = some st1 ∧ st1.stopped = false) := by
  have hsdo : ∀ p, attrLoop (sdoConfigBody env) { index := 0xffff, subindex := 0xff } attr
        = Step.cont p →
      (p.index = 0xffff ↔ ∀ a ∈ attr, a.1 ≠ "idx") ∧
      (p.subindex = 0xff ↔ ∀ a ∈ attr, a.1 ≠ "subIdx") := fun p h =>
    ⟨attrLoop_marker (sdoConfigBody env) (fun p => p.index) "idx" 0xffff
        (fun p v q hb => sdoConfigBody_idx_set env p q v hb)
        (fun p n v q hn hb => sdoConfigBody_index_other env p n v q hn hb) attr _ p rfl h,
      attrLoop_marker (sdoConfigBody env) (fun p => p.subindex) "subIdx" 0xff
        (fun p v q hb => sdoConfigBody_subIdx_set env hsent p q v hb)
        (fun p n v q hn hb => sdoConfigBody_subindex_other env p n v q hn hb) attr _ p rfl h⟩
  have hpdo : ∀ p, attrLoop (pdoBody env) { index := 0xffff } attr = Step.cont p →
      (p.index = 0xffff ↔ ∀ a ∈ attr, a.1 ≠ "idx") := fun p h =>
    attrLoop_marker (pdoBody env) (fun p => p.index) "idx" 0xffff
      (fun p v q hb => pdoBody_idx_set env p q v hb)
      (fun p n v q hn hb => pdoBody_index_other env p n v q hn hb) attr _ p rfl h
  have hent : ∀ p fr,
      attrLoop (pdoEntryBody env) ({ index := 0xffff, subindex := 0xff }, false) attr
        = Step.cont (p, fr) →
      (p.index = 0xffff ↔ ∀ a ∈ attr, a.1 ≠ "idx") ∧
      (p.subindex = 0xff ↔ ∀ a ∈ attr, a.1 ≠ "subIdx") ∧
      (p.bitLength = 0 ↔ ∀ a ∈ attr, a.1 ≠ "bitLen") := fun p fr h =>
    ⟨attrLoop_marker (pdoEntryBody env) (fun p => p.1.index) "idx" 0xffff
        (fun p v q hb => pdoEntryBody_idx_set env p q v hb)
        (fun p n v q hn hb => (pdoEntryBody_fields_other env p q n v hb).1 hn) attr _ (p, fr)
        rfl h,
      attrLoop_marker (pdoEntryBody env) (fun p => p.1.subindex) "subIdx" 0xff
        (fun p v q hb => pdoEntryBody_subIdx_set env p q v hb)
        (fun p n v q hn hb => (pdoEntryBody_fields_other env p q n v hb).2.1 hn) attr _ (p, fr)
        rfl h,
      attrLoop_marker (pdoEntryBody env) (fun p => p.1.bitLength) "bitLen" 0
        (fun p v q hb => pdoEntryBody_bitLen_set env hbit p q v hb)
        (fun p n v q hn hb => (pdoEntryBody_fields_other env p q n v hb).2.2 hn) attr _ (p, fr)
        rfl h⟩
  have hcplx : ∀ (st : State) p fr,
      attrLoop (complexEntryBody env st) ({ bitOffset := st.currComplexBitOffset }, false) attr
        = Step.cont (p, fr) →
      (p.bitLength = 0 ↔ ∀ a ∈ attr, a.1 ≠ "bitLen") := fun st p fr h =>
    attrLoop_marker (complexEntryBody env st) (fun p => p.1.bitLength) "bitLen" 0
      (fun p v q hb => complexEntryBody_bitLen_set env hpin st p q v hb)
      (fun p n v q hn hb => (complexEntryBody_other env st p n v hn).2 q hb) attr _ (p, fr)
      rfl h
  have hsm : ∀ p, attrLoop (syncManagerBody env) { index := 0xff, dir := EC_DIR_INVALID } attr
        = Step.cont p →
      (p.index = 0xff ↔ ∀ a ∈ attr, a.1 ≠ "idx") ∧
      (p.dir = EC_DIR_INVALID ↔ ∀ a ∈ attr, a.1 ≠ "dir") := fun p h =>
    ⟨attrLoop_marker (syncManagerBody env) (fun p => p.index) "idx" 0xff
        (fun p v q hb => syncManagerBody_idx_set env p q v hb)
        (fun p n v q hn hb => syncManagerBody_index_other env p q n v hn hb) attr _ p rfl h,
      attrLoop_marker (syncManagerBody env) (fun p => p.dir) "dir" EC_DIR_INVALID
        (fun p v q hb => syncManagerBody_dir_set env p q v hb)
        (fun p n v q hn hb => syncManagerBody_dir_other env p q n v hn hb) attr _ p rfl h⟩
  have hpresent : ∀ (N : String) (Q : Prop), (Q ↔ ∀ a ∈ attr, a.1 ≠ N) →
      (∃ a ∈ attr, a.1 = N) → ¬Q := by
    intro N Q hiff hex hq
    obtain ⟨a, ha, hn⟩ := hex
    exact hiff.mp hq a ha hn
  refine ⟨hsdo, hpdo, hent, hcplx, hsm, ?_, ?_, ?_, ?_, ?_⟩
  · intro st p hst hmem hsl hl h1 h2
    obtain ⟨st1, e, hs, _⟩ := (parseSdoConfigAttrs_accept_iff env st attr p).mpr
      ⟨hst, hmem, hsl, hl, hpresent _ _ (hsdo p hl).1 h1, hpresent _ _ (hsdo p hl).2 h2⟩
    exact ⟨st1, e, hs⟩
  · intro st p hst hmem hsl hsmgr hl h1
    exact parsePdoAttrs_accepts env st attr p hst hmem (slave_kind_of_isSome st hsl)
      (syncManager_kind_of_isSome st hsmgr) hl (hpresent _ _ (hpdo p hl) h1)
  · intro st p fr hst hmem hsl hpd hl h1 h2 h3 h4 h5
    exact (parsePdoEntryAttrs_accept_iff env st attr).mpr
      ⟨hst, hmem, hsl, hpd, p, fr, hl, hpresent _ _ (hent p fr hl).1 h1,
        hpresent _ _ (hent p fr hl).2.1 h2, hpresent _ _ (hent p fr hl).2.2 h3, h4, h5⟩
  · intro st p fr hst hmem hsl hl h1 h2
    exact (parseComplexEntryAttrs_accept_iff env st attr).mpr
      ⟨hst, hmem, p, fr, hl, hpresent _ _ (hcplx st p fr hl) h1, h2, fun _ => hsl⟩
  · intro st p sl hst hmem hsl hgen hl h1 h2
    exact parseSyncManagerAttrs_accepts env st attr p sl hst hmem hsl hgen hl
      (hpresent _ _ (hsm p hl).1 h1) (hpresent _ _ (hsm p hl).2 h2)
theorem markers_never_collide_witness :
    (sampleEnv.sdoCompleteIsSentinel ∧ sampleEnv.LCEC_CONF_GENERIC_MAX_BITLEN ≤ 255 ∧
      sampleEnv.LCEC_CONF_GENERIC_MAX_SUBPINS ≤ 255) ∧
    attrLoop (pdoEntryBody sampleEnv) ({ index := 0xffff, subindex := 0xff }, false)
      sampleZeroEntryAttrs = Step.cont (sampleZeroEntry, false) ∧
    ((sampleZeroEntry.index = 0xffff ↔ ∀ a ∈ sampleZeroEntryAttrs, a.1 ≠ "idx") ∧
      (sampleZeroEntry.subindex = 0xff ↔ ∀ a ∈ sampleZeroEntryAttrs, a.1 ≠ "subIdx") ∧
      (sampleZeroEntry.bitLength = 0 ↔ ∀ a ∈ sampleZeroEntryAttrs, a.1 ≠ "bitLen")) ∧
    (sampleStatePdo.stopped = false ∧
      sampleEnv.sizeof lcecConfTypePdoEntry ≤ sampleStatePdo.freeMem ∧
      sampleStatePdo.slave.isSome = true ∧ sampleStatePdo.pdo.isSome = true) ∧
    ∃ st1, parsePdoEntryAttrs sampleEnv sampleStatePdo sampleZeroEntryAttrs = some st1 ∧
      st1.stopped = false :=
  ⟨⟨Or.inl (by decide), by decide, by decide⟩,
    by rfl,
    (markers_never_collide sampleEnv sampleZeroEntryAttrs (Or.inl (by decide)) (by decide)
      (by decide)).2.2.1 sampleZeroEntry false (by rfl),
    ⟨by rfl, by decide, by rfl, by rfl⟩,
    (markers_never_collide sampleEnv sampleZeroEntryAttrs (Or.inl (by decide)) (by decide)
      (by decide)).2.2.2.2.2.2.2.1 sampleStatePdo sampleZeroEntry false (by rfl) (by decide)
      (by rfl) (by rfl) (by rfl) ⟨("idx", "0"), by decide, rfl⟩
      ⟨("subIdx", "0"), by decide, rfl⟩ ⟨("bitLen", "255"), by decide, rfl⟩
      (by decide) (by decide)⟩

/-- C2: the check of the sum `currComplexBitOffset + bitLen` against the bit
length of the current `pdoEntry` is made on the `int` that `atoi` yields for the
`bitLen` text.  When that `int` makes the sum exceed the bit length,
`parseComplexEntryAttrs` returns with the parser stopped and leaves
`currComplexBitOffset` and the current slave record (so its
`pdoMappingCount`); this is so for every decimal text whose number fits in an
`int`.  A number that does not fit is not rejected as such: in the sample state
(a `pdoEntry` of 16 bits, bit offset 0, a `long` of 64 bits) the element with
`bitLen="4294967297"` is accepted with the bit length 1, the bit offset becomes
1 and `pdoMappingCount` grows from 0 to 1. -/
theorem complexEntry_overflow_checked_as_int (env : Env) :
    (∀ (st : State) (attr : Attrs) (parent : LCEC_CONF_PDOENTRY_T) (v : String),
      st.pdoEntry = some parent → ("bitLen", v) ∈ attr →
      (st.currComplexBitOffset : Int) + atoi env.longBits v > (parent.bitLength : Int) →
      ∃ st1, parseComplexEntryAttrs env st attr = some st1 ∧ st1.stopped = true ∧
        st1.currComplexBitOffset = st.currComplexBitOffset ∧ st1.slave = st.slave) ∧
    (∀ (st : State) (attr : Attrs) (parent : LCEC_CONF_PDOENTRY_T) (ds : List Char),
      32 ≤ env.longBits → ds ≠ [] → (∀ c ∈ ds, '0' ≤ c ∧ c ≤ '9') →
      decimalValue ds < 2147483648 →
      st.pdoEntry = some parent → ("bitLen", String.mk ds) ∈ attr →
      st.currComplexBitOffset + decimalValue ds > parent.bitLength →
      ∃ st1, parseComplexEntryAttrs env st attr = some st1 ∧ st1.stopped = true ∧
        st1.currComplexBitOffset = st.currComplexBitOffset ∧ st1.slave = st.slave) ∧
    (sampleStatePdoEntry.pdoEntry
        = some { index := 0x7000, subindex := 1, bitLength := 16,
                 subType := lcecPdoEntTypeComplex } ∧
      sampleStatePdoEntry.currComplexBitOffset = 0 ∧
      sampleStatePdoEntry.slave
        = some { typename := "generic", name := "0", syncManagerCount := 1, pdoCount := 1,
                 pdoEntryCount := 1, pdoMappingCount := 0 } ∧
      decimalValue "4294967297".data = 4294967297 ∧
      atoi sampleEnv.longBits "4294967297" = 1 ∧
      ∃ st1, parseComplexEntryAttrs sampleEnv sampleStatePdoEntry
          [("bitLen", "4294967297"), ("halType", "bit"), ("halPin", "a")] = some st1 ∧
        st1.stopped = false ∧ st1.currComplexBitOffset = 1 ∧
        st1.outputBuf[5]?
          = some (ConfRec.complexEntry { bitOffset := 0, bitLength := 1,
                                         subType := lcecPdoEntTypeSimple, halType := HAL_BIT,
                                         halPin := "a" }) ∧
        st1.slave
          = some { typename := "generic", name := "0", syncManagerCount := 1, pdoCount := 1,
                   pdoEntryCount := 1, pdoMappingCount := 1 }) := by
  refine ⟨?_, ?_, ?_⟩
  · intro st attr parent v hpar hmem hgt
    exact complexEntry_overflow_aborts env st attr parent v hpar hmem hgt
  · intro st attr parent ds hL hne hd hN hpar hmem hgt
    refine complexEntry_overflow_aborts env st attr parent (String.mk ds) hpar hmem ?_
    rw [atoi_decimal env.longBits hL ds hne hd hN]
    exact_mod_cast hgt
  · exact ⟨by rfl, by rfl, by rfl, by rfl, by rfl, _, by rfl, by rfl, by rfl, by rfl, by rfl⟩

theorem complexEntry_overflow_checked_as_int_witness :
    (sampleStatePdoEntry.pdoEntry
        = some { index := 0x7000, subindex := 1, bitLength := 16,
                 subType := lcecPdoEntTypeComplex } ∧
      ("bitLen", "17") ∈ [("halType", "bit"), ("bitLen", "17")] ∧
      (sampleStatePdoEntry.currComplexBitOffset : Int) + atoi sampleEnv.longBits "17"
        > ((16 : Nat) : Int)) ∧
    (∃ st1, parseComplexEntryAttrs sampleEnv sampleStatePdoEntry
        [("halType", "bit"), ("bitLen", "17")] = some st1 ∧ st1.stopped = true ∧
      st1.currComplexBitOffset = sampleStatePdoEntry.currComplexBitOffset ∧
      st1.slave = sampleStatePdoEntry.slave) ∧
    (sampleStatePdoEntry.currComplexBitOffset + decimalValue "4294967297".data > 16 ∧
      ∃ st1, parseComplexEntryAttrs sampleEnv sampleStatePdoEntry
          [("bitLen", "4294967297"), ("halType", "bit"), ("halPin", "a")] = some st1 ∧
        st1.stopped = false ∧ st1.currComplexBitOffset = 1) :=
  ⟨⟨by rfl, by decide, by decide⟩,
    (complexEntry_overflow_checked_as_int sampleEnv).1 sampleStatePdoEntry
      [("halType", "bit"), ("bitLen", "17")]
      { index := 0x7000, subindex := 1, bitLength := 16, subType := lcecPdoEntTypeComplex } "17"
      (by rfl) (by decide) (by decide),
    by decide,
    Exists.imp (fun _ h => ⟨h.1, h.2.1, h.2.2.1⟩)
      (complexEntry_overflow_checked_as_int sampleEnv).2.2.2.2.2.2.2⟩

theorem sampleBitScale_not_float :
    ¬(∃ v, ("halType", v) ∈ sampleBitScaleAttrs ∧ floatFamily v) := by
  rintro ⟨v, hm, hf⟩
  simp only [sampleBitScaleAttrs, List.mem_cons, Prod.mk.injEq, String.reduceEq, false_and,
    true_and, false_or, List.mem_singleton, List.not_mem_nil, or_false] at hm
  subst hm
  rcases hf with h | h | h | h <;> exact absurd h (by decide)

theorem sampleComplexBitScale_not_float :
    ¬(∃ v, ("halType", v) ∈ sampleComplexBitScaleAttrs ∧ floatFamily v) := by
  rintro ⟨v, hm, hf⟩
  simp only [sampleComplexBitScaleAttrs, List.mem_cons, Prod.mk.injEq, String.reduceEq,
    false_and, true_and, false_or, List.mem_singleton, List.not_mem_nil, or_false] at hm
  subst hm
  rcases hf with h | h | h | h <;> exact absurd h (by decide)


/-- C4: for a pdoEntry attribute list, and for a complexEntry attribute list,
with pairwise distinct names that contains a `scale` or `offset` attribute and
is otherwise valid (the handler accepts the list without its `scale` and
`offset` attributes), the handler accepts the list if and only if its `halType`
attribute names a float-family kind (`float`, `float-unsigned`, `float-ieee`,
`float-double-ieee`, ignoring case); when it does not, the handler returns with
the parser stopped.  The order of the attributes plays no role.  In the sample
states `halType="float"` with `scale="2.5"` is accepted and `halType="bit"` with
`scale="2.5"` stops the parser, in either order of the two attributes, for a
`pdoEntry` and for a `complexEntry`. -/
theorem scale_offset_iff_float_kind (env : Env) (st : State) :
    (∀ attr : Attrs, (attr.map Prod.fst).Nodup →
      (∃ a ∈ attr, a.1 = "scale" ∨ a.1 = "offset") →
      (∃ st', parsePdoEntryAttrs env st (attr.filter notFloatAttr) = some st' ∧
        st'.stopped = false) →
      ((∃ st1, parsePdoEntryAttrs env st attr = some st1 ∧ st1.stopped = false) ↔
        ∃ v, ("halType", v) ∈ attr ∧ floatFamily v) ∧
      (¬(∃ v, ("halType", v) ∈ attr ∧ floatFamily v) →
        ∃ st1, parsePdoEntryAttrs env st attr = some st1 ∧ st1.stopped = true)) ∧
    (∀ attr : Attrs, (attr.map Prod.fst).Nodup →
      (∃ a ∈ attr, a.1 = "scale" ∨ a.1 = "offset") →
      (∃ st', parseComplexEntryAttrs env st (attr.filter notFloatAttr) = some st' ∧
        st'.stopped = false) →
      ((∃ st1, parseComplexEntryAttrs env st attr = some st1 ∧ st1.stopped = false) ↔
        ∃ v, ("halType", v) ∈ attr ∧ floatFamily v) ∧
      (¬(∃ v, ("halType", v) ∈ attr ∧ floatFamily v) →
        ∃ st1, parseComplexEntryAttrs env st attr = some st1 ∧ st1.stopped = true)) ∧
    ((∃ st1, parsePdoEntryAttrs sampleEnv sampleStatePdo
        [("idx", "6000"), ("subIdx", "1"), ("bitLen", "16"), ("halType", "float"),
         ("scale", "2.5")] = some st1 ∧ st1.stopped = false ∧
        st1.pdoEntry = some { index := 0x6000, subindex := 1, bitLength := 16,
                              subType := lcecPdoEntTypeFloatSigned, halType := HAL_FLOAT,
                              floatScale := some "2.5" }) ∧
      (∃ st1, parsePdoEntryAttrs sampleEnv sampleStatePdo
        [("idx", "6000"), ("subIdx", "1"), ("bitLen", "16"), ("scale", "2.5"),
         ("halType", "float")] = some st1 ∧ st1.stopped = false ∧
        st1.pdoEntry = some { index := 0x6000, subindex := 1, bitLength := 16,
                              subType := lcecPdoEntTypeFloatSigned, halType := HAL_FLOAT,
                              floatScale := some "2.5" }) ∧
      (∃ st1, parsePdoEntryAttrs sampleEnv sampleStatePdo
        [("idx", "6000"), ("subIdx", "1"), ("bitLen", "16"), ("halType", "bit"),
         ("scale", "2.5")] = some st1 ∧ st1.stopped = true) ∧
      (∃ st1, parsePdoEntryAttrs sampleEnv sampleStatePdo
        [("idx", "6000"), ("subIdx", "1"), ("bitLen", "16"), ("scale", "2.5"),
         ("halType", "bit")] = some st1 ∧ st1.stopped = true)) ∧
    ((∃ st1, parseComplexEntryAttrs sampleEnv sampleStatePdoEntry
        [("bitLen", "4"), ("halType", "float"), ("scale", "2.5")] = some st1 ∧
        st1.stopped = false ∧
        st1.outputBuf[5]?
          = some (ConfRec.complexEntry { bitOffset := 0, bitLength := 4,
                                         subType := lcecPdoEntTypeFloatSigned,
                                         halType := HAL_FLOAT, floatScale := some "2.5" })) ∧
      (∃ st1, parseComplexEntryAttrs sampleEnv sampleStatePdoEntry
        [("bitLen", "4"), ("scale", "2.5"), ("halType", "float")] = some st1 ∧
        st1.stopped = false ∧
        st1.outputBuf[5]?
          = some (ConfRec.complexEntry { bitOffset := 0, bitLength := 4,
                                         subType := lcecPdoEntTypeFloatSigned,
                                         halType := HAL_FLOAT, floatScale := some "2.5" })) ∧
      (∃ st1, parseComplexEntryAttrs sampleEnv sampleStatePdoEntry
        [("bitLen", "4"), ("halType", "bit"), ("scale", "2.5")] = some st1 ∧
        st1.stopped = true) ∧
      (∃ st1, parseComplexEntryAttrs sampleEnv sampleStatePdoEntry
        [("bitLen", "4"), ("scale", "2.5"), ("halType", "bit")] = some st1 ∧
        st1.stopped = true)) := by
  refine ⟨?_, ?_, ?_, ?_⟩
  · intro attr hnd hfl hvalid
    exact (scale_offset_need_float_kind env st attr hnd hfl).1 hvalid
  · intro attr hnd hfl hvalid
    exact (scale_offset_need_float_kind env st attr hnd hfl).2 hvalid
  · exact ⟨⟨_, by rfl, by rfl, by rfl⟩, ⟨_, by rfl, by rfl, by rfl⟩, ⟨_, by rfl, by rfl⟩,
      ⟨_, by rfl, by rfl⟩⟩
  · exact ⟨⟨_, by rfl, by rfl, by rfl⟩, ⟨_, by rfl, by rfl, by rfl⟩, ⟨_, by rfl, by rfl⟩,
      ⟨_, by rfl, by rfl⟩⟩

theorem scale_offset_iff_float_kind_witness :
    ((sampleFloatAttrs.map Prod.fst).Nodup ∧
      (∃ a ∈ sampleFloatAttrs, a.1 = "scale" ∨ a.1 = "offset") ∧
      (∃ st', parsePdoEntryAttrs sampleEnv sampleStatePdo (sampleFloatAttrs.filter notFloatAttr)
        = some st' ∧ st'.stopped = false) ∧
      ∃ v, ("halType", v) ∈ sampleFloatAttrs ∧ floatFamily v) ∧
    (∃ st1, parsePdoEntryAttrs sampleEnv sampleStatePdo sampleFloatAttrs = some st1 ∧
      st1.stopped = false) ∧
    ((sampleBitScaleAttrs.map Prod.fst).Nodup ∧
      (∃ a ∈ sampleBitScaleAttrs, a.1 = "scale" ∨ a.1 = "offset") ∧
      (∃ st', parsePdoEntryAttrs sampleEnv sampleStatePdo
        (sampleBitScaleAttrs.filter notFloatAttr) = some st' ∧ st'.stopped = false) ∧
      ¬(∃ v, ("halType", v) ∈ sampleBitScaleAttrs ∧ floatFamily v)) ∧
    (∃ st1, parsePdoEntryAttrs sampleEnv sampleStatePdo sampleBitScaleAttrs = some st1 ∧
      st1.stopped = true) ∧
    ((sampleComplexFloatAttrs.map Prod.fst).Nodup ∧
      (∃ a ∈ sampleComplexFloatAttrs, a.1 = "scale" ∨ a.1 = "offset") ∧
      (∃ st', parseComplexEntryAttrs sampleEnv sampleStatePdoEntry
        (sampleComplexFloatAttrs.filter notFloatAttr) = some st' ∧ st'.stopped = false) ∧
      ∃ v, ("halType", v) ∈ sampleComplexFloatAttrs ∧ floatFamily v) ∧
    (∃ st1, parseComplexEntryAttrs sampleEnv sampleStatePdoEntry sampleComplexFloatAttrs
      = some st1 ∧ st1.stopped = false) ∧
    ((sampleComplexBitScaleAttrs.map Prod.fst).Nodup ∧
      (∃ a ∈ sampleComplexBitScaleAttrs, a.1 = "scale" ∨ a.1 = "offset") ∧
      (∃ st', parseComplexEntryAttrs sampleEnv sampleStatePdoEntry
        (sampleComplexBitScaleAttrs.filter notFloatAttr) = some st' ∧ st'.stopped = false) ∧
      ¬(∃ v, ("halType", v) ∈ sampleComplexBitScaleAttrs ∧ floatFamily v)) ∧
    (∃ st1, parseComplexEntryAttrs sampleEnv sampleStatePdoEntry sampleComplexBitScaleAttrs
      = some st1 ∧ st1.stopped = true) :=
  ⟨⟨by decide, ⟨("scale", "2.5"), by decide, Or.inl rfl⟩, ⟨_, by rfl, by rfl⟩,
      ⟨"float", by decide, Or.inl (by decide)⟩⟩,
    (((scale_offset_iff_float_kind sampleEnv sampleStatePdo).1 sampleFloatAttrs (by decide)
      ⟨("scale", "2.5"), by decide, Or.inl rfl⟩ ⟨_, by rfl, by rfl⟩).1).mpr
      ⟨"float", by decide, Or.inl (by decide)⟩,
    ⟨by decide, ⟨("scale", "2.5"), by decide, Or.inl rfl⟩, ⟨_, by rfl, by rfl⟩,
      sampleBitScale_not_float⟩,
    ((scale_offset_iff_float_kind sampleEnv sampleStatePdo).1 sampleBitScaleAttrs (by decide)
      ⟨("scale", "2.5"), by decide, Or.inl rfl⟩ ⟨_, by rfl, by rfl⟩).2 sampleBitScale_not_float,
    ⟨by decide, ⟨("scale", "2.5"), by decide, Or.inl rfl⟩, ⟨_, by rfl, by rfl⟩,
      ⟨"float", by decide, Or.inl (by decide)⟩⟩,
    (((scale_offset_iff_float_kind sampleEnv sampleStatePdoEntry).2.1 sampleComplexFloatAttrs
      (by decide) ⟨("scale", "2.5"), by decide, Or.inl rfl⟩ ⟨_, by rfl, by rfl⟩).1).mpr
      ⟨"float", by decide, Or.inl (by decide)⟩,
    ⟨by decide, ⟨("scale", "2.5"), by decide, Or.inl rfl⟩, ⟨_, by rfl, by rfl⟩,
      sampleComplexBitScale_not_float⟩,
    ((scale_offset_iff_float_kind sampleEnv sampleStatePdoEntry).2.1 sampleComplexBitScaleAttrs
      (by decide) ⟨("scale", "2.5"), by decide, Or.inl rfl⟩ ⟨_, by rfl, by rfl⟩).2
      sampleComplexBitScale_not_float⟩

/-- The handler `parseMasterAttrs` accepts every list of attributes of the four
names its loop tests, in a state that is not stopped and has the memory for the
record. -/
theorem parseMasterAttrs_accepts (env : Env) (st : State) (attr : Attrs)
    (hst : st.stopped = false) (hmem : env.sizeof lcecConfTypeMaster ≤ st.freeMem)
    (hnames : ∀ a ∈ attr, a.1 = "idx" ∨ a.1 = "name" ∨ a.1 = "appTimePeriod" ∨
      a.1 = "refClockSyncCycles") :
    ∃ st', parseMasterAttrs env st attr = some st' ∧ st'.stopped = false := by
  obtain ⟨p, hl⟩ := attrLoop_all_cont (masterBody env) attr {} (by
    intro a ha p
    unfold masterBody
    rcases hnames a ha with h | h | h | h <;> rw [h] <;>
      simp only [String.reduceEq, if_true, if_false] <;> exact ⟨_, rfl⟩)
  unfold parseMasterAttrs
  rw [addOutputBuffer_of_le _ hmem]
  dsimp only
  rw [hl]
  exact ⟨_, rfl, hst⟩

/-- The handler `parseSlaveAttrs` accepts every list of attributes of the names
`type`, `idx` and `name` that holds a `type` attribute and whose `type` values
all name a device type, in a state that is not stopped and has the memory for
the record. -/
theorem parseSlaveAttrs_accepts (env : Env) (st : State) (attr : Attrs)
    (hst : st.stopped = false) (hmem : env.sizeof lcecConfTypeSlave ≤ st.freeMem)
    (hnames : ∀ a ∈ attr, a.1 = "type" ∨ a.1 = "idx" ∨ a.1 = "name")
    (hty : ∃ v, ("type", v) ∈ attr)
    (hfind : ∀ v, ("type", v) ∈ attr →
      ∃ ty, env.lcec_findslavetype v = some ty ∧ ty.name ≠ none) :
    ∃ st', parseSlaveAttrs env st attr = some st' ∧ st'.stopped = false := by
  have hpre : ∀ a ∈ attr, ∀ p : Bool × Option lcec_typelist_t,
      ∃ q, slavePreBody env p a.1 a.2 = Step.cont q := by
    intro a ha p
    unfold slavePreBody
    by_cases hn : a.1 = "type"
    · rw [if_pos hn]
      obtain ⟨ty, hf, hne⟩ := hfind a.2 (by rw [← hn]; exact ha)
      rw [hf]
      dsimp only
      rw [if_neg hne]
      exact ⟨_, rfl⟩
    · rw [if_neg hn]
      exact ⟨_, rfl⟩
  obtain ⟨q, hq⟩ := attrLoop_all_cont (slavePreBody env) attr (false, none) hpre
  obtain ⟨v, hv⟩ := hty
  have hvalid : q.1 = true :=
    attrLoop_established (slavePreBody env) (fun q => q.1 = true) "type" v
      (fun p q hb => by
        unfold slavePreBody at hb
        rw [if_pos rfl] at hb
        split at hb
        · cases hb
        · split_ifs at hb
          cases hb
          rfl)
      (fun p n w q hp hb => by
        unfold slavePreBody at hb
        split_ifs at hb
        · split at hb
          · cases hb
          · split_ifs at hb
            cases hb
            rfl
        · cases hb
          exact hp) attr (false, none) q hv hq
  obtain ⟨p, hl⟩ := attrLoop_all_cont (slaveBody env) attr {} (by
    intro a ha p
    unfold slaveBody
    rcases hnames a ha with h | h | h <;> rw [h] <;>
      simp only [String.reduceEq, if_true, if_false] <;> exact ⟨_, rfl⟩)
  obtain ⟨valid, ty⟩ := q
  dsimp only at hvalid
  subst hvalid
  unfold parseSlaveAttrs
  rw [addOutputBuffer_of_le _ hmem]
  dsimp only
  rw [hq]
  dsimp only
  rw [hl]
  dsimp only
  rw [if_neg (by decide)]
  exact ⟨_, rfl, hst⟩

/-- C16: the record of an accepted `master` or `slave` element holds as index the
decimal value of the `idx` attribute (0 when absent), wherever it stands in the
list.  Without a `name` attribute the name is the decimal rendering of that
index, cut to `LCEC_CONF_STR_MAXLEN - 1` characters (so the full rendering when
it is shorter than `LCEC_CONF_STR_MAXLEN`, and `"0"` when `idx` is absent too);
with a non-empty `name` the name is that text cut to
`LCEC_CONF_STR_MAXLEN - 1` characters.  Such elements are accepted: in a state
that is not stopped and has the memory for the record, `parseMasterAttrs`
accepts every list of attributes of the names `idx`, `name`, `appTimePeriod`
and `refClockSyncCycles`, and `parseSlaveAttrs` accepts every list of
attributes of the names `type`, `idx` and `name` that holds a `type` attribute
and whose `type` values name device types. -/
theorem name_defaults_to_index (env : Env) (st : State) (attr : Attrs) :
    (∀ st', parseMasterAttrs env st attr = some st' → st'.stopped = false →
      ∃ m : LCEC_CONF_MASTER_T, st'.outputBuf = st.outputBuf ++ [ConfRec.master m] ∧
        m.index = (match attrValue "idx" attr with
                   | some v => atoi env.longBits v
                   | none => 0) ∧
        (attrValue "name" attr = none →
          m.name = strncpy (toString m.index) (env.LCEC_CONF_STR_MAXLEN - 1) ∧
          ((toString m.index).length < env.LCEC_CONF_STR_MAXLEN → m.name = toString m.index) ∧
          (attrValue "idx" attr = none → 2 ≤ env.LCEC_CONF_STR_MAXLEN → m.name = "0")) ∧
        (∀ v, attrValue "name" attr = some v → v ≠ "" →
          m.name = strncpy v (env.LCEC_CONF_STR_MAXLEN - 1))) ∧
    (∀ st', parseSlaveAttrs env st attr = some st' → st'.stopped = false →
      ∃ s : LCEC_CONF_SLAVE_T, st'.outputBuf = st.outputBuf ++ [ConfRec.slave s] ∧
        s.index = (match attrValue "idx" attr with
                   | some v => atoi env.longBits v
                   | none => 0) ∧
        (attrValue "name" attr = none →
          s.name = strncpy (toString s.index) (env.LCEC_CONF_STR_MAXLEN - 1) ∧
          ((toString s.index).length < env.LCEC_CONF_STR_MAXLEN → s.name = toString s.index) ∧
          (attrValue "idx" attr = none → 2 ≤ env.LCEC_CONF_STR_MAXLEN → s.name = "0")) ∧
        (∀ v, attrValue "name" attr = some v → v ≠ "" →
          s.name = strncpy v (env.LCEC_CONF_STR_MAXLEN - 1))) ∧
    (st.stopped = false → env.sizeof lcecConfTypeMaster ≤ st.freeMem →
      (∀ a ∈ attr, a.1 = "idx" ∨ a.1 = "name" ∨ a.1 = "appTimePeriod" ∨
        a.1 = "refClockSyncCycles") →
      ∃ st', parseMasterAttrs env st attr = some st' ∧ st'.stopped = false) ∧
    (st.stopped = false → env.sizeof lcecConfTypeSlave ≤ st.freeMem →
      (∀ a ∈ attr, a.1 = "type" ∨ a.1 = "idx" ∨ a.1 = "name") →
      (∃ v, ("type", v) ∈ attr) →
      (∀ v, ("type", v) ∈ attr →
        ∃ ty, env.lcec_findslavetype v = some ty ∧ ty.name ≠ none) →
      ∃ st', parseSlaveAttrs env st attr = some st' ∧ st'.stopped = false) :=
  ⟨fun st' h hs => (default_name_is_index env st st' attr hs).1 h,
   fun st' h hs => (default_name_is_index env st st' attr hs).2 h,
   fun hst hmem hnames => parseMasterAttrs_accepts env st attr hst hmem hnames,
   fun hst hmem hnames hty hfind => parseSlaveAttrs_accepts env st attr hst hmem hnames hty hfind⟩

theorem name_defaults_to_index_witness :
    (parseMasterAttrs sampleEnv (initState 1000) [("idx", "7")] = some sampleMasterResult ∧
      sampleMasterResult.stopped = false ∧
      sampleMasterResult.outputBuf = [ConfRec.master { index := 7, name := "7" }]) ∧
    (∃ m : LCEC_CONF_MASTER_T,
      sampleMasterResult.outputBuf = (initState 1000).outputBuf ++ [ConfRec.master m] ∧
      m.name = strncpy (toString m.index) (sampleEnv.LCEC_CONF_STR_MAXLEN - 1)) ∧
    (parseSlaveAttrs sampleEnv sampleStateSlowMaster [("idx", "3"), ("type", "EL2202")]
        = some sampleSlaveResult ∧
      sampleSlaveResult.stopped = false ∧
      sampleSlaveResult.outputBuf
        = [ConfRec.master { index := 0, appTimePeriod := 1000000000, name := "0" },
           ConfRec.slave { index := 3, typename := "EL2202", name := "3" }]) ∧
    (∃ s : LCEC_CONF_SLAVE_T,
      sampleSlaveResult.outputBuf = sampleStateSlowMaster.outputBuf ++ [ConfRec.slave s] ∧
      s.name = strncpy (toString s.index) (sampleEnv.LCEC_CONF_STR_MAXLEN - 1)) ∧
    (sampleStateSlowMaster.stopped = false ∧
      sampleEnv.sizeof lcecConfTypeSlave ≤ sampleStateSlowMaster.freeMem) ∧
    (∃ st', parseSlaveAttrs sampleEnv sampleStateSlowMaster [("idx", "3"), ("type", "EL2202")]
      = some st' ∧ st'.stopped = false) ∧
    (∃ st', parseMasterAttrs sampleEnv (initState 1000) [("idx", "7")] = some st' ∧
      st'.stopped = false) :=
  ⟨⟨by rfl, by rfl, by rfl⟩,
    Exists.imp (fun _ h => ⟨h.1, (h.2.2.1 (by rfl)).1⟩)
      ((name_defaults_to_index sampleEnv (initState 1000) [("idx", "7")]).1
        sampleMasterResult (by rfl) (by rfl)),
    ⟨by rfl, by rfl, by rfl⟩,
    Exists.imp (fun _ h => ⟨h.1, (h.2.2.1 (by rfl)).1⟩)
      ((name_defaults_to_index sampleEnv sampleStateSlowMaster
        [("idx", "3"), ("type", "EL2202")]).2.1 sampleSlaveResult (by rfl) (by rfl)),
    ⟨by rfl, by decide⟩,
    (name_defaults_to_index sampleEnv sampleStateSlowMaster
      [("idx", "3"), ("type", "EL2202")]).2.2.2 (by rfl) (by decide)
      (by decide) ⟨"EL2202", by decide⟩
      (by
        intro v hv
        simp only [List.mem_cons, Prod.mk.injEq, String.reduceEq, false_and, true_and,
          false_or, List.mem_singleton, List.not_mem_nil, or_false] at hv
        subst hv
        exact ⟨_, rfl, by decide⟩),
    (name_defaults_to_index sampleEnv (initState 1000) [("idx", "7")]).2.2.1 (by rfl)
      (by decide) (by decide)⟩

theorem strtoul_zero_decimal (L : Nat) (ds : List Char) (hne : ds ≠ [])
    (hd : ∀ c ∈ ds, '0' ≤ c ∧ c ≤ '9') (h0 : ds.head? ≠ some '0') :
    strtoul L (String.mk ds) 0
      = (if decimalValue ds ≥ 2 ^ L then 2 ^ L - 1 else decimalValue ds, []) := by
  unfold strtoul
  have hdata : (String.mk ds).data = ds := rfl
  rw [hdata, scanNumber_zero_decimal ds hne hd h0]
  dsimp only
  split_ifs with a b
  · rfl
  · exact absurd b (by decide)
  · rfl

theorem strtol_zero_decimal (L : Nat) (ds : List Char) (hne : ds ≠ [])
    (hd : ∀ c ∈ ds, '0' ≤ c ∧ c ≤ '9') (h0 : ds.head? ≠ some '0') :
    strtol L (String.mk ds) 0 = (satLong L false (decimalValue ds), []) := by
  unfold strtol
  have hdata : (String.mk ds).data = ds := rfl
  rw [hdata, scanNumber_zero_decimal ds hne hd h0]

/-- C22: the values of module parameters of the types U32 and S32 are checked
for their format only.  For an element whose attributes are `name` and `value`,
whose name resolves to the row `d` of the table and whose value `v` is not
empty: when `d` has the type U32 (S32), `parseModParamAttrs` accepts the
element exactly when `strtoul` (`strtol`) with base 0 reads the whole text, the
record holds the result of `strtoul` (`strtol`) cut to 32 bits, an accepted
element adds one to `modParamCount` and a rejected one leaves the slave record.
The range of the number is not checked: a decimal text without a leading zero
is accepted whatever its size; what is stored is the number itself when it is
below `2^32` (below `2^31` for S32), and else the number saturated at the range
of `long` and cut to 32 bits. -/
theorem modParam_integer_format_only (env : Env) (st : State) (attr : Attrs)
    (ty : lcec_typelist_t) (table : List lcec_modparam_desc_t) (n v : String)
    (d : lcec_modparam_desc_t) (sl : LCEC_CONF_SLAVE_T)
    (hst : st.stopped = false)
    (hty : st.currSlaveType = some ty) (htab : ty.modparams = some table)
    (hnames : ∀ a ∈ attr, a.1 = "name" ∨ a.1 = "value")
    (hn : attrValue "name" attr = some n) (hv : attrValue "value" attr = some v)
    (hn0 : n ≠ "") (hv0 : v ≠ "")
    (hmem : env.sizeof lcecConfTypeModParam ≤ st.freeMem)
    (hd : table.find? (fun d => decide (n = d.name)) = some d)
    (hsl : st.slave = some sl) :
    (d.type = MODPARAM_TYPE_U32 →
      ∃ st', parseModParamAttrs env st attr = some st' ∧
        (st'.stopped = false ↔ (strtoul env.longBits v 0).2 = []) ∧
        st'.outputBuf[st.outputBuf.length]?
          = some (ConfRec.modParam
              { id := d.id,
                value := LCEC_CONF_MODPARAM_VAL_T.u32
                  ((strtoul env.longBits v 0).1 % 4294967296) }) ∧
        (st'.stopped = false →
          st'.slave = some { sl with modParamCount := (sl.modParamCount + 1) % 4294967296 }) ∧
        (st'.stopped = true → st'.slave = st.slave)) ∧
    (d.type = MODPARAM_TYPE_S32 →
      ∃ st', parseModParamAttrs env st attr = some st' ∧
        (st'.stopped = false ↔ (strtol env.longBits v 0).2 = []) ∧
        st'.outputBuf[st.outputBuf.length]?
          = some (ConfRec.modParam
              { id := d.id,
                value := LCEC_CONF_MODPARAM_VAL_T.s32 (toInt32 (strtol env.longBits v 0).1) }) ∧
        (st'.stopped = false →
          st'.slave = some { sl with modParamCount := (sl.modParamCount + 1) % 4294967296 }) ∧
        (st'.stopped = true → st'.slave = st.slave)) ∧
    (∀ ds : List Char, v = String.mk ds → (∀ c ∈ ds, '0' ≤ c ∧ c ≤ '9') →
      ds.head? ≠ some '0' →
      (strtoul env.longBits v 0).2 = [] ∧ (strtol env.longBits v 0).2 = [] ∧
      (strtoul env.longBits v 0).1 % 4294967296
        = (if decimalValue ds ≥ 2 ^ env.longBits then 2 ^ env.longBits - 1
           else decimalValue ds) % 4294967296 ∧
      toInt32 (strtol env.longBits v 0).1
        = toInt32 (satLong env.longBits false (decimalValue ds)) ∧
      (32 ≤ env.longBits → decimalValue ds < 4294967296 →
        (strtoul env.longBits v 0).1 % 4294967296 = decimalValue ds) ∧
      (32 ≤ env.longBits → decimalValue ds < 2147483648 →
        toInt32 (strtol env.longBits v 0).1 = (decimalValue ds : Int))) := by
  obtain ⟨st', h, hrec, hstop, hacc⟩ := modParam_typed env st attr ty table n v d sl hty htab
    hnames hn hv hn0 hv0 hmem hd hsl
  refine ⟨?_, ?_, ?_⟩
  · intro hu
    rw [hu] at hrec hstop hacc
    have e1 : (modParamValue env MODPARAM_TYPE_U32 v).1
        = LCEC_CONF_MODPARAM_VAL_T.u32 ((strtoul env.longBits v 0).1 % 4294967296) := rfl
    have e2 : (modParamValue env MODPARAM_TYPE_U32 v).2
        = decide ((strtoul env.longBits v 0).2 ≠ []) := rfl
    rw [e1] at hrec
    rw [e2] at hstop hacc
    refine ⟨st', h, ?_, hrec, ?_,
      fun hs2 => parseModParamAttrs_stopped_slave env st st' attr hst h hs2⟩
    · constructor
      · intro hs
        by_contra hno
        rw [(hstop (decide_eq_true hno)).1] at hs
        cases hs
      · intro hok
        rw [(hacc (decide_eq_false (fun hne => hne hok))).1, hst]
    · intro hs
      by_cases hr : (strtoul env.longBits v 0).2 = []
      · exact (hacc (decide_eq_false (fun hne => hne hr))).2
      · rw [(hstop (decide_eq_true hr)).1] at hs
        cases hs
  · intro hu
    rw [hu] at hrec hstop hacc
    have e1 : (modParamValue env MODPARAM_TYPE_S32 v).1
        = LCEC_CONF_MODPARAM_VAL_T.s32 (toInt32 (strtol env.longBits v 0).1) := rfl
    have e2 : (modParamValue env MODPARAM_TYPE_S32 v).2
        = decide ((strtol env.longBits v 0).2 ≠ []) := rfl
    rw [e1] at hrec
    rw [e2] at hstop hacc
    refine ⟨st', h, ?_, hrec, ?_,
      fun hs2 => parseModParamAttrs_stopped_slave env st st' attr hst h hs2⟩
    · constructor
      · intro hs
        by_contra hno
        rw [(hstop (decide_eq_true hno)).1] at hs
        cases hs
      · intro hok
        rw [(hacc (decide_eq_false (fun hne => hne hok))).1, hst]
    · intro hs
      by_cases hr : (strtol env.longBits v 0).2 = []
      · exact (hacc (decide_eq_false (fun hne => hne hr))).2
      · rw [(hstop (decide_eq_true hr)).1] at hs
        cases hs
  · intro ds hds hdig h0
    have hne : ds ≠ [] := by
      intro he
      apply hv0
      rw [hds, he]
    rw [hds, strtoul_zero_decimal env.longBits ds hne hdig h0,
      strtol_zero_decimal env.longBits ds hne hdig h0]
    refine ⟨rfl, rfl, rfl, rfl, ?_, ?_⟩
    · intro hL hlt
      dsimp only
      have h32 : (4294967296 : Nat) ≤ 2 ^ env.longBits := by
        calc (4294967296 : Nat) = 2 ^ 32 := by norm_num
          _ ≤ 2 ^ env.longBits := Nat.pow_le_pow_right (by norm_num) hL
      rw [if_neg (by omega)]
      exact Nat.mod_eq_of_lt hlt
    · intro hL hlt
      exact satLong_small env.longBits hL _ hlt

theorem modParam_integer_format_only_witness :
    (sampleStateModSlave.stopped = false ∧
      sampleStateModSlave.currSlaveType = some sampleModType ∧
      sampleModType.modparams = some sampleModTable ∧
      sampleModTable.find? (fun d => decide ("count" = d.name))
        = some { name := "count", id := 2, type := MODPARAM_TYPE_U32 } ∧
      (strtoul sampleEnv.longBits "12abc" 0).2 = ['a', 'b', 'c'] ∧
      (strtoul sampleEnv.longBits "0x1F" 0) = (31, [])) ∧
    (∃ st', parseModParamAttrs sampleEnv sampleStateModSlave
        [("name", "count"), ("value", "0x1F")] = some st' ∧
      (st'.stopped = false ↔ (strtoul sampleEnv.longBits "0x1F" 0).2 = []) ∧
      st'.outputBuf[sampleStateModSlave.outputBuf.length]?
        = some (ConfRec.modParam
            { id := 2,
              value := LCEC_CONF_MODPARAM_VAL_T.u32
                ((strtoul sampleEnv.longBits "0x1F" 0).1 % 4294967296) }) ∧
      (st'.stopped = false →
        st'.slave = some { typename := "AX5200", name := "0", modParamCount := 1 }) ∧
      (st'.stopped = true → st'.slave = sampleStateModSlave.slave)) ∧
    (∃ st', parseModParamAttrs sampleEnv sampleStateModSlave
        [("name", "count"), ("value", "12abc")] = some st' ∧
      (st'.stopped = false ↔ (strtoul sampleEnv.longBits "12abc" 0).2 = []) ∧
      st'.outputBuf[sampleStateModSlave.outputBuf.length]?
        = some (ConfRec.modParam
            { id := 2,
              value := LCEC_CONF_MODPARAM_VAL_T.u32
                ((strtoul sampleEnv.longBits "12abc" 0).1 % 4294967296) }) ∧
      (st'.stopped = false →
        st'.slave = some { typename := "AX5200", name := "0", modParamCount := 1 }) ∧
      (st'.stopped = true → st'.slave = sampleStateModSlave.slave)) :=
  ⟨⟨rfl, rfl, rfl, by rfl, by rfl, by rfl⟩,
    (modParam_integer_format_only sampleEnv sampleStateModSlave
      [("name", "count"), ("value", "0x1F")] sampleModType sampleModTable "count" "0x1F"
      { name := "count", id := 2, type := MODPARAM_TYPE_U32 }
      { typename := "AX5200", name := "0" } rfl rfl rfl (by decide) (by rfl) (by rfl)
      (by decide) (by decide) (by decide) (by rfl) rfl).1 rfl,
    (modParam_integer_format_only sampleEnv sampleStateModSlave
      [("name", "count"), ("value", "12abc")] sampleModType sampleModTable "count" "12abc"
      { name := "count", id := 2, type := MODPARAM_TYPE_U32 }
      { typename := "AX5200", name := "0" } rfl rfl rfl (by decide) (by rfl) (by rfl)
      (by decide) (by decide) (by decide) (by rfl) rfl).1 rfl⟩

/-- A value outside the range of its type is accepted: in a slave whose type has
the U32 parameter `count` and the S32 parameter `shift`, the element with
`value="4294967296"` for `count` is accepted and stored as 0, the element with
`value="-1"` for `count` is accepted and stored as 4294967295, and the element
with `value="2147483648"` for `shift` is accepted and stored as -2147483648. -/
theorem modParam_integer_out_of_range_accepted :
    sampleModTable.find? (fun d => decide ("count" = d.name))
      = some { name := "count", id := 2, type := MODPARAM_TYPE_U32 } ∧
    sampleModTable.find? (fun d => decide ("shift" = d.name))
      = some { name := "shift", id := 3, type := MODPARAM_TYPE_S32 } ∧
    decimalValue "4294967296".data = 4294967296 ∧ ¬ (4294967296 < 2 ^ 32) ∧
    decimalValue "2147483648".data = 2147483648 ∧ ¬ (2147483648 < 2 ^ 31) ∧
    (∃ st', parseModParamAttrs sampleEnv sampleStateModSlave
        [("name", "count"), ("value", "4294967296")] = some st' ∧ st'.stopped = false ∧
      st'.outputBuf[2]?
        = some (ConfRec.modParam { id := 2, value := LCEC_CONF_MODPARAM_VAL_T.u32 0 }) ∧
      st'.slave = some { typename := "AX5200", name := "0", modParamCount := 1 }) ∧
    (∃ st', parseModParamAttrs sampleEnv sampleStateModSlave
        [("name", "count"), ("value", "-1")] = some st' ∧ st'.stopped = false ∧
      st'.outputBuf[2]?
        = some (ConfRec.modParam
            { id := 2, value := LCEC_CONF_MODPARAM_VAL_T.u32 4294967295 })) ∧
    (∃ st', parseModParamAttrs sampleEnv sampleStateModSlave
        [("name", "shift"), ("value", "2147483648")] = some st' ∧ st'.stopped = false ∧
      st'.outputBuf[2]?
        = some (ConfRec.modParam
            { id := 3, value := LCEC_CONF_MODPARAM_VAL_T.s32 (-2147483648) })) :=
  ⟨by rfl, by rfl, by rfl, by decide, by rfl, by decide,
    ⟨_, by rfl, by rfl, by rfl, by rfl⟩, ⟨_, by rfl, by rfl, by rfl⟩,
    ⟨_, by rfl, by rfl, by rfl⟩⟩

/-- An accepted `complexEntry` whose enclosing `pdoEntry` is not composite: in
the state inside the `pdoEntry` of the kind `u32` the handler accepts the
element, and the sample document with this nesting is compiled with the record
of the `complexEntry` behind a `pdoEntry` record of the kind
`lcecPdoEntTypeSimple`. -/
theorem complexEntry_under_simple_parent :
    lcecPdoEntTypeSimple ≠ lcecPdoEntTypeComplex ∧
    sampleStatePdoEntrySimple.stopped = false ∧
    sampleStatePdoEntrySimple.pdoEntry
      = some { index := 0x7000, subindex := 1, bitLength := 16,
               subType := lcecPdoEntTypeSimple, halType := HAL_U32 } ∧
    (∃ st1, parseComplexEntryAttrs sampleEnv sampleStatePdoEntrySimple
        [("bitLen", "4"), ("halType", "bit"), ("halPin", "a")] = some st1 ∧
      st1.stopped = false ∧
      st1.pdoEntry = some { index := 0x7000, subindex := 1, bitLength := 16,
                            subType := lcecPdoEntTypeSimple, halType := HAL_U32 } ∧
      st1.outputBuf[5]? = some (ConfRec.complexEntry
        { bitOffset := 0, bitLength := 4, subType := lcecPdoEntTypeSimple,
          halType := HAL_BIT, halPin := "a" })) ∧
    (∃ hdr st, compile sampleEnv 100000 sampleSimpleParentDoc
        = some (some (hdr, st.outputBuf ++ [ConfRec.null])) ∧
      XML_Parse sampleEnv (initState 100000) sampleSimpleParentDoc.events = some st ∧
      st.stopped = false ∧
      st.outputBuf.drop 4
        = [ConfRec.pdoEntry { index := 0x7000, subindex := 1, bitLength := 16,
                              subType := lcecPdoEntTypeSimple, halType := HAL_U32,
                              halPin := "word" },
           ConfRec.complexEntry { bitOffset := 0, bitLength := 4,
                                  subType := lcecPdoEntTypeSimple, halType := HAL_BIT,
                                  halPin := "a" }]) :=
  ⟨by decide, by rfl, by rfl, ⟨_, by rfl, by rfl, by rfl, by rfl⟩,
    ⟨_, _, by rfl, by rfl, by rfl, by rfl⟩⟩

theorem getElem_modAt_ne (i : Option Nat) (g : ConfRec → ConfRec) (B : List ConfRec) (j : Nat)
    (h : i ≠ some j) : (modAt i g B)[j]? = B[j]? := by
  cases i with
  | none => rfl
  | some k =>
    rw [modAt_getElem?, if_neg]
    intro hjk
    exact h (by rw [hjk])

theorem slave_ref_ne (st : State) (h : st.slave.isSome = true) :
    st.currSlave ≠ some st.outputBuf.length := by
  obtain ⟨s, hs⟩ := Option.isSome_iff_exists.mp h
  obtain ⟨i, hi, hg⟩ := slave_some hs
  have hlt : i < st.outputBuf.length := (List.getElem?_eq_some.mp hg).1
  rw [hi]
  intro he
  cases he
  omega

theorem pdo_ref_ne (st : State) (h : st.pdo.isSome = true) :
    st.currPdo ≠ some st.outputBuf.length := by
  obtain ⟨s, hs⟩ := Option.isSome_iff_exists.mp h
  obtain ⟨i, hi, hg⟩ := pdo_some hs
  have hlt : i < st.outputBuf.length := (List.getElem?_eq_some.mp hg).1
  rw [hi]
  intro he
  cases he
  omega

/-- An attribute whose pass stops the parser in every state of the loop makes
`parsePdoEntryAttrs` return with the parser stopped. -/
theorem parsePdoEntryAttrs_stops_at (env : Env) (st : State) (attr : Attrs) (n v : String)
    (hmem : (n, v) ∈ attr) (hab : ∀ p, ∃ q, pdoEntryBody env p n v = Step.abort q) :
    ∃ st', parsePdoEntryAttrs env st attr = some st' ∧ st'.stopped = true := by
  unfold parsePdoEntryAttrs
  split
  · exact ⟨_, rfl, rfl⟩
  · dsimp only
    obtain ⟨q, hq⟩ := attrLoop_abort_of_mem (pdoEntryBody env) (pdoEntryBody_no_fault env) n v
      hab attr ({ index := 0xffff, subindex := 0xff }, false) hmem
    rw [hq]
    exact ⟨_, rfl, rfl⟩

theorem parseComplexEntryAttrs_stops_at (env : Env) (st : State) (attr : Attrs)
    (parent : LCEC_CONF_PDOENTRY_T) (hpar : st.pdoEntry = some parent) (n v : String)
    (hmem : (n, v) ∈ attr) (hab : ∀ p, ∃ q, complexEntryBody env st p n v = Step.abort q) :
    ∃ st', parseComplexEntryAttrs env st attr = some st' ∧ st'.stopped = true := by
  unfold parseComplexEntryAttrs
  split
  · exact ⟨_, rfl, rfl⟩
  · dsimp only
    obtain ⟨q, hq⟩ := attrLoop_abort_of_mem (complexEntryBody env st)
      (complexEntryBody_no_fault env st parent hpar) n v hab attr
      ({ bitOffset := st.currComplexBitOffset }, false) hmem
    rw [hq]
    exact ⟨_, rfl, rfl⟩

theorem parseSyncManagerAttrs_stops_at (env : Env) (st : State) (attr : Attrs)
    (hsl : st.slave.isSome = true) (n v : String)
    (hmem : (n, v) ∈ attr) (hab : ∀ p, ∃ q, syncManagerBody env p n v = Step.abort q) :
    ∃ st', parseSyncManagerAttrs env st attr = some st' ∧ st'.stopped = true := by
  obtain ⟨sl, hsl1⟩ := Option.isSome_iff_exists.mp hsl
  unfold parseSyncManagerAttrs
  split
  · rename_i h0
    rw [hsl1] at h0
    cases h0
  split_ifs
  · exact ⟨_, rfl, rfl⟩
  · split
    · exact ⟨_, rfl, rfl⟩
    · dsimp only
      obtain ⟨q, hq⟩ := attrLoop_abort_of_mem (syncManagerBody env)
        (syncManagerBody_no_fault env) n v hab attr { index := 0xff, dir := EC_DIR_INVALID }
        hmem
      rw [hq]
      exact ⟨_, rfl, rfl⟩

/-- The attribute loop of `parsePdoEntryAttrs` over a valid `idx`, `subIdx` and
`bitLen` followed by a `halType`. -/
theorem pdoEntry_loop_halType (env : Env) (vi vs vb v : String)
    (hi : 0 ≤ toInt32 (strtol env.longBits vi 16).1 ∧
      toInt32 (strtol env.longBits vi 16).1 < 0xffff)
    (hs : 0 ≤ toInt32 (strtol env.longBits vs 16).1 ∧
      toInt32 (strtol env.longBits vs 16).1 < 0xff)
    (hb : 1 ≤ atoi env.longBits vb ∧ atoi env.longBits vb ≤ env.LCEC_CONF_GENERIC_MAX_BITLEN) :
    attrLoop (pdoEntryBody env) ({ index := 0xffff, subindex := 0xff }, false)
        [("idx", vi), ("subIdx", vs), ("bitLen", vb), ("halType", v)]
      = (match pdoEntryHalType
            { index := (toInt32 (strtol env.longBits vi 16).1).toNat,
              subindex := (toInt32 (strtol env.longBits vs 16).1).toNat,
              bitLength := toUInt 8 (atoi env.longBits vb) } v with
         | none => Step.abort
            ({ index := (toInt32 (strtol env.longBits vi 16).1).toNat,
               subindex := (toInt32 (strtol env.longBits vs 16).1).toNat,
               bitLength := toUInt 8 (atoi env.longBits vb) }, false)
         | some q => Step.cont (q, false)) := by
  have h1 : ¬(toInt32 (strtol env.longBits vi 16).1 < 0 ∨
      toInt32 (strtol env.longBits vi 16).1 ≥ 0xffff) := by omega
  have h2 : ¬(toInt32 (strtol env.longBits vs 16).1 < 0 ∨
      toInt32 (strtol env.longBits vs 16).1 ≥ 0xff) := by omega
  have h3 : ¬(atoi env.longBits vb ≤ 0 ∨
      atoi env.longBits vb > env.LCEC_CONF_GENERIC_MAX_BITLEN) := by omega
  simp only [attrLoop, pdoEntryBody_idx, pdoEntryBody_subIdx, pdoEntryBody_bitLen, if_neg h1,
    if_neg h2, if_neg h3]
  have hh := pdoEntryBody_halType env
    ({ index := (toInt32 (strtol env.longBits vi 16).1).toNat,
       subindex := (toInt32 (strtol env.longBits vs 16).1).toNat,
       bitLength := toUInt 8 (atoi env.longBits vb) }, false) v
  cases hq : pdoEntryHalType
      { index := (toInt32 (strtol env.longBits vi 16).1).toNat,
        subindex := (toInt32 (strtol env.longBits vs 16).1).toNat,
        bitLength := toUInt 8 (atoi env.longBits vb) } v with
  | none =>
    have := hh.1 hq
    rw [this]
  | some q =>
    have := hh.2 q hq
    rw [this]

/-- A `pdoEntry` with a valid `idx`, `subIdx` and `bitLen` followed by a
`halType`: accepted exactly when the type is one of the eight names, and the
stored record has the kind of the name. -/
theorem parsePdoEntryAttrs_halType (env : Env) (st : State) (vi vs vb v : String)
    (hst : st.stopped = false) (hmem : env.sizeof lcecConfTypePdoEntry ≤ st.freeMem)
    (hsl : st.slave.isSome = true) (hpdo : st.pdo.isSome = true)
    (hi : 0 ≤ toInt32 (strtol env.longBits vi 16).1 ∧
      toInt32 (strtol env.longBits vi 16).1 < 0xffff)
    (hs : 0 ≤ toInt32 (strtol env.longBits vs 16).1 ∧
      toInt32 (strtol env.longBits vs 16).1 < 0xff)
    (hb : 1 ≤ atoi env.longBits vb ∧ atoi env.longBits vb ≤ env.LCEC_CONF_GENERIC_MAX_BITLEN)
    (hb8 : atoi env.longBits vb < 256) :
    ((∃ st', parsePdoEntryAttrs env st
          [("idx", vi), ("subIdx", vs), ("bitLen", vb), ("halType", v)] = some st' ∧
        st'.stopped = false) ↔
      (strcaseeq v "bit" = true ∨ strcaseeq v "s32" = true ∨ strcaseeq v "u32" = true ∨
        strcaseeq v "float" = true ∨ strcaseeq v "float-unsigned" = true ∨
        strcaseeq v "complex" = true ∨ strcaseeq v "float-ieee" = true ∨
        strcaseeq v "float-double-ieee" = true)) ∧
    (∀ st', parsePdoEntryAttrs env st
          [("idx", vi), ("subIdx", vs), ("bitLen", vb), ("halType", v)] = some st' →
        st'.stopped = false →
      ∃ q, st'.outputBuf[st.outputBuf.length]? = some (ConfRec.pdoEntry q) ∧
        st'.currPdoEntry = some st.outputBuf.length ∧
        q.index = (toInt32 (strtol env.longBits vi 16).1).toNat ∧
        q.subindex = (toInt32 (strtol env.longBits vs 16).1).toNat ∧
        q.bitLength = (atoi env.longBits vb).toNat ∧
        (strcaseeq v "bit" = true →
          q.subType = lcecPdoEntTypeSimple ∧ q.halType = HAL_BIT) ∧
        (strcaseeq v "s32" = true →
          q.subType = lcecPdoEntTypeSimple ∧ q.halType = HAL_S32) ∧
        (strcaseeq v "u32" = true →
          q.subType = lcecPdoEntTypeSimple ∧ q.halType = HAL_U32) ∧
        (strcaseeq v "float" = true →
          q.subType = lcecPdoEntTypeFloatSigned ∧ q.halType = HAL_FLOAT) ∧
        (strcaseeq v "float-unsigned" = true →
          q.subType = lcecPdoEntTypeFloatUnsigned ∧ q.halType = HAL_FLOAT) ∧
        (strcaseeq v "complex" = true →
          q.subType = lcecPdoEntTypeComplex ∧ q.halType = HAL_TYPE_ZERO) ∧
        (strcaseeq v "float-ieee" = true →
          q.subType = lcecPdoEntTypeFloatIeee ∧ q.halType = HAL_FLOAT) ∧
        (strcaseeq v "float-double-ieee" = true →
          q.subType = lcecPdoEntTypeFloatDoubleIeee ∧ q.halType = HAL_FLOAT)) := by
  have hloop := pdoEntry_loop_halType env vi vs vb v hi hs hb
  have hc := pdoEntryHalType_cases
    { index := (toInt32 (strtol env.longBits vi 16).1).toNat,
      subindex := (toInt32 (strtol env.longBits vs 16).1).toNat,
      bitLength := toUInt 8 (atoi env.longBits vb) } v
  have hb0 : toUInt 8 (atoi env.longBits vb) = (atoi env.longBits vb).toNat :=
    toUInt8_of_range (by omega) hb8
  have hi1 : (toInt32 (strtol env.longBits vi 16).1).toNat ≠ 0xffff := by omega
  have hs1 : (toInt32 (strtol env.longBits vs 16).1).toNat ≠ 0xff := by omega
  have hb1 : (atoi env.longBits vb).toNat ≠ 0 := by omega
  constructor
  · rw [parsePdoEntryAttrs_accept_iff]
    constructor
    · rintro ⟨_, _, _, _, p, fr, hl, _⟩
      by_contra hn
      rw [hloop, hc.2.2.2.2.2.2.2.2 hn] at hl
      cases hl
    · intro h8
      have hq : ∃ q, pdoEntryHalType
          { index := (toInt32 (strtol env.longBits vi 16).1).toNat,
            subindex := (toInt32 (strtol env.longBits vs 16).1).toNat,
            bitLength := toUInt 8 (atoi env.longBits vb) } v = some q := by
        rcases h8 with h | h | h | h | h | h | h | h
        · exact ⟨_, hc.1 h⟩
        · exact ⟨_, hc.2.1 h⟩
        · exact ⟨_, hc.2.2.1 h⟩
        · exact ⟨_, hc.2.2.2.1 h⟩
        · exact ⟨_, hc.2.2.2.2.1 h⟩
        · exact ⟨_, hc.2.2.2.2.2.1 h⟩
        · exact ⟨_, hc.2.2.2.2.2.2.1 h⟩
        · exact ⟨_, hc.2.2.2.2.2.2.2.1 h⟩
      obtain ⟨q, hq⟩ := hq
      obtain ⟨f1, f2, f3, f4, _, _⟩ := pdoEntryHalType_frame hq
      rw [hq] at hloop
      refine ⟨hst, hmem, hsl, hpdo, q, false, hloop, ?_, ?_, ?_, ?_, ?_⟩
      · rw [f1]; exact hi1
      · rw [f2]; exact hs1
      · rw [f3, hb0]; exact hb1
      · rintro ⟨_, hp⟩
        exact hp f4
      · rintro ⟨hf, _⟩
        cases hf
  · intro st' h hs'
    obtain ⟨p, fr, hl, hst'⟩ := parsePdoEntryAttrs_effect env st st' _ h hs'
    rw [hloop] at hl
    cases hq : pdoEntryHalType
        { index := (toInt32 (strtol env.longBits vi 16).1).toNat,
          subindex := (toInt32 (strtol env.longBits vs 16).1).toNat,
          bitLength := toUInt 8 (atoi env.longBits vb) } v with
    | none =>
      rw [hq] at hl
      cases hl
    | some q =>
      rw [hq] at hl
      have hpq : q = p := by
        injection hl with h1
        injection h1 with h2 _
      subst hpq
      obtain ⟨f1, f2, f3, _, _, _⟩ := pdoEntryHalType_frame hq
      have hbuf : st'.outputBuf[st.outputBuf.length]? = some (ConfRec.pdoEntry q) := by
        rw [hst']
        show (modAt st.currPdo _ (modAt st.currSlave _ _))[st.outputBuf.length]? = _
        rw [getElem_modAt_ne _ _ _ _ (pdo_ref_ne st hpdo),
          getElem_modAt_ne _ _ _ _ (slave_ref_ne st hsl)]
        simp
      have hcur : st'.currPdoEntry = some st.outputBuf.length := by
        rw [hst']
      refine ⟨q, hbuf, hcur, f1, f2, by rw [f3, hb0], ?_, ?_, ?_, ?_, ?_, ?_, ?_, ?_⟩
      · intro hv
        have := (hc.1 hv).symm.trans hq
        cases this
        exact ⟨rfl, rfl⟩
      · intro hv
        have := (hc.2.1 hv).symm.trans hq
        cases this
        exact ⟨rfl, rfl⟩
      · intro hv
        have := (hc.2.2.1 hv).symm.trans hq
        cases this
        exact ⟨rfl, rfl⟩
      · intro hv
        have := (hc.2.2.2.1 hv).symm.trans hq
        cases this
        exact ⟨rfl, rfl⟩
      · intro hv
        have := (hc.2.2.2.2.1 hv).symm.trans hq
        cases this
        exact ⟨rfl, rfl⟩
      · intro hv
        have := (hc.2.2.2.2.2.1 hv).symm.trans hq
        cases this
        exact ⟨rfl, rfl⟩
      · intro hv
        have := (hc.2.2.2.2.2.2.1 hv).symm.trans hq
        cases this
        exact ⟨rfl, rfl⟩
      · intro hv
        have := (hc.2.2.2.2.2.2.2.1 hv).symm.trans hq
        cases this
        exact ⟨rfl, rfl⟩

/-- The attribute loop of `parseComplexEntryAttrs` over a valid `bitLen`
followed by a `halType`. -/
theorem complexEntry_loop_halType (env : Env) (st : State) (parent : LCEC_CONF_PDOENTRY_T)
    (vb v : String) (hpar : st.pdoEntry = some parent)
    (hb : 1 ≤ atoi env.longBits vb ∧ atoi env.longBits vb ≤ env.LCEC_CONF_GENERIC_MAX_SUBPINS)
    (hsum : (st.currComplexBitOffset : Int) + atoi env.longBits vb ≤ (parent.bitLength : Int)) :
    attrLoop (complexEntryBody env st) ({ bitOffset := st.currComplexBitOffset }, false)
        [("bitLen", vb), ("halType", v)]
      = (match complexEntryHalType
            { bitOffset := st.currComplexBitOffset,
              bitLength := toUInt 8 (atoi env.longBits vb) } v with
         | none => Step.abort
            ({ bitOffset := st.currComplexBitOffset,
               bitLength := toUInt 8 (atoi env.longBits vb) }, false)
         | some q => Step.cont (q, false)) := by
  have h3 : ¬(atoi env.longBits vb ≤ 0 ∨
      atoi env.longBits vb > env.LCEC_CONF_GENERIC_MAX_SUBPINS) := by omega
  have h4 : ¬((st.currComplexBitOffset : Int) + atoi env.longBits vb >
      (parent.bitLength : Int)) := by omega
  have hstep : complexEntryBody env st ({ bitOffset := st.currComplexBitOffset }, false)
      "bitLen" vb = Step.cont
        ({ bitOffset := st.currComplexBitOffset,
           bitLength := toUInt 8 (atoi env.longBits vb) }, false) := by
    simp only [complexEntryBody, if_true, if_neg h3, hpar, if_neg h4]
  simp only [attrLoop, hstep]
  have hh := complexEntryBody_halType env st
    ({ bitOffset := st.currComplexBitOffset,
       bitLength := toUInt 8 (atoi env.longBits vb) }, false) v
  cases hq : complexEntryHalType
      { bitOffset := st.currComplexBitOffset,
        bitLength := toUInt 8 (atoi env.longBits vb) } v with
  | none =>
    have := hh.1 hq
    rw [this]
  | some q =>
    have := hh.2 q hq
    rw [this]

/-- A `complexEntry` with a valid `bitLen` followed by a `halType`: accepted
exactly when the type is one of the seven names, and the stored record has the
kind of the name. -/
theorem parseComplexEntryAttrs_halType (env : Env) (st : State)
    (parent : LCEC_CONF_PDOENTRY_T) (vb v : String)
    (hst : st.stopped = false) (hmem : env.sizeof lcecConfTypeComplexEntry ≤ st.freeMem)
    (hpar : st.pdoEntry = some parent)
    (hb : 1 ≤ atoi env.longBits vb ∧ atoi env.longBits vb ≤ env.LCEC_CONF_GENERIC_MAX_SUBPINS)
    (hb8 : atoi env.longBits vb < 256)
    (hsum : (st.currComplexBitOffset : Int) + atoi env.longBits vb ≤ (parent.bitLength : Int)) :
    ((∃ st', parseComplexEntryAttrs env st [("bitLen", vb), ("halType", v)] = some st' ∧
        st'.stopped = false) ↔
      (strcaseeq v "bit" = true ∨ strcaseeq v "s32" = true ∨ strcaseeq v "u32" = true ∨
        strcaseeq v "float" = true ∨ strcaseeq v "float-unsigned" = true ∨
        strcaseeq v "float-ieee" = true ∨ strcaseeq v "float-double-ieee" = true)) ∧
    (∀ st', parseComplexEntryAttrs env st [("bitLen", vb), ("halType", v)] = some st' →
        st'.stopped = false →
      ∃ q, st'.outputBuf[st.outputBuf.length]? = some (ConfRec.complexEntry q) ∧
        q.bitOffset = st.currComplexBitOffset ∧
        q.bitLength = (atoi env.longBits vb).toNat ∧
        (strcaseeq v "bit" = true →
          q.subType = lcecPdoEntTypeSimple ∧ q.halType = HAL_BIT) ∧
        (strcaseeq v "s32" = true →
          q.subType = lcecPdoEntTypeSimple ∧ q.halType = HAL_S32) ∧
        (strcaseeq v "u32" = true →
          q.subType = lcecPdoEntTypeSimple ∧ q.halType = HAL_U32) ∧
        (strcaseeq v "float" = true →
          q.subType = lcecPdoEntTypeFloatSigned ∧ q.halType = HAL_FLOAT) ∧
        (strcaseeq v "float-unsigned" = true →
          q.subType = lcecPdoEntTypeFloatUnsigned ∧ q.halType = HAL_FLOAT) ∧
        (strcaseeq v "float-ieee" = true →
          q.subType = lcecPdoEntTypeFloatIeee ∧ q.halType = HAL_FLOAT) ∧
        (strcaseeq v "float-double-ieee" = true →
          q.subType = lcecPdoEntTypeFloatDoubleIeee ∧ q.halType = HAL_FLOAT)) := by
  have hloop := complexEntry_loop_halType env st parent vb v hpar hb hsum
  have hc := complexEntryHalType_cases
    { bitOffset := st.currComplexBitOffset,
      bitLength := toUInt 8 (atoi env.longBits vb) } v
  have hb0 : toUInt 8 (atoi env.longBits vb) = (atoi env.longBits vb).toNat :=
    toUInt8_of_range (by omega) hb8
  have hb1 : (atoi env.longBits vb).toNat ≠ 0 := by omega
  constructor
  · rw [parseComplexEntryAttrs_accept_iff]
    constructor
    · rintro ⟨_, _, p, fr, hl, _⟩
      by_contra hn
      rw [hloop, hc.2.2.2.2.2.2.2 hn] at hl
      cases hl
    · intro h7
      have hq : ∃ q, complexEntryHalType
          { bitOffset := st.currComplexBitOffset,
            bitLength := toUInt 8 (atoi env.longBits vb) } v = some q := by
        rcases h7 with h | h | h | h | h | h | h
        · exact ⟨_, hc.1 h⟩
        · exact ⟨_, hc.2.1 h⟩
        · exact ⟨_, hc.2.2.1 h⟩
        · exact ⟨_, hc.2.2.2.1 h⟩
        · exact ⟨_, hc.2.2.2.2.1 h⟩
        · exact ⟨_, hc.2.2.2.2.2.1 h⟩
        · exact ⟨_, hc.2.2.2.2.2.2.1 h⟩
      obtain ⟨q, hq⟩ := hq
      obtain ⟨_, f3, f4, _, _⟩ := complexEntryHalType_frame hq
      rw [hq] at hloop
      refine ⟨hst, hmem, q, false, hloop, ?_, ?_, ?_⟩
      · rw [f3, hb0]; exact hb1
      · rintro ⟨hf, _⟩
        cases hf
      · intro hp
        exact absurd f4 hp
  · intro st' h hs'
    obtain ⟨p, fr, hl, hst'⟩ := parseComplexEntryAttrs_effect env st st' _ h hs'
    rw [hloop] at hl
    cases hq : complexEntryHalType
        { bitOffset := st.currComplexBitOffset,
          bitLength := toUInt 8 (atoi env.longBits vb) } v with
    | none =>
      rw [hq] at hl
      cases hl
    | some q =>
      rw [hq] at hl
      have hpq : q = p := by
        injection hl with h1
        injection h1 with h2 _
      subst hpq
      obtain ⟨f1, f3, f4, _, _⟩ := complexEntryHalType_frame hq
      have hbuf : st'.outputBuf[st.outputBuf.length]? = some (ConfRec.complexEntry q) := by
        rw [hst']
        show (modAt st.currSlave _ _)[st.outputBuf.length]? = _
        have hpin : q.halPin = "" := f4
        rw [if_neg (by rw [hpin]; simp)]
        cases hcs : st.currSlave with
        | none => 
          show (st.outputBuf ++ [ConfRec.complexEntry q])[st.outputBuf.length]? = _
          simp
        | some k =>
          rw [modAt_getElem?]
          split_ifs
          · simp
            rfl
          · simp
      refine ⟨q, hbuf, f1, by rw [f3, hb0], ?_, ?_, ?_, ?_, ?_, ?_, ?_⟩
      · intro hv
        have := (hc.1 hv).symm.trans hq
        cases this
        exact ⟨rfl, rfl⟩
      · intro hv
        have := (hc.2.1 hv).symm.trans hq
        cases this
        exact ⟨rfl, rfl⟩
      · intro hv
        have := (hc.2.2.1 hv).symm.trans hq
        cases this
        exact ⟨rfl, rfl⟩
      · intro hv
        have := (hc.2.2.2.1 hv).symm.trans hq
        cases this
        exact ⟨rfl, rfl⟩
      · intro hv
        have := (hc.2.2.2.2.1 hv).symm.trans hq
        cases this
        exact ⟨rfl, rfl⟩
      · intro hv
        have := (hc.2.2.2.2.2.1 hv).symm.trans hq
        cases this
        exact ⟨rfl, rfl⟩
      · intro hv
        have := (hc.2.2.2.2.2.2.1 hv).symm.trans hq
        cases this
        exact ⟨rfl, rfl⟩

/-- The attribute loop of `parseSyncManagerAttrs` over a valid `idx` followed
by a `dir`. -/
theorem syncManager_loop_dir (env : Env) (vi v : String)
    (hi : 0 ≤ atoi env.longBits vi ∧ atoi env.longBits vi < EC_MAX_SYNC_MANAGERS) :
    attrLoop (syncManagerBody env) { index := 0xff, dir := EC_DIR_INVALID }
        [("idx", vi), ("dir", v)]
      = (if strcaseeq v "in" = true then
           Step.cont { index := (atoi env.longBits vi).toNat, dir := EC_DIR_INPUT }
         else if strcaseeq v "out" = true then
           Step.cont { index := (atoi env.longBits vi).toNat, dir := EC_DIR_OUTPUT }
         else Step.abort { index := (atoi env.longBits vi).toNat, dir := EC_DIR_INVALID }) := by
  have h1 : ¬(atoi env.longBits vi < 0 ∨ atoi env.longBits vi ≥ EC_MAX_SYNC_MANAGERS) := by
    omega
  have hstep : syncManagerBody env { index := 0xff, dir := EC_DIR_INVALID } "idx" vi
      = Step.cont { index := (atoi env.longBits vi).toNat, dir := EC_DIR_INVALID } := by
    simp only [syncManagerBody, if_true, if_neg h1]
  simp only [attrLoop, hstep, syncManagerBody_dir]
  split_ifs <;> rfl

/-- A `syncManager` of a generic slave with a valid `idx` followed by a `dir`:
accepted exactly when the direction is `in` or `out`, and the stored record has
the direction of the name. -/
theorem parseSyncManagerAttrs_dir (env : Env) (st : State) (sl : LCEC_CONF_SLAVE_T)
    (vi v : String)
    (hst : st.stopped = false) (hmem : env.sizeof lcecConfTypeSyncManager ≤ st.freeMem)
    (hsl : st.slave = some sl) (hgen : sl.typename = "generic")
    (hi : 0 ≤ atoi env.longBits vi ∧ atoi env.longBits vi < EC_MAX_SYNC_MANAGERS) :
    ((∃ st', parseSyncManagerAttrs env st [("idx", vi), ("dir", v)] = some st' ∧
        st'.stopped = false) ↔
      (strcaseeq v "in" = true ∨ strcaseeq v "out" = true)) ∧
    (∀ st', parseSyncManagerAttrs env st [("idx", vi), ("dir", v)] = some st' →
        st'.stopped = false →
      ∃ q, st'.outputBuf[st.outputBuf.length]? = some (ConfRec.syncManager q) ∧
        st'.currSyncManager = some st.outputBuf.length ∧
        q.index = (atoi env.longBits vi).toNat ∧
        (strcaseeq v "in" = true → q.dir = EC_DIR_INPUT) ∧
        (strcaseeq v "out" = true → q.dir = EC_DIR_OUTPUT)) := by
  have hloop := syncManager_loop_dir env vi v hi
  have hmax : EC_MAX_SYNC_MANAGERS = 16 := rfl
  have hi1 : (atoi env.longBits vi).toNat ≠ 0xff := by omega
  have hsome : st.slave.isSome = true := by rw [hsl]; rfl
  constructor
  · constructor
    · rintro ⟨st', h, hs'⟩
      obtain ⟨p, _, _, _, hl, _⟩ := parseSyncManagerAttrs_effect env st st' _ h hs'
      by_contra hn
      rw [hloop, if_neg (fun c => hn (Or.inl c)), if_neg (fun c => hn (Or.inr c))] at hl
      cases hl
    · rintro (h | h)
      · rw [if_pos h] at hloop
        exact parseSyncManagerAttrs_accepts env st _ _ sl hst hmem hsl hgen hloop hi1
          (by intro hd; cases hd)
      · rw [if_neg (fun c => absurd (strcaseeq_excl c h) (by decide)), if_pos h] at hloop
        exact parseSyncManagerAttrs_accepts env st _ _ sl hst hmem hsl hgen hloop hi1
          (by intro hd; cases hd)
  · intro st' h hs'
    obtain ⟨p, _, _, _, hl, hst'⟩ := parseSyncManagerAttrs_effect env st st' _ h hs'
    have hbuf : st'.outputBuf[st.outputBuf.length]? = some (ConfRec.syncManager p) := by
      rw [hst']
      show (modAt st.currSlave _ _)[st.outputBuf.length]? = _
      rw [getElem_modAt_ne _ _ _ _ (slave_ref_ne st hsome)]
      simp
    have hcur : st'.currSyncManager = some st.outputBuf.length := by
      rw [hst']
    rw [hloop] at hl
    refine ⟨p, hbuf, hcur, ?_, ?_, ?_⟩
    · split_ifs at hl
      · cases hl; rfl
      · cases hl; rfl
    · intro hv
      rw [if_pos hv] at hl
      cases hl
      rfl
    · intro hv
      rw [if_neg (fun c => absurd (strcaseeq_excl c hv) (by decide)), if_pos hv] at hl
      cases hl
      rfl

/-- C26: the enumerated attribute values are matched ignoring case against a
closed set, by the handlers themselves.  `parsePdoEntryAttrs` stops the parser
on every attribute list holding a `halType` that is none of `bit`, `s32`,
`u32`, `float`, `float-unsigned`, `complex`, `float-ieee`, `float-double-ieee`;
on a list of a valid `idx`, `subIdx`, `bitLen` and a `halType` it accepts
exactly when the type is one of the eight names, and the stored record then
has the kind of the name (bit, signed, unsigned, float signed, float unsigned,
composite, float IEEE single, float IEEE double).  `parseComplexEntryAttrs`
does the same with the seven names other than `complex`, and
`parseSyncManagerAttrs` with the directions `in` (input) and `out` (output).
The last part evaluates the three handlers on names in mixed case and on names
outside the sets. -/
theorem enumerated_values_by_handler (env : Env) :
    (∀ (st : State) (attr : Attrs) (v : String), ("halType", v) ∈ attr →
      ¬(strcaseeq v "bit" = true ∨ strcaseeq v "s32" = true ∨ strcaseeq v "u32" = true ∨
        strcaseeq v "float" = true ∨ strcaseeq v "float-unsigned" = true ∨
        strcaseeq v "complex" = true ∨ strcaseeq v "float-ieee" = true ∨
        strcaseeq v "float-double-ieee" = true) →
      ∃ st', parsePdoEntryAttrs env st attr = some st' ∧ st'.stopped = true) ∧
    (∀ (st : State) (vi vs vb v : String),
      st.stopped = false → env.sizeof lcecConfTypePdoEntry ≤ st.freeMem →
      st.slave.isSome = true → st.pdo.isSome = true →
      (0 ≤ toInt32 (strtol env.longBits vi 16).1 ∧
        toInt32 (strtol env.longBits vi 16).1 < 0xffff) →
      (0 ≤ toInt32 (strtol env.longBits vs 16).1 ∧
        toInt32 (strtol env.longBits vs 16).1 < 0xff) →
      (1 ≤ atoi env.longBits vb ∧ atoi env.longBits vb ≤ env.LCEC_CONF_GENERIC_MAX_BITLEN) →
      atoi env.longBits vb < 256 →
      ((∃ st', parsePdoEntryAttrs env st
            [("idx", vi), ("subIdx", vs), ("bitLen", vb), ("halType", v)] = some st' ∧
          st'.stopped = false) ↔
        (strcaseeq v "bit" = true ∨ strcaseeq v "s32" = true ∨ strcaseeq v "u32" = true ∨
          strcaseeq v "float" = true ∨ strcaseeq v "float-unsigned" = true ∨
          strcaseeq v "complex" = true ∨ strcaseeq v "float-ieee" = true ∨
          strcaseeq v "float-double-ieee" = true)) ∧
      (∀ st', parsePdoEntryAttrs env st
            [("idx", vi), ("subIdx", vs), ("bitLen", vb), ("halType", v)] = some st' →
          st'.stopped = false →
        ∃ q, st'.outputBuf[st.outputBuf.length]? = some (ConfRec.pdoEntry q) ∧
          st'.currPdoEntry = some st.outputBuf.length ∧
          q.index = (toInt32 (strtol env.longBits vi 16).1).toNat ∧
          q.subindex = (toInt32 (strtol env.longBits vs 16).1).toNat ∧
          q.bitLength = (atoi env.longBits vb).toNat ∧
          (strcaseeq v "bit" = true →
            q.subType = lcecPdoEntTypeSimple ∧ q.halType = HAL_BIT) ∧
          (strcaseeq v "s32" = true →
            q.subType = lcecPdoEntTypeSimple ∧ q.halType = HAL_S32) ∧
          (strcaseeq v "u32" = true →
            q.subType = lcecPdoEntTypeSimple ∧ q.halType = HAL_U32) ∧
          (strcaseeq v "float" = true →
            q.subType = lcecPdoEntTypeFloatSigned ∧ q.halType = HAL_FLOAT) ∧
          (strcaseeq v "float-unsigned" = true →
            q.subType = lcecPdoEntTypeFloatUnsigned ∧ q.halType = HAL_FLOAT) ∧
          (strcaseeq v "complex" = true →
            q.subType = lcecPdoEntTypeComplex ∧ q.halType = HAL_TYPE_ZERO) ∧
          (strcaseeq v "float-ieee" = true →
            q.subType = lcecPdoEntTypeFloatIeee ∧ q.halType = HAL_FLOAT) ∧
          (strcaseeq v "float-double-ieee" = true →
            q.subType = lcecPdoEntTypeFloatDoubleIeee ∧ q.halType = HAL_FLOAT))) ∧
    (∀ (st : State) (attr : Attrs) (parent : LCEC_CONF_PDOENTRY_T) (v : String),
      st.pdoEntry = some parent → ("halType", v) ∈ attr →
      ¬(strcaseeq v "bit" = true ∨ strcaseeq v "s32" = true ∨ strcaseeq v "u32" = true ∨
        strcaseeq v "float" = true ∨ strcaseeq v "float-unsigned" = true ∨
        strcaseeq v "float-ieee" = true ∨ strcaseeq v "float-double-ieee" = true) →
      ∃ st', parseComplexEntryAttrs env st attr = some st' ∧ st'.stopped = true) ∧
    (∀ (st : State) (parent : LCEC_CONF_PDOENTRY_T) (vb v : String),
      st.stopped = false → env.sizeof lcecConfTypeComplexEntry ≤ st.freeMem →
      st.pdoEntry = some parent →
      (1 ≤ atoi env.longBits vb ∧ atoi env.longBits vb ≤ env.LCEC_CONF_GENERIC_MAX_SUBPINS) →
      atoi env.longBits vb < 256 →
      (st.currComplexBitOffset : Int) + atoi env.longBits vb ≤ (parent.bitLength : Int) →
      ((∃ st', parseComplexEntryAttrs env st [("bitLen", vb), ("halType", v)] = some st' ∧
          st'.stopped = false) ↔
        (strcaseeq v "bit" = true ∨ strcaseeq v "s32" = true ∨ strcaseeq v "u32" = true ∨
          strcaseeq v "float" = true ∨ strcaseeq v "float-unsigned" = true ∨
          strcaseeq v "float-ieee" = true ∨ strcaseeq v "float-double-ieee" = true)) ∧
      (strcaseeq v "complex" = true →
        ∃ st', parseComplexEntryAttrs env st [("bitLen", vb), ("halType", v)] = some st' ∧
          st'.stopped = true) ∧
      (∀ st', parseComplexEntryAttrs env st [("bitLen", vb), ("halType", v)] = some st' →
          st'.stopped = false →
        ∃ q, st'.outputBuf[st.outputBuf.length]? = some (ConfRec.complexEntry q) ∧
          q.bitOffset = st.currComplexBitOffset ∧
          q.bitLength = (atoi env.longBits vb).toNat ∧
          (strcaseeq v "bit" = true →
            q.subType = lcecPdoEntTypeSimple ∧ q.halType = HAL_BIT) ∧
          (strcaseeq v "s32" = true →
            q.subType = lcecPdoEntTypeSimple ∧ q.halType = HAL_S32) ∧
          (strcaseeq v "u32" = true →
            q.subType = lcecPdoEntTypeSimple ∧ q.halType = HAL_U32) ∧
          (strcaseeq v "float" = true →
            q.subType = lcecPdoEntTypeFloatSigned ∧ q.halType = HAL_FLOAT) ∧
          (strcaseeq v "float-unsigned" = true →
            q.subType = lcecPdoEntTypeFloatUnsigned ∧ q.halType = HAL_FLOAT) ∧
          (strcaseeq v "float-ieee" = true →
            q.subType = lcecPdoEntTypeFloatIeee ∧ q.halType = HAL_FLOAT) ∧
          (strcaseeq v "float-double-ieee" = true →
            q.subType = lcecPdoEntTypeFloatDoubleIeee ∧ q.halType = HAL_FLOAT))) ∧
    (∀ (st : State) (attr : Attrs) (v : String), st.slave.isSome = true →
      ("dir", v) ∈ attr → ¬(strcaseeq v "in" = true ∨ strcaseeq v "out" = true) →
      ∃ st', parseSyncManagerAttrs env st attr = some st' ∧ st'.stopped = true) ∧
    (∀ (st : State) (sl : LCEC_CONF_SLAVE_T) (vi v : String),
      st.stopped = false → env.sizeof lcecConfTypeSyncManager ≤ st.freeMem →
      st.slave = some sl → sl.typename = "generic" →
      (0 ≤ atoi env.longBits vi ∧ atoi env.longBits vi < EC_MAX_SYNC_MANAGERS) →
      ((∃ st', parseSyncManagerAttrs env st [("idx", vi), ("dir", v)] = some st' ∧
          st'.stopped = false) ↔
        (strcaseeq v "in" = true ∨ strcaseeq v "out" = true)) ∧
      (∀ st', parseSyncManagerAttrs env st [("idx", vi), ("dir", v)] = some st' →
          st'.stopped = false →
        ∃ q, st'.outputBuf[st.outputBuf.length]? = some (ConfRec.syncManager q) ∧
          st'.currSyncManager = some st.outputBuf.length ∧
          q.index = (atoi env.longBits vi).toNat ∧
          (strcaseeq v "in" = true → q.dir = EC_DIR_INPUT) ∧
          (strcaseeq v "out" = true → q.dir = EC_DIR_OUTPUT))) ∧
    ((∃ st', parsePdoEntryAttrs sampleEnv sampleStatePdo
          [("idx", "6000"), ("subIdx", "1"), ("bitLen", "32"), ("halType", "Float-IEEE")]
          = some st' ∧ st'.stopped = false ∧
        st'.outputBuf[4]? = some (ConfRec.pdoEntry
          { index := 0x6000, subindex := 1, bitLength := 32,
            subType := lcecPdoEntTypeFloatIeee, halType := HAL_FLOAT })) ∧
      (∃ st', parsePdoEntryAttrs sampleEnv sampleStatePdo
          [("idx", "6000"), ("subIdx", "1"), ("bitLen", "16"), ("halType", "COMPLEX")]
          = some st' ∧ st'.stopped = false ∧
        st'.outputBuf[4]? = some (ConfRec.pdoEntry
          { index := 0x6000, subindex := 1, bitLength := 16,
            subType := lcecPdoEntTypeComplex, halType := HAL_TYPE_ZERO })) ∧
      (∃ st', parsePdoEntryAttrs sampleEnv sampleStatePdo
          [("idx", "6000"), ("subIdx", "1"), ("bitLen", "16"), ("halType", "int")]
          = some st' ∧ st'.stopped = true) ∧
      (∃ st', parseComplexEntryAttrs sampleEnv sampleStatePdoEntry
          [("bitLen", "4"), ("halType", "S32")] = some st' ∧ st'.stopped = false ∧
        st'.outputBuf[5]? = some (ConfRec.complexEntry
          { bitOffset := 0, bitLength := 4, subType := lcecPdoEntTypeSimple,
            halType := HAL_S32 })) ∧
      (∃ st', parseComplexEntryAttrs sampleEnv sampleStatePdoEntry
          [("bitLen", "4"), ("halType", "complex")] = some st' ∧ st'.stopped = true) ∧
      (∃ st', parseSyncManagerAttrs sampleEnv sampleStateSlave
          [("idx", "2"), ("dir", "OUT")] = some st' ∧ st'.stopped = false ∧
        st'.outputBuf[2]? = some (ConfRec.syncManager { index := 2, dir := EC_DIR_OUTPUT })) ∧
      (∃ st', parseSyncManagerAttrs sampleEnv sampleStateSlave
          [("idx", "2"), ("dir", "In")] = some st' ∧ st'.stopped = false ∧
        st'.outputBuf[2]? = some (ConfRec.syncManager { index := 2, dir := EC_DIR_INPUT })) ∧
      (∃ st', parseSyncManagerAttrs sampleEnv sampleStateSlave
          [("idx", "2"), ("dir", "both")] = some st' ∧ st'.stopped = true)) := by
  refine ⟨?_, ?_, ?_, ?_, ?_, ?_, ?_⟩
  · intro st attr v hmem hno
    apply parsePdoEntryAttrs_stops_at env st attr "halType" v hmem
    intro p
    exact ⟨p, (pdoEntryBody_halType env p v).1
      ((pdoEntryHalType_cases p.1 v).2.2.2.2.2.2.2.2 hno)⟩
  · intro st vi vs vb v hst hmem hsl hpdo hi hs hb hb8
    exact parsePdoEntryAttrs_halType env st vi vs vb v hst hmem hsl hpdo hi hs hb hb8
  · intro st attr parent v hpar hmem hno
    apply parseComplexEntryAttrs_stops_at env st attr parent hpar "halType" v hmem
    intro p
    exact ⟨p, (complexEntryBody_halType env st p v).1
      ((complexEntryHalType_cases p.1 v).2.2.2.2.2.2.2 hno)⟩
  · intro st parent vb v hst hmem hpar hb hb8 hsum
    obtain ⟨h1, h2⟩ := parseComplexEntryAttrs_halType env st parent vb v hst hmem hpar hb hb8
      hsum
    refine ⟨h1, ?_, h2⟩
    intro hc
    apply parseComplexEntryAttrs_stops_at env st _ parent hpar "halType" v (by simp)
    intro p
    refine ⟨p, (complexEntryBody_halType env st p v).1
      ((complexEntryHalType_cases p.1 v).2.2.2.2.2.2.2 ?_)⟩
    rintro (c | c | c | c | c | c | c) <;> exact absurd (strcaseeq_excl c hc) (by decide)
  · intro st attr v hsl hmem hno
    apply parseSyncManagerAttrs_stops_at env st attr hsl "dir" v hmem
    intro p
    refine ⟨p, ?_⟩
    rw [syncManagerBody_dir, if_neg (fun c => hno (Or.inl c)),
      if_neg (fun c => hno (Or.inr c))]
  · intro st sl vi v hst hmem hsl hgen hi
    exact parseSyncManagerAttrs_dir env st sl vi v hst hmem hsl hgen hi
  · exact ⟨⟨_, by rfl, by rfl, by rfl⟩, ⟨_, by rfl, by rfl, by rfl⟩, ⟨_, by rfl, by rfl⟩,
      ⟨_, by rfl, by rfl, by rfl⟩, ⟨_, by rfl, by rfl⟩, ⟨_, by rfl, by rfl, by rfl⟩,
      ⟨_, by rfl, by rfl, by rfl⟩, ⟨_, by rfl, by rfl⟩⟩

theorem enumerated_values_by_handler_witness :
    (sampleStatePdo.stopped = false ∧
      sampleEnv.sizeof lcecConfTypePdoEntry ≤ sampleStatePdo.freeMem ∧
      sampleStatePdo.slave.isSome = true ∧ sampleStatePdo.pdo.isSome = true ∧
      toInt32 (strtol sampleEnv.longBits "6000" 16).1 = 0x6000 ∧
      toInt32 (strtol sampleEnv.longBits "1" 16).1 = 1 ∧
      atoi sampleEnv.longBits "32" = 32 ∧
      strcaseeq "Float-IEEE" "float-ieee" = true ∧
      (∃ st', parsePdoEntryAttrs sampleEnv sampleStatePdo
          [("idx", "6000"), ("subIdx", "1"), ("bitLen", "32"), ("halType", "Float-IEEE")]
          = some st' ∧ st'.stopped = false) ∧
      (∀ st', parsePdoEntryAttrs sampleEnv sampleStatePdo
          [("idx", "6000"), ("subIdx", "1"), ("bitLen", "32"), ("halType", "Float-IEEE")]
          = some st' → st'.stopped = false →
        ∃ q, st'.outputBuf[sampleStatePdo.outputBuf.length]? = some (ConfRec.pdoEntry q) ∧
          q.subType = lcecPdoEntTypeFloatIeee ∧ q.halType = HAL_FLOAT)) ∧
    (¬(strcaseeq "int" "bit" = true ∨ strcaseeq "int" "s32" = true ∨
        strcaseeq "int" "u32" = true ∨ strcaseeq "int" "float" = true ∨
        strcaseeq "int" "float-unsigned" = true ∨ strcaseeq "int" "complex" = true ∨
        strcaseeq "int" "float-ieee" = true ∨ strcaseeq "int" "float-double-ieee" = true) ∧
      ∃ st', parsePdoEntryAttrs sampleEnv sampleStatePdo
          [("halType", "int"), ("idx", "6000"), ("subIdx", "1"), ("bitLen", "16")]
          = some st' ∧ st'.stopped = true) ∧
    (sampleStatePdoEntry.stopped = false ∧
      sampleEnv.sizeof lcecConfTypeComplexEntry ≤ sampleStatePdoEntry.freeMem ∧
      sampleStatePdoEntry.pdoEntry = some
        { index := 0x7000, subindex := 1, bitLength := 16, subType := lcecPdoEntTypeComplex } ∧
      sampleStatePdoEntry.currComplexBitOffset = 0 ∧
      atoi sampleEnv.longBits "4" = 4 ∧
      strcaseeq "S32" "s32" = true ∧
      (∃ st', parseComplexEntryAttrs sampleEnv sampleStatePdoEntry
          [("bitLen", "4"), ("halType", "S32")] = some st' ∧ st'.stopped = false) ∧
      strcaseeq "Complex" "complex" = true ∧
      (∃ st', parseComplexEntryAttrs sampleEnv sampleStatePdoEntry
          [("bitLen", "4"), ("halType", "Complex")] = some st' ∧ st'.stopped = true) ∧
      (∃ st', parseComplexEntryAttrs sampleEnv sampleStatePdoEntry
          [("halPin", "a"), ("halType", "Complex")] = some st' ∧ st'.stopped = true)) ∧
    (sampleStateSlave.stopped = false ∧
      sampleEnv.sizeof lcecConfTypeSyncManager ≤ sampleStateSlave.freeMem ∧
      sampleStateSlave.slave = some { typename := "generic", name := "0" } ∧
      atoi sampleEnv.longBits "2" = 2 ∧
      strcaseeq "OUT" "out" = true ∧
      (∃ st', parseSyncManagerAttrs sampleEnv sampleStateSlave
          [("idx", "2"), ("dir", "OUT")] = some st' ∧ st'.stopped = false) ∧
      (∀ st', parseSyncManagerAttrs sampleEnv sampleStateSlave
          [("idx", "2"), ("dir", "OUT")] = some st' → st'.stopped = false →
        ∃ q, st'.outputBuf[sampleStateSlave.outputBuf.length]? = some (ConfRec.syncManager q) ∧
          q.dir = EC_DIR_OUTPUT) ∧
      ¬(strcaseeq "both" "in" = true ∨ strcaseeq "both" "out" = true) ∧
      (∃ st', parseSyncManagerAttrs sampleEnv sampleStateSlave
          [("dir", "both"), ("idx", "2")] = some st' ∧ st'.stopped = true)) := by
  have hpe := (enumerated_values_by_handler sampleEnv).2.1 sampleStatePdo "6000" "1" "32"
    "Float-IEEE" (by rfl) (by decide) (by rfl) (by rfl) (by decide) (by decide) (by decide)
    (by decide)
  have hce := (enumerated_values_by_handler sampleEnv).2.2.2.1 sampleStatePdoEntry
    { index := 0x7000, subindex := 1, bitLength := 16, subType := lcecPdoEntTypeComplex }
    "4" "S32" (by rfl) (by decide) (by rfl) (by decide) (by decide) (by decide)
  have hcc := (enumerated_values_by_handler sampleEnv).2.2.2.1 sampleStatePdoEntry
    { index := 0x7000, subindex := 1, bitLength := 16, subType := lcecPdoEntTypeComplex }
    "4" "Complex" (by rfl) (by decide) (by rfl) (by decide) (by decide) (by decide)
  have hsm := (enumerated_values_by_handler sampleEnv).2.2.2.2.2.1 sampleStateSlave
    { typename := "generic", name := "0" } "2" "OUT" (by rfl) (by decide) (by rfl) (by rfl)
    (by decide)
  refine ⟨⟨by rfl, by decide, by rfl, by rfl, by decide, by decide, by decide, by decide,
      hpe.1.mpr (Or.inr (Or.inr (Or.inr (Or.inr (Or.inr (Or.inr (Or.inl (by decide)))))))),
      ?_⟩,
    ⟨by decide, (enumerated_values_by_handler sampleEnv).1 sampleStatePdo _ "int" (by simp)
      (by decide)⟩,
    ⟨by rfl, by decide, by rfl, by rfl, by decide, by decide,
      hce.1.mpr (Or.inr (Or.inl (by decide))), by decide, hcc.2.1 (by decide),
      (enumerated_values_by_handler sampleEnv).2.2.1 sampleStatePdoEntry _
        { index := 0x7000, subindex := 1, bitLength := 16, subType := lcecPdoEntTypeComplex }
        "Complex" (by rfl) (by simp) (by decide)⟩,
    ⟨by rfl, by decide, by rfl, by decide, by decide, hsm.1.mpr (Or.inr (by decide)), ?_,
      by decide, (enumerated_values_by_handler sampleEnv).2.2.2.2.1 sampleStateSlave _ "both"
        (by rfl) (by simp) (by decide)⟩⟩
  · intro st' h hs'
    obtain ⟨q, hq, _, _, _, _, _, _, _, _, _, _, h7, _⟩ := hpe.2 st' h hs'
    exact ⟨q, hq, h7 (by decide)⟩
  · intro st' h hs'
    obtain ⟨q, hq, _, _, _, h2⟩ := hsm.2 st' h hs'
    exact ⟨q, hq, h2 (by decide)⟩

end Lcec
